import Mathlib

/-! Copy-on-write shadowing and the double-execution driver of NOVA.

A shallow embedding of `src/src/cow_elt.cpp` (the shadow entries, the live set and the
parked set) and of the driver `Ec::check_memory` / `Ec::handle_exc_db` of
`src/src/ec_exc.cpp`, followed by the properties proved about them.

Conventions of the embedding
* a pointer is a natural number, a nullable pointer an `Option Nat`;
* `Queue<Cow_elt>` is the list of the pointers it links, head first;
* physical memory is a map from frame addresses to page contents;
* a failed `assert` and `Console::panic` stop the kernel: they are the `Fault`s of
  `Except Fault`.
-/

namespace Nova

/-! ## Machine words and page constants -/

/-- Largest value of an `mword` (64-bit build). -/
def WORD_MAX : Nat := 2 ^ 64 - 1

def PAGE_BITS : Nat := 12

def PAGE_SIZE : Nat := 1 <<< PAGE_BITS

def PAGE_MASK : Nat := PAGE_SIZE - 1

/-- The C expression `x & ~m` on an `mword`. -/
def and_not (x m : Nat) : Nat := x &&& (WORD_MAX ^^^ m)

/-- Host page-table attribute bits, `enum` of `class Hpt` (hpt.hpp). -/
def Hpt.HPT_P : Nat := 1 <<< 0

def Hpt.HPT_W : Nat := 1 <<< 1

def Hpt.HPT_COW : Nat := 1 <<< 11

/-- Content of one 4 KiB frame, as its sequence of double words (32 bit each). -/
abbrev Page := List Nat

/-- The collaborators of the shadow subsystem that are not part of the sources at hand. -/
structure Env where
  /-- `Crc::compute(0, ptr, PAGE_SIZE)` as a function of the content of the page. -/
  crc : Page → Nat
  /-- Kernel address returned by the n-th call of `Buddy::allocator.alloc`. -/
  buddy_alloc : Nat → Nat
  /-- `Buddy::ptr_to_phys`. -/
  ptr_to_phys : Nat → Nat
  /-- Position of the bit `Vtlb::TLB_W` (vtlb.hpp). -/
  tlb_w_bit : Nat
  /-- Position of the bit `Vtlb::TLB_COW` (vtlb.hpp). -/
  tlb_cow_bit : Nat
  /-- The instruction budget `MAX_INSTRUCTION` of a processing element. -/
  MAX_INSTRUCTION : Nat

def Env.TLB_W (env : Env) : Nat := 1 <<< env.tlb_w_bit

def Env.TLB_COW (env : Env) : Nat := 1 <<< env.tlb_cow_bit

/-! ## Shadow entries -/

inductive Page_type where
  | NORMAL
  | BIG
  deriving DecidableEq, Repr

/-- The fields of `class Cow_elt` that the operations read or write. The snapshot of the
registers taken at the fault (`ec_rip`, `ec_rcx`, `ec_rsp`, `ec_rsp_content`) only feeds
the mismatch report and is left out; `prev` / `next` are the links of the queue the entry
is in and are represented by the queues themselves. -/
structure Cow_elt where
  type : Page_type
  page_addr : Nat
  old_phys : Nat
  attr : Nat
  new_phys0 : Nat
  new_phys1 : Nat
  linear_add : Nat
  m_fault_addr : Nat
  crc : Nat
  crc1 : Nat
  hpt : Option Nat
  vtlb : Option Nat
  v_is_mapped_elsewhere : Option Nat
  deriving DecidableEq, Repr

/-- One call of `cow_update` on a page-table entry. -/
inductive Update where
  | hpt (entry phys attr virt : Nat)
  | vtlb (entry phys attr : Nat)
  deriving DecidableEq, Repr

/-- Ways in which the kernel stops instead of returning. -/
inductive Fault where
  /-- `assert(!c->v_is_mapped_elsewhere)` in `is_mapped_elsewhere`. -/
  | assert_twin
  /-- `assert(!hpt)` in `resolve_cow_fault`. -/
  | assert_origin
  /-- `Console::panic("Neither tlb, nor htp is specified")`. -/
  | panic_no_origin
  /-- `assert(Ec::current->is_virutalcpu())`. -/
  | assert_vcpu
  /-- `assert(diff)` after `memcmp` in `compare`. -/
  | assert_diff
  /-- `assert(cow_elts.dequeue(..))`. -/
  | assert_dequeue
  /-- `assert(Pd::current->is_cow_elts_empty())` in `commit`. -/
  | assert_parked_empty
  /-- `assert(is_empty())` in `place_phys0`. -/
  | assert_live_empty
  /-- A field of a null pointer is used. -/
  | null_deref
  deriving DecidableEq, Repr

/-- The state the operations of `Cow_elt` act on. -/
structure State where
  /-- The `Cow_elt` objects, by pointer. -/
  heap : Nat → Cow_elt
  /-- The pointer the slab cache hands out next. -/
  next_ptr : Nat
  /-- The live set `Cow_elt::cow_elts`. -/
  cow_elts : List Nat
  /-- The parked set `Pd::current->cow_elts`. -/
  pd_cow_elts : List Nat
  /-- The vm-stack queue `Ec::current->vm_kernel_stacks`. -/
  vm_kernel_stacks : List Nat
  /-- The counter `Cow_elt::number`. -/
  number : Nat
  current_ec_cow_elts_size : Nat
  /-- The entries passed to `destroy`, oldest first. -/
  destroyed : List Nat
  /-- Number of calls of `Buddy::allocator.alloc` so far. -/
  buddy_allocs : Nat
  /-- The addresses passed to `Buddy::allocator.free`, oldest first. -/
  buddy_frees : List Nat
  /-- Physical memory: the content of the frame at each frame address. -/
  mem : Nat → Page
  /-- The (frame, attributes) held by each host page-table entry. -/
  hpt_tab : Nat → Nat × Nat
  /-- The (frame, attributes) held by each guest virtual-TLB entry. -/
  vtlb_tab : Nat → Nat × Nat
  /-- The host page-table entry a walk of `Pd::current->Space_mem::loc` ends at. -/
  loc_walk : Nat → Option Nat
  /-- The frame mapped at each slot of the scratch window of `Hpt::remap_cow`. -/
  cow_window : Nat → Nat
  /-- All `cow_update` calls so far, oldest first. -/
  updates : List Update
  /-- The flag `Ec::keep_cow`. -/
  keep_cow : Bool
  /-- The value of `Ec::current->is_virutalcpu()`. -/
  is_virutalcpu : Bool
  /-- The counter `Counter::cow_fault`. -/
  cow_fault : Nat
  /-- The counter `Counter::used_cows_in_old_cow_elts`. -/
  used_cows_in_old_cow_elts : Nat
  /-- The value last given to `Pe::set_ss_val`. -/
  ss_val : Nat
  /-- The variable `Pe::missmatch_addr`. -/
  missmatch_addr : Nat

/-! ## Collaborators modelled from their contract -/

/-- Modelled from the spec: `Hpt::cow_update(phys, attr, virt)` (hpt.cpp is missing)
repoints this page-table entry to `phys` with permissions `attr`. -/
def Hpt.cow_update (s : State) (entry phys attr virt : Nat) : State :=
  { s with hpt_tab := Function.update s.hpt_tab entry (phys, attr),
           updates := s.updates ++ [Update.hpt entry phys attr virt] }

/-- Modelled from the spec: `Vtlb::cow_update(phys, attr)` (vtlb.cpp is missing) repoints
this virtual-TLB entry to `phys` with permissions `attr`. -/
def Vtlb.cow_update (s : State) (entry phys attr : Nat) : State :=
  { s with vtlb_tab := Function.update s.vtlb_tab entry (phys, attr),
           updates := s.updates ++ [Update.vtlb entry phys attr] }

/-- Modelled from the spec: `lookup(virt) → (phys, attr, size)` of the page-table module
walks the table; the walk fails when no entry serves `virt` or the entry is empty. -/
def lookup (s : State) (virt : Nat) : Option (Nat × Nat) :=
  match s.loc_walk virt with
  | none => none
  | some e => if s.hpt_tab e = (0, 0) then none else some (s.hpt_tab e)

/-- A pointer through which the kernel reads or writes a page: a slot of the scratch
window of `Hpt::remap_cow`, or a user virtual address served by a host page-table
entry. -/
inductive Ptr where
  | cow (slot : Nat)
  | user (entry : Nat)
  deriving DecidableEq, Repr

/-- The frame an access through the pointer reaches. -/
def frame_of (s : State) : Ptr → Nat
  | Ptr.cow slot => s.cow_window slot
  | Ptr.user entry => (s.hpt_tab entry).1

/-- The page read through a pointer. -/
def read_page (s : State) (p : Ptr) : Page := s.mem (frame_of s p)

/-- Modelled from the spec: `Hpt::remap_cow(quota, phys, addr)` (hpt.cpp is missing) maps
`phys` at the slot of the scratch window that `addr` selects and returns a pointer that is
valid until the next call with the same slot. -/
def remap_cow (s : State) (phys addr : Nat) : Ptr × State :=
  (Ptr.cow (addr / PAGE_SIZE),
   { s with cow_window := Function.update s.cow_window (addr / PAGE_SIZE) phys })

/-- The call `memcpy(dst, src, PAGE_SIZE)`. -/
def memcpy (s : State) (dst src : Ptr) : State :=
  { s with mem := Function.update s.mem (frame_of s dst) (read_page s src) }

/-- Modelled from the spec: `Queue<T>::enqueue` (queue.hpp is missing) links the element
in front of the head of the circular list, that is, at the tail. -/
def enqueue (q : List Nat) (t : Nat) : List Nat := q ++ [t]

/-- Modelled from the spec: `Queue<T>::dequeue(t)` (queue.hpp is missing) unlinks `t` and
returns true; it returns false for a null pointer and for an element that is not linked. -/
def dequeue (q : List Nat) (t : Option Nat) : Bool × List Nat :=
  match t with
  | none => (false, q)
  | some p => if p ∈ q then (true, q.erase p) else (false, q)

/-- Modelled from the spec: `Queue<T>::index_of(t, index)` (queue.hpp is missing) reports
whether `t` is linked and counts the elements in front of it. -/
def index_of (q : List Nat) (t : Nat) : Bool × Nat := (decide (t ∈ q), q.indexOf t)

/-- Index of the first double word in which two pages differ. -/
def first_diff : List Nat → List Nat → Option Nat
  | [], [] => none
  | [], _ :: _ => some 0
  | _ :: _, [] => some 0
  | a :: l1, b :: l2 => if a = b then (first_diff l1 l2).map (· + 1) else some 0

/-- Modelled from the spec: `memcmp(s1, s2, missmatch_addr, len)` (string.hpp is missing)
compares the two buffers by groups of four bytes; `none` stands for the return value 0
(equal), `some k` for a difference, `k` being the value left in `missmatch_addr`: the
number of groups that follow the first differing one. -/
def memcmp (p1 p2 : Page) (len : Nat) : Option Nat :=
  (first_diff p1 p2).map (fun i => len / 4 - (i + 1))

/-- The store `*(mword*)p1 + index = *(mword*)p2 + index`: an `mword` is two double
words. -/
def patch_mword (p1 p2 : Page) (index : Nat) : Page :=
  (p1.set (2 * index) (p2.getD (2 * index) 0)).set (2 * index + 1) (p2.getD (2 * index + 1) 0)

/-! ## cow_elt.cpp -/

/-- The constructor `Cow_elt::Cow_elt(v, phys, a, t, f_addr)` together with the
`new (Pd::kern.quota)` that runs it: returns the pointer of the new object. The fields
the constructor does not touch take the default values of their declaration (null
pointers and zero). The snapshot of the registers, for which a virtual CPU reads a word of
the guest stack through the scratch window, is left out: every later access through a
slot of the window is preceded by its own `remap_cow`. -/
def Cow_elt.create (env : Env) (s : State) (v phys a : Nat) (t : Page_type) (f_addr : Nat) :
    Nat × State :=
  let ord := if t = Page_type.NORMAL then 1 else 11
  let linear_add := env.buddy_alloc s.buddy_allocs
  let new_phys0 := env.ptr_to_phys linear_add
  let new_phys1 := new_phys0 + (1 <<< ((ord - 1) + PAGE_BITS))
  let ce : Cow_elt :=
    { type := t, page_addr := v, old_phys := phys, attr := a,
      new_phys0 := new_phys0, new_phys1 := new_phys1, linear_add := linear_add,
      m_fault_addr := f_addr, crc := 0, crc1 := 0, hpt := none, vtlb := none,
      v_is_mapped_elsewhere := none }
  (s.next_ptr,
   { s with heap := Function.update s.heap s.next_ptr ce,
            next_ptr := s.next_ptr + 1,
            buddy_allocs := s.buddy_allocs + 1,
            number := s.number + 1 })

/-- The destructor `Cow_elt::~Cow_elt` as run by `destroy(c, quota)`. -/
def destroy (s : State) (c : Nat) : State :=
  { s with buddy_frees := s.buddy_frees ++ [(s.heap c).linear_add],
           number := s.number - 1,
           destroyed := s.destroyed ++ [c] }

/-- The loop of `Cow_elt::is_mapped_elsewhere` over the live set. -/
def is_mapped_elsewhere_walk (heap : Nat → Cow_elt) (phys : Nat) :
    List Nat → Except Fault (Option Nat)
  | [] => .ok none
  | c :: rest =>
    if (heap c).old_phys = phys then
      if (heap c).v_is_mapped_elsewhere.isSome then .error Fault.assert_twin
      else .ok (some c)
    else is_mapped_elsewhere_walk heap phys rest

/-- `Cow_elt::is_mapped_elsewhere(phys)`. -/
def is_mapped_elsewhere (s : State) (phys : Nat) : Except Fault (Option Nat) :=
  is_mapped_elsewhere_walk s.heap phys s.cow_elts

/-- `Cow_elt::copy_frames(phys1, phys2, virt)`. -/
def copy_frames (s : State) (phys1 phys2 : Nat) (virt : Ptr) : State :=
  let (ptr, s) := remap_cow s phys1 0
  let s := memcpy s ptr virt
  let (ptr, s) := remap_cow s phys2 0
  memcpy s ptr virt

/-- The permission word `a = attr | W; a &= ~COW`. -/
def writable (attr w cow : Nat) : Nat := and_not (attr ||| w) cow

/-- The assignment of fields of the object `p` points to. -/
def State.modify (s : State) (p : Nat) (f : Cow_elt → Cow_elt) : State :=
  { s with heap := Function.update s.heap p (f (s.heap p)) }

/-- `Cow_elt::resolve_cow_fault(tlb, hpt, virt, phys, attr)`. In the host case the page is
read through `virt`, that is, through the page-table entry `hpt` points to. -/
def resolve_cow_fault (env : Env) (s : State) (tlb hpt : Option Nat) (virt phys attr : Nat) :
    Except Fault State := do
  let fault_addr := virt
  let phys := and_not phys PAGE_MASK
  let virt := and_not virt PAGE_MASK
  let s := { s with cow_fault := s.cow_fault + 1 }
  let (ce, s) := Cow_elt.create env s virt phys attr Page_type.NORMAL fault_addr
  let c ← is_mapped_elsewhere s phys
  let (s, a) ← (match tlb, hpt with
    | some _, some _ => Except.error Fault.assert_origin
    | some t, none =>
      Except.ok (s.modify ce (fun e => { e with vtlb := some t }),
        writable (s.heap ce).attr env.TLB_W env.TLB_COW)
    | none, some h =>
      Except.ok (s.modify ce (fun e => { e with hpt := some h }),
        writable (s.heap ce).attr Hpt.HPT_W Hpt.HPT_COW)
    | none, none => Except.error Fault.panic_no_origin)
  let s := (match c with
    | some c =>
      let s := s.modify ce (fun e =>
        { e with new_phys0 := (s.heap c).new_phys0, new_phys1 := (s.heap c).new_phys1,
                 v_is_mapped_elsewhere := some c, crc := (s.heap c).crc })
      s.modify c (fun e => { e with v_is_mapped_elsewhere := some ce })
    | none =>
      let s := (match hpt with
        | some h =>
          let s := copy_frames s (s.heap ce).new_phys0 (s.heap ce).new_phys1 (Ptr.user h)
          s.modify ce (fun e => { e with crc := env.crc (read_page s (Ptr.user h)) })
        | none => s)
      (match tlb with
        | some _ =>
          let (phys_to_ptr, s) := remap_cow s phys (2 * PAGE_SIZE)
          let s := copy_frames s (s.heap ce).new_phys0 (s.heap ce).new_phys1 phys_to_ptr
          s.modify ce (fun e => { e with crc := env.crc (read_page s phys_to_ptr) })
        | none => s))
  let s := (match tlb with
    | some t => Vtlb.cow_update s t (s.heap ce).new_phys0 a
    | none => s)
  let s := (match hpt with
    | some h => Hpt.cow_update s h (s.heap ce).new_phys0 a (s.heap ce).page_addr
    | none => s)
  pure { s with cow_elts := enqueue s.cow_elts ce }

/-- The loop of `Cow_elt::restore_vm_stack_state0` over the vm-stack queue. -/
def restore_vm_stack_state0_walk : State → List Nat → Except Fault State
  | s, [] => .ok s
  | s, c :: rest =>
    match (s.heap c).vtlb with
    | none => .error Fault.null_deref
    | some t =>
      restore_vm_stack_state0_walk (Vtlb.cow_update s t (s.heap c).new_phys1 (s.heap c).attr) rest

/-- `Cow_elt::restore_vm_stack_state0()`. -/
def restore_vm_stack_state0 (s : State) : Except Fault State :=
  if s.is_virutalcpu then restore_vm_stack_state0_walk s s.vm_kernel_stacks
  else .error Fault.assert_vcpu

/-- The two `cow_update` calls of the loops of `restore_state0`, `restore_state1` and
`rollback` on the entry `c`, towards the frame `phys`. -/
def remap_entry (env : Env) (s : State) (c phys : Nat) : State :=
  let s := (match (s.heap c).vtlb with
    | some t => Vtlb.cow_update s t phys (writable (s.heap c).attr env.TLB_W env.TLB_COW)
    | none => s)
  (match (s.heap c).hpt with
    | some h =>
      Hpt.cow_update s h phys (writable (s.heap c).attr Hpt.HPT_W Hpt.HPT_COW) (s.heap c).page_addr
    | none => s)

/-- The loop of `Cow_elt::restore_state0` over the live set. -/
def restore_state0_walk (env : Env) : State → List Nat → State
  | s, [] => s
  | s, c :: rest => restore_state0_walk env (remap_entry env s c (s.heap c).new_phys1) rest

/-- `Cow_elt::restore_state0()`. -/
def restore_state0 (env : Env) (s : State) : Except Fault State := do
  let s ← (if s.is_virutalcpu then restore_vm_stack_state0 s else pure s)
  pure (restore_state0_walk env s s.cow_elts)

/-- The loop of `Cow_elt::compare_vm_stack`. The mismatch report, which reads through the
slots 2 to 4 of the scratch window, is not part of the model. -/
def compare_vm_stack_walk (env : Env) : State → List Nat → Except Fault (Bool × State)
  | s, [] => .ok (false, s)
  | s, c :: rest =>
    let (ptr1, s) := remap_cow s (s.heap c).new_phys0 0
    let (ptr2, s) := remap_cow s (s.heap c).new_phys1 PAGE_SIZE
    let crc1 := env.crc (read_page s ptr1)
    let crc2 := env.crc (read_page s ptr2)
    if crc1 = crc2 then
      compare_vm_stack_walk env (s.modify c (fun e => { e with crc1 := crc1 })) rest
    else
      match memcmp (read_page s ptr1) (read_page s ptr2) PAGE_SIZE with
      | none => .error Fault.assert_diff
      | some missmatch =>
        let index := (PAGE_SIZE - 4 * (missmatch + 1)) / 8
        .ok (true, { s with missmatch_addr := (s.heap c).page_addr + index * 8 })

/-- `Cow_elt::compare_vm_stack()`. -/
def compare_vm_stack (env : Env) (s : State) : Except Fault (Bool × State) :=
  if s.is_virutalcpu then compare_vm_stack_walk env s s.vm_kernel_stacks
  else .error Fault.assert_vcpu

/-- Modelled from the spec: `Ec::add_vm_kernel_stacks(c)` (ec.hpp is missing) puts the
entry into the vm-stack queue of the virtual CPU. -/
def add_vm_kernel_stacks (s : State) (c : Nat) : State :=
  { s with vm_kernel_stacks := enqueue s.vm_kernel_stacks c }

/-- `Cow_elt::commit_vm_stack_ce(c, crc1, ptr1)`. -/
def commit_vm_stack_ce (env : Env) (s : State) (c crc1 : Nat) (ptr1 : Ptr) :
    Except Fault State := do
  let s := s.modify c (fun e => { e with attr := e.attr ||| env.TLB_W })
  let s := s.modify c (fun e => { e with attr := and_not e.attr env.TLB_COW })
  let (ptr0, s) := remap_cow s (s.heap c).old_phys 0
  let crc0 := env.crc (read_page s ptr0)
  let s := (if crc0 ≠ crc1 then
      (memcpy s ptr0 ptr1).modify c (fun e => { e with crc := crc1 })
    else s)
  let (ok, q) := dequeue s.cow_elts (some c)
  if !ok then throw Fault.assert_dequeue
  let s := { s with cow_elts := q }
  let s ← (match (s.heap c).vtlb with
    | none => Except.error Fault.null_deref
    | some t => Except.ok (Vtlb.cow_update s t (s.heap c).old_phys (s.heap c).attr))
  let s ← (match (s.heap c).v_is_mapped_elsewhere with
    | none => Except.ok s
    | some ce =>
      let (ok, q) := dequeue s.cow_elts (some ce)
      if !ok then Except.error Fault.assert_dequeue
      else
        let s := add_vm_kernel_stacks { s with cow_elts := q } ce
        match (s.heap ce).vtlb with
        | none => Except.error Fault.null_deref
        | some t => Except.ok (Vtlb.cow_update s t (s.heap ce).old_phys (s.heap ce).attr))
  let index := (index_of s.pd_cow_elts c).2
  if index < s.current_ec_cow_elts_size then
    pure { s with current_ec_cow_elts_size := s.current_ec_cow_elts_size - 1 }
  else pure s

/-- The loop of `Cow_elt::compare` over the live set. The mismatch report is not part of
the model. -/
def compare_walk (env : Env) : State → List Nat → Except Fault (Bool × State)
  | s, [] => .ok (false, s)
  | s, c :: rest =>
    let (ptr1, s) := remap_cow s (s.heap c).new_phys0 0
    let (ptr2, s) := remap_cow s (s.heap c).new_phys1 PAGE_SIZE
    let crc1 := env.crc (read_page s ptr1)
    let crc2 := env.crc (read_page s ptr2)
    if crc1 = crc2 then
      compare_walk env (s.modify c (fun e => { e with crc1 := crc1 })) rest
    else
      match memcmp (read_page s ptr1) (read_page s ptr2) PAGE_SIZE with
      | none => .error Fault.assert_diff
      | some missmatch =>
        let word_groups := 8 / 4
        let index := (PAGE_SIZE - 4 * (missmatch + 1)) / (4 * word_groups)
        let reported : State := { s with missmatch_addr := (s.heap c).page_addr + index }
        if s.is_virutalcpu then
          let patched := patch_mword (read_page s ptr1) (read_page s ptr2) index
          let s := { s with mem := Function.update s.mem (frame_of s ptr1) patched }
          let crc1 := env.crc (read_page s ptr1)
          if crc1 = crc2 then
            (commit_vm_stack_ce env s c crc1 ptr1).map
              (fun s => (false, add_vm_kernel_stacks s c))
          else .ok (true, { s with missmatch_addr := (s.heap c).page_addr + index })
        else .ok (true, reported)

/-- `Cow_elt::compare()`: true when the two shadows of some entry do not match. -/
def compare (env : Env) (s : State) : Except Fault (Bool × State) := do
  if s.is_virutalcpu then
    let (r, s) ← compare_vm_stack env s
    if r then pure (true, s) else compare_walk env s s.cow_elts
  else compare_walk env s s.cow_elts

/-- `Cow_elt::free(c)`. -/
def Cow_elt.free (env : Env) (s : State) (c : Nat) : Except Fault State :=
  let a := and_not ((s.heap c).attr ||| env.TLB_COW) env.TLB_W
  match (s.heap c).vtlb with
  | none => .error Fault.null_deref
  | some t => .ok (destroy (Vtlb.cow_update s t (s.heap c).old_phys a) c)

/-- The write-back of `commit` and `commit_vm_stack`: when `crc != crc1`, the first
shadow is copied into the original frame and `crc` takes the value of `crc1`. -/
def write_back (s : State) (c : Nat) : State :=
  if (s.heap c).crc ≠ (s.heap c).crc1 then
    let (ptr0, s) := remap_cow s (s.heap c).old_phys 0
    let (ptr1, s) := remap_cow s (s.heap c).new_phys0 PAGE_SIZE
    let s := memcpy s ptr0 ptr1
    s.modify c (fun e => { e with crc := e.crc1 })
  else s

/-- The loop of `Cow_elt::commit_vm_stack`. -/
def commit_vm_stack_walk : State → List Nat → Except Fault State
  | s, [] => .ok s
  | s, c :: rest =>
    let s := write_back s c
    match (s.heap c).vtlb with
    | none => .error Fault.null_deref
    | some t =>
      commit_vm_stack_walk (Vtlb.cow_update s t (s.heap c).old_phys (s.heap c).attr) rest

/-- `Cow_elt::commit_vm_stack()`. -/
def commit_vm_stack (env : Env) (s : State) : Except Fault State := do
  if !s.is_virutalcpu then throw Fault.assert_vcpu
  let s ← commit_vm_stack_walk s s.vm_kernel_stacks
  if s.vm_kernel_stacks.length > 1 then
    match s.vm_kernel_stacks with
    | [] => pure s
    | head :: _ =>
      let s := { s with vm_kernel_stacks := (dequeue s.vm_kernel_stacks (some head)).2 }
      Cow_elt.free env s head
  else pure s

/-- The `cow_update` calls of `commit` that point the mapping of the entry `c` back at
`phys` with the attributes stored in the entry. -/
def unmap_entry (s : State) (c phys : Nat) : State :=
  let s := (match (s.heap c).vtlb with
    | some t => Vtlb.cow_update s t phys (s.heap c).attr
    | none => s)
  (match (s.heap c).hpt with
    | some h => Hpt.cow_update s h phys (s.heap c).attr (s.heap c).page_addr
    | none => s)

/-- Enqueue on the parked list `Pd::current->cow_elts`. -/
def park (s : State) (c : Nat) : State := { s with pd_cow_elts := enqueue s.pd_cow_elts c }

/-- The increment `Counter::used_cows_in_old_cow_elts++`. -/
def count_used (s : State) : State :=
  { s with used_cows_in_old_cow_elts := s.used_cows_in_old_cow_elts + 1 }

/-- The live set after an element has been unlinked. -/
def set_live (s : State) (q : List Nat) : State := { s with cow_elts := q }

/-- The branch of the loop of `commit` for an entry `c` of the previous PE
(`count < current_ec_cow_elts_size`) that has a twin `ce`. -/
def commit_old_twin (s : State) (c ce count old_phys : Nat) (diff : Bool) :
    Except Fault (State × Nat) :=
  let hit := (index_of s.cow_elts ce).1 &&
    decide ((index_of s.cow_elts ce).2 + count < s.current_ec_cow_elts_size)
  let count := if hit then count + 1 else count
  let s := if hit && (s.keep_cow || diff) then count_used s else s
  match dequeue s.cow_elts (some ce) with
  | (false, _) => Except.error Fault.assert_dequeue
  | (true, q) =>
    let s := set_live s q
    let s := if s.keep_cow || diff then park (park (count_used s) c) ce
      else destroy (destroy s c) ce
    Except.ok (unmap_entry s ce old_phys, count)

/-- The branch of the loop of `commit` for an entry `c` of the previous PE without twin. -/
def commit_old_single (s : State) (c : Nat) (diff : Bool) : State :=
  if s.keep_cow || diff then park s c else destroy s c

/-- The branch of the loop of `commit` for an entry `c` created in the current PE. -/
def commit_new (s : State) (c : Nat) (ce : Option Nat) (old_phys : Nat) : Except Fault State :=
  let s := park s c
  match ce with
  | some ce =>
    match dequeue s.cow_elts (some ce) with
    | (false, _) => Except.error Fault.assert_dequeue
    | (true, q) => Except.ok (unmap_entry (park (set_live s q) ce) ce old_phys)
  | none => Except.ok s

/-- One iteration of the loop of `Cow_elt::commit`, for the entry `c` just taken from the
head of the live set; returns the new value of `count`. -/
def commit_step (s : State) (c count : Nat) : Except Fault (State × Nat) :=
  let old_phys := (s.heap c).old_phys
  let diff := decide ((s.heap c).crc ≠ (s.heap c).crc1)
  let s := write_back s c
  let ce := (s.heap c).v_is_mapped_elsewhere
  let r : Except Fault (State × Nat) :=
    if count < s.current_ec_cow_elts_size then
      match ce with
      | some ce => commit_old_twin s c ce count old_phys diff
      | none => Except.ok (commit_old_single s c diff, count)
    else
      match commit_new s c ce old_phys with
      | Except.error f => Except.error f
      | Except.ok s => Except.ok (s, count)
  match r with
  | Except.error f => Except.error f
  | Except.ok (s, count) => Except.ok (unmap_entry s c old_phys, count + 1)

/-- The loop `while (cow_elts.dequeue(c = cow_elts.head()))` of `Cow_elt::commit`; every
iteration shortens the live set, so its length bounds the number of iterations. -/
def commit_loop : Nat → State → Nat → Except Fault State
  | 0, s, _ => .ok s
  | fuel + 1, s, count =>
    match dequeue s.cow_elts s.cow_elts.head? with
    | (false, _) => .ok s
    | (true, q) =>
      match s.cow_elts.head? with
      | none => .ok s
      | some c =>
        match commit_step { s with cow_elts := q } c count with
        | .error f => .error f
        | .ok (s, count) => commit_loop fuel s count

/-- `Cow_elt::commit()`. -/
def commit (env : Env) (s : State) : Except Fault State := do
  let s ← (if s.is_virutalcpu then commit_vm_stack env s else pure s)
  if !s.pd_cow_elts.isEmpty then throw Fault.assert_parked_empty
  let s ← commit_loop s.cow_elts.length s 0
  pure { s with ss_val := s.current_ec_cow_elts_size,
                current_ec_cow_elts_size := 0,
                keep_cow := false }

/-- The loop of `Cow_elt::restore_vm_stack_state1` over the vm-stack queue. -/
def restore_vm_stack_state1_walk : State → List Nat → Except Fault State
  | s, [] => .ok s
  | s, c :: rest =>
    match (s.heap c).vtlb with
    | none => .error Fault.null_deref
    | some t =>
      restore_vm_stack_state1_walk (Vtlb.cow_update s t (s.heap c).new_phys0 (s.heap c).attr) rest

/-- `Cow_elt::restore_vm_stack_state1()`. -/
def restore_vm_stack_state1 (s : State) : Except Fault State :=
  if s.is_virutalcpu then restore_vm_stack_state1_walk s s.vm_kernel_stacks
  else .error Fault.assert_vcpu

/-- The loop of `Cow_elt::restore_state1` over the live set. -/
def restore_state1_walk (env : Env) : State → List Nat → State
  | s, [] => s
  | s, c :: rest => restore_state1_walk env (remap_entry env s c (s.heap c).new_phys0) rest

/-- `Cow_elt::restore_state1()`. -/
def restore_state1 (env : Env) (s : State) : Except Fault State := do
  let s ← (if s.is_virutalcpu then restore_vm_stack_state1 s else pure s)
  pure (restore_state1_walk env s s.cow_elts)

/-- The loop of `Cow_elt::rollback_vm_stack` over the vm-stack queue. -/
def rollback_vm_stack_walk : State → List Nat → Except Fault State
  | s, [] => .ok s
  | s, c :: rest =>
    let (phys_to_ptr, s) := remap_cow s (s.heap c).old_phys (2 * PAGE_SIZE)
    let s := copy_frames s (s.heap c).new_phys0 (s.heap c).new_phys1 phys_to_ptr
    match (s.heap c).vtlb with
    | none => .error Fault.null_deref
    | some t =>
      rollback_vm_stack_walk (Vtlb.cow_update s t (s.heap c).new_phys0 (s.heap c).attr) rest

/-- `Cow_elt::rollback_vm_stack()`. -/
def rollback_vm_stack (s : State) : Except Fault State :=
  if s.is_virutalcpu then rollback_vm_stack_walk s s.vm_kernel_stacks
  else .error Fault.assert_vcpu

/-- The loop of `Cow_elt::rollback` over the live set. -/
def rollback_walk (env : Env) : State → List Nat → State
  | s, [] => s
  | s, c :: rest =>
    let (phys_to_ptr, s) := remap_cow s (s.heap c).old_phys (2 * PAGE_SIZE)
    let s := copy_frames s (s.heap c).new_phys0 (s.heap c).new_phys1 phys_to_ptr
    rollback_walk env (remap_entry env s c (s.heap c).new_phys0) rest

/-- `Cow_elt::rollback()`. -/
def rollback (env : Env) (s : State) : Except Fault State := do
  let s ← (if s.is_virutalcpu then rollback_vm_stack s else pure s)
  pure (rollback_walk env s s.cow_elts)

/-- The `cow_update` calls of `place_phys0` on an entry: the host entry first, then the
virtual-TLB entry, towards the first shadow with WRITE set and COW cleared. -/
def place_entry (env : Env) (s : State) (d : Nat) : State :=
  let s := (match (s.heap d).hpt with
    | some h =>
      Hpt.cow_update s h (s.heap d).new_phys0
        (writable (s.heap d).attr Hpt.HPT_W Hpt.HPT_COW) (s.heap d).page_addr
    | none => s)
  (match (s.heap d).vtlb with
    | some t =>
      Vtlb.cow_update s t (s.heap d).new_phys0 (writable (s.heap d).attr env.TLB_W env.TLB_COW)
    | none => s)

/-- `Pd::current->cow_elts.dequeue(de)` in `place_phys0`, whose result is not used. -/
def unpark (s : State) (de : Nat) : State :=
  { s with pd_cow_elts := (dequeue s.pd_cow_elts (some de)).2 }

/-- The branch of `place_phys0` for a parked entry `d` whose mapping no longer matches:
the twin, if any, and the entry are destroyed. -/
def drop_stale (s : State) (d : Nat) : State :=
  let s := (match (s.heap d).v_is_mapped_elsewhere with
    | some de => destroy (unpark s de) de
    | none => s)
  destroy s d

/-- The re-seeding of the shadows in `place_phys0`: the original frame is mapped at the
window address `addr`; when its CRC is not the `crc` of the entry, the frame is copied into
both shadows and `crc` updated. -/
def refresh_shadows (env : Env) (s : State) (d addr : Nat) : State :=
  let (ptr0, s) := remap_cow s (s.heap d).old_phys addr
  let crc0 := env.crc (read_page s ptr0)
  if (s.heap d).crc ≠ crc0 then
    (copy_frames s (s.heap d).new_phys0 (s.heap d).new_phys1 ptr0).modify d
      (fun e => { e with crc := crc0 })
  else s

/-- `cow_elts.enqueue(d); current_ec_cow_elts_size++` in `place_phys0`. -/
def live_enqueue (s : State) (d : Nat) : State :=
  { s with cow_elts := enqueue s.cow_elts d,
           current_ec_cow_elts_size := s.current_ec_cow_elts_size + 1 }

/-- One iteration of the first loop of `Cow_elt::place_phys0`, for the entry `d` just
taken from the head of the parked list. The record `Pe::add_pe_state` of the log is not
part of the model. -/
def place_phys0_step (env : Env) (s : State) (d : Nat) : State :=
  let stale := (match lookup s (s.heap d).page_addr with
    | none => true
    | some (phys, attrib) => decide (phys ≠ (s.heap d).old_phys ∨ attrib ≠ (s.heap d).attr))
  if stale then drop_stale s d
  else
    let s := refresh_shadows env s d (2 * PAGE_SIZE)
    let s := live_enqueue (place_entry env s d) d
    match (s.heap d).v_is_mapped_elsewhere with
    | some de => live_enqueue (unpark (place_entry env s de) de) de
    | none => s

/-- The loop `while (Pd::current->cow_elts.dequeue(d = Pd::current->cow_elts.head()))` of
`Cow_elt::place_phys0`; every iteration shortens the parked list. -/
def place_phys0_loop (env : Env) : Nat → State → State
  | 0, s => s
  | fuel + 1, s =>
    match dequeue s.pd_cow_elts s.pd_cow_elts.head? with
    | (false, _) => s
    | (true, q) =>
      match s.pd_cow_elts.head? with
      | none => s
      | some d => place_phys0_loop env fuel (place_phys0_step env { s with pd_cow_elts := q } d)

/-- The loop of `Cow_elt::place_phys0` over the vm-stack queue of a virtual CPU. -/
def place_phys0_vm_walk (env : Env) : State → List Nat → Except Fault State
  | s, [] => .ok s
  | s, c :: rest =>
    let s := refresh_shadows env s c 0
    match (s.heap c).vtlb with
    | none => .error Fault.null_deref
    | some t =>
      place_phys0_vm_walk env (Vtlb.cow_update s t (s.heap c).new_phys0 (s.heap c).attr) rest

/-- `Cow_elt::place_phys0()`. -/
def place_phys0 (env : Env) (s : State) : Except Fault State := do
  if !s.cow_elts.isEmpty then throw Fault.assert_live_empty
  let s := place_phys0_loop env s.pd_cow_elts.length s
  if s.is_virutalcpu then place_phys0_vm_walk env s s.vm_kernel_stacks else pure s

/-! ## ec_exc.cpp: the driver -/

/-- The values of `enum PE_stopby` that the driver uses; `PES_DEFAULT` is the value 0. -/
inductive PE_stopby where
  | PES_DEFAULT
  | PES_PMI
  | PES_PAGE_FAULT
  | PES_SINGLE_STEP
  | PES_SEND_MSG
  | PES_DEV_NOT_AVAIL
  | PES_INVALID_TSS
  | PES_GP_FAULT
  | PES_ALIGNEMENT_CHECK
  | PES_MACHINE_CHECK
  deriving DecidableEq, Repr

/-- The values of `launch_state` that `check_exit` distinguishes. -/
inductive Launch_type where
  | UNLAUNCHED
  | SYSEXIT
  | IRET
  | VMRESUME
  | VMRUN
  deriving DecidableEq, Repr

/-- The values of `step_reason`. -/
inductive Step_reason where
  | SR_NIL
  | SR_MMIO
  | SR_PIO
  | SR_RDTSC
  | SR_PMI
  | SR_GP
  | SR_DBG
  | SR_EQU
  deriving DecidableEq, Repr

/-- The calls of the driver that the properties refer to, in the order they are made. -/
inductive Event where
  | restore_state0
  | restore_state1
  | prepare_checking
  | compare_regs
  /-- `Cow_elt::compare()` and its result, `none` when it stops the kernel. -/
  | compare (differ : Option Bool)
  | commit
  | rollback
  | reset_all
  | restore_state0_data
  | program_pmi
  | cancel_pmi
  | disable_fast_string
  | enable_step_debug (reason : Step_reason)
  | vmx_enable_single_step (reason : Step_reason)
  deriving DecidableEq, Repr

/-- Ways in which the driver stops the kernel. -/
inductive Stop where
  /-- `assert(from)`. -/
  | assert_from
  /-- `assert(first_run_instr_number < Lapic::perf_max_count)` and its two siblings. -/
  | assert_instr_number
  /-- `Console::panic("PMI not served early ...")`. -/
  | pmi_not_served_early
  /-- `Console::panic("Bad Run launch_state %u")` of `check_exit`. -/
  | bad_launch_state
  /-- `Console::panic("run_number must be 0 or 1. ...")`. -/
  | bad_run_number
  /-- A fault raised by an operation of `Cow_elt`. -/
  | cow (f : Fault)
  /-- `Console::panic("No step Reason")` of `handle_exc_db`. -/
  | no_step_reason
  /-- `die("Debug in kernel")` of `handle_exc_db`. -/
  | debug_in_kernel
  deriving DecidableEq, Repr

/-- How an invocation of the driver ends. -/
inductive Exit where
  /-- The function returns to its caller. -/
  | returned
  /-- The thread is resumed through `ret_user_sysexit`, `ret_user_iret`, `ret_user_vmresume`
  or `ret_user_vmrun`, which do not return. -/
  | ret_user (how : Launch_type)
  /-- The guest is resumed with single-stepping armed (`vmx_enable_single_step`). -/
  | vmx_single_step
  /-- The kernel stops. -/
  | stopped (why : Stop)
  deriving DecidableEq, Repr

/-- What the driver reads from the hardware and from the register files during one
invocation. -/
structure Probe where
  /-- `Lapic::read_instCounter()`. -/
  inst_counter : Nat
  /-- `compare_regs_mute()` is non-zero. -/
  regs_mute_differ : Bool
  /-- `compare_regs(from)`. -/
  compare_regs : Nat
  /-- The byte at `end_rip` is a REP prefix (0xf3 or 0xf2). -/
  rep_prefix : Bool
  last_rip : Nat
  last_rcx : Nat
  /-- `current->regs.REG(ip)`. -/
  regs_ip : Nat
  /-- `Vmcs::read(Vmcs::GUEST_RIP)`. -/
  guest_rip : Nat
  /-- `get_dr6()`. -/
  dr6 : Nat
  /-- `r->user()`: the exception was taken in user mode. -/
  user : Bool

/-- The static members of `Ec`, `Pe` and `Lapic` the driver uses, and the state of the
shadow subsystem. -/
structure Ec where
  run_number : Nat
  launch_state : Launch_type
  step_reason : Step_reason
  prev_reason : PE_stopby
  counter1 : Nat
  counter2 : Nat
  exc_counter : Nat
  exc_counter1 : Nat
  exc_counter2 : Nat
  first_run_instr_number : Nat
  second_run_instr_number : Nat
  distance_instruction : Nat
  nbInstr_to_execute : Nat
  nb_inst_single_step : Nat
  prev_rip : Nat
  end_rip : Nat
  end_rcx : Nat
  in_rep_instruction : Bool
  reg_diff : Nat
  no_further_check : Bool
  not_nul_cowlist : Bool
  first_run_advanced : Bool
  /-- The flag `Pe::in_recover_from_stack_fault_mode`. -/
  in_recover_from_stack_fault_mode : Bool
  /-- The flag `Pe::in_debug_mode`. -/
  in_debug_mode : Bool
  /-- The flag `Console::debug_started`. -/
  debug_started : Bool
  /-- The pointer `current->utcb` is not null: the thread is not a virtual CPU. -/
  utcb : Bool
  /-- The variable `Lapic::start_counter`. -/
  start_counter : Nat
  /-- The variable `Lapic::perf_max_count`. -/
  perf_max_count : Nat
  /-- The trap flag `Cpu::EFL_TF` in `current->regs.REG(fl)`. -/
  efl_tf : Bool
  /-- The counter `Counter::pmi_ss`. -/
  pmi_ss : Nat
  cow : State
  trace : List Event

/-- Subtraction of `uint64` values. -/
def sub64 (a b : Nat) : Nat := (a % 2 ^ 64 + 2 ^ 64 - b % 2 ^ 64) % 2 ^ 64

/-- Addition of `uint64` values. -/
def add64 (a b : Nat) : Nat := (a + b) % 2 ^ 64

def Ec.log (e : Ec) (ev : Event) : Ec := { e with trace := e.trace ++ [ev] }

/-- `Cow_elt::is_empty()`. -/
def is_empty (s : State) : Bool := s.cow_elts.head?.isNone

/-- `Ec::check_exit()`: leaves the kernel by the exit that `launch_state` names. -/
def check_exit (e : Ec) : Exit × Ec :=
  match e.launch_state with
  | Launch_type.SYSEXIT => (Exit.ret_user Launch_type.SYSEXIT, e)
  | Launch_type.IRET => (Exit.ret_user Launch_type.IRET, e)
  | Launch_type.VMRESUME => (Exit.ret_user Launch_type.VMRESUME, e)
  | Launch_type.VMRUN => (Exit.ret_user Launch_type.VMRUN, e)
  | Launch_type.UNLAUNCHED => (Exit.stopped Stop.bad_launch_state, e)

/-- `Ec::reset_counter()`. -/
def reset_counter (e : Ec) : Ec :=
  ({ e with exc_counter := 0, counter1 := 0, counter2 := 0, exc_counter1 := 0,
            exc_counter2 := 0, nb_inst_single_step := 0,
            distance_instruction := 0, first_run_instr_number := 0,
            second_run_instr_number := 0,
            cow := { e.cow with cow_fault := 0, used_cows_in_old_cow_elts := 0 } }).log
    Event.program_pmi

/-- `Ec::reset_all()`. -/
def reset_all (e : Ec) : Ec :=
  let e := e.log Event.reset_all
  let e := reset_counter { e with run_number := 0 }
  { e with prev_reason := PE_stopby.PES_DEFAULT, no_further_check := false }

/-- The retired-instruction count that `check_memory` derives from the counter reading
and the exception count at the end of a run, in `uint64` arithmetic. -/
def instr_number (env : Env) (e : Ec) (counter exc : Nat) : Nat :=
  if counter < e.start_counter then sub64 (add64 env.MAX_INSTRUCTION counter) exc
  else sub64 counter (sub64 e.perf_max_count env.MAX_INSTRUCTION)

/-- Modelled from the spec: `distance(a, b)` (missing from the sources) is `|a - b|`. -/
def distance (a b : Nat) : Nat := if a > b then a - b else b - a

/-- Modelled from the spec: `Ec::enable_step_debug(reason)` followed by `ret_user_iret()`
for a thread with a UTCB, `vmx_enable_single_step(reason)` for a virtual CPU (ec.cpp is
missing): arms single-stepping for `reason` and resumes the thread; neither returns. -/
def single_step (pr : Probe) (e : Ec) (reason : Step_reason) : Exit × Ec :=
  if e.utcb then
    (Exit.ret_user Launch_type.IRET,
      { ({ e with prev_rip := pr.regs_ip }).log (Event.enable_step_debug reason) with
        step_reason := reason })
  else
    (Exit.vmx_single_step,
      { ({ e with prev_rip := pr.guest_rip }).log (Event.vmx_enable_single_step reason) with
        step_reason := reason })

/-- Run a `Cow_elt` operation from the driver, logging the call. -/
def cow_call (e : Ec) (ev : Event) (op : State → Except Fault State) : Ec × Option Fault :=
  let e := e.log ev
  match op e.cow with
  | Except.error f => (e, some f)
  | Except.ok s => ({ e with cow := s }, none)

/-- The branch `case 0` of `Ec::check_memory`: the end of the first run. `Ec::restore_state0`
(ec.cpp is missing) is modelled from the spec: it runs `Cow_elt::restore_state0`. -/
def check_memory_run0 (env : Env) (pr : Probe) (e : Ec) (from_ : PE_stopby) : Exit × Ec :=
  let e := { e with prev_reason := from_ }
  match cow_call e Event.restore_state0 (restore_state0 env) with
  | (e, some f) => (Exit.stopped (Stop.cow f), e)
  | (e, none) =>
    let e := { e with counter1 := pr.inst_counter }
    let finish (e : Ec) : Exit × Ec :=
      check_exit { e with run_number := e.run_number + 1, exc_counter := 0 }
    if from_ = PE_stopby.PES_PMI then
      let e := { e with end_rip := pr.last_rip, end_rcx := pr.last_rcx,
                        exc_counter1 := e.exc_counter, counter1 := pr.inst_counter }
      let e := { e with first_run_instr_number := instr_number env e e.counter1 e.exc_counter1 }
      if ¬ e.first_run_instr_number < e.perf_max_count then
        (Exit.stopped Stop.assert_instr_number, e)
      else
        let e := (if e.utcb && pr.rep_prefix then
            ({ e with in_rep_instruction := true }).log Event.disable_fast_string
          else e)
        if e.first_run_instr_number > env.MAX_INSTRUCTION + 300 then
          (Exit.stopped Stop.pmi_not_served_early, e)
        else finish (e.log Event.program_pmi)
    else finish (e.log Event.cancel_pmi)

/-- The block of `case 1` of `Ec::check_memory` that compares the two runs and commits or
rolls back. `Ec::rollback` (ec.cpp is missing) is modelled from the spec: it runs
`Cow_elt::rollback`. -/
def check_memory_compare (env : Env) (pr : Probe) (e : Ec) (from_ : PE_stopby) : Exit × Ec :=
  let e := e.log Event.prepare_checking
  let e := ({ e with reg_diff := pr.compare_regs }).log Event.compare_regs
  match compare env e.cow with
  | Except.error f => (Exit.stopped (Stop.cow f), e.log (Event.compare none))
  | Except.ok (differ, s) =>
    let e := ({ e with cow := s }).log (Event.compare (some differ))
    if differ || decide (e.reg_diff ≠ 0) then
      let nbInstr_to_execute_value := instr_number env e e.counter1 e.exc_counter1
      if ¬ e.nbInstr_to_execute < e.perf_max_count then
        (Exit.stopped Stop.assert_instr_number, e)
      else
        let from_value := from_
        let prev_reason_value := e.prev_reason
        match cow_call e Event.rollback (rollback env) with
        | (e, some f) => (Exit.stopped (Stop.cow f), e)
        | (e, none) =>
          let e := reset_all e
          let e := e.log Event.restore_state0_data
          let e := { e with debug_started := true }
          if from_value = prev_reason_value ∧ e.reg_diff = 0 ∧
              e.in_recover_from_stack_fault_mode = false then
            check_exit { e with in_recover_from_stack_fault_mode := true }
          else
            let e := { e with in_recover_from_stack_fault_mode := false,
                              nbInstr_to_execute := nbInstr_to_execute_value,
                              in_debug_mode := true }
            if e.utcb then
              let e := e.log (Event.enable_step_debug Step_reason.SR_DBG)
              check_exit { e with step_reason := Step_reason.SR_DBG }
            else
              let e := e.log (Event.vmx_enable_single_step Step_reason.SR_DBG)
              (Exit.vmx_single_step, { e with step_reason := Step_reason.SR_DBG })
    else
      match cow_call e Event.commit (commit env) with
      | (e, some f) => (Exit.stopped (Stop.cow f), e)
      | (e, none) =>
        (Exit.returned, reset_all { e with launch_state := Launch_type.UNLAUNCHED })

/-- The branch `case 1` of `Ec::check_memory`: the end of the second run.
`Ec::restore_state1` (ec.cpp is missing) is modelled from the spec: it runs
`Cow_elt::restore_state1`. -/
def check_memory_run1 (env : Env) (pr : Probe) (e : Ec) (from_ : PE_stopby) : Exit × Ec :=
  if from_ = PE_stopby.PES_PMI ∨
      (e.prev_reason = PE_stopby.PES_PMI ∧ from_ ≠ PE_stopby.PES_SINGLE_STEP) then
    if e.prev_reason ≠ PE_stopby.PES_PMI ∧
        pr.inst_counter = add64 (sub64 e.perf_max_count env.MAX_INSTRUCTION) 1 then
      check_exit e
    else
      let e := { e with exc_counter2 := e.exc_counter, counter2 := pr.inst_counter }
      let e := e.log Event.cancel_pmi
      let e := { e with second_run_instr_number := instr_number env e e.counter2 e.exc_counter2 }
      if ¬ e.second_run_instr_number < e.perf_max_count then
        (Exit.stopped Stop.assert_instr_number, e)
      else if e.second_run_instr_number > env.MAX_INSTRUCTION + 300 then
        (Exit.stopped Stop.pmi_not_served_early, e)
      else
        let d := distance e.first_run_instr_number e.second_run_instr_number
        let e := { e with distance_instruction := d }
        if e.distance_instruction ≤ 2 then
          if pr.regs_mute_differ then
            single_step pr { e with nbInstr_to_execute := e.distance_instruction + 1 }
              Step_reason.SR_EQU
          else check_memory_compare env pr e from_
        else if e.first_run_instr_number > e.second_run_instr_number then
          let n := sub64 e.first_run_instr_number e.second_run_instr_number
          single_step pr { e with nbInstr_to_execute := n } Step_reason.SR_PMI
        else if e.first_run_instr_number < e.second_run_instr_number then
          match cow_call e Event.restore_state1 (restore_state1 env) with
          | (e, some f) => (Exit.stopped (Stop.cow f), e)
          | (e, none) =>
            let n := sub64 e.second_run_instr_number e.first_run_instr_number
            single_step pr { e with nbInstr_to_execute := n } Step_reason.SR_PMI
        else check_memory_compare env pr e from_
  else check_memory_compare env pr e from_

/-- `Ec::check_memory(from)`. -/
def check_memory (env : Env) (pr : Probe) (e : Ec) (from_ : PE_stopby) : Exit × Ec :=
  if from_ = PE_stopby.PES_DEFAULT then (Exit.stopped Stop.assert_from, e)
  else if is_empty e.cow && !e.in_recover_from_stack_fault_mode && !e.in_debug_mode then
    (Exit.returned, reset_all { e with launch_state := Launch_type.UNLAUNCHED })
  else
    match e.run_number with
    | 0 => check_memory_run0 env pr e from_
    | 1 => check_memory_run1 env pr e from_
    | _ => (Exit.stopped Stop.bad_run_number, e)

/-- Modelled from the spec: `Ec::disable_step_debug()` (ec.cpp is missing) ends
single-stepping: it clears the trap flag and the step reason. -/
def disable_step_debug (e : Ec) : Ec :=
  { e with efl_tf := false, step_reason := Step_reason.SR_NIL }

/-- The case `SR_MMIO`, `SR_PIO`, `SR_RDTSC` of `Ec::handle_exc_db`: the single-stepped
instruction has retired and the PE ends; a live set that is not empty is only noticed. -/
def handle_exc_db_io (e : Ec) : Exit × Ec :=
  let e := (if e.not_nul_cowlist && decide (e.step_reason ≠ Step_reason.SR_PIO) then
      { e with not_nul_cowlist := false }
    else e)
  let e := (if !is_empty e.cow then
      (if e.step_reason ≠ Step_reason.SR_PIO then e else { e with not_nul_cowlist := true })
    else e)
  let e := disable_step_debug e
  (Exit.returned, reset_all { e with launch_state := Launch_type.UNLAUNCHED })

/-- The accounting at the head of the cases `SR_PMI` and `SR_EQU` of `Ec::handle_exc_db`:
the step is counted, and counted back when the instruction pointer has not moved. -/
def count_step (pr : Probe) (e : Ec) : Ec :=
  let e := { e with pmi_ss := e.pmi_ss + 1, nb_inst_single_step := add64 e.nb_inst_single_step 1 }
  let e := (if e.nbInstr_to_execute > 0 then
      { e with nbInstr_to_execute := e.nbInstr_to_execute - 1 }
    else e)
  if e.prev_rip = pr.regs_ip then
    { e with nb_inst_single_step := sub64 e.nb_inst_single_step 1,
             nbInstr_to_execute := add64 e.nbInstr_to_execute 1 }
  else e

/-- The call `check_memory(PES_SINGLE_STEP); return;` that ends single-stepping. -/
def finish_stepping (env : Env) (pr : Probe) (e : Ec) : Exit × Ec :=
  check_memory env pr (disable_step_debug e) PE_stopby.PES_SINGLE_STEP

/-- The case `SR_PMI` of `Ec::handle_exc_db`. -/
def handle_exc_db_pmi (env : Env) (pr : Probe) (e : Ec) : Exit × Ec :=
  let e := count_step pr e
  if e.prev_rip = pr.regs_ip ∧ pr.regs_mute_differ = false then finish_stepping env pr e
  else
    let e := { e with prev_rip := pr.regs_ip }
    if e.nbInstr_to_execute > 3 then (Exit.returned, { e with efl_tf := true })
    else if pr.regs_mute_differ = false then finish_stepping env pr e
    else (Exit.returned, { e with efl_tf := true, nbInstr_to_execute := 1 })

/-- The case `SR_EQU` of `Ec::handle_exc_db`. `Ec::restore_state1` (ec.cpp is missing) is
modelled from the spec: it runs `Cow_elt::restore_state1`. -/
def handle_exc_db_equ (env : Env) (pr : Probe) (e : Ec) : Exit × Ec :=
  let e := count_step pr e
  if e.prev_rip = pr.regs_ip ∧ pr.regs_mute_differ = false then finish_stepping env pr e
  else if pr.regs_mute_differ = false then finish_stepping env pr e
  else if e.nbInstr_to_execute = 0 then
    match cow_call e Event.restore_state1 (restore_state1 env) with
    | (e, some f) => (Exit.stopped (Stop.cow f), e)
    | (e, none) =>
      let n := add64 (add64 e.distance_instruction e.nb_inst_single_step) 1
      (Exit.returned, { e with nbInstr_to_execute := n, nb_inst_single_step := 0,
                               first_run_advanced := true, efl_tf := true })
  else (Exit.returned, { e with efl_tf := true })

/-- `Ec::handle_exc_db(r)`. The console output and the bookkeeping of `Pe_state` for the
report are not part of the model. -/
def handle_exc_db (env : Env) (pr : Probe) (e : Ec) : Exit × Ec :=
  if pr.dr6 &&& 1 ≠ 0 then (Exit.returned, e)
  else if pr.user then
    match e.step_reason with
    | Step_reason.SR_MMIO => handle_exc_db_io e
    | Step_reason.SR_PIO => handle_exc_db_io e
    | Step_reason.SR_RDTSC => handle_exc_db_io e
    | Step_reason.SR_PMI => handle_exc_db_pmi env pr e
    | Step_reason.SR_GP => (Exit.returned, e)
    | Step_reason.SR_DBG =>
      (Exit.returned, { e with efl_tf := true,
                               nb_inst_single_step := add64 e.nb_inst_single_step 1 })
    | Step_reason.SR_EQU => handle_exc_db_equ env pr e
    | Step_reason.SR_NIL => (Exit.stopped Stop.no_step_reason, e)
  else (Exit.stopped Stop.debug_in_kernel, e)

/-- `Ec::start_debugging(dt)`. `Ec::rollback` (ec.cpp is missing) is modelled from the
spec: it runs `Cow_elt::rollback`. The debug type `dt` and the saved register state that
`restore_state0_data` brings back are not part of the model. -/
def start_debugging (env : Env) (e : Ec) : Exit × Ec :=
  match cow_call e Event.rollback (rollback env) with
  | (e, some f) => (Exit.stopped (Stop.cow f), e)
  | (e, none) =>
    let e := { e with run_number := 0, nbInstr_to_execute := e.first_run_instr_number }
    let e := e.log Event.restore_state0_data
    let e := { e with launch_state := Launch_type.IRET }
    let e := e.log (Event.enable_step_debug Step_reason.SR_DBG)
    check_exit { e with step_reason := Step_reason.SR_DBG }

/-! ## Notions used in the statements -/

/-- The `cow_update` calls that `resolve_cow_fault` makes on the originating mapping: one
for the virtual-TLB entry if there is one, then one for the host entry if there is one. -/
def origin_updates (tlb hpt : Option Nat) (phys a virt : Nat) : List Update :=
  (match tlb with
    | some t => [Update.vtlb t phys a]
    | none => []) ++
  (match hpt with
    | some h => [Update.hpt h phys a virt]
    | none => [])

/-- What the originating mapping holds: the virtual-TLB entry or the host entry. -/
def origin_entry (s : State) (tlb hpt : Option Nat) : Option (Nat × Nat) :=
  match tlb, hpt with
  | some t, _ => some (s.vtlb_tab t)
  | none, some h => some (s.hpt_tab h)
  | none, none => none

/-- Position of the WRITE bit and of the COW bit in the attributes of the originating
mapping. -/
def origin_bits (env : Env) (hpt : Option Nat) : Nat × Nat :=
  if hpt.isSome then (1, 11) else (env.tlb_w_bit, env.tlb_cow_bit)

/-- The arguments of one call of `resolve_cow_fault`. -/
structure Fault_call where
  tlb : Option Nat
  hpt : Option Nat
  virt : Nat
  phys : Nat
  attr : Nat

/-- A sequence of write faults handled one after the other. -/
def resolve_all (env : Env) : State → List Fault_call → Except Fault State
  | s, [] => Except.ok s
  | s, k :: rest =>
    match resolve_cow_fault env s k.tlb k.hpt k.virt k.phys k.attr with
    | Except.error f => Except.error f
    | Except.ok s' => resolve_all env s' rest

/-- The entries that the loop of `commit` takes from the head of the live set, in order. -/
def commit_heads : Nat → State → Nat → List Nat
  | 0, _, _ => []
  | fuel + 1, s, count =>
    match s.cow_elts with
    | [] => []
    | c :: q =>
      match commit_step { s with cow_elts := q } c count with
      | Except.error _ => [c]
      | Except.ok (s1, count1) => c :: commit_heads fuel s1 count1

/-- The mapping of the entry `c` references the frame `phys`: its virtual-TLB entry and its
host page-table entry, where it has one, hold `phys`. -/
def maps_to (s : State) (c phys : Nat) : Prop :=
  (match (s.heap c).vtlb with
    | some t => (s.vtlb_tab t).1 = phys
    | none => True) ∧
  (match (s.heap c).hpt with
    | some h => (s.hpt_tab h).1 = phys
    | none => True)

instance maps_to_decidable (s : State) (c phys : Nat) : Decidable (maps_to s c phys) := by
  unfold maps_to
  apply @instDecidableAnd _ _ ?_ ?_
  · cases (s.heap c).vtlb <;> exact inferInstance
  · cases (s.heap c).hpt <;> exact inferInstance

/-- Entries of `l` that shadow the same original frame use the same two shadow frames. -/
def shared_shadows (s : State) (l : List Nat) : Prop :=
  ∀ x ∈ l, ∀ y ∈ l, (s.heap x).old_phys = (s.heap y).old_phys →
    (s.heap x).new_phys0 = (s.heap y).new_phys0 ∧ (s.heap x).new_phys1 = (s.heap y).new_phys1

/-- Distinct entries of `l` have distinct page-table entries. -/
def origins_distinct (s : State) (l : List Nat) : Prop :=
  ∀ x ∈ l, ∀ y ∈ l, x ≠ y →
    ((s.heap x).hpt = none ∨ (s.heap x).hpt ≠ (s.heap y).hpt) ∧
    ((s.heap x).vtlb = none ∨ (s.heap x).vtlb ≠ (s.heap y).vtlb)

/-- The shadow frame of an entry that a run writes: `new_phys[0]` in run 0, `new_phys[1]`
in run 1. -/
def shadow (e : Cow_elt) (run : Nat) : Nat := if run = 0 then e.new_phys0 else e.new_phys1

/-- Alias consistency for the shadow of run `run`: two live entries for the same original
frame at different virtual pages have the same shadow frames, and both their mappings
reference the shadow frame of that run. -/
def alias_consistent (s : State) (run : Nat) : Prop :=
  ∀ x ∈ s.cow_elts, ∀ y ∈ s.cow_elts, (s.heap x).old_phys = (s.heap y).old_phys →
    (s.heap x).page_addr ≠ (s.heap y).page_addr →
    (s.heap x).new_phys0 = (s.heap y).new_phys0 ∧
    (s.heap x).new_phys1 = (s.heap y).new_phys1 ∧
    maps_to s x (shadow (s.heap x) run) ∧ maps_to s y (shadow (s.heap x) run)

/-- The list is closed under the twin link: the twin of an entry of `l` is another entry of
`l` and points back. -/
def twins_closed (s : State) (l : List Nat) : Prop :=
  ∀ x ∈ l, ∀ y, (s.heap x).v_is_mapped_elsewhere = some y →
    y ∈ l ∧ y ≠ x ∧ (s.heap y).v_is_mapped_elsewhere = some x

/-- The entries that the loop of `commit` takes from the head of the live set, each with
the value of `count` when it is taken. -/
def commit_visits : Nat → State → Nat → List (Nat × Nat)
  | 0, _, _ => []
  | fuel + 1, s, count =>
    match s.cow_elts with
    | [] => []
    | c :: q =>
      match commit_step { s with cow_elts := q } c count with
      | Except.error _ => [(c, count)]
      | Except.ok (s1, count1) => (c, count) :: commit_visits fuel s1 count1

/-- The condition under which the loop of `commit` destroys the entry `c` it has taken from
the head when the counter is `count`: the entry counts as one of the previous PE, its two
checksums agree and `keep_cow` is not set. -/
def doomed (s : State) (c count : Nat) : Prop :=
  count < s.current_ec_cow_elts_size ∧ (s.heap c).crc = (s.heap c).crc1 ∧ s.keep_cow = false

instance doomed_decidable (s : State) (c count : Nat) : Decidable (doomed s c count) := by
  unfold doomed
  exact inferInstance

/-- An entry and its twin, if it has one. -/
def with_twin (s : State) (c : Nat) : List Nat :=
  c :: (s.heap c).v_is_mapped_elsewhere.toList

/-- A table after `cow_update` through the entry `slot`, if there is one. -/
def tab_after (tab : Nat → Nat × Nat) (slot : Option Nat) (v : Nat × Nat) : Nat → Nat × Nat :=
  match slot with
  | some h => Function.update tab h v
  | none => tab

/-- The mapping of the entry `c` holds the frame `phys`, with the permissions `a_tlb` in
its virtual-TLB entry and `a_hpt` in its host page-table entry, where it has one. -/
def mapping_is (s : State) (c phys a_tlb a_hpt : Nat) : Prop :=
  (match (s.heap c).vtlb with
    | some t => s.vtlb_tab t = (phys, a_tlb)
    | none => True) ∧
  (match (s.heap c).hpt with
    | some h => s.hpt_tab h = (phys, a_hpt)
    | none => True)

instance mapping_is_decidable (s : State) (c phys a_tlb a_hpt : Nat) :
    Decidable (mapping_is s c phys a_tlb a_hpt) := by
  unfold mapping_is
  apply @instDecidableAnd _ _ ?_ ?_
  · cases (s.heap c).vtlb <;> exact inferInstance
  · cases (s.heap c).hpt <;> exact inferInstance

/-- A table or a memory after a sequence of stores, the first store first. -/
def assign {β : Type} (tab : Nat → β) (l : List (Nat × β)) : Nat → β :=
  l.foldl (fun t kv => Function.update t kv.1 kv.2) tab

/-- The two stores of `copy_frames` for the entry `e`: the content that the original frame
has in the memory `m` goes into both shadow frames. -/
def reseed_stores (m : Nat → Page) (e : Cow_elt) : List (Nat × Page) :=
  [(e.new_phys0, m e.old_phys), (e.new_phys1, m e.old_phys)]

/-- The store of a `cow_update` through the entry `slot`, if there is one. -/
def slot_store (slot : Option Nat) (v : Nat × Nat) : List (Nat × (Nat × Nat)) :=
  match slot with
  | some h => [(h, v)]
  | none => []

/-- The stores of a walk over the entries of `l`, the stores of the first entry first. -/
def stores_of {β : Type} (f : Nat → List (Nat × β)) : List Nat → List (Nat × β)
  | [] => []
  | c :: rest => f c ++ stores_of f rest

/-- The entries that `rollback` walks: the vm-stack queue of a virtual CPU, then the live
set. -/
def rollback_entries (s : State) : List Nat :=
  if s.is_virutalcpu then s.vm_kernel_stacks ++ s.cow_elts else s.cow_elts

/-- No original frame of an entry of `l` is a shadow frame of an entry of `l`. -/
def frames_apart (s : State) (l : List Nat) : Prop :=
  ∀ x ∈ l, ∀ y ∈ l, (s.heap x).old_phys ≠ (s.heap y).new_phys0 ∧
    (s.heap x).old_phys ≠ (s.heap y).new_phys1

/-- Entries of `l` that have a shadow frame in common have the same original frame. -/
def shadows_owned (s : State) (l : List Nat) : Prop :=
  ∀ x ∈ l, ∀ y ∈ l,
    ((s.heap x).new_phys0 = (s.heap y).new_phys0 ∨ (s.heap x).new_phys0 = (s.heap y).new_phys1 ∨
      (s.heap x).new_phys1 = (s.heap y).new_phys0 ∨ (s.heap x).new_phys1 = (s.heap y).new_phys1) →
    (s.heap x).old_phys = (s.heap y).old_phys

/-- The test of `place_phys0` on a parked entry: the lookup of its page fails, or it gives
another frame or another permission word than the entry holds. -/
def is_stale (s : State) (d : Nat) : Bool :=
  match lookup s (s.heap d).page_addr with
  | none => true
  | some (phys, attrib) => decide (phys ≠ (s.heap d).old_phys ∨ attrib ≠ (s.heap d).attr)

/-- The parked list `q` once the twin of `d`, if any, has been unlinked. -/
def without_twin (s : State) (d : Nat) (q : List Nat) : List Nat :=
  match (s.heap d).v_is_mapped_elsewhere with
  | some de => q.erase de
  | none => q

/-- The entries that the first loop of `place_phys0` takes from the head of the parked
list, each with the outcome of the test made on it at that moment. -/
def place_visits (env : Env) : Nat → State → List (Nat × Bool)
  | 0, _ => []
  | fuel + 1, s =>
    match s.pd_cow_elts with
    | [] => []
    | d :: q =>
      (d, is_stale { s with pd_cow_elts := q } d) ::
        place_visits env fuel (place_phys0_step env { s with pd_cow_elts := q } d)

/-- The entries that go to the live set in an iteration of `place_phys0`: the head and its
twin, unless the head failed the test. -/
def kept (s : State) (d : Nat) (stale : Bool) : List Nat :=
  if stale then [] else with_twin s d

/-- The entries destroyed in an iteration of `place_phys0`: the twin, then the head, when
the head failed the test. -/
def lost (s : State) (d : Nat) (stale : Bool) : List Nat :=
  if stale then (s.heap d).v_is_mapped_elsewhere.toList ++ [d] else []

/-- The entries migrated over a sequence of iterations, in the order of the calls of
`enqueue`. -/
def migrated (s : State) : List (Nat × Bool) → List Nat
  | [] => []
  | v :: rest => kept s v.1 v.2 ++ migrated s rest

/-- The entries destroyed over a sequence of iterations, in the order of the calls of
`destroy`. -/
def dropped (s : State) : List (Nat × Bool) → List Nat
  | [] => []
  | v :: rest => lost s v.1 v.2 ++ dropped s rest

/-- No host page-table entry of an entry of `l` serves the page of another entry of `l`. -/
def lookup_apart (s : State) (l : List Nat) : Prop :=
  ∀ x ∈ l, ∀ y ∈ l, x ≠ y → ∀ h, (s.heap x).hpt = some h →
    s.loc_walk (s.heap y).page_addr ≠ some h

/-- The shadow entries of a state: the live set, the parked list and the vm-stack queue. -/
def entries (s : State) : List Nat := s.cow_elts ++ s.pd_cow_elts ++ s.vm_kernel_stacks

/-- The two frames of the block that the allocator hands out at the next allocation. -/
def fresh_frames (env : Env) (s : State) : List Nat :=
  [env.ptr_to_phys (env.buddy_alloc s.buddy_allocs),
   env.ptr_to_phys (env.buddy_alloc s.buddy_allocs) + PAGE_SIZE]

/-- The events are or contain a check of the two runs: a comparison of the registers, a
comparison of the shadows, or a commit. -/
def checks (evs : List Event) : Prop :=
  Event.compare_regs ∈ evs ∨ (∃ b, Event.compare b ∈ evs) ∨ Event.commit ∈ evs

/-- The `cow_update` calls of the loops of `restore_state0` and `restore_state1` for the
entry `e`, towards the frame `phys`: the virtual-TLB entry first, then the host page-table
entry, each with the permissions `attr` of the entry with WRITE set and COW cleared. -/
def remap_updates (env : Env) (e : Cow_elt) (phys : Nat) : List Update :=
  (match e.vtlb with
    | some t => [Update.vtlb t phys (writable e.attr env.TLB_W env.TLB_COW)]
    | none => []) ++
  (match e.hpt with
    | some h => [Update.hpt h phys (writable e.attr Hpt.HPT_W Hpt.HPT_COW) e.page_addr]
    | none => [])

/-- The mapping updates of a walk over the entries of `l`, those of the first entry
first. -/
def updates_of (f : Nat → List Update) : List Nat → List Update
  | [] => []
  | c :: rest => f c ++ updates_of f rest

/-- A call of one of the functions of the driver that write `run_number`, with the reading
of the hardware it finds. -/
inductive Driver_call where
  | check_memory (pr : Probe) (from_ : PE_stopby)
  | handle_exc_db (pr : Probe)
  | reset_all
  | start_debugging

/-- The call `c` made in the state `e`: how it ends and the state it leaves. -/
def call_driver (env : Env) (e : Ec) : Driver_call → Exit × Ec
  | Driver_call.check_memory pr from_ => check_memory env pr e from_
  | Driver_call.handle_exc_db pr => handle_exc_db env pr e
  | Driver_call.reset_all => (Exit.returned, reset_all e)
  | Driver_call.start_debugging => start_debugging env e

/-- The state of the driver after a sequence of calls, the first call first, each call
made in the state the previous one leaves. -/
def run_calls (env : Env) (e : Ec) (calls : List Driver_call) : Ec :=
  calls.foldl (fun e c => (call_driver env e c).2) e

/-- How a call of the driver moves `run_number`: not at all, back to 0, or from 0 to 1. -/
def run_moves (a b : Nat) : Prop := b = a ∨ b = 0 ∨ (a = 0 ∧ b = 1)

/-- How a call of the driver moves the flag of the recovery mode: not at all, from false
to true, or to false together with the entry into debug mode. -/
def recover_moves (e r : Ec) : Prop :=
  r.in_recover_from_stack_fault_mode = e.in_recover_from_stack_fault_mode ∨
  (e.in_recover_from_stack_fault_mode = false ∧ r.in_recover_from_stack_fault_mode = true) ∨
  (r.in_recover_from_stack_fault_mode = false ∧ r.in_debug_mode = true)

/-- A CRC stand-in: a fold over the double words of the page. -/
def crc_fold (p : Page) : Nat := p.foldl (fun acc w => (acc * 31 + w + 1) % 4294967296) 0

/-- An environment: the n-th allocation is the block at 0x100000 + n * 0x2000, the kernel
maps physical memory one-to-one, and the virtual TLB uses the bits of the host table. -/
def env0 : Env :=
  { crc := crc_fold,
    buddy_alloc := fun n => 0x100000 + n * 0x2000,
    ptr_to_phys := fun p => p,
    tlb_w_bit := 1,
    tlb_cow_bit := 11,
    MAX_INSTRUCTION := 0x100000 }

def elt0 : Cow_elt :=
  { type := Page_type.NORMAL, page_addr := 0, old_phys := 0, attr := 0, new_phys0 := 0,
    new_phys1 := 0, linear_add := 0, m_fault_addr := 0, crc := 0, crc1 := 0, hpt := none,
    vtlb := none, v_is_mapped_elsewhere := none }

/-- A state with no shadow entry; the frame 0x9000 holds the words 1, 2, 3 and the host
page-table entry 7 maps it read-only with the COW mark. -/
def s_empty : State :=
  { heap := fun _ => elt0,
    next_ptr := 1,
    cow_elts := [],
    pd_cow_elts := [],
    vm_kernel_stacks := [],
    number := 0,
    current_ec_cow_elts_size := 0,
    destroyed := [],
    buddy_allocs := 0,
    buddy_frees := [],
    mem := fun a => if a = 0x9000 then [1, 2, 3] else [],
    hpt_tab := fun p => if p = 7 ∨ p = 8 ∨ p = 9 then (0x9000, 0x805) else (0, 0),
    vtlb_tab := fun _ => (0, 0),
    loc_walk := fun v => if v = 0x5000 then some 7 else if v = 0x6000 then some 8 else none,
    cow_window := fun _ => 0,
    updates := [],
    keep_cow := false,
    is_virutalcpu := false,
    cow_fault := 0,
    used_cows_in_old_cow_elts := 0,
    ss_val := 0,
    missmatch_addr := 0 }

/-- The state a sequence of operations leads to, the state itself if the kernel stops. -/
def after (s : State) (r : Except Fault State) : State :=
  match r with
  | Except.ok s' => s'
  | Except.error _ => s

/-- The state after a first write fault, through the host entry 7, on the frame 0x9000. -/
def s_one : State := after s_empty (resolve_cow_fault env0 s_empty none (some 7) 0x5123 0x9123 0x805)

/-- The state after a second write fault on the same frame through the host entry 8. -/
def s_two : State := after s_one (resolve_cow_fault env0 s_one none (some 8) 0x6123 0x9456 0x805)

/-- The state after both runs have written the word 9 at the start of the shadowed page:
the two shadow frames hold the same new content. -/
def s_written : State :=
  { s_two with mem := fun a => if a = 0x100000 ∨ a = 0x101000 then [9, 2, 3] else s_two.mem a }

/-- The state after `compare` has run on `s_written`. -/
def s_compared : State :=
  match compare env0 s_written with
  | Except.ok (_, s) => s
  | Except.error _ => s_written

/-- The state after `commit` has run on `s_compared`. -/
def s_committed : State := after s_compared (commit env0 s_compared)

/-- The state in which run 1 starts when run 0 has written one page: `restore_state0` has
run on `s_one`. -/
def s_run1 : State := after s_one (restore_state0 env0 s_one)

/-- The state after a write fault in run 1 on the frame 0x9000 through the host entry 8. -/
def s_run1_fault : State :=
  after s_run1 (resolve_cow_fault env0 s_run1 none (some 8) 0x6123 0x9456 0x805)

/-- The state in which run 1 starts when run 0 has written the page through both
mappings: `restore_state0` has run on `s_two`. -/
def s_run1_two : State := after s_two (restore_state0 env0 s_two)

/-- The state after `place_phys0` has taken the two parked entries of `s_committed` back
into the live set. -/
def s_placed : State := after s_committed (place_phys0 env0 s_committed)

/-- The state after `restore_state1` has run on `s_run1_two`. -/
def s_back : State := after s_run1_two (restore_state1 env0 s_run1_two)

/-- The state after `rollback` has run on `s_run1_two`. -/
def s_rolled : State := after s_run1_two (rollback env0 s_run1_two)

/-- The state `compare` leads to, the state itself if the kernel stops. -/
def after_compare (s : State) : State :=
  match compare env0 s with
  | Except.ok (_, s') => s'
  | Except.error _ => s

/-- The state after a PE that faulted once and wrote nothing: `compare` and `commit` have
run on `s_one`, and the entry 1 is parked. -/
def s_one_committed : State :=
  after (after_compare s_one) (commit env0 (after_compare s_one))

/-- The start of the next PE: `place_phys0` has taken the entry 1 back into the live set. -/
def s_one_placed : State := after s_one_committed (place_phys0 env0 s_one_committed)

/-- The state after a write fault of that PE on the same frame through the host entry 8,
and after `compare`: the live set holds the entry 1 of the previous PE and its new twin 2. -/
def s_realiased : State :=
  after_compare
    (after s_one_placed (resolve_cow_fault env0 s_one_placed none (some 8) 0x6123 0x9456 0x805))

/-- The state after `commit` has run on `s_realiased`. -/
def s_realiased_committed : State := after s_realiased (commit env0 s_realiased)

/-- A reading of the hardware: a trap taken in user mode, no debug-register hit, the
registers of the two runs agree. -/
def pr0 : Probe :=
  { inst_counter := 0, regs_mute_differ := false, compare_regs := 0, rep_prefix := false,
    last_rip := 0, last_rcx := 0, regs_ip := 0, guest_rip := 0, dr6 := 0, user := true }

/-- A driver state of a thread with a UTCB in run `run`, single-stepping for `reason`, with
the shadow subsystem in the state `s`. -/
def ec0 (s : State) (run : Nat) (reason : Step_reason) : Ec :=
  { run_number := run, launch_state := Launch_type.IRET, step_reason := reason,
    prev_reason := PE_stopby.PES_PAGE_FAULT, counter1 := 0, counter2 := 0, exc_counter := 0,
    exc_counter1 := 0, exc_counter2 := 0, first_run_instr_number := 0,
    second_run_instr_number := 0, distance_instruction := 0, nbInstr_to_execute := 0,
    nb_inst_single_step := 0, prev_rip := 0, end_rip := 0, end_rcx := 0,
    in_rep_instruction := false, reg_diff := 0, no_further_check := false,
    not_nul_cowlist := false, first_run_advanced := false,
    in_recover_from_stack_fault_mode := false, in_debug_mode := false,
    debug_started := false, utcb := true, start_counter := 0, perf_max_count := 0x1000000,
    efl_tf := true, pmi_ss := 0, cow := s, trace := [] }

/-- The state after `rollback` has run on `s_written`, in which both shadows of the frame
0x9000 hold the word 9 that the runs wrote. -/
def s_written_rolled : State := after s_written (rollback env0 s_written)

/-- The parked entries of `s_committed` once their pages have been unmapped. -/
def s_unmapped : State := { s_committed with loc_walk := fun _ => none }

/-- The state after `place_phys0` has run on `s_unmapped`. -/
def s_unmapped_placed : State := after s_unmapped (place_phys0 env0 s_unmapped)

/-- The parked entries of `s_committed` once the page 0x6000 of the entry 2, the second
mapping of the frame, has been unmapped. -/
def s_half_unmapped : State :=
  { s_committed with loc_walk := fun v => if v = 0x5000 then some 7 else none }

/-- The state after `place_phys0` has run on `s_half_unmapped`. -/
def s_half_placed : State := after s_half_unmapped (place_phys0 env0 s_half_unmapped)

/-- A virtual CPU with no shadow entry. -/
def s_guest0 : State := { s_empty with is_virutalcpu := true }

/-- The virtual CPU after a write fault, through the virtual-TLB entry 3, on the frame
0x9000. -/
def s_guest : State :=
  after s_guest0 (resolve_cow_fault env0 s_guest0 (some 3) none 0x5123 0x9123 0x805)

/-- The virtual CPU after the two runs: both have written the word 4 at the end of the
page, and run 0 has left the word 9 at its start. -/
def s_guest_written : State :=
  { s_guest with mem := fun a =>
      if a = 0x100000 then [9, 2, 4] else if a = 0x101000 then [1, 2, 4] else s_guest.mem a }

/-- A driver state at the end of a second run that began with the counter at
`perf_max_count - MAX_INSTRUCTION`; the first run ended on a PMI after
`MAX_INSTRUCTION + 5` instructions. -/
def ec_pmi (s : State) : Ec :=
  { ec0 s 1 Step_reason.SR_NIL with
    prev_reason := PE_stopby.PES_PMI, start_counter := 0xF00000,
    first_run_instr_number := 0x100005 }

/-- A reading of the hardware at a PMI: the counter has overflowed and counted one more
instruction. -/
def pr_pmi : Probe := { pr0 with inst_counter := 1 }

/-- The state after the two runs have written different words at the start of the shadowed
page: the first shadow frame holds the word 9, the second the word 8. -/
def s_diverged : State :=
  { s_two with mem := fun a =>
      if a = 0x100000 then [9, 2, 3] else if a = 0x101000 then [8, 2, 3] else s_two.mem a }

/-- The state after `rollback` has run on the state `compare` leaves of `s_diverged`. -/
def s_diverged_rolled : State :=
  after (after_compare s_diverged) (rollback env0 (after_compare s_diverged))

/-- The virtual CPU at the end of its first PE: `compare` has reconciled the entry 1 of
`s_guest_written` and moved it to the vm-stack queue, and `commit` has run. -/
def s_guest_committed : State :=
  after (after_compare s_guest_written) (commit env0 (after_compare s_guest_written))

/-- The virtual CPU in its second PE: after `place_phys0`, two write faults, through the
virtual-TLB entries 4 and 5, have hit the frame 0xa000; the entries 2 and 3 are twins. -/
def s_guest_twins : State :=
  after (after s_guest_committed (place_phys0 env0 s_guest_committed))
    (resolve_all env0 (after s_guest_committed (place_phys0 env0 s_guest_committed))
      [{ tlb := some 4, hpt := none, virt := 0x6123, phys := 0xa123, attr := 0x805 },
       { tlb := some 5, hpt := none, virt := 0x7123, phys := 0xa456, attr := 0x805 }])

/-- The second PE after the two runs: both have written the word 4 at the end of the page
the twins shadow, and run 0 has left the word 9 at its start. -/
def s_guest_twins_written : State :=
  { s_guest_twins with mem := fun a =>
      if a = 0x102000 then [9, 2, 4] else if a = 0x103000 then [1, 2, 4]
      else s_guest_twins.mem a }

/-- The virtual CPU after a second write fault, through the virtual-TLB entry 4, on the
frame 0xa000. -/
def s_guest_pair : State :=
  after s_guest (resolve_cow_fault env0 s_guest (some 4) none 0x6123 0xa123 0x805)

/-- The virtual CPU with two entries after the two runs: the shadows of the entry 1 differ
in their first word only, the shadows of the entry 2 in every word. -/
def s_guest_pair_written : State :=
  { s_guest_pair with mem := fun a =>
      if a = 0x100000 then [9, 2, 4] else if a = 0x101000 then [1, 2, 4]
      else if a = 0x102000 then [5, 5, 5] else if a = 0x103000 then [6, 6, 6]
      else s_guest_pair.mem a }

/-- The virtual CPU at the end of a PE in which the runs agree: `compare` and `commit` have
run on `s_guest`, and the entry 1 is parked. -/
def s_guest_parked : State :=
  after (after_compare s_guest) (commit env0 (after_compare s_guest))

/-- The virtual CPU in the next PE: `place_phys0` has taken the entry 1 back into the live
set, and a write fault through the virtual-TLB entry 4 on the frame 0xa000 has created the
entry 2. -/
def s_guest_next : State :=
  after (after s_guest_parked (place_phys0 env0 s_guest_parked))
    (resolve_cow_fault env0 (after s_guest_parked (place_phys0 env0 s_guest_parked))
      (some 4) none 0x6123 0xa123 0x805)

/-- The next PE after the two runs: the shadows of the new entry 2 differ in their first
word only. -/
def s_guest_next_written : State :=
  { s_guest_next with mem := fun a =>
      if a = 0x102000 then [9, 2, 4] else if a = 0x103000 then [1, 2, 4]
      else s_guest_next.mem a }

theorem check_exit_trace (e : Ec) : (check_exit e).2.trace = e.trace := by
  unfold check_exit
  split <;> rfl

theorem reset_all_trace (e : Ec) :
    (reset_all e).trace = e.trace ++ [Event.reset_all, Event.program_pmi] := by
  simp [reset_all, reset_counter, Ec.log]

theorem reset_all_reg_diff (e : Ec) : (reset_all e).reg_diff = e.reg_diff := rfl

theorem single_step_trace (pr : Probe) (e : Ec) (r : Step_reason) :
    (single_step pr e r).2.trace = e.trace ++ [Event.enable_step_debug r] ∨
    (single_step pr e r).2.trace = e.trace ++ [Event.vmx_enable_single_step r] := by
  unfold single_step
  split
  · left; simp [Ec.log]
  · right; simp [Ec.log]

theorem cow_call_trace (e : Ec) (ev : Event) (op : State → Except Fault State) :
    (cow_call e ev op).1.trace = e.trace ++ [ev] := by
  unfold cow_call
  dsimp only
  split <;> simp [Ec.log]

theorem log_trace (e : Ec) (ev : Event) : (e.log ev).trace = e.trace ++ [ev] := rfl

theorem log_cow (e : Ec) (ev : Event) : (e.log ev).cow = e.cow := rfl

theorem cow_call_eq_trace {e e1 : Ec} {ev : Event} {op : State → Except Fault State}
    {o : Option Fault} (h : cow_call e ev op = (e1, o)) : e1.trace = e.trace ++ [ev] := by
  have := cow_call_trace e ev op
  rw [h] at this
  exact this

/-- The events of the comparing block of `check_memory`, after any earlier events `pre` of
the same invocation that are neither a commit nor a comparison. -/
theorem check_memory_compare_trace (env : Env) (pr : Probe) (e : Ec) (from_ : PE_stopby)
    (t pre : List Event) (he : e.trace = t ++ pre) (hp1 : Event.commit ∉ pre)
    (hp2 : ∀ b, Event.compare b ∉ pre) :
    (Event.commit ∈ (check_memory_compare env pr e from_).2.trace.drop t.length ↔
      Event.compare (some false) ∈
        (check_memory_compare env pr e from_).2.trace.drop t.length ∧
      pr.compare_regs = 0) ∧
    (Event.compare (some true) ∈
        (check_memory_compare env pr e from_).2.trace.drop t.length →
      Event.commit ∉ (check_memory_compare env pr e from_).2.trace.drop t.length) ∧
    (Event.commit ∈ (check_memory_compare env pr e from_).2.trace.drop t.length →
      ∃ s, compare env e.cow = Except.ok (false, s)) := by
  have hp3 := hp2 (some false)
  have hp4 := hp2 (some true)
  unfold check_memory_compare
  dsimp only
  split
  · simp [log_trace, he, hp1, hp3, hp4]
  · rename_i differ s hc
    split
    · rename_i hd
      have hd2 : differ = true ∨ pr.compare_regs ≠ 0 := by simpa [Ec.log] using hd
      split
      · simp [log_trace, he, hp1, hp3, hp4]
        rcases hd2 with h | h
        · simp [h]
        · simp [h]
      · split
        · rename_i e1 f hcc
          have ht := cow_call_eq_trace hcc
          simp [ht, log_trace, he, hp1, hp3, hp4]
          rcases hd2 with h | h
          · simp [h]
          · simp [h]
        · rename_i e1 hcc
          have ht := cow_call_eq_trace hcc
          split
          · simp [check_exit_trace, reset_all_trace, ht, log_trace, he, hp1, hp3, hp4]
            rcases hd2 with h | h
            · simp [h]
            · simp [h]
          · split
            · simp [check_exit_trace, reset_all_trace, ht, log_trace, he, hp1, hp3, hp4]
              rcases hd2 with h | h
              · simp [h]
              · simp [h]
            · simp [check_exit_trace, reset_all_trace, ht, log_trace, he, hp1, hp3, hp4]
              rcases hd2 with h | h
              · simp [h]
              · simp [h]
    · rename_i hd
      have hd2 : differ = false ∧ pr.compare_regs = 0 := by simpa [Ec.log] using hd
      have hcs : ∃ s, compare env e.cow = Except.ok (false, s) := ⟨s, hd2.1 ▸ hc⟩
      split
      · rename_i e1 f hcc
        have ht := cow_call_eq_trace hcc
        simp [ht, log_trace, hd2.1, hd2.2, he, hp1, hp3, hp4]
        exact hcs
      · rename_i e1 hcc
        have ht := cow_call_eq_trace hcc
        simp [reset_all_trace, ht, log_trace, hd2.1, hd2.2, he, hp1, hp3, hp4]
        exact hcs

theorem check_memory_run0_trace (env : Env) (pr : Probe) (e : Ec) (from_ : PE_stopby) :
    Event.commit ∉ (check_memory_run0 env pr e from_).2.trace.drop e.trace.length ∧
    ∀ b, Event.compare b ∉ (check_memory_run0 env pr e from_).2.trace.drop e.trace.length := by
  unfold check_memory_run0
  dsimp only
  split
  · rename_i e1 f hcc
    have ht := cow_call_eq_trace hcc
    simp [ht]
  · rename_i e1 hcc
    have ht := cow_call_eq_trace hcc
    split
    · split
      · simp [ht]
      · split
        · split
          · simp [ht, log_trace]
          · simp [ht, log_trace, check_exit_trace]
        · split
          · simp [ht, log_trace]
          · simp [ht, log_trace, check_exit_trace]
    · simp [ht, log_trace, check_exit_trace]

theorem single_step_drop (pr : Probe) (e : Ec) (r : Step_reason) (t pre : List Event)
    (he : e.trace = t ++ pre) (hp1 : Event.commit ∉ pre) (hp2 : ∀ b, Event.compare b ∉ pre) :
    Event.commit ∉ (single_step pr e r).2.trace.drop t.length ∧
    ∀ b, Event.compare b ∉ (single_step pr e r).2.trace.drop t.length := by
  rcases single_step_trace pr e r with h | h <;> simp [h, he, hp1, hp2]

theorem single_step_clean (pr : Probe) (e : Ec) (r : Step_reason) (t pre : List Event)
    (Q : Prop)
    (he : e.trace = t ++ pre) (hp1 : Event.commit ∉ pre) (hp2 : ∀ b, Event.compare b ∉ pre) :
    (Event.commit ∈ (single_step pr e r).2.trace.drop t.length ↔
      Event.compare (some false) ∈ (single_step pr e r).2.trace.drop t.length ∧
      pr.compare_regs = 0) ∧
    (Event.compare (some true) ∈ (single_step pr e r).2.trace.drop t.length →
      Event.commit ∉ (single_step pr e r).2.trace.drop t.length) ∧
    (Event.commit ∈ (single_step pr e r).2.trace.drop t.length → Q) := by
  obtain ⟨h1, h2⟩ := single_step_drop pr e r t pre he hp1 hp2
  exact ⟨⟨fun h => absurd h h1, fun h => absurd h.1 (h2 _)⟩, fun _ => h1, fun h => absurd h h1⟩

theorem check_memory_run1_trace (env : Env) (pr : Probe) (e : Ec) (from_ : PE_stopby) :
    (Event.commit ∈ (check_memory_run1 env pr e from_).2.trace.drop e.trace.length ↔
      Event.compare (some false) ∈
        (check_memory_run1 env pr e from_).2.trace.drop e.trace.length ∧
      pr.compare_regs = 0) ∧
    (Event.compare (some true) ∈
        (check_memory_run1 env pr e from_).2.trace.drop e.trace.length →
      Event.commit ∉ (check_memory_run1 env pr e from_).2.trace.drop e.trace.length) ∧
    (Event.commit ∈ (check_memory_run1 env pr e from_).2.trace.drop e.trace.length →
      ∃ s, compare env e.cow = Except.ok (false, s)) := by
  unfold check_memory_run1
  dsimp only
  split
  · split
    · simp [check_exit_trace]
    · split
      · simp [log_trace]
      · split
        · simp [log_trace]
        · split
          · split
            · exact single_step_clean pr _ _ e.trace [Event.cancel_pmi] _
                (by simp [log_trace]) (by simp) (by simp)
            · exact check_memory_compare_trace env pr _ from_ e.trace [Event.cancel_pmi]
                (by simp [log_trace]) (by simp) (by simp)
          · split
            · exact single_step_clean pr _ _ e.trace [Event.cancel_pmi] _
                (by simp [log_trace]) (by simp) (by simp)
            · split
              · split
                · rename_i e1 f hcc
                  have ht := cow_call_eq_trace hcc
                  simp [ht, log_trace]
                · rename_i e1 hcc
                  have ht := cow_call_eq_trace hcc
                  exact single_step_clean pr _ _ e.trace
                    [Event.cancel_pmi, Event.restore_state1] _
                    (by simp [ht, log_trace]) (by simp) (by simp)
              · exact check_memory_compare_trace env pr _ from_ e.trace [Event.cancel_pmi]
                  (by simp [log_trace]) (by simp) (by simp)
  · exact check_memory_compare_trace env pr e from_ e.trace [] (by simp) (by simp) (by simp)

/-- C1: `Ec::check_memory` invokes `Cow_elt::commit` only in run 1 and only when, in the
same invocation, `Cow_elt::compare` returned false and `compare_regs` reported no
difference; it does so whenever that comparison is reached with this result. On the early
exit (empty live set outside recovery and debug mode), in run 0 and on a divergence
(`compare` returned true, or the registers differ) commit is not invoked. The events are
those that the invocation appends to the trace. -/
theorem check_memory_commit_only_after_clean_compare (env : Env) (pr : Probe) (e : Ec)
    (from_ : PE_stopby) :
    (Event.commit ∈ (check_memory env pr e from_).2.trace.drop e.trace.length ↔
      Event.compare (some false) ∈ (check_memory env pr e from_).2.trace.drop e.trace.length ∧
      pr.compare_regs = 0) ∧
    (Event.commit ∈ (check_memory env pr e from_).2.trace.drop e.trace.length →
      e.run_number = 1 ∧ (∃ s, compare env e.cow = Except.ok (false, s)) ∧
      (is_empty e.cow && !e.in_recover_from_stack_fault_mode && !e.in_debug_mode) = false) ∧
    (Event.compare (some true) ∈ (check_memory env pr e from_).2.trace.drop e.trace.length ∨
        pr.compare_regs ≠ 0 ∨ e.run_number = 0 ∨
        (is_empty e.cow && !e.in_recover_from_stack_fault_mode && !e.in_debug_mode) = true →
      Event.commit ∉ (check_memory env pr e from_).2.trace.drop e.trace.length) := by
  unfold check_memory
  split
  · simp
  · split
    · rename_i h1 h2
      simp [reset_all_trace, h2]
    · rename_i h1 h2
      have h3 : (is_empty e.cow && !e.in_recover_from_stack_fault_mode && !e.in_debug_mode)
          = false := by simpa using h2
      split
      · rename_i h0
        obtain ⟨ha, hb⟩ := check_memory_run0_trace env pr e from_
        simp [ha, hb, h0]
      · rename_i h0
        obtain ⟨ha, hb, hc⟩ := check_memory_run1_trace env pr e from_
        refine ⟨ha, fun h => ⟨h0, hc h, h3⟩, ?_⟩
        rintro (h | h | h | h)
        · exact hb h
        · exact fun hcm => h (ha.1 hcm).2
        · omega
        · rw [h3] at h; exact absurd h (by simp)
      · simp

/-! ## The fault interposer `resolve_cow_fault` -/

theorem walk_update_fresh (heap : Nat → Cow_elt) (p : Nat) (x : Cow_elt) (phys : Nat)
    (l : List Nat) (h : p ∉ l) :
    is_mapped_elsewhere_walk (Function.update heap p x) phys l =
      is_mapped_elsewhere_walk heap phys l := by
  induction l with
  | nil => rfl
  | cons c rest ih =>
    have hc : c ≠ p := fun hh => h (by simp [hh])
    have hr : p ∉ rest := fun hh => h (by simp [hh])
    simp [is_mapped_elsewhere_walk, Function.update_noteq hc, ih hr]

/-- The walk of `is_mapped_elsewhere` looks at the first entry whose `old_phys` is the
address asked for. -/
theorem walk_eq_find (heap : Nat → Cow_elt) (phys : Nat) (l : List Nat) :
    is_mapped_elsewhere_walk heap phys l =
      match l.find? (fun x => decide ((heap x).old_phys = phys)) with
      | none => Except.ok none
      | some c =>
        if (heap c).v_is_mapped_elsewhere.isSome then Except.error Fault.assert_twin
        else Except.ok (some c) := by
  induction l with
  | nil => rfl
  | cons c rest ih =>
    by_cases hc : (heap c).old_phys = phys
    · simp [is_mapped_elsewhere_walk, hc, List.find?]
    · simp [is_mapped_elsewhere_walk, hc, List.find?, ih]

theorem walk_none_iff (heap : Nat → Cow_elt) (phys : Nat) (l : List Nat) :
    is_mapped_elsewhere_walk heap phys l = Except.ok none ↔
      ∀ x ∈ l, (heap x).old_phys ≠ phys := by
  induction l with
  | nil => simp [is_mapped_elsewhere_walk]
  | cons c rest ih =>
    by_cases hc : (heap c).old_phys = phys
    · by_cases ht : (heap c).v_is_mapped_elsewhere.isSome <;>
        simp [is_mapped_elsewhere_walk, hc, ht]
    · simp [is_mapped_elsewhere_walk, hc, ih]

theorem walk_some (heap : Nat → Cow_elt) (phys : Nat) (l : List Nat) (c : Nat)
    (h : is_mapped_elsewhere_walk heap phys l = Except.ok (some c)) :
    c ∈ l ∧ (heap c).old_phys = phys ∧ (heap c).v_is_mapped_elsewhere = none := by
  induction l with
  | nil => simp [is_mapped_elsewhere_walk] at h
  | cons d rest ih =>
    by_cases hd : (heap d).old_phys = phys
    · by_cases ht : (heap d).v_is_mapped_elsewhere.isSome
      · simp [is_mapped_elsewhere_walk, hd, ht] at h
      · simp [is_mapped_elsewhere_walk, hd, ht] at h
        subst h
        refine ⟨by simp, hd, ?_⟩
        cases hv : (heap d).v_is_mapped_elsewhere with
        | none => rfl
        | some y => simp [hv] at ht
    · simp [is_mapped_elsewhere_walk, hd] at h
      obtain ⟨h1, h2⟩ := ih h
      exact ⟨by simp [h1], h2⟩

theorem walk_error (heap : Nat → Cow_elt) (phys : Nat) (l : List Nat) (f : Fault)
    (h : is_mapped_elsewhere_walk heap phys l = Except.error f) : f = Fault.assert_twin := by
  induction l with
  | nil => simp [is_mapped_elsewhere_walk] at h
  | cons d rest ih =>
    by_cases hd : (heap d).old_phys = phys
    · by_cases ht : (heap d).v_is_mapped_elsewhere.isSome
      · simp [is_mapped_elsewhere_walk, hd, ht] at h
        exact h.symm
      · simp [is_mapped_elsewhere_walk, hd, ht] at h
    · simp [is_mapped_elsewhere_walk, hd] at h
      exact ih h

theorem WORD_MAX_testBit (i : Nat) : WORD_MAX.testBit i = decide (i < 64) :=
  Nat.testBit_two_pow_sub_one 64 i

theorem writable_testBit (attr wb cb i : Nat) (hi : i < 64) :
    (writable attr (1 <<< wb) (1 <<< cb)).testBit i =
      ((attr.testBit i || decide (wb = i)) && !decide (cb = i)) := by
  simp [writable, and_not, WORD_MAX_testBit, Nat.testBit_and, Nat.testBit_or, Nat.testBit_xor,
    Nat.one_shiftLeft, Nat.testBit_two_pow, hi]

theorem writable_testBit_high (attr wb cb i : Nat) (hattr : attr < 2 ^ 64) (hw : wb < 64)
    (hi : 64 ≤ i) :
    (writable attr (1 <<< wb) (1 <<< cb)).testBit i = false := by
  have h1 : attr.testBit i = false :=
    Nat.testBit_lt_two_pow (lt_of_lt_of_le hattr (Nat.pow_le_pow_right (by norm_num) hi))
  have h2 : ¬ i < 64 := by omega
  have h3 : ¬ wb = i := by omega
  simp [writable, and_not, WORD_MAX_testBit, Nat.testBit_and, Nat.testBit_or, Nat.testBit_xor,
    Nat.one_shiftLeft, Nat.testBit_two_pow, h1, h2, h3]

theorem update_src (m : Nat → Page) (d0 src : Nat) :
    Function.update m d0 (m src) src = m src := by
  by_cases h : src = d0
  · subst h; simp
  · simp [Function.update_noteq h]

theorem update_src2 (m : Nat → Page) (d0 d1 src : Nat) :
    Function.update (Function.update m d0 (m src)) d1 (m src) src = m src := by
  by_cases h : src = d1
  · subst h; simp
  · rw [Function.update_noteq h, update_src]

/-- The two copies of `copy_frames` leave the source page as it was and put its content
into both destinations. -/
theorem copy_twice (m : Nat → Page) (d0 d1 src : Nat) (hd : d0 ≠ d1) :
    Function.update (Function.update m d0 (m src)) d1 (Function.update m d0 (m src) src) src
        = m src ∧
    Function.update (Function.update m d0 (m src)) d1 (Function.update m d0 (m src) src) d0
        = m src ∧
    Function.update (Function.update m d0 (m src)) d1 (Function.update m d0 (m src) src) d1
        = m src := by
  have h1 : Function.update m d0 (m src) src = m src := by
    by_cases h : src = d0
    · subst h; simp
    · simp [Function.update_noteq h]
  refine ⟨?_, ?_, ?_⟩
  · by_cases h : src = d1
    · subst h; simp [h1]
    · rw [Function.update_noteq h, h1]
  · rw [Function.update_noteq hd]; simp
  · simp [h1]

/-- The state after a fault on a page that no live entry shadows, host origin. -/
theorem resolve_fresh_hpt (env : Env) (s : State) (h virt phys attr : Nat)
    (hfresh : s.next_ptr ∉ s.cow_elts)
    (hw : is_mapped_elsewhere s (and_not phys PAGE_MASK) = Except.ok none) :
    ∃ s', resolve_cow_fault env s none (some h) virt phys attr = Except.ok s' ∧
      s'.cow_elts = s.cow_elts ++ [s.next_ptr] ∧
      s'.heap = Function.update s.heap s.next_ptr
        { type := Page_type.NORMAL, page_addr := and_not virt PAGE_MASK,
          old_phys := and_not phys PAGE_MASK, attr := attr,
          new_phys0 := env.ptr_to_phys (env.buddy_alloc s.buddy_allocs),
          new_phys1 := env.ptr_to_phys (env.buddy_alloc s.buddy_allocs) + PAGE_SIZE,
          linear_add := env.buddy_alloc s.buddy_allocs, m_fault_addr := virt,
          crc := env.crc (s.mem (s.hpt_tab h).1), crc1 := 0, hpt := some h, vtlb := none,
          v_is_mapped_elsewhere := none } ∧
      s'.mem = Function.update (Function.update s.mem
          (env.ptr_to_phys (env.buddy_alloc s.buddy_allocs)) (s.mem (s.hpt_tab h).1))
          (env.ptr_to_phys (env.buddy_alloc s.buddy_allocs) + PAGE_SIZE)
          (s.mem (s.hpt_tab h).1) ∧
      s'.updates = s.updates ++ [Update.hpt h (env.ptr_to_phys (env.buddy_alloc s.buddy_allocs))
          (writable attr Hpt.HPT_W Hpt.HPT_COW) (and_not virt PAGE_MASK)] ∧
      s'.hpt_tab = Function.update s.hpt_tab h
          (env.ptr_to_phys (env.buddy_alloc s.buddy_allocs),
            writable attr Hpt.HPT_W Hpt.HPT_COW) ∧
      s'.vtlb_tab = s.vtlb_tab ∧
      s'.buddy_allocs = s.buddy_allocs + 1 ∧
      s'.next_ptr = s.next_ptr + 1 ∧
      s'.pd_cow_elts = s.pd_cow_elts := by
  unfold is_mapped_elsewhere at hw
  simp only [resolve_cow_fault, Cow_elt.create, is_mapped_elsewhere,
    walk_update_fresh _ _ _ _ _ hfresh, hw]
  refine ⟨_, rfl, ?_⟩
  simp [enqueue, Hpt.cow_update, State.modify, copy_frames, memcpy, remap_cow, read_page,
    frame_of, PAGE_SIZE, update_src, update_src2]

/-- The state after a fault on a page that no live entry shadows, guest origin. -/
theorem resolve_fresh_vtlb (env : Env) (s : State) (t virt phys attr : Nat)
    (hfresh : s.next_ptr ∉ s.cow_elts)
    (hw : is_mapped_elsewhere s (and_not phys PAGE_MASK) = Except.ok none) :
    ∃ s', resolve_cow_fault env s (some t) none virt phys attr = Except.ok s' ∧
      s'.cow_elts = s.cow_elts ++ [s.next_ptr] ∧
      s'.heap = Function.update s.heap s.next_ptr
        { type := Page_type.NORMAL, page_addr := and_not virt PAGE_MASK,
          old_phys := and_not phys PAGE_MASK, attr := attr,
          new_phys0 := env.ptr_to_phys (env.buddy_alloc s.buddy_allocs),
          new_phys1 := env.ptr_to_phys (env.buddy_alloc s.buddy_allocs) + PAGE_SIZE,
          linear_add := env.buddy_alloc s.buddy_allocs, m_fault_addr := virt,
          crc := env.crc (s.mem (and_not phys PAGE_MASK)), crc1 := 0, hpt := none,
          vtlb := some t, v_is_mapped_elsewhere := none } ∧
      s'.mem = Function.update (Function.update s.mem
          (env.ptr_to_phys (env.buddy_alloc s.buddy_allocs)) (s.mem (and_not phys PAGE_MASK)))
          (env.ptr_to_phys (env.buddy_alloc s.buddy_allocs) + PAGE_SIZE)
          (s.mem (and_not phys PAGE_MASK)) ∧
      s'.updates = s.updates ++ [Update.vtlb t
          (env.ptr_to_phys (env.buddy_alloc s.buddy_allocs))
          (writable attr env.TLB_W env.TLB_COW)] ∧
      s'.hpt_tab = s.hpt_tab ∧
      s'.vtlb_tab = Function.update s.vtlb_tab t
          (env.ptr_to_phys (env.buddy_alloc s.buddy_allocs),
            writable attr env.TLB_W env.TLB_COW) ∧
      s'.buddy_allocs = s.buddy_allocs + 1 ∧
      s'.next_ptr = s.next_ptr + 1 ∧
      s'.pd_cow_elts = s.pd_cow_elts := by
  unfold is_mapped_elsewhere at hw
  simp only [resolve_cow_fault, Cow_elt.create, is_mapped_elsewhere,
    walk_update_fresh _ _ _ _ _ hfresh, hw]
  refine ⟨_, rfl, ?_⟩
  have h2 : 2 * PAGE_SIZE / PAGE_SIZE = 2 := by decide
  have h0 : 0 / PAGE_SIZE = 0 := by decide
  simp [enqueue, Vtlb.cow_update, State.modify, copy_frames, memcpy, remap_cow, read_page,
    frame_of, h2, h0, update_src, update_src2]
  simp [PAGE_SIZE]

/-- The state after a fault on a page that the live entry `c` shadows, host origin. -/
theorem resolve_aliased_hpt (env : Env) (s : State) (h virt phys attr c : Nat)
    (hfresh : s.next_ptr ∉ s.cow_elts)
    (hw : is_mapped_elsewhere s (and_not phys PAGE_MASK) = Except.ok (some c)) :
    ∃ s', resolve_cow_fault env s none (some h) virt phys attr = Except.ok s' ∧
      s'.cow_elts = s.cow_elts ++ [s.next_ptr] ∧
      s'.heap = Function.update (Function.update s.heap s.next_ptr
        { type := Page_type.NORMAL, page_addr := and_not virt PAGE_MASK,
          old_phys := and_not phys PAGE_MASK, attr := attr,
          new_phys0 := (s.heap c).new_phys0,
          new_phys1 := (s.heap c).new_phys1,
          linear_add := env.buddy_alloc s.buddy_allocs, m_fault_addr := virt,
          crc := (s.heap c).crc, crc1 := 0, hpt := some h, vtlb := none,
          v_is_mapped_elsewhere := some c }) c
        { s.heap c with v_is_mapped_elsewhere := some s.next_ptr } ∧
      s'.mem = s.mem ∧
      s'.updates = s.updates ++ [Update.hpt h (s.heap c).new_phys0
          (writable attr Hpt.HPT_W Hpt.HPT_COW) (and_not virt PAGE_MASK)] ∧
      s'.hpt_tab = Function.update s.hpt_tab h
          ((s.heap c).new_phys0, writable attr Hpt.HPT_W Hpt.HPT_COW) ∧
      s'.vtlb_tab = s.vtlb_tab ∧
      s'.buddy_allocs = s.buddy_allocs + 1 ∧
      s'.next_ptr = s.next_ptr + 1 ∧
      s'.pd_cow_elts = s.pd_cow_elts := by
  unfold is_mapped_elsewhere at hw
  have hc : c ≠ s.next_ptr := fun hh => hfresh (hh ▸ (walk_some _ _ _ _ hw).1)
  simp only [resolve_cow_fault, Cow_elt.create, is_mapped_elsewhere,
    walk_update_fresh _ _ _ _ _ hfresh, hw]
  refine ⟨_, rfl, ?_⟩
  simp [enqueue, Hpt.cow_update, State.modify, Function.update_noteq hc,
    Function.update_noteq hc.symm]

/-- The state after a fault on a page that the live entry `c` shadows, guest origin. -/
theorem resolve_aliased_vtlb (env : Env) (s : State) (t virt phys attr c : Nat)
    (hfresh : s.next_ptr ∉ s.cow_elts)
    (hw : is_mapped_elsewhere s (and_not phys PAGE_MASK) = Except.ok (some c)) :
    ∃ s', resolve_cow_fault env s (some t) none virt phys attr = Except.ok s' ∧
      s'.cow_elts = s.cow_elts ++ [s.next_ptr] ∧
      s'.heap = Function.update (Function.update s.heap s.next_ptr
        { type := Page_type.NORMAL, page_addr := and_not virt PAGE_MASK,
          old_phys := and_not phys PAGE_MASK, attr := attr,
          new_phys0 := (s.heap c).new_phys0,
          new_phys1 := (s.heap c).new_phys1,
          linear_add := env.buddy_alloc s.buddy_allocs, m_fault_addr := virt,
          crc := (s.heap c).crc, crc1 := 0, hpt := none, vtlb := some t,
          v_is_mapped_elsewhere := some c }) c
        { s.heap c with v_is_mapped_elsewhere := some s.next_ptr } ∧
      s'.mem = s.mem ∧
      s'.updates = s.updates ++ [Update.vtlb t (s.heap c).new_phys0
          (writable attr env.TLB_W env.TLB_COW)] ∧
      s'.hpt_tab = s.hpt_tab ∧
      s'.vtlb_tab = Function.update s.vtlb_tab t
          ((s.heap c).new_phys0, writable attr env.TLB_W env.TLB_COW) ∧
      s'.buddy_allocs = s.buddy_allocs + 1 ∧
      s'.next_ptr = s.next_ptr + 1 ∧
      s'.pd_cow_elts = s.pd_cow_elts := by
  unfold is_mapped_elsewhere at hw
  have hc : c ≠ s.next_ptr := fun hh => hfresh (hh ▸ (walk_some _ _ _ _ hw).1)
  simp only [resolve_cow_fault, Cow_elt.create, is_mapped_elsewhere,
    walk_update_fresh _ _ _ _ _ hfresh, hw]
  refine ⟨_, rfl, ?_⟩
  simp [enqueue, Vtlb.cow_update, State.modify, Function.update_noteq hc,
    Function.update_noteq hc.symm]

theorem resolve_error_twin (env : Env) (s : State) (tlb hpt : Option Nat)
    (virt phys attr : Nat) (f : Fault) (hfresh : s.next_ptr ∉ s.cow_elts)
    (hw : is_mapped_elsewhere s (and_not phys PAGE_MASK) = Except.error f) :
    resolve_cow_fault env s tlb hpt virt phys attr = Except.error Fault.assert_twin := by
  unfold is_mapped_elsewhere at hw
  have hf := walk_error _ _ _ _ hw
  subst hf
  simp only [resolve_cow_fault, Cow_elt.create, is_mapped_elsewhere,
    walk_update_fresh _ _ _ _ _ hfresh, hw]
  rfl

theorem writable_bits (attr wb cb : Nat) (hattr : attr < 2 ^ 64) (hw : wb < 64) (hc : cb < 64)
    (hne : wb ≠ cb) :
    (writable attr (1 <<< wb) (1 <<< cb)).testBit wb = true ∧
    (writable attr (1 <<< wb) (1 <<< cb)).testBit cb = false ∧
    ∀ i, i ≠ wb → i ≠ cb →
      (writable attr (1 <<< wb) (1 <<< cb)).testBit i = attr.testBit i := by
  refine ⟨?_, ?_, ?_⟩
  · rw [writable_testBit _ _ _ _ hw]; simp [hne.symm]
  · rw [writable_testBit _ _ _ _ hc]; simp
  · intro i h1 h2
    by_cases hi : i < 64
    · rw [writable_testBit _ _ _ _ hi]
      simp [Ne.symm h1, Ne.symm h2]
    · rw [writable_testBit_high _ _ _ _ hattr hw (by omega)]
      exact (Nat.testBit_lt_two_pow (lt_of_lt_of_le hattr
        (Nat.pow_le_pow_right (by norm_num) (by omega)))).symm

/-- C2: a call of `resolve_cow_fault` with exactly one origin, in which the assertion of
`is_mapped_elsewhere` holds, returns; it makes exactly one `cow_update` call, on the
originating mapping, which then points at `new_phys[0]` of the entry put at the tail of
the live set; the permission word has the WRITE bit set, the COW bit cleared and every
other bit as in `attr`. -/
theorem resolve_cow_fault_updates_origin (env : Env) (s : State) (tlb hpt : Option Nat)
    (virt phys attr : Nat)
    (hone : tlb.isSome ≠ hpt.isSome)
    (hfresh : s.next_ptr ∉ s.cow_elts)
    (hok : is_mapped_elsewhere s (and_not phys PAGE_MASK) ≠ Except.error Fault.assert_twin)
    (hattr : attr < 2 ^ 64)
    (hbits : env.tlb_w_bit < 64 ∧ env.tlb_cow_bit < 64 ∧ env.tlb_w_bit ≠ env.tlb_cow_bit) :
    ∃ s' a, resolve_cow_fault env s tlb hpt virt phys attr = Except.ok s' ∧
      s'.cow_elts = s.cow_elts ++ [s.next_ptr] ∧
      s'.updates = s.updates ++
        origin_updates tlb hpt (s'.heap s.next_ptr).new_phys0 a (s'.heap s.next_ptr).page_addr ∧
      (origin_updates tlb hpt (s'.heap s.next_ptr).new_phys0 a
        (s'.heap s.next_ptr).page_addr).length = 1 ∧
      origin_entry s' tlb hpt = some ((s'.heap s.next_ptr).new_phys0, a) ∧
      a.testBit (origin_bits env hpt).1 = true ∧
      a.testBit (origin_bits env hpt).2 = false ∧
      ∀ i, i ≠ (origin_bits env hpt).1 → i ≠ (origin_bits env hpt).2 →
        a.testBit i = attr.testBit i := by
  have hh := writable_bits attr 1 11 hattr (by norm_num) (by norm_num) (by norm_num)
  have ht := writable_bits attr env.tlb_w_bit env.tlb_cow_bit hattr hbits.1 hbits.2.1 hbits.2.2
  cases hw : is_mapped_elsewhere s (and_not phys PAGE_MASK) with
  | error f =>
    unfold is_mapped_elsewhere at hw hok
    exact absurd (walk_error _ _ _ _ hw ▸ hw) hok
  | ok c =>
    rcases tlb with _ | t <;> rcases hpt with _ | h
    · simp at hone
    · rcases c with _ | c
      · obtain ⟨s', h1, h2, h3, h4, h5, h6, h7, h8, h9, h10⟩ :=
          resolve_fresh_hpt env s h virt phys attr hfresh hw
        refine ⟨s', writable attr Hpt.HPT_W Hpt.HPT_COW, h1, h2, ?_, ?_, ?_, ?_⟩
        · simp [h5, h3, origin_updates]
        · simp [origin_updates]
        · simp [origin_entry, h6, h3]
        · simpa [origin_bits] using hh
      · obtain ⟨s', h1, h2, h3, h4, h5, h6, h7, h8, h9, h10⟩ :=
          resolve_aliased_hpt env s h virt phys attr c hfresh hw
        have hc : c ≠ s.next_ptr := fun hh =>
          hfresh (hh ▸ (walk_some _ _ _ _ (by unfold is_mapped_elsewhere at hw; exact hw)).1)
        refine ⟨s', writable attr Hpt.HPT_W Hpt.HPT_COW, h1, h2, ?_, ?_, ?_, ?_⟩
        · simp [h5, h3, origin_updates, Function.update_noteq hc.symm]
        · simp [origin_updates]
        · simp [origin_entry, h6, h3, Function.update_noteq hc.symm]
        · simpa [origin_bits] using hh
    · rcases c with _ | c
      · obtain ⟨s', h1, h2, h3, h4, h5, h6, h7, h8, h9, h10⟩ :=
          resolve_fresh_vtlb env s t virt phys attr hfresh hw
        refine ⟨s', writable attr env.TLB_W env.TLB_COW, h1, h2, ?_, ?_, ?_, ?_⟩
        · simp [h5, h3, origin_updates]
        · simp [origin_updates]
        · simp [origin_entry, h7, h3]
        · simpa [origin_bits] using ht
      · obtain ⟨s', h1, h2, h3, h4, h5, h6, h7, h8, h9, h10⟩ :=
          resolve_aliased_vtlb env s t virt phys attr c hfresh hw
        have hc : c ≠ s.next_ptr := fun hh =>
          hfresh (hh ▸ (walk_some _ _ _ _ (by unfold is_mapped_elsewhere at hw; exact hw)).1)
        refine ⟨s', writable attr env.TLB_W env.TLB_COW, h1, h2, ?_, ?_, ?_, ?_⟩
        · simp [h5, h3, origin_updates, Function.update_noteq hc.symm]
        · simp [origin_updates]
        · simp [origin_entry, h7, h3, Function.update_noteq hc.symm]
        · simpa [origin_bits] using ht
    · simp at hone

theorem resolve_cow_fault_updates_origin_witness :
    ((none : Option Nat).isSome ≠ (some 7).isSome ∧ s_empty.next_ptr ∉ s_empty.cow_elts ∧
      is_mapped_elsewhere s_empty (and_not 0x9123 PAGE_MASK) ≠ Except.error Fault.assert_twin) ∧
    ∃ s' a, resolve_cow_fault env0 s_empty none (some 7) 0x5123 0x9123 0x805 = Except.ok s' ∧
      s'.cow_elts = s_empty.cow_elts ++ [s_empty.next_ptr] ∧
      s'.updates = s_empty.updates ++
        origin_updates none (some 7) (s'.heap s_empty.next_ptr).new_phys0 a
          (s'.heap s_empty.next_ptr).page_addr ∧
      (origin_updates none (some 7) (s'.heap s_empty.next_ptr).new_phys0 a
        (s'.heap s_empty.next_ptr).page_addr).length = 1 ∧
      origin_entry s' none (some 7) = some ((s'.heap s_empty.next_ptr).new_phys0, a) ∧
      a.testBit (origin_bits env0 (some 7)).1 = true ∧
      a.testBit (origin_bits env0 (some 7)).2 = false ∧
      ∀ i, i ≠ (origin_bits env0 (some 7)).1 → i ≠ (origin_bits env0 (some 7)).2 →
        a.testBit i = Nat.testBit 0x805 i :=
  ⟨⟨by decide, by decide, fun h => nomatch h⟩,
    resolve_cow_fault_updates_origin env0 s_empty none (some 7) 0x5123 0x9123 0x805
      (by decide) (by decide) (fun h => nomatch h) (by norm_num) (by decide)⟩

theorem shadow_frames_ne (a : Nat) : a ≠ a + PAGE_SIZE := by
  simp [PAGE_SIZE, PAGE_BITS]

/-- C3: a fault on a page that no live entry shadows (one origin; in the host case the
faulting entry maps the page) returns with a new entry at the tail of the live set whose
two shadow frames both hold the content the faulting page had, whose `crc` is the CRC of
that content and which has no twin; the original frame and every frame other than the
two shadows keep their content. -/
theorem resolve_cow_fault_fresh (env : Env) (s : State) (tlb hpt : Option Nat)
    (virt phys attr : Nat)
    (hone : tlb.isSome ≠ hpt.isSome)
    (hfresh : s.next_ptr ∉ s.cow_elts)
    (hnone : ∀ x ∈ s.cow_elts, (s.heap x).old_phys ≠ and_not phys PAGE_MASK)
    (hmapped : ∀ h, hpt = some h → (s.hpt_tab h).1 = and_not phys PAGE_MASK) :
    ∃ s', resolve_cow_fault env s tlb hpt virt phys attr = Except.ok s' ∧
      s'.cow_elts = s.cow_elts ++ [s.next_ptr] ∧
      (s'.heap s.next_ptr).old_phys = and_not phys PAGE_MASK ∧
      s'.mem (s'.heap s.next_ptr).new_phys0 = s.mem (and_not phys PAGE_MASK) ∧
      s'.mem (s'.heap s.next_ptr).new_phys1 = s.mem (and_not phys PAGE_MASK) ∧
      (s'.heap s.next_ptr).crc = env.crc (s.mem (and_not phys PAGE_MASK)) ∧
      (s'.heap s.next_ptr).v_is_mapped_elsewhere = none ∧
      s'.mem (and_not phys PAGE_MASK) = s.mem (and_not phys PAGE_MASK) ∧
      ∀ x, x ≠ (s'.heap s.next_ptr).new_phys0 → x ≠ (s'.heap s.next_ptr).new_phys1 →
        s'.mem x = s.mem x := by
  have hw : is_mapped_elsewhere s (and_not phys PAGE_MASK) = Except.ok none :=
    (walk_none_iff _ _ _).2 hnone
  have hne := shadow_frames_ne (env.ptr_to_phys (env.buddy_alloc s.buddy_allocs))
  rcases tlb with _ | t <;> rcases hpt with _ | h
  · simp at hone
  · obtain ⟨s', h1, h2, h3, h4, h5, h6, h7, h8, h9, h10⟩ :=
      resolve_fresh_hpt env s h virt phys attr hfresh hw
    have hm := hmapped h rfl
    rw [hm] at h3 h4
    refine ⟨s', h1, h2, ?_, ?_, ?_, ?_, ?_, ?_, ?_⟩
    · simp [h3]
    · simp [h3, h4, Function.update_noteq hne]
    · simp [h3, h4]
    · simp [h3]
    · simp [h3]
    · rw [h4]; exact update_src2 _ _ _ _
    · intro x hx0 hx1
      simp [h3] at hx0 hx1
      rw [h4, Function.update_noteq hx1, Function.update_noteq hx0]
  · obtain ⟨s', h1, h2, h3, h4, h5, h6, h7, h8, h9, h10⟩ :=
      resolve_fresh_vtlb env s t virt phys attr hfresh hw
    refine ⟨s', h1, h2, ?_, ?_, ?_, ?_, ?_, ?_, ?_⟩
    · simp [h3]
    · simp [h3, h4, Function.update_noteq hne]
    · simp [h3, h4]
    · simp [h3]
    · simp [h3]
    · rw [h4]; exact update_src2 _ _ _ _
    · intro x hx0 hx1
      simp [h3] at hx0 hx1
      rw [h4, Function.update_noteq hx1, Function.update_noteq hx0]
  · simp at hone

theorem resolve_cow_fault_fresh_witness :
    ((none : Option Nat).isSome ≠ (some 7).isSome ∧ s_empty.next_ptr ∉ s_empty.cow_elts ∧
      (∀ x ∈ s_empty.cow_elts, (s_empty.heap x).old_phys ≠ and_not 0x9123 PAGE_MASK) ∧
      (∀ h, some 7 = some h → (s_empty.hpt_tab h).1 = and_not 0x9123 PAGE_MASK)) ∧
    ∃ s', resolve_cow_fault env0 s_empty none (some 7) 0x5123 0x9123 0x805 = Except.ok s' ∧
      s'.cow_elts = s_empty.cow_elts ++ [s_empty.next_ptr] ∧
      (s'.heap s_empty.next_ptr).old_phys = and_not 0x9123 PAGE_MASK ∧
      s'.mem (s'.heap s_empty.next_ptr).new_phys0 = s_empty.mem (and_not 0x9123 PAGE_MASK) ∧
      s'.mem (s'.heap s_empty.next_ptr).new_phys1 = s_empty.mem (and_not 0x9123 PAGE_MASK) ∧
      (s'.heap s_empty.next_ptr).crc = env0.crc (s_empty.mem (and_not 0x9123 PAGE_MASK)) ∧
      (s'.heap s_empty.next_ptr).v_is_mapped_elsewhere = none ∧
      s'.mem (and_not 0x9123 PAGE_MASK) = s_empty.mem (and_not 0x9123 PAGE_MASK) ∧
      ∀ x, x ≠ (s'.heap s_empty.next_ptr).new_phys0 →
        x ≠ (s'.heap s_empty.next_ptr).new_phys1 → s'.mem x = s_empty.mem x :=
  ⟨⟨by decide, by decide, by decide, by intro h hh; cases hh; decide⟩,
    resolve_cow_fault_fresh env0 s_empty none (some 7) 0x5123 0x9123 0x805
      (by decide) (by decide) (by decide) (by intro h hh; cases hh; decide)⟩

theorem find_of_walk_some (heap : Nat → Cow_elt) (phys : Nat) (l : List Nat) (c : Nat)
    (h : is_mapped_elsewhere_walk heap phys l = Except.ok (some c)) :
    l.find? (fun x => decide ((heap x).old_phys = phys)) = some c := by
  rw [walk_eq_find] at h
  cases hf : l.find? (fun x => decide ((heap x).old_phys = phys)) with
  | none => simp [hf] at h
  | some d =>
    simp only [hf] at h
    split at h
    · simp at h
    · simp at h; simp [h]

theorem find_of_walk_none (heap : Nat → Cow_elt) (phys : Nat) (l : List Nat)
    (h : is_mapped_elsewhere_walk heap phys l = Except.ok none) :
    l.find? (fun x => decide ((heap x).old_phys = phys)) = none := by
  rw [walk_eq_find] at h
  cases hf : l.find? (fun x => decide ((heap x).old_phys = phys)) with
  | none => rfl
  | some d =>
    simp only [hf] at h
    split at h <;> simp at h

theorem walk_ok_of_no_twin (heap : Nat → Cow_elt) (phys : Nat) (l : List Nat)
    (hok : ∀ c, l.find? (fun x => decide ((heap x).old_phys = phys)) = some c →
      (heap c).v_is_mapped_elsewhere = none) :
    is_mapped_elsewhere_walk heap phys l =
      Except.ok (l.find? (fun x => decide ((heap x).old_phys = phys))) := by
  rw [walk_eq_find]
  cases hf : l.find? (fun x => decide ((heap x).old_phys = phys)) with
  | none => rfl
  | some d => simp [hok d hf]

/-- C4: whether a fault is fresh or aliased is decided by the physical address alone: the
twin link of the new entry is the first live entry whose `old_phys` is the page-aligned
faulting physical address, if there is one. When there is such an entry `c` (without a
twin yet), the new entry takes `new_phys[0]`, `new_phys[1]` and `crc` from `c`, the twin
links of the two point at each other, and no frame content changes. -/
theorem resolve_cow_fault_aliased (env : Env) (s : State) (tlb hpt : Option Nat)
    (virt phys attr : Nat)
    (hone : tlb.isSome ≠ hpt.isSome)
    (hfresh : s.next_ptr ∉ s.cow_elts)
    (hok : ∀ c, s.cow_elts.find? (fun x => decide ((s.heap x).old_phys = and_not phys PAGE_MASK))
      = some c → (s.heap c).v_is_mapped_elsewhere = none) :
    ∃ s', resolve_cow_fault env s tlb hpt virt phys attr = Except.ok s' ∧
      s'.cow_elts = s.cow_elts ++ [s.next_ptr] ∧
      (s'.heap s.next_ptr).v_is_mapped_elsewhere =
        s.cow_elts.find? (fun x => decide ((s.heap x).old_phys = and_not phys PAGE_MASK)) ∧
      ∀ c, s.cow_elts.find? (fun x => decide ((s.heap x).old_phys = and_not phys PAGE_MASK))
          = some c →
        (s'.heap s.next_ptr).new_phys0 = (s.heap c).new_phys0 ∧
        (s'.heap s.next_ptr).new_phys1 = (s.heap c).new_phys1 ∧
        (s'.heap s.next_ptr).crc = (s.heap c).crc ∧
        (s'.heap s.next_ptr).v_is_mapped_elsewhere = some c ∧
        (s'.heap c).v_is_mapped_elsewhere = some s.next_ptr ∧
        s'.mem = s.mem := by
  have hw := walk_ok_of_no_twin s.heap (and_not phys PAGE_MASK) s.cow_elts hok
  cases hf : s.cow_elts.find? (fun x => decide ((s.heap x).old_phys = and_not phys PAGE_MASK))
    with
  | none =>
    rw [hf] at hw
    rcases tlb with _ | t <;> rcases hpt with _ | h
    · simp at hone
    · obtain ⟨s', h1, h2, h3, _⟩ := resolve_fresh_hpt env s h virt phys attr hfresh hw
      exact ⟨s', h1, h2, by simp [h3], by simp⟩
    · obtain ⟨s', h1, h2, h3, _⟩ := resolve_fresh_vtlb env s t virt phys attr hfresh hw
      exact ⟨s', h1, h2, by simp [h3], by simp⟩
    · simp at hone
  | some c =>
    rw [hf] at hw
    have hc : c ≠ s.next_ptr := fun hh => hfresh (hh ▸ (walk_some _ _ _ _ hw).1)
    rcases tlb with _ | t <;> rcases hpt with _ | h
    · simp at hone
    · obtain ⟨s', h1, h2, h3, h4, _⟩ := resolve_aliased_hpt env s h virt phys attr c hfresh hw
      refine ⟨s', h1, h2, by simp [h3, Function.update_noteq hc.symm], ?_⟩
      intro d hd
      simp at hd
      subst hd
      simp [h3, h4, Function.update_noteq hc.symm]
    · obtain ⟨s', h1, h2, h3, h4, _⟩ := resolve_aliased_vtlb env s t virt phys attr c hfresh hw
      refine ⟨s', h1, h2, by simp [h3, Function.update_noteq hc.symm], ?_⟩
      intro d hd
      simp at hd
      subst hd
      simp [h3, h4, Function.update_noteq hc.symm]
    · simp at hone

theorem s_one_find :
    s_one.cow_elts.find? (fun x => decide ((s_one.heap x).old_phys = and_not 0x9456 PAGE_MASK))
      = some 1 := by
  decide

theorem resolve_cow_fault_aliased_witness :
    ((none : Option Nat).isSome ≠ (some 8).isSome ∧ s_one.next_ptr ∉ s_one.cow_elts ∧
      (∀ c, s_one.cow_elts.find?
          (fun x => decide ((s_one.heap x).old_phys = and_not 0x9456 PAGE_MASK)) = some c →
        (s_one.heap c).v_is_mapped_elsewhere = none)) ∧
    ∃ s', resolve_cow_fault env0 s_one none (some 8) 0x6123 0x9456 0x805 = Except.ok s' ∧
      s'.cow_elts = s_one.cow_elts ++ [s_one.next_ptr] ∧
      (s'.heap s_one.next_ptr).v_is_mapped_elsewhere =
        s_one.cow_elts.find?
          (fun x => decide ((s_one.heap x).old_phys = and_not 0x9456 PAGE_MASK)) ∧
      ∀ c, s_one.cow_elts.find?
          (fun x => decide ((s_one.heap x).old_phys = and_not 0x9456 PAGE_MASK)) = some c →
        (s'.heap s_one.next_ptr).new_phys0 = (s_one.heap c).new_phys0 ∧
        (s'.heap s_one.next_ptr).new_phys1 = (s_one.heap c).new_phys1 ∧
        (s'.heap s_one.next_ptr).crc = (s_one.heap c).crc ∧
        (s'.heap s_one.next_ptr).v_is_mapped_elsewhere = some c ∧
        (s'.heap c).v_is_mapped_elsewhere = some s_one.next_ptr ∧
        s'.mem = s_one.mem :=
  ⟨⟨by decide, by decide,
      by intro c hc; rw [s_one_find] at hc; cases hc; decide⟩,
    resolve_cow_fault_aliased env0 s_one none (some 8) 0x6123 0x9456 0x805
      (by decide) (by decide)
      (by intro c hc; rw [s_one_find] at hc; cases hc; decide)⟩

theorem resolve_bad_origin (env : Env) (s : State) (tlb hpt : Option Nat)
    (virt phys attr : Nat) (c : Option Nat) (hfresh : s.next_ptr ∉ s.cow_elts)
    (hone : tlb.isSome = hpt.isSome)
    (hw : is_mapped_elsewhere s (and_not phys PAGE_MASK) = Except.ok c) :
    resolve_cow_fault env s tlb hpt virt phys attr = Except.error Fault.assert_origin ∨
    resolve_cow_fault env s tlb hpt virt phys attr = Except.error Fault.panic_no_origin := by
  unfold is_mapped_elsewhere at hw
  rcases tlb with _ | t <;> rcases hpt with _ | h
  · right
    simp only [resolve_cow_fault, Cow_elt.create, is_mapped_elsewhere,
      walk_update_fresh _ _ _ _ _ hfresh, hw]
    rfl
  · simp at hone
  · simp at hone
  · left
    simp only [resolve_cow_fault, Cow_elt.create, is_mapped_elsewhere,
      walk_update_fresh _ _ _ _ _ hfresh, hw]
    rfl

/-- The shape of the state after a call of `resolve_cow_fault` that returns. -/
theorem resolve_ok_shape (env : Env) (s s' : State) (tlb hpt : Option Nat)
    (virt phys attr : Nat) (hfresh : s.next_ptr ∉ s.cow_elts)
    (hr : resolve_cow_fault env s tlb hpt virt phys attr = Except.ok s') :
    tlb.isSome ≠ hpt.isSome ∧
    s'.cow_elts = s.cow_elts ++ [s.next_ptr] ∧ s'.next_ptr = s.next_ptr + 1 ∧
    s'.buddy_allocs = s.buddy_allocs + 1 ∧
    ∃ E : Cow_elt, E.old_phys = and_not phys PAGE_MASK ∧ E.hpt = hpt ∧ E.vtlb = tlb ∧
      E.linear_add = env.buddy_alloc s.buddy_allocs ∧
      ((is_mapped_elsewhere s (and_not phys PAGE_MASK) = Except.ok none ∧
        s'.heap = Function.update s.heap s.next_ptr E ∧ E.v_is_mapped_elsewhere = none ∧
        E.new_phys0 = env.ptr_to_phys (env.buddy_alloc s.buddy_allocs) ∧
        E.new_phys1 = env.ptr_to_phys (env.buddy_alloc s.buddy_allocs) + PAGE_SIZE) ∨
       (∃ c, is_mapped_elsewhere s (and_not phys PAGE_MASK) = Except.ok (some c) ∧
        s'.heap = Function.update (Function.update s.heap s.next_ptr E) c
          { s.heap c with v_is_mapped_elsewhere := some s.next_ptr } ∧
        E.v_is_mapped_elsewhere = some c ∧ E.new_phys0 = (s.heap c).new_phys0 ∧
        E.new_phys1 = (s.heap c).new_phys1 ∧ E.crc = (s.heap c).crc ∧ s'.mem = s.mem)) := by
  cases hw : is_mapped_elsewhere s (and_not phys PAGE_MASK) with
  | error f =>
    rw [resolve_error_twin env s tlb hpt virt phys attr f hfresh hw] at hr
    cases hr
  | ok c =>
    by_cases hone : tlb.isSome = hpt.isSome
    · rcases resolve_bad_origin env s tlb hpt virt phys attr c hfresh hone hw with h | h <;>
        (rw [h] at hr; cases hr)
    · refine ⟨hone, ?_⟩
      rcases tlb with _ | t <;> rcases hpt with _ | h
      · simp at hone
      · rcases c with _ | c
        · obtain ⟨s2, h1, h2, h3, h4, h5, h6, h7, h8, h9, h10⟩ :=
            resolve_fresh_hpt env s h virt phys attr hfresh hw
          rw [hr] at h1; cases h1
          exact ⟨h2, h9, h8, _, rfl, rfl, rfl, rfl, Or.inl ⟨rfl, h3, rfl, rfl, rfl⟩⟩
        · obtain ⟨s2, h1, h2, h3, h4, h5, h6, h7, h8, h9, h10⟩ :=
            resolve_aliased_hpt env s h virt phys attr c hfresh hw
          rw [hr] at h1; cases h1
          exact ⟨h2, h9, h8, _, rfl, rfl, rfl, rfl, Or.inr ⟨c, rfl, h3, rfl, rfl, rfl, rfl, h4⟩⟩
      · rcases c with _ | c
        · obtain ⟨s2, h1, h2, h3, h4, h5, h6, h7, h8, h9, h10⟩ :=
            resolve_fresh_vtlb env s t virt phys attr hfresh hw
          rw [hr] at h1; cases h1
          exact ⟨h2, h9, h8, _, rfl, rfl, rfl, rfl, Or.inl ⟨rfl, h3, rfl, rfl, rfl⟩⟩
        · obtain ⟨s2, h1, h2, h3, h4, h5, h6, h7, h8, h9, h10⟩ :=
            resolve_aliased_vtlb env s t virt phys attr c hfresh hw
          rw [hr] at h1; cases h1
          exact ⟨h2, h9, h8, _, rfl, rfl, rfl, rfl, Or.inr ⟨c, rfl, h3, rfl, rfl, rfl, rfl, h4⟩⟩
      · simp at hone

/-- C5, as stated, fails: the second fault on the frame 0x9000 (aliased case) calls the
frame allocator once more, so two allocations occur for the two mappings. -/
theorem resolve_cow_fault_aliased_allocs_counterexample :
    is_mapped_elsewhere s_one (and_not 0x9456 PAGE_MASK) = Except.ok (some 1) ∧
    resolve_cow_fault env0 s_one none (some 8) 0x6123 0x9456 0x805 = Except.ok s_two ∧
    s_one.buddy_allocs = 1 ∧ s_two.buddy_allocs = 2 :=
  ⟨rfl, rfl, rfl, rfl⟩

/-- C5, amended: also in the aliased case the constructor calls the frame allocator
exactly once; the block it gets is kept in `linear_add` of the new entry, while
`new_phys[0]` and `new_phys[1]` are those of the entry that already shadows the page, so
no further pair of shadow frames comes into use. -/
theorem resolve_cow_fault_aliased_allocs (env : Env) (s s' : State) (tlb hpt : Option Nat)
    (virt phys attr c : Nat) (hfresh : s.next_ptr ∉ s.cow_elts)
    (hc : is_mapped_elsewhere s (and_not phys PAGE_MASK) = Except.ok (some c))
    (hr : resolve_cow_fault env s tlb hpt virt phys attr = Except.ok s') :
    s'.buddy_allocs = s.buddy_allocs + 1 ∧
    (s'.heap s.next_ptr).linear_add = env.buddy_alloc s.buddy_allocs ∧
    (s'.heap s.next_ptr).new_phys0 = (s.heap c).new_phys0 ∧
    (s'.heap s.next_ptr).new_phys1 = (s.heap c).new_phys1 := by
  obtain ⟨_, _, _, h4, E, _, _, _, e4, h | ⟨d, hd, hh, _, e1, e2, _⟩⟩ :=
    resolve_ok_shape env s s' tlb hpt virt phys attr hfresh hr
  · rw [hc] at h; simp at h
  · rw [hc] at hd
    simp at hd
    subst hd
    have hcn : c ≠ s.next_ptr := fun hh2 =>
      hfresh (hh2 ▸ (walk_some _ _ _ _ (by unfold is_mapped_elsewhere at hc; exact hc)).1)
    simp [hh, h4, Function.update_noteq hcn.symm, e1, e2, e4]

theorem resolve_cow_fault_aliased_allocs_witness :
    (s_one.next_ptr ∉ s_one.cow_elts ∧
      is_mapped_elsewhere s_one (and_not 0x9456 PAGE_MASK) = Except.ok (some 1) ∧
      resolve_cow_fault env0 s_one none (some 8) 0x6123 0x9456 0x805 = Except.ok s_two) ∧
    s_two.buddy_allocs = s_one.buddy_allocs + 1 ∧
    (s_two.heap s_one.next_ptr).linear_add = env0.buddy_alloc s_one.buddy_allocs ∧
    (s_two.heap s_one.next_ptr).new_phys0 = (s_one.heap 1).new_phys0 ∧
    (s_two.heap s_one.next_ptr).new_phys1 = (s_one.heap 1).new_phys1 :=
  ⟨⟨by decide, rfl, rfl⟩,
    resolve_cow_fault_aliased_allocs env0 s_one s_two none (some 8) 0x6123 0x9456 0x805 1
      (by decide) rfl rfl⟩

/-- One returning call of `resolve_cow_fault` keeps the pointers of the live set below the
next slab pointer, the live set free of repetitions, and any two live entries with the
same `old_phys` linked to each other. -/
theorem resolve_keeps_twins (env : Env) (s s' : State) (tlb hpt : Option Nat)
    (virt phys attr : Nat)
    (hb : ∀ p ∈ s.cow_elts, p < s.next_ptr) (hnd : s.cow_elts.Nodup)
    (hinv : ∀ x ∈ s.cow_elts, ∀ y ∈ s.cow_elts, x ≠ y →
      (s.heap x).old_phys = (s.heap y).old_phys →
      (s.heap x).v_is_mapped_elsewhere = some y ∧ (s.heap y).v_is_mapped_elsewhere = some x)
    (hr : resolve_cow_fault env s tlb hpt virt phys attr = Except.ok s') :
    (∀ p ∈ s'.cow_elts, p < s'.next_ptr) ∧ s'.cow_elts.Nodup ∧
    ∀ x ∈ s'.cow_elts, ∀ y ∈ s'.cow_elts, x ≠ y →
      (s'.heap x).old_phys = (s'.heap y).old_phys →
      (s'.heap x).v_is_mapped_elsewhere = some y ∧
      (s'.heap y).v_is_mapped_elsewhere = some x := by
  have hfresh : s.next_ptr ∉ s.cow_elts := fun h => lt_irrefl _ (hb _ h)
  obtain ⟨_, h2, h3, _, E, e1, _, _, _, hcase⟩ :=
    resolve_ok_shape env s s' tlb hpt virt phys attr hfresh hr
  have hne : ∀ p ∈ s.cow_elts, p ≠ s.next_ptr := fun p hp hh => hfresh (hh ▸ hp)
  refine ⟨?_, ?_, ?_⟩
  · intro p hp
    rw [h2] at hp
    rw [h3]
    rcases List.mem_append.1 hp with h | h
    · exact Nat.lt_succ_of_lt (hb p h)
    · simp at h; omega
  · rw [h2]
    exact List.Nodup.append hnd (List.nodup_singleton _) (by simpa using hfresh)
  · rcases hcase with ⟨hw, hh, et⟩ | ⟨c, hw, hh, et, _⟩
    · have hnone := (walk_none_iff _ _ _).1 hw
      intro x hx y hy hxy hop
      rw [h2] at hx hy
      rcases List.mem_append.1 hx with hx | hx <;> rcases List.mem_append.1 hy with hy | hy
      · simp only [hh, Function.update_noteq (hne x hx), Function.update_noteq (hne y hy)]
          at hop ⊢
        exact hinv x hx y hy hxy hop
      · simp at hy; subst hy
        simp [hh, Function.update_noteq (hne x hx), e1] at hop
        exact absurd hop (hnone x hx)
      · simp at hx; subst hx
        simp [hh, Function.update_noteq (hne y hy), e1] at hop
        exact absurd hop.symm (hnone y hy)
      · simp at hx hy; exact absurd (hx.trans hy.symm) hxy
    · obtain ⟨hcl, hcp, hct⟩ := walk_some _ _ _ _ hw
      have hcn : c ≠ s.next_ptr := hne c hcl
      have hsole : ∀ y ∈ s.cow_elts, (s.heap y).old_phys = and_not phys PAGE_MASK → y = c := by
        intro y hy hyp
        by_contra hyc
        have := (hinv c hcl y hy (Ne.symm hyc) (hcp.trans hyp.symm)).1
        rw [hct] at this
        cases this
      have hold : ∀ x ∈ s.cow_elts, x ≠ c → s'.heap x = s.heap x := by
        intro x hx hxc
        rw [hh, Function.update_noteq hxc, Function.update_noteq (hne x hx)]
      have hnew : s'.heap s.next_ptr = E := by
        rw [hh, Function.update_noteq hcn.symm, Function.update_same]
      have hcc : s'.heap c = { s.heap c with v_is_mapped_elsewhere := some s.next_ptr } := by
        rw [hh, Function.update_same]
      intro x hx y hy hxy hop
      rw [h2] at hx hy
      rcases List.mem_append.1 hx with hx | hx <;> rcases List.mem_append.1 hy with hy | hy
      · by_cases hxc : x = c
        · subst hxc
          have hyc : y ≠ x := Ne.symm hxy
          rw [hcc, hold y hy hyc] at hop
          exact absurd (hsole y hy (hop.symm.trans hcp)) hyc
        · by_cases hyc : y = c
          · subst hyc
            rw [hcc, hold x hx hxc] at hop
            exact absurd (hsole x hx (hop.trans hcp)) hxc
          · rw [hold x hx hxc, hold y hy hyc] at hop ⊢
            exact hinv x hx y hy hxy hop
      · simp at hy; subst hy
        by_cases hxc : x = c
        · subst hxc
          rw [hcc, hnew]
          exact ⟨rfl, et⟩
        · rw [hold x hx hxc, hnew, e1] at hop
          exact absurd (hsole x hx hop) hxc
      · simp at hx; subst hx
        by_cases hyc : y = c
        · subst hyc
          rw [hcc, hnew]
          exact ⟨et, rfl⟩
        · rw [hold y hy hyc, hnew, e1] at hop
          exact absurd (hsole y hy hop.symm) hyc
      · simp at hx hy; exact absurd (hx.trans hy.symm) hxy

theorem resolve_all_keeps_twins (env : Env) (calls : List Fault_call) :
    ∀ (s s' : State), (∀ p ∈ s.cow_elts, p < s.next_ptr) → s.cow_elts.Nodup →
    (∀ x ∈ s.cow_elts, ∀ y ∈ s.cow_elts, x ≠ y →
      (s.heap x).old_phys = (s.heap y).old_phys →
      (s.heap x).v_is_mapped_elsewhere = some y ∧ (s.heap y).v_is_mapped_elsewhere = some x) →
    resolve_all env s calls = Except.ok s' →
    s'.cow_elts.Nodup ∧
    ∀ x ∈ s'.cow_elts, ∀ y ∈ s'.cow_elts, x ≠ y →
      (s'.heap x).old_phys = (s'.heap y).old_phys →
      (s'.heap x).v_is_mapped_elsewhere = some y ∧
      (s'.heap y).v_is_mapped_elsewhere = some x := by
  induction calls with
  | nil =>
    intro s s' _ hnd hinv hr
    simp [resolve_all] at hr
    subst hr
    exact ⟨hnd, hinv⟩
  | cons k rest ih =>
    intro s s' hb hnd hinv hr
    unfold resolve_all at hr
    split at hr
    · cases hr
    · rename_i s1 h1
      obtain ⟨a, b, c⟩ := resolve_keeps_twins env s s1 _ _ _ _ _ hb hnd hinv h1
      exact ih s1 s' a b c hr

theorem resolve_s_empty :
    resolve_cow_fault env0 s_empty none (some 7) 0x5123 0x9123 0x805 = Except.ok s_one := rfl

theorem resolve_s_one :
    resolve_cow_fault env0 s_one none (some 8) 0x6123 0x9456 0x805 = Except.ok s_two := rfl

theorem resolve_all_s_empty :
    resolve_all env0 s_empty
      [{ tlb := none, hpt := some 7, virt := 0x5123, phys := 0x9123, attr := 0x805 },
       { tlb := none, hpt := some 8, virt := 0x6123, phys := 0x9456, attr := 0x805 }]
      = Except.ok s_two := by
  simp only [resolve_all, resolve_s_empty, resolve_s_one]

/-- C6, as stated, fails: after two faults on the frame 0x9000, starting from an empty
live set, each of the two entries points to the other, not exactly one of them. -/
theorem twin_exactly_one_counterexample :
    s_empty.cow_elts = [] ∧
    resolve_all env0 s_empty
      [{ tlb := none, hpt := some 7, virt := 0x5123, phys := 0x9123, attr := 0x805 },
       { tlb := none, hpt := some 8, virt := 0x6123, phys := 0x9456, attr := 0x805 }]
      = Except.ok s_two ∧
    s_two.cow_elts = [1, 2] ∧ (s_two.heap 1).old_phys = (s_two.heap 2).old_phys ∧
    (s_two.heap 1).v_is_mapped_elsewhere = some 2 ∧
    (s_two.heap 2).v_is_mapped_elsewhere = some 1 ∧
    ¬ (((s_two.heap 1).v_is_mapped_elsewhere = some 2 ∧
          (s_two.heap 2).v_is_mapped_elsewhere ≠ some 1) ∨
       ((s_two.heap 1).v_is_mapped_elsewhere ≠ some 2 ∧
          (s_two.heap 2).v_is_mapped_elsewhere = some 1)) :=
  ⟨rfl, resolve_all_s_empty, rfl, rfl, rfl, rfl, by decide⟩

/-- C6, amended: starting from an empty live set, after any sequence of calls of
`resolve_cow_fault` that return, any two distinct entries of the live set with the same
`old_phys` point to each other via their twin links, and no entry appears twice in the
live set. -/
theorem twin_invariant_from_empty (env : Env) (s s' : State) (calls : List Fault_call)
    (hempty : s.cow_elts = [])
    (hr : resolve_all env s calls = Except.ok s') :
    s'.cow_elts.Nodup ∧
    ∀ x ∈ s'.cow_elts, ∀ y ∈ s'.cow_elts, x ≠ y →
      (s'.heap x).old_phys = (s'.heap y).old_phys →
      (s'.heap x).v_is_mapped_elsewhere = some y ∧
      (s'.heap y).v_is_mapped_elsewhere = some x :=
  resolve_all_keeps_twins env calls s s' (by simp [hempty]) (by simp [hempty])
    (by simp [hempty]) hr

theorem twin_invariant_from_empty_witness :
    (s_empty.cow_elts = [] ∧
      resolve_all env0 s_empty
        [{ tlb := none, hpt := some 7, virt := 0x5123, phys := 0x9123, attr := 0x805 },
         { tlb := none, hpt := some 8, virt := 0x6123, phys := 0x9456, attr := 0x805 }]
        = Except.ok s_two) ∧
    s_two.cow_elts.Nodup ∧
    ∀ x ∈ s_two.cow_elts, ∀ y ∈ s_two.cow_elts, x ≠ y →
      (s_two.heap x).old_phys = (s_two.heap y).old_phys →
      (s_two.heap x).v_is_mapped_elsewhere = some y ∧
      (s_two.heap y).v_is_mapped_elsewhere = some x :=
  ⟨⟨rfl, resolve_all_s_empty⟩,
    twin_invariant_from_empty env0 s_empty s_two _ rfl resolve_all_s_empty⟩

theorem walk_error_iff (heap : Nat → Cow_elt) (phys : Nat) (l : List Nat) :
    is_mapped_elsewhere_walk heap phys l = Except.error Fault.assert_twin ↔
      ∃ c, l.find? (fun x => decide ((heap x).old_phys = phys)) = some c ∧
        (heap c).v_is_mapped_elsewhere.isSome = true := by
  rw [walk_eq_find]
  cases hf : l.find? (fun x => decide ((heap x).old_phys = phys)) with
  | none => simp
  | some d =>
    by_cases ht : (heap d).v_is_mapped_elsewhere.isSome = true
    · simp [ht]
    · simp [ht]

/-- C7: `resolve_cow_fault` stops at the assertion of `is_mapped_elsewhere` exactly when
the first live entry whose `old_phys` is the page-aligned faulting physical address
already has a twin link; a call that returns leaves every live entry that has a twin link
as it was, so no twin link is overwritten. -/
theorem resolve_cow_fault_twin_assert (env : Env) (s : State) (tlb hpt : Option Nat)
    (virt phys attr : Nat) (hfresh : s.next_ptr ∉ s.cow_elts) :
    (resolve_cow_fault env s tlb hpt virt phys attr = Except.error Fault.assert_twin ↔
      ∃ c, s.cow_elts.find? (fun x => decide ((s.heap x).old_phys = and_not phys PAGE_MASK))
          = some c ∧ (s.heap c).v_is_mapped_elsewhere.isSome = true) ∧
    ∀ s', resolve_cow_fault env s tlb hpt virt phys attr = Except.ok s' →
      ∀ x ∈ s.cow_elts, (s.heap x).v_is_mapped_elsewhere.isSome = true →
        s'.heap x = s.heap x := by
  refine ⟨?_, ?_⟩
  · rw [← walk_error_iff]
    constructor
    · intro hr
      cases hw : is_mapped_elsewhere s (and_not phys PAGE_MASK) with
      | error f =>
        unfold is_mapped_elsewhere at hw
        rw [← walk_error _ _ _ _ hw]
        exact hw
      | ok c =>
        exfalso
        by_cases hone : tlb.isSome = hpt.isSome
        · rcases resolve_bad_origin env s tlb hpt virt phys attr c hfresh hone hw with h | h <;>
            (rw [h] at hr; cases hr)
        · rcases tlb with _ | t <;> rcases hpt with _ | h
          · simp at hone
          · rcases c with _ | c
            · obtain ⟨s2, h1, _⟩ := resolve_fresh_hpt env s h virt phys attr hfresh hw
              rw [h1] at hr; cases hr
            · obtain ⟨s2, h1, _⟩ := resolve_aliased_hpt env s h virt phys attr c hfresh hw
              rw [h1] at hr; cases hr
          · rcases c with _ | c
            · obtain ⟨s2, h1, _⟩ := resolve_fresh_vtlb env s t virt phys attr hfresh hw
              rw [h1] at hr; cases hr
            · obtain ⟨s2, h1, _⟩ := resolve_aliased_vtlb env s t virt phys attr c hfresh hw
              rw [h1] at hr; cases hr
          · simp at hone
    · intro hw
      exact resolve_error_twin env s tlb hpt virt phys attr _ hfresh hw
  · intro s' hr x hx ht
    have hxn : x ≠ s.next_ptr := fun hh => hfresh (hh ▸ hx)
    obtain ⟨_, _, _, _, E, _, _, _, _, ⟨_, hh, _⟩ | ⟨c, hw, hh, _⟩⟩ :=
      resolve_ok_shape env s s' tlb hpt virt phys attr hfresh hr
    · rw [hh, Function.update_noteq hxn]
    · have hct := (walk_some _ _ _ _ hw).2.2
      have hxc : x ≠ c := fun hh2 => by rw [hh2, hct] at ht; simp at ht
      rw [hh, Function.update_noteq hxc, Function.update_noteq hxn]

theorem resolve_cow_fault_twin_assert_witness :
    s_two.next_ptr ∉ s_two.cow_elts ∧
    ((resolve_cow_fault env0 s_two none (some 9) 0x7123 0x9456 0x805
        = Except.error Fault.assert_twin ↔
      ∃ c, s_two.cow_elts.find?
          (fun x => decide ((s_two.heap x).old_phys = and_not 0x9456 PAGE_MASK)) = some c ∧
        (s_two.heap c).v_is_mapped_elsewhere.isSome = true) ∧
    ∀ s', resolve_cow_fault env0 s_two none (some 9) 0x7123 0x9456 0x805 = Except.ok s' →
      ∀ x ∈ s_two.cow_elts, (s_two.heap x).v_is_mapped_elsewhere.isSome = true →
        s'.heap x = s_two.heap x) :=
  ⟨by decide,
    resolve_cow_fault_twin_assert env0 s_two none (some 9) 0x7123 0x9456 0x805 (by decide)⟩

/-- The third fault on the frame 0x9000 stops at the assertion. -/
theorem third_alias_asserts :
    resolve_cow_fault env0 s_two none (some 9) 0x7123 0x9456 0x805
      = Except.error Fault.assert_twin := rfl

/-! ## Compare -/

theorem first_diff_none (p1 p2 : List Nat) : first_diff p1 p2 = none ↔ p1 = p2 := by
  induction p1 generalizing p2 with
  | nil => cases p2 <;> simp [first_diff]
  | cons a l1 ih =>
    cases p2 with
    | nil => simp [first_diff]
    | cons b l2 =>
      by_cases hab : a = b
      · simp [first_diff, hab, ih]
      · simp [first_diff, hab]

theorem memcmp_none (p1 p2 : Page) (len : Nat) : memcmp p1 p2 len = none ↔ p1 = p2 := by
  simp [memcmp, first_diff_none]

theorem slot0 : 0 / PAGE_SIZE = 0 := by decide

theorem slot1 : PAGE_SIZE / PAGE_SIZE = 1 := by decide

theorem slot2 : 2 * PAGE_SIZE / PAGE_SIZE = 2 := by decide

/-- One step of the loop of `compare` for a thread that is not a virtual CPU. -/
theorem compare_walk_cons (env : Env) (s : State) (c : Nat) (rest : List Nat)
    (hnv : s.is_virutalcpu = false) :
    (env.crc (s.mem (s.heap c).new_phys0) = env.crc (s.mem (s.heap c).new_phys1) ∧
      ∃ s1, compare_walk env s (c :: rest) = compare_walk env s1 rest ∧
        s1.mem = s.mem ∧ s1.cow_elts = s.cow_elts ∧ s1.is_virutalcpu = s.is_virutalcpu ∧
        s1.heap = Function.update s.heap c
          { s.heap c with crc1 := env.crc (s.mem (s.heap c).new_phys0) }) ∨
    (env.crc (s.mem (s.heap c).new_phys0) ≠ env.crc (s.mem (s.heap c).new_phys1) ∧
      ∃ s1, compare_walk env s (c :: rest) = Except.ok (true, s1) ∧
        s1.mem = s.mem ∧ s1.cow_elts = s.cow_elts ∧ s1.heap = s.heap) := by
  have h01 : (0 : Nat) ≠ 1 := by decide
  by_cases hcrc : env.crc (s.mem (s.heap c).new_phys0) = env.crc (s.mem (s.heap c).new_phys1)
  · left
    refine ⟨hcrc, ?_⟩
    simp only [compare_walk, remap_cow, read_page, frame_of, slot0, slot1,
      Function.update_same, Function.update_noteq h01]
    rw [if_pos hcrc]
    exact ⟨_, rfl, by simp [State.modify]⟩
  · right
    refine ⟨hcrc, ?_⟩
    have hne : s.mem (s.heap c).new_phys0 ≠ s.mem (s.heap c).new_phys1 :=
      fun h => hcrc (by rw [h])
    cases hm : memcmp (s.mem (s.heap c).new_phys0) (s.mem (s.heap c).new_phys1) PAGE_SIZE with
    | none => exact absurd ((memcmp_none _ _ _).1 hm) hne
    | some k =>
      simp only [compare_walk, remap_cow, read_page, frame_of, slot0, slot1,
        Function.update_same, Function.update_noteq h01]
      rw [if_neg hcrc]
      simp only [hm, hnv]
      exact ⟨_, rfl, by simp⟩

theorem same_shadows {a b : Cow_elt} (h : { a with crc1 := 0 } = { b with crc1 := 0 }) :
    a.new_phys0 = b.new_phys0 ∧ a.new_phys1 = b.new_phys1 := by
  have h0 := congrArg Cow_elt.new_phys0 h
  have h1 := congrArg Cow_elt.new_phys1 h
  exact ⟨h0, h1⟩

theorem compare_walk_spec (env : Env) (l : List Nat) :
    ∀ s : State, s.is_virutalcpu = false →
    ∃ b s', compare_walk env s l = Except.ok (b, s') ∧ s'.mem = s.mem ∧
      s'.cow_elts = s.cow_elts ∧
      (∀ p, { s'.heap p with crc1 := 0 } = { s.heap p with crc1 := 0 }) ∧
      (b = true ↔ ∃ c ∈ l, env.crc (s.mem (s.heap c).new_phys0) ≠
        env.crc (s.mem (s.heap c).new_phys1)) ∧
      (b = false → ∀ p, (s'.heap p).crc1 =
        if p ∈ l then env.crc (s.mem (s.heap p).new_phys0) else (s.heap p).crc1) := by
  induction l with
  | nil =>
    intro s _
    exact ⟨false, s, rfl, rfl, rfl, fun _ => rfl, by simp, by simp⟩
  | cons c rest ih =>
    intro s hnv
    rcases compare_walk_cons env s c rest hnv with
      ⟨hcrc, s1, h1, hm1, hl1, hv1, hh1⟩ | ⟨hcrc, s1, h1, hm1, hl1, hh1⟩
    · obtain ⟨b, s', h2, hm2, hl2, hf2, hb2, hc2⟩ := ih s1 (hv1.trans hnv)
      have hsame : ∀ p, { s1.heap p with crc1 := 0 } = { s.heap p with crc1 := 0 } := by
        intro p
        by_cases hp : p = c
        · subst hp; simp [hh1]
        · simp [hh1, Function.update_noteq hp]
      have hnp : ∀ p, (s1.heap p).new_phys0 = (s.heap p).new_phys0 ∧
          (s1.heap p).new_phys1 = (s.heap p).new_phys1 := fun p => same_shadows (hsame p)
      refine ⟨b, s', h1.trans h2, hm2.trans hm1, hl2.trans hl1,
        fun p => (hf2 p).trans (hsame p), ?_, ?_⟩
      · rw [hb2]
        constructor
        · rintro ⟨d, hd, hne⟩
          refine ⟨d, List.mem_cons_of_mem _ hd, ?_⟩
          rw [hm1, (hnp d).1, (hnp d).2] at hne
          exact hne
        · rintro ⟨d, hd, hne⟩
          rcases List.mem_cons.1 hd with hd | hd
          · subst hd; exact absurd hcrc hne
          · refine ⟨d, hd, ?_⟩
            rw [hm1, (hnp d).1, (hnp d).2]
            exact hne
      · intro hb p
        rw [hc2 hb p, hm1, (hnp p).1]
        by_cases hpr : p ∈ rest
        · simp [hpr]
        · by_cases hp : p = c
          · subst hp; simp [hpr, hh1]
          · simp [hpr, hp, hh1, Function.update_noteq hp]
    · refine ⟨true, s1, h1, hm1, hl1, fun p => by rw [hh1], ?_, by simp⟩
      simp only [true_iff]
      exact ⟨c, by simp, hcrc⟩

/-- C9: for a thread that is not a virtual CPU, `compare` returns, and it returns true
exactly when the CRC of the first shadow differs from the CRC of the second shadow for
some entry of the live set. When it returns false, `crc1` of every live entry is the CRC
of its first shadow, and the live set and the content of every frame are as before. -/
theorem compare_native (env : Env) (s : State) (hnv : s.is_virutalcpu = false) :
    ∃ b s', compare env s = Except.ok (b, s') ∧
      (b = true ↔ ∃ c ∈ s.cow_elts, env.crc (s.mem (s.heap c).new_phys0) ≠
        env.crc (s.mem (s.heap c).new_phys1)) ∧
      (b = false →
        (∀ c ∈ s'.cow_elts, (s'.heap c).crc1 = env.crc (s'.mem (s'.heap c).new_phys0)) ∧
        s'.cow_elts = s.cow_elts ∧ s'.mem = s.mem) := by
  obtain ⟨b, s', h1, hm, hl, hf, hb, hc⟩ := compare_walk_spec env s.cow_elts s hnv
  refine ⟨b, s', ?_, hb, ?_⟩
  · simp [compare, hnv, h1]
  · intro hbf
    refine ⟨?_, hl, hm⟩
    intro c hc1
    rw [hl] at hc1
    rw [hc hbf c, hm, (same_shadows (hf c)).1]
    simp [hc1]

theorem compare_native_witness :
    s_two.is_virutalcpu = false ∧
    ∃ b s', compare env0 s_two = Except.ok (b, s') ∧
      (b = true ↔ ∃ c ∈ s_two.cow_elts, env0.crc (s_two.mem (s_two.heap c).new_phys0) ≠
        env0.crc (s_two.mem (s_two.heap c).new_phys1)) ∧
      (b = false →
        (∀ c ∈ s'.cow_elts, (s'.heap c).crc1 = env0.crc (s'.mem (s'.heap c).new_phys0)) ∧
        s'.cow_elts = s_two.cow_elts ∧ s'.mem = s_two.mem) :=
  ⟨rfl, compare_native env0 s_two rfl⟩

/-! ## Commit -/

@[simp] theorem unmap_entry_mem (s : State) (c phys : Nat) : (unmap_entry s c phys).mem = s.mem := by
  unfold unmap_entry
  dsimp only
  split <;> split <;> rfl

@[simp] theorem unmap_entry_heap (s : State) (c phys : Nat) :
    (unmap_entry s c phys).heap = s.heap := by
  unfold unmap_entry
  dsimp only
  split <;> split <;> rfl

@[simp] theorem unmap_entry_cow_elts (s : State) (c phys : Nat) :
    (unmap_entry s c phys).cow_elts = s.cow_elts := by
  unfold unmap_entry
  dsimp only
  split <;> split <;> rfl

@[simp] theorem park_mem (s : State) (c : Nat) : (park s c).mem = s.mem := rfl

@[simp] theorem park_heap (s : State) (c : Nat) : (park s c).heap = s.heap := rfl

@[simp] theorem park_cow_elts (s : State) (c : Nat) : (park s c).cow_elts = s.cow_elts := rfl

@[simp] theorem destroy_mem (s : State) (c : Nat) : (destroy s c).mem = s.mem := rfl

@[simp] theorem destroy_heap (s : State) (c : Nat) : (destroy s c).heap = s.heap := rfl

@[simp] theorem destroy_cow_elts (s : State) (c : Nat) :
    (destroy s c).cow_elts = s.cow_elts := rfl

theorem write_back_cow_elts (s : State) (c : Nat) : (write_back s c).cow_elts = s.cow_elts := by
  unfold write_back
  split <;> rfl

theorem write_back_mem (s : State) (c : Nat) :
    (write_back s c).mem =
      if (s.heap c).crc ≠ (s.heap c).crc1 then
        Function.update s.mem (s.heap c).old_phys (s.mem (s.heap c).new_phys0)
      else s.mem := by
  have h01 : (0 : Nat) ≠ 1 := by decide
  unfold write_back
  split
  · simp [remap_cow, memcpy, State.modify, read_page, frame_of, slot0, slot1,
      Function.update_noteq h01]
  · rfl

theorem write_back_heap (s : State) (c : Nat) :
    (write_back s c).heap =
      if (s.heap c).crc ≠ (s.heap c).crc1 then
        Function.update s.heap c { s.heap c with crc := (s.heap c).crc1 }
      else s.heap := by
  unfold write_back
  split
  · simp [remap_cow, memcpy, State.modify]
  · rfl

theorem dequeue_some (q : List Nat) (p : Nat) (q2 : List Nat) (b : Bool)
    (h : dequeue q (some p) = (b, q2)) :
    (b = true ∧ p ∈ q ∧ q2 = q.erase p) ∨ (b = false ∧ q2 = q) := by
  unfold dequeue at h
  dsimp only at h
  split at h
  · left; cases h; simp_all
  · right; cases h; simp

@[simp] theorem count_used_mem (s : State) : (count_used s).mem = s.mem := rfl

@[simp] theorem count_used_heap (s : State) : (count_used s).heap = s.heap := rfl

@[simp] theorem count_used_cow_elts (s : State) : (count_used s).cow_elts = s.cow_elts := rfl

@[simp] theorem set_live_mem (s : State) (q : List Nat) : (set_live s q).mem = s.mem := rfl

@[simp] theorem set_live_heap (s : State) (q : List Nat) : (set_live s q).heap = s.heap := rfl

@[simp] theorem set_live_cow_elts (s : State) (q : List Nat) : (set_live s q).cow_elts = q := rfl

theorem commit_old_twin_tail (t : State) (q : List Nat) (c ce old_phys : Nat) (diff : Bool) :
    (unmap_entry (if (set_live t q).keep_cow || diff then park (park (count_used (set_live t q)) c) ce
      else destroy (destroy (set_live t q) c) ce) ce old_phys).mem = t.mem ∧
    (unmap_entry (if (set_live t q).keep_cow || diff then park (park (count_used (set_live t q)) c) ce
      else destroy (destroy (set_live t q) c) ce) ce old_phys).heap = t.heap ∧
    (unmap_entry (if (set_live t q).keep_cow || diff then park (park (count_used (set_live t q)) c) ce
      else destroy (destroy (set_live t q) c) ce) ce old_phys).cow_elts = q := by
  simp only [unmap_entry_mem, unmap_entry_heap, unmap_entry_cow_elts]
  split <;> simp

theorem commit_old_twin_effect (s s2 : State) (c ce count old_phys c2 : Nat) (diff : Bool)
    (h : commit_old_twin s c ce count old_phys diff = Except.ok (s2, c2)) :
    s2.mem = s.mem ∧ s2.heap = s.heap ∧ ce ∈ s.cow_elts ∧ s2.cow_elts = s.cow_elts.erase ce := by
  unfold commit_old_twin at h
  dsimp only at h
  split at h
  · cases h
  · rename_i q hq
    simp only [Except.ok.injEq, Prod.mk.injEq] at h
    obtain ⟨hs, _⟩ := h
    have hl : ∀ t : State, (if ((index_of s.cow_elts ce).1 &&
        decide ((index_of s.cow_elts ce).2 + count < s.current_ec_cow_elts_size) &&
        (s.keep_cow || diff)) = true then count_used s else s) = t →
        t.mem = s.mem ∧ t.heap = s.heap ∧ t.cow_elts = s.cow_elts := by
      intro t ht
      split at ht <;> (subst ht; simp)
    obtain ⟨hm, hh, hc⟩ := hl _ rfl
    rw [hc] at hq
    obtain ⟨t1, t2, t3⟩ := commit_old_twin_tail (if ((index_of s.cow_elts ce).1 &&
        decide ((index_of s.cow_elts ce).2 + count < s.current_ec_cow_elts_size) &&
        (s.keep_cow || diff)) = true then count_used s else s) q c ce old_phys diff
    rw [hs] at t1 t2 t3
    rcases dequeue_some _ _ _ _ hq with ⟨_, h1, h2⟩ | ⟨h1, _⟩
    · exact ⟨t1.trans hm, t2.trans hh, h1, t3.trans h2⟩
    · cases h1

theorem commit_old_single_effect (s : State) (c : Nat) (diff : Bool) :
    (commit_old_single s c diff).mem = s.mem ∧ (commit_old_single s c diff).heap = s.heap ∧
    (commit_old_single s c diff).cow_elts = s.cow_elts := by
  unfold commit_old_single
  split <;> simp

theorem commit_new_effect (s s2 : State) (c : Nat) (ce : Option Nat) (old_phys : Nat)
    (h : commit_new s c ce old_phys = Except.ok s2) :
    s2.mem = s.mem ∧ s2.heap = s.heap ∧
    ((ce = none ∧ s2.cow_elts = s.cow_elts) ∨
      ∃ x, ce = some x ∧ x ∈ s.cow_elts ∧ s2.cow_elts = s.cow_elts.erase x) := by
  unfold commit_new at h
  dsimp only at h
  split at h
  · rename_i x
    split at h
    · cases h
    · rename_i q hq
      simp only [Except.ok.injEq] at h
      subst h
      rcases dequeue_some _ _ _ _ hq with ⟨_, h1, h2⟩ | ⟨h1, _⟩
      · exact ⟨by simp, by simp, Or.inr ⟨x, rfl, by simpa using h1, by simp [h2]⟩⟩
      · cases h1
  · simp only [Except.ok.injEq] at h
    subst h
    exact ⟨rfl, rfl, Or.inl ⟨rfl, rfl⟩⟩

theorem write_back_twin (s : State) (c : Nat) :
    ((write_back s c).heap c).v_is_mapped_elsewhere = (s.heap c).v_is_mapped_elsewhere := by
  rw [write_back_heap]
  split <;> simp

/-- The effect of one iteration of the loop of `commit` on memory, on the entries and on
the live set. -/
theorem commit_step_effect (s s1 : State) (c count count1 : Nat)
    (h : commit_step s c count = Except.ok (s1, count1)) :
    s1.mem = (write_back s c).mem ∧ s1.heap = (write_back s c).heap ∧
    (((s.heap c).v_is_mapped_elsewhere = none ∧ s1.cow_elts = s.cow_elts) ∨
      ∃ ce, (s.heap c).v_is_mapped_elsewhere = some ce ∧ ce ∈ s.cow_elts ∧
        s1.cow_elts = s.cow_elts.erase ce) := by
  unfold commit_step at h
  dsimp only at h
  split at h
  · cases h
  · rename_i s2 c2 hv
    simp only [Except.ok.injEq, Prod.mk.injEq] at h
    obtain ⟨h1, h2⟩ := h
    subst h1
    simp only [unmap_entry_mem, unmap_entry_heap, unmap_entry_cow_elts]
    split at hv
    · split at hv
      · rename_i ce hce
        rw [write_back_twin] at hce
        obtain ⟨a1, a2, a3, a4⟩ := commit_old_twin_effect _ _ _ _ _ _ _ _ hv
        rw [write_back_cow_elts] at a3 a4
        exact ⟨a1, a2, Or.inr ⟨ce, hce, a3, a4⟩⟩
      · rename_i hce
        rw [write_back_twin] at hce
        simp only [Except.ok.injEq, Prod.mk.injEq] at hv
        obtain ⟨hs, _⟩ := hv
        subst hs
        obtain ⟨a1, a2, a3⟩ := commit_old_single_effect (write_back s c) c
          (decide ((s.heap c).crc ≠ (s.heap c).crc1))
        exact ⟨a1, a2, Or.inl ⟨hce, a3.trans (write_back_cow_elts s c)⟩⟩
    · split at hv
      · cases hv
      · rename_i s3 hn
        simp only [Except.ok.injEq, Prod.mk.injEq] at hv
        obtain ⟨hs, _⟩ := hv
        subst hs
        obtain ⟨a1, a2, a3⟩ := commit_new_effect _ _ _ _ _ hn
        rw [write_back_twin, write_back_cow_elts] at a3
        refine ⟨a1, a2, ?_⟩
        rcases a3 with ⟨a4, a5⟩ | ⟨x, a4, a5, a6⟩
        · exact Or.inl ⟨a4, a5⟩
        · exact Or.inr ⟨x, a4, a5, a6⟩

theorem dequeue_head (c : Nat) (q : List Nat) :
    dequeue (c :: q) (some c) = (true, q) := by
  simp [dequeue]

theorem commit_loop_nil (fuel : Nat) (s : State) (count : Nat) (hq : s.cow_elts = []) :
    commit_loop fuel s count = Except.ok s := by
  cases fuel with
  | zero => rfl
  | succ n => simp [commit_loop, hq, dequeue]

theorem commit_loop_cons (fuel : Nat) (s : State) (count c : Nat) (q : List Nat)
    (hq : s.cow_elts = c :: q) :
    commit_loop (fuel + 1) s count =
      match commit_step { s with cow_elts := q } c count with
      | Except.error f => Except.error f
      | Except.ok (s1, count1) => commit_loop fuel s1 count1 := by
  rw [commit_loop]
  simp only [hq, dequeue_head, List.head?_cons]

theorem commit_heads_cons (fuel : Nat) (s : State) (count c : Nat) (q : List Nat)
    (hq : s.cow_elts = c :: q) :
    commit_heads (fuel + 1) s count =
      match commit_step { s with cow_elts := q } c count with
      | Except.error _ => [c]
      | Except.ok (s1, count1) => c :: commit_heads fuel s1 count1 := by
  rw [commit_heads]
  simp only [hq]

theorem write_back_heap_other (s : State) (c p : Nat) (hp : p ≠ c) :
    (write_back s c).heap p = s.heap p := by
  rw [write_back_heap]
  split
  · rw [Function.update_noteq hp]
  · rfl

theorem write_back_heap_fields (s : State) (c p : Nat) :
    ({ (write_back s c).heap p with crc := 0 } : Cow_elt) = { s.heap p with crc := 0 } := by
  rw [write_back_heap]
  split
  · by_cases hp : p = c
    · subst hp; simp
    · rw [Function.update_noteq hp]
  · rfl

theorem write_back_mem_other (s : State) (c a : Nat) (ha : a ≠ (s.heap c).old_phys) :
    (write_back s c).mem a = s.mem a := by
  rw [write_back_mem]
  split
  · rw [Function.update_noteq ha]
  · rfl

theorem same_frames {a b : Cow_elt} (h : ({ a with crc := 0 } : Cow_elt) = { b with crc := 0 }) :
    a.old_phys = b.old_phys ∧ a.new_phys0 = b.new_phys0 ∧
    a.v_is_mapped_elsewhere = b.v_is_mapped_elsewhere ∧ a.crc1 = b.crc1 := by
  have h0 := congrArg Cow_elt.old_phys h
  have h1 := congrArg Cow_elt.new_phys0 h
  have h2 := congrArg Cow_elt.v_is_mapped_elsewhere h
  have h3 := congrArg Cow_elt.crc1 h
  exact ⟨h0, h1, h2, h3⟩

theorem commit_step_subset (s s1 : State) (c count count1 : Nat)
    (h : commit_step s c count = Except.ok (s1, count1)) : s1.cow_elts ⊆ s.cow_elts := by
  obtain ⟨_, _, ⟨_, h3⟩ | ⟨ce, _, _, h3⟩⟩ := commit_step_effect s s1 c count count1 h
  · rw [h3]; exact fun _ hx => hx
  · rw [h3]; exact List.erase_subset _ _

/-- The loop of `commit` writes no frame other than the `old_phys` of entries of the live
set, changes no entry outside the live set, and changes no field other than `crc`. -/
theorem commit_loop_frame (fuel : Nat) :
    ∀ (s : State) (count : Nat) (s' : State), commit_loop fuel s count = Except.ok s' →
      (∀ a, (∀ h ∈ s.cow_elts, (s.heap h).old_phys ≠ a) → s'.mem a = s.mem a) ∧
      (∀ p, p ∉ s.cow_elts → s'.heap p = s.heap p) ∧
      (∀ p, ({ s'.heap p with crc := 0 } : Cow_elt) = { s.heap p with crc := 0 }) := by
  induction fuel with
  | zero =>
    intro s count s' h
    simp only [commit_loop, Except.ok.injEq] at h
    subst h
    exact ⟨fun _ _ => rfl, fun _ _ => rfl, fun _ => rfl⟩
  | succ n ih =>
    intro s count s' h
    cases hq : s.cow_elts with
    | nil =>
      rw [commit_loop_nil _ _ _ hq] at h
      simp only [Except.ok.injEq] at h
      subst h
      exact ⟨fun _ _ => rfl, fun _ _ => rfl, fun _ => rfl⟩
    | cons c q =>
      rw [commit_loop_cons _ _ _ _ _ hq] at h
      split at h
      · cases h
      · rename_i s1 count1 hstep
        obtain ⟨e1, e2, _⟩ := commit_step_effect _ _ _ _ _ hstep
        have hsub := commit_step_subset _ _ _ _ _ hstep
        obtain ⟨f1, f2, f3⟩ := ih s1 count1 s' h
        have hfields : ∀ p, ({ s1.heap p with crc := 0 } : Cow_elt) = { s.heap p with crc := 0 } :=
          fun p => by rw [e2]; exact write_back_heap_fields _ c p
        refine ⟨?_, ?_, fun p => (f3 p).trans (hfields p)⟩
        · intro a ha
          rw [f1 a, e1]
          · exact write_back_mem_other _ c a (Ne.symm (ha c (by simp)))
          · intro h hh
            rw [(same_frames (hfields h)).1]
            exact ha h (List.mem_cons_of_mem _ (hsub hh))
        · intro p hp
          have hpc : p ≠ c := fun hh => hp (by simp [hh])
          rw [f2 p (fun hh => hp (List.mem_cons_of_mem _ (hsub hh))), e2]
          exact write_back_heap_other _ c p hpc

theorem commit_heads_subset (fuel : Nat) :
    ∀ (s : State) (count : Nat), commit_heads fuel s count ⊆ s.cow_elts := by
  induction fuel with
  | zero => intro s count; simp [commit_heads]
  | succ n ih =>
    intro s count
    cases hq : s.cow_elts with
    | nil => simp [commit_heads, hq]
    | cons c q =>
      rw [commit_heads_cons _ _ _ _ _ hq]
      split
      · simp
      · rename_i s1 count1 hstep
        have hsub := commit_step_subset _ _ _ _ _ hstep
        intro x hx
        rcases List.mem_cons.1 hx with hx | hx
        · simp [hx]
        · exact List.mem_cons_of_mem _ (hsub (ih s1 count1 hx))

/-- The write-back of the loop of `commit`, for every entry taken from the head. -/
theorem commit_loop_write_back (fuel : Nat) :
    ∀ (s : State) (count : Nat) (s' : State), commit_loop fuel s count = Except.ok s' →
      s.cow_elts.Nodup →
      (∀ x ∈ s.cow_elts, ∀ y ∈ s.cow_elts, (s.heap x).old_phys ≠ (s.heap y).new_phys0) →
      (∀ x ∈ s.cow_elts, ∀ y ∈ s.cow_elts, x ≠ y →
        (s.heap x).old_phys = (s.heap y).old_phys →
        (s.heap x).v_is_mapped_elsewhere = some y) →
      ∀ c ∈ commit_heads fuel s count,
        ((s.heap c).crc ≠ (s.heap c).crc1 →
          s'.mem (s.heap c).old_phys = s.mem (s.heap c).new_phys0 ∧
          s'.mem (s.heap c).new_phys0 = s.mem (s.heap c).new_phys0 ∧
          (s'.heap c).crc = (s.heap c).crc1) ∧
        ((s.heap c).crc = (s.heap c).crc1 →
          s'.mem (s.heap c).old_phys = s.mem (s.heap c).old_phys ∧
          (s'.heap c).crc = (s.heap c).crc) := by
  induction fuel with
  | zero => intro s count s' _ _ _ _ c hc; simp [commit_heads] at hc
  | succ n ih =>
    intro s count s' h hnd hA hB c0 hc0
    cases hq : s.cow_elts with
    | nil => simp [commit_heads, hq] at hc0
    | cons c q =>
      rw [commit_loop_cons _ _ _ _ _ hq] at h
      rw [commit_heads_cons _ _ _ _ _ hq] at hc0
      rw [hq] at hnd hA hB
      have hcq : c ∉ q := (List.nodup_cons.1 hnd).1
      have hqnd : q.Nodup := (List.nodup_cons.1 hnd).2
      split at h
      · cases h
      · rename_i s1 count1 hstep
        rw [hstep] at hc0
        obtain ⟨e1, e2, e3⟩ := commit_step_effect _ _ _ _ _ hstep
        have hsub : s1.cow_elts ⊆ q := commit_step_subset _ _ _ _ _ hstep
        have hfields : ∀ p, ({ s1.heap p with crc := 0 } : Cow_elt) = { s.heap p with crc := 0 } :=
          fun p => by rw [e2]; exact write_back_heap_fields _ c p
        have hother : ∀ p, p ≠ c → s1.heap p = s.heap p :=
          fun p hp => by rw [e2]; exact write_back_heap_other _ c p hp
        have hnd1 : s1.cow_elts.Nodup := by
          rcases e3 with ⟨_, h3⟩ | ⟨ce, _, _, h3⟩
          · rw [h3]; exact hqnd
          · rw [h3]; exact hqnd.erase ce
        -- no entry left in the live set shares the original frame of `c`
        have hsole : ∀ h ∈ s1.cow_elts, (s.heap h).old_phys ≠ (s.heap c).old_phys := by
          intro h hh hop
          have hhq : h ∈ q := hsub hh
          have hhc : h ≠ c := fun e => hcq (e ▸ hhq)
          have htw := hB c (by simp) h (List.mem_cons_of_mem _ hhq) (Ne.symm hhc) hop.symm
          rcases e3 with ⟨h3, _⟩ | ⟨ce, h3, _, h4⟩
          · change (s.heap c).v_is_mapped_elsewhere = none at h3
            rw [h3] at htw; cases htw
          · change (s.heap c).v_is_mapped_elsewhere = some ce at h3
            rw [h3] at htw
            simp only [Option.some.injEq] at htw
            rw [h4] at hh
            change h ∈ q.erase ce at hh
            exact ((hqnd.mem_erase_iff).1 hh).1 htw.symm
        obtain ⟨f1, f2, f3⟩ := commit_loop_frame n s1 count1 s' h
        have hkeep_old : s'.mem (s.heap c).old_phys = s1.mem (s.heap c).old_phys := by
          apply f1
          intro h hh
          rw [(same_frames (hfields h)).1]
          exact hsole h hh
        have hkeep_new : ∀ y ∈ c :: q, s'.mem (s.heap y).new_phys0 = s1.mem (s.heap y).new_phys0 := by
          intro y hy
          apply f1
          intro h hh
          rw [(same_frames (hfields h)).1]
          exact hA h (List.mem_cons_of_mem _ (hsub hh)) y hy
        have hcc : c ≠ c0 → c0 ∈ commit_heads n s1 count1 := by
          intro hne
          rcases List.mem_cons.1 hc0 with h1 | h1
          · exact absurd h1.symm hne
          · exact h1
        by_cases hc : c0 = c
        · subst hc
          have hheap : s'.heap c0 = s1.heap c0 := f2 c0 (fun hh => hcq (hsub hh))
          have hne : (s.heap c0).new_phys0 ≠ (s.heap c0).old_phys :=
            Ne.symm (hA c0 (by simp) c0 (by simp))
          constructor
          · intro hd
            have hd2 : (({ s with cow_elts := q } : State).heap c0).crc ≠
                (({ s with cow_elts := q } : State).heap c0).crc1 := hd
            refine ⟨?_, ?_, ?_⟩
            · rw [hkeep_old, e1, write_back_mem, if_pos hd2]
              exact Function.update_same _ _ _
            · rw [hkeep_new c0 (by simp), e1, write_back_mem, if_pos hd2]
              exact Function.update_noteq hne _ _
            · rw [hheap, e2, write_back_heap, if_pos hd2]
              simp
          · intro hd
            have hd2 : ¬ (({ s with cow_elts := q } : State).heap c0).crc ≠
                (({ s with cow_elts := q } : State).heap c0).crc1 := fun hh => hh hd
            refine ⟨?_, ?_⟩
            · rw [hkeep_old, e1, write_back_mem, if_neg hd2]
            · rw [hheap, e2, write_back_heap, if_neg hd2]
        · have hmem := hcc (Ne.symm hc)
          have hc0s1 : c0 ∈ s1.cow_elts := commit_heads_subset n s1 count1 hmem
          have hA1 : ∀ x ∈ s1.cow_elts, ∀ y ∈ s1.cow_elts,
              (s1.heap x).old_phys ≠ (s1.heap y).new_phys0 := by
            intro x hx y hy
            rw [(same_frames (hfields x)).1, (same_frames (hfields y)).2.1]
            exact hA x (List.mem_cons_of_mem _ (hsub hx)) y (List.mem_cons_of_mem _ (hsub hy))
          have hB1 : ∀ x ∈ s1.cow_elts, ∀ y ∈ s1.cow_elts, x ≠ y →
              (s1.heap x).old_phys = (s1.heap y).old_phys →
              (s1.heap x).v_is_mapped_elsewhere = some y := by
            intro x hx y hy hxy hop
            rw [(same_frames (hfields x)).1, (same_frames (hfields y)).1] at hop
            rw [(same_frames (hfields x)).2.2.1]
            exact hB x (List.mem_cons_of_mem _ (hsub hx)) y (List.mem_cons_of_mem _ (hsub hy))
              hxy hop
          have hpost := ih s1 count1 s' h hnd1 hA1 hB1 c0 hmem
          have h0 : s1.heap c0 = s.heap c0 := hother c0 hc
          have hm_old : s1.mem (s.heap c0).old_phys = s.mem (s.heap c0).old_phys := by
            rw [e1]
            exact write_back_mem_other _ c _ (hsole c0 hc0s1)
          have hm_new : s1.mem (s.heap c0).new_phys0 = s.mem (s.heap c0).new_phys0 := by
            rw [e1]
            exact write_back_mem_other _ c _
              (Ne.symm (hA c (by simp) c0 (List.mem_cons_of_mem _ (hsub hc0s1))))
          rw [h0, hm_old, hm_new] at hpost
          exact hpost

/-- C10: in a call of `commit` that returns, for every entry `c` that the loop takes from
the head of the live set: if `c.crc != c.crc1` when the loop starts, then after commit
the frame `old_phys` holds the content of the first shadow (which is unchanged) and
`c.crc` is `c.crc1`; if `c.crc == c.crc1`, the content of `old_phys` and `c.crc` are as
before. The state `s0` is the one in which the loop starts (after `commit_vm_stack` for a
virtual CPU); its live set has no repetition, no original frame is a shadow frame, and
entries with the same original frame are twins. -/
theorem commit_write_back (env : Env) (s s0 s' : State)
    (h0 : (if s.is_virutalcpu then commit_vm_stack env s else Except.ok s) = Except.ok s0)
    (hr : commit env s = Except.ok s')
    (hnd : s0.cow_elts.Nodup)
    (hA : ∀ x ∈ s0.cow_elts, ∀ y ∈ s0.cow_elts, (s0.heap x).old_phys ≠ (s0.heap y).new_phys0)
    (hB : ∀ x ∈ s0.cow_elts, ∀ y ∈ s0.cow_elts, x ≠ y →
      (s0.heap x).old_phys = (s0.heap y).old_phys →
      (s0.heap x).v_is_mapped_elsewhere = some y) :
    ∀ c ∈ commit_heads s0.cow_elts.length s0 0,
      ((s0.heap c).crc ≠ (s0.heap c).crc1 →
        s'.mem (s0.heap c).old_phys = s0.mem (s0.heap c).new_phys0 ∧
        s'.mem (s0.heap c).new_phys0 = s0.mem (s0.heap c).new_phys0 ∧
        (s'.heap c).crc = (s0.heap c).crc1) ∧
      ((s0.heap c).crc = (s0.heap c).crc1 →
        s'.mem (s0.heap c).old_phys = s0.mem (s0.heap c).old_phys ∧
        (s'.heap c).crc = (s0.heap c).crc) := by
  unfold commit at hr
  have h0p : (if s.is_virutalcpu = true then commit_vm_stack env s else pure s) = Except.ok s0 := h0
  simp only [bind, Except.bind, pure, Except.pure] at hr
  split at hr
  · cases hr
  · rename_i v hv
    have hv0 : Except.ok s0 = Except.ok v := h0.symm.trans hv
    simp only [Except.ok.injEq] at hv0
    subst hv0
    split at hr
    · cases hr
    · split at hr
      · cases hr
      · rename_i s1 hl
        simp only [Except.ok.injEq] at hr
        subst hr
        exact commit_loop_write_back _ s0 0 s1 hl hnd hA hB

theorem commit_s_compared : commit env0 s_compared = Except.ok s_committed := rfl

theorem commit_write_back_witness :
    ((if s_compared.is_virutalcpu then commit_vm_stack env0 s_compared
        else Except.ok s_compared) = Except.ok s_compared ∧
      commit env0 s_compared = Except.ok s_committed ∧
      s_compared.cow_elts.Nodup ∧
      (∀ x ∈ s_compared.cow_elts, ∀ y ∈ s_compared.cow_elts,
        (s_compared.heap x).old_phys ≠ (s_compared.heap y).new_phys0) ∧
      (∀ x ∈ s_compared.cow_elts, ∀ y ∈ s_compared.cow_elts, x ≠ y →
        (s_compared.heap x).old_phys = (s_compared.heap y).old_phys →
        (s_compared.heap x).v_is_mapped_elsewhere = some y)) ∧
    ∀ c ∈ commit_heads s_compared.cow_elts.length s_compared 0,
      ((s_compared.heap c).crc ≠ (s_compared.heap c).crc1 →
        s_committed.mem (s_compared.heap c).old_phys
          = s_compared.mem (s_compared.heap c).new_phys0 ∧
        s_committed.mem (s_compared.heap c).new_phys0
          = s_compared.mem (s_compared.heap c).new_phys0 ∧
        (s_committed.heap c).crc = (s_compared.heap c).crc1) ∧
      ((s_compared.heap c).crc = (s_compared.heap c).crc1 →
        s_committed.mem (s_compared.heap c).old_phys
          = s_compared.mem (s_compared.heap c).old_phys ∧
        (s_committed.heap c).crc = (s_compared.heap c).crc) :=
  ⟨⟨rfl, commit_s_compared, by decide, by decide, by decide⟩,
    commit_write_back env0 s_compared s_compared s_committed rfl commit_s_compared
      (by decide) (by decide) (by decide)⟩

/-! ## Alias consistency -/

@[simp] theorem hpt_cow_update_heap (s : State) (e p a v : Nat) :
    (Hpt.cow_update s e p a v).heap = s.heap := rfl

@[simp] theorem vtlb_cow_update_heap (s : State) (e p a : Nat) :
    (Vtlb.cow_update s e p a).heap = s.heap := rfl

@[simp] theorem hpt_cow_update_cow_elts (s : State) (e p a v : Nat) :
    (Hpt.cow_update s e p a v).cow_elts = s.cow_elts := rfl

@[simp] theorem vtlb_cow_update_cow_elts (s : State) (e p a : Nat) :
    (Vtlb.cow_update s e p a).cow_elts = s.cow_elts := rfl

@[simp] theorem hpt_cow_update_hpt_tab (s : State) (e p a v : Nat) :
    (Hpt.cow_update s e p a v).hpt_tab = Function.update s.hpt_tab e (p, a) := rfl

@[simp] theorem hpt_cow_update_vtlb_tab (s : State) (e p a v : Nat) :
    (Hpt.cow_update s e p a v).vtlb_tab = s.vtlb_tab := rfl

@[simp] theorem vtlb_cow_update_vtlb_tab (s : State) (e p a : Nat) :
    (Vtlb.cow_update s e p a).vtlb_tab = Function.update s.vtlb_tab e (p, a) := rfl

@[simp] theorem vtlb_cow_update_hpt_tab (s : State) (e p a : Nat) :
    (Vtlb.cow_update s e p a).hpt_tab = s.hpt_tab := rfl

theorem remap_entry_heap (env : Env) (s : State) (c phys : Nat) :
    (remap_entry env s c phys).heap = s.heap := by
  unfold remap_entry
  dsimp only
  split <;> split <;> rfl

theorem remap_entry_cow_elts (env : Env) (s : State) (c phys : Nat) :
    (remap_entry env s c phys).cow_elts = s.cow_elts := by
  unfold remap_entry
  dsimp only
  split <;> split <;> rfl

theorem remap_entry_hpt_tab (env : Env) (s : State) (c phys : Nat) :
    (remap_entry env s c phys).hpt_tab =
      match (s.heap c).hpt with
      | some h => Function.update s.hpt_tab h
          (phys, writable (s.heap c).attr Hpt.HPT_W Hpt.HPT_COW)
      | none => s.hpt_tab := by
  unfold remap_entry
  dsimp only
  split <;> split <;> simp_all

theorem remap_entry_vtlb_tab (env : Env) (s : State) (c phys : Nat) :
    (remap_entry env s c phys).vtlb_tab =
      match (s.heap c).vtlb with
      | some t => Function.update s.vtlb_tab t
          (phys, writable (s.heap c).attr env.TLB_W env.TLB_COW)
      | none => s.vtlb_tab := by
  unfold remap_entry
  dsimp only
  split <;> split <;> simp_all

/-- A loop over a list of entries whose step repoints the mapping of the entry at the
frame `sel` picks and leaves the entries as they are: what the tables hold afterwards. -/
theorem walk_tables (env : Env) (step : State → Nat → State) (sel : Cow_elt → Nat)
    (hheap : ∀ s c, (step s c).heap = s.heap)
    (hh : ∀ s c, (step s c).hpt_tab = (remap_entry env s c (sel (s.heap c))).hpt_tab)
    (hv : ∀ s c, (step s c).vtlb_tab = (remap_entry env s c (sel (s.heap c))).vtlb_tab)
    (l : List Nat) :
    ∀ s : State, (l.foldl step s).heap = s.heap ∧
      (∀ h, (∀ y ∈ l, (s.heap y).hpt ≠ some h) → (l.foldl step s).hpt_tab h = s.hpt_tab h) ∧
      (∀ t, (∀ y ∈ l, (s.heap y).vtlb ≠ some t) → (l.foldl step s).vtlb_tab t = s.vtlb_tab t) ∧
      (∀ x ∈ l, origins_distinct s l → maps_to (l.foldl step s) x (sel (s.heap x))) := by
  induction l with
  | nil => intro s; simp
  | cons c rest ih =>
    intro s
    obtain ⟨i1, i2, i3, i4⟩ := ih (step s c)
    rw [hheap] at i1
    simp only [hheap] at i2 i3 i4
    have fh : ∀ h, (∀ y ∈ c :: rest, (s.heap y).hpt ≠ some h) →
        ((c :: rest).foldl step s).hpt_tab h = s.hpt_tab h := by
      intro h hy
      rw [List.foldl_cons, i2 h (fun y hyr => hy y (List.mem_cons_of_mem _ hyr)), hh,
        remap_entry_hpt_tab]
      have hc := hy c (by simp)
      split
      · rename_i h2 heq
        rw [Function.update_noteq]
        intro e
        exact hc (by rw [heq, e])
      · rfl
    have fv : ∀ t, (∀ y ∈ c :: rest, (s.heap y).vtlb ≠ some t) →
        ((c :: rest).foldl step s).vtlb_tab t = s.vtlb_tab t := by
      intro t hy
      rw [List.foldl_cons, i3 t (fun y hyr => hy y (List.mem_cons_of_mem _ hyr)), hv,
        remap_entry_vtlb_tab]
      have hc := hy c (by simp)
      split
      · rename_i t2 heq
        rw [Function.update_noteq]
        intro e
        exact hc (by rw [heq, e])
      · rfl
    refine ⟨by rw [List.foldl_cons, i1], fh, fv, ?_⟩
    intro x hx hd
    have hdr : origins_distinct (step s c) rest := by
      intro a ha b hb hab
      rw [hheap]
      exact hd a (List.mem_cons_of_mem _ ha) b (List.mem_cons_of_mem _ hb) hab
    by_cases hxr : x ∈ rest
    · have := i4 x hxr hdr
      unfold maps_to at this ⊢
      rw [List.foldl_cons]
      simpa only [i1, hheap] using this
    · have hxc : x = c := by
        rcases List.mem_cons.1 hx with h | h
        · exact h
        · exact absurd h hxr
      subst hxc
      unfold maps_to
      rw [List.foldl_cons, i1]
      constructor
      · cases hvt : (s.heap x).vtlb with
        | none => trivial
        | some t =>
          dsimp only
          rw [i3 t, hv, remap_entry_vtlb_tab, hvt]
          · simp
          · intro y hy
            have hyx : y ≠ x := fun e => hxr (e ▸ hy)
            rcases (hd x (by simp) y (List.mem_cons_of_mem _ hy) (Ne.symm hyx)).2 with h | h
            · rw [hvt] at h; cases h
            · rw [hvt] at h; exact fun e => h e.symm
      · cases hht : (s.heap x).hpt with
        | none => trivial
        | some h =>
          dsimp only
          rw [i2 h, hh, remap_entry_hpt_tab, hht]
          · simp
          · intro y hy
            have hyx : y ≠ x := fun e => hxr (e ▸ hy)
            rcases (hd x (by simp) y (List.mem_cons_of_mem _ hy) (Ne.symm hyx)).1 with h2 | h2
            · rw [hht] at h2; cases h2
            · rw [hht] at h2; exact fun e => h2 e.symm

theorem restore_state0_walk_foldl (env : Env) (l : List Nat) :
    ∀ s : State, restore_state0_walk env s l =
      l.foldl (fun s c => remap_entry env s c (s.heap c).new_phys1) s := by
  induction l with
  | nil => intro s; rfl
  | cons c rest ih => intro s; rw [restore_state0_walk, ih, List.foldl_cons]

theorem restore_state1_walk_foldl (env : Env) (l : List Nat) :
    ∀ s : State, restore_state1_walk env s l =
      l.foldl (fun s c => remap_entry env s c (s.heap c).new_phys0) s := by
  induction l with
  | nil => intro s; rfl
  | cons c rest ih => intro s; rw [restore_state1_walk, ih, List.foldl_cons]

theorem rollback_walk_foldl (env : Env) (l : List Nat) :
    ∀ s : State, rollback_walk env s l = l.foldl (fun s c => rollback_walk env s [c]) s := by
  induction l with
  | nil => intro s; rfl
  | cons c rest ih =>
    intro s
    rw [List.foldl_cons, ← ih]
    simp only [rollback_walk]

@[simp] theorem remap_cow_heap (s : State) (phys addr : Nat) :
    (remap_cow s phys addr).2.heap = s.heap := rfl

@[simp] theorem remap_cow_hpt_tab (s : State) (phys addr : Nat) :
    (remap_cow s phys addr).2.hpt_tab = s.hpt_tab := rfl

@[simp] theorem remap_cow_vtlb_tab (s : State) (phys addr : Nat) :
    (remap_cow s phys addr).2.vtlb_tab = s.vtlb_tab := rfl

@[simp] theorem remap_cow_cow_elts (s : State) (phys addr : Nat) :
    (remap_cow s phys addr).2.cow_elts = s.cow_elts := rfl

@[simp] theorem copy_frames_heap (s : State) (p1 p2 : Nat) (v : Ptr) :
    (copy_frames s p1 p2 v).heap = s.heap := rfl

@[simp] theorem copy_frames_hpt_tab (s : State) (p1 p2 : Nat) (v : Ptr) :
    (copy_frames s p1 p2 v).hpt_tab = s.hpt_tab := rfl

@[simp] theorem copy_frames_vtlb_tab (s : State) (p1 p2 : Nat) (v : Ptr) :
    (copy_frames s p1 p2 v).vtlb_tab = s.vtlb_tab := rfl

@[simp] theorem copy_frames_cow_elts (s : State) (p1 p2 : Nat) (v : Ptr) :
    (copy_frames s p1 p2 v).cow_elts = s.cow_elts := rfl

theorem rollback_step (env : Env) (s : State) (c : Nat) :
    (rollback_walk env s [c]).heap = s.heap ∧
    (rollback_walk env s [c]).hpt_tab = (remap_entry env s c (s.heap c).new_phys0).hpt_tab ∧
    (rollback_walk env s [c]).vtlb_tab = (remap_entry env s c (s.heap c).new_phys0).vtlb_tab := by
  simp only [rollback_walk, remap_entry_heap, remap_entry_hpt_tab, remap_entry_vtlb_tab,
    copy_frames_heap, copy_frames_hpt_tab, copy_frames_vtlb_tab, remap_cow_heap,
    remap_cow_hpt_tab, remap_cow_vtlb_tab, and_self]

theorem foldl_cow_elts (step : State → Nat → State)
    (h : ∀ s c, (step s c).cow_elts = s.cow_elts) (l : List Nat) :
    ∀ s : State, (l.foldl step s).cow_elts = s.cow_elts := by
  induction l with
  | nil => intro s; rfl
  | cons c rest ih => intro s; rw [List.foldl_cons, ih, h]

/-- The prelude of `restore_state0`, `restore_state1` and `rollback` on the vm-stack queue
leaves the entries and the live set as they are. -/
theorem vm_prelude_frame :
    (∀ (l : List Nat) (s s0 : State), restore_vm_stack_state0_walk s l = Except.ok s0 →
      s0.heap = s.heap ∧ s0.cow_elts = s.cow_elts) ∧
    (∀ (l : List Nat) (s s0 : State), restore_vm_stack_state1_walk s l = Except.ok s0 →
      s0.heap = s.heap ∧ s0.cow_elts = s.cow_elts) ∧
    (∀ (l : List Nat) (s s0 : State), rollback_vm_stack_walk s l = Except.ok s0 →
      s0.heap = s.heap ∧ s0.cow_elts = s.cow_elts) := by
  refine ⟨?_, ?_, ?_⟩
  · intro l
    induction l with
    | nil => intro s s0 h; simp only [restore_vm_stack_state0_walk, Except.ok.injEq] at h; simp [h]
    | cons c rest ih =>
      intro s s0 h
      rw [restore_vm_stack_state0_walk] at h
      split at h
      · cases h
      · obtain ⟨a, b⟩ := ih _ _ h
        exact ⟨a, b⟩
  · intro l
    induction l with
    | nil => intro s s0 h; simp only [restore_vm_stack_state1_walk, Except.ok.injEq] at h; simp [h]
    | cons c rest ih =>
      intro s s0 h
      rw [restore_vm_stack_state1_walk] at h
      split at h
      · cases h
      · obtain ⟨a, b⟩ := ih _ _ h
        exact ⟨a, b⟩
  · intro l
    induction l with
    | nil => intro s s0 h; simp only [rollback_vm_stack_walk, Except.ok.injEq] at h; simp [h]
    | cons c rest ih =>
      intro s s0 h
      rw [rollback_vm_stack_walk] at h
      dsimp only at h
      split at h
      · cases h
      · obtain ⟨a, b⟩ := ih _ _ h
        exact ⟨a, b⟩

theorem origins_distinct_congr (s s0 : State) (l : List Nat) (h : s0.heap = s.heap)
    (hd : origins_distinct s l) : origins_distinct s0 l := by
  unfold origins_distinct at hd ⊢
  rw [h]
  exact hd

theorem restore_state0_maps (env : Env) (s s' : State)
    (h : restore_state0 env s = Except.ok s') :
    s'.heap = s.heap ∧ s'.cow_elts = s.cow_elts ∧
    (origins_distinct s s.cow_elts → ∀ x ∈ s.cow_elts, maps_to s' x (s.heap x).new_phys1) := by
  unfold restore_state0 at h
  simp only [bind, Except.bind, pure, Except.pure] at h
  split at h
  · cases h
  · rename_i s0 hv
    have h0 : s0.heap = s.heap ∧ s0.cow_elts = s.cow_elts := by
      split at hv
      · rename_i hvc
        unfold restore_vm_stack_state0 at hv
        rw [if_pos hvc] at hv
        exact vm_prelude_frame.1 _ _ _ hv
      · simp only [Except.ok.injEq] at hv
        subst hv
        exact ⟨rfl, rfl⟩
    simp only [Except.ok.injEq] at h
    subst h
    rw [restore_state0_walk_foldl]
    obtain ⟨w1, _, _, w4⟩ := walk_tables env
      (fun s c => remap_entry env s c (s.heap c).new_phys1) (fun e => e.new_phys1)
      (fun s c => remap_entry_heap env s c _) (fun _ _ => rfl) (fun _ _ => rfl) s0.cow_elts s0
    refine ⟨w1.trans h0.1, ?_, ?_⟩
    · rw [foldl_cow_elts _ (fun s c => remap_entry_cow_elts env s c _)]
      exact h0.2
    · intro hd x hx
      have := w4 x (h0.2 ▸ hx) (origins_distinct_congr s s0 _ h0.1 (h0.2 ▸ hd))
      rw [h0.1] at this
      exact this

theorem restore_state1_maps (env : Env) (s s' : State)
    (h : restore_state1 env s = Except.ok s') :
    s'.heap = s.heap ∧ s'.cow_elts = s.cow_elts ∧
    (origins_distinct s s.cow_elts → ∀ x ∈ s.cow_elts, maps_to s' x (s.heap x).new_phys0) := by
  unfold restore_state1 at h
  simp only [bind, Except.bind, pure, Except.pure] at h
  split at h
  · cases h
  · rename_i s0 hv
    have h0 : s0.heap = s.heap ∧ s0.cow_elts = s.cow_elts := by
      split at hv
      · rename_i hvc
        unfold restore_vm_stack_state1 at hv
        rw [if_pos hvc] at hv
        exact vm_prelude_frame.2.1 _ _ _ hv
      · simp only [Except.ok.injEq] at hv
        subst hv
        exact ⟨rfl, rfl⟩
    simp only [Except.ok.injEq] at h
    subst h
    rw [restore_state1_walk_foldl]
    obtain ⟨w1, _, _, w4⟩ := walk_tables env
      (fun s c => remap_entry env s c (s.heap c).new_phys0) (fun e => e.new_phys0)
      (fun s c => remap_entry_heap env s c _) (fun _ _ => rfl) (fun _ _ => rfl) s0.cow_elts s0
    refine ⟨w1.trans h0.1, ?_, ?_⟩
    · rw [foldl_cow_elts _ (fun s c => remap_entry_cow_elts env s c _)]
      exact h0.2
    · intro hd x hx
      have := w4 x (h0.2 ▸ hx) (origins_distinct_congr s s0 _ h0.1 (h0.2 ▸ hd))
      rw [h0.1] at this
      exact this

theorem rollback_maps (env : Env) (s s' : State)
    (h : rollback env s = Except.ok s') :
    s'.heap = s.heap ∧ s'.cow_elts = s.cow_elts ∧
    (origins_distinct s s.cow_elts → ∀ x ∈ s.cow_elts, maps_to s' x (s.heap x).new_phys0) := by
  unfold rollback at h
  simp only [bind, Except.bind, pure, Except.pure] at h
  split at h
  · cases h
  · rename_i s0 hv
    have h0 : s0.heap = s.heap ∧ s0.cow_elts = s.cow_elts := by
      split at hv
      · rename_i hvc
        unfold rollback_vm_stack at hv
        rw [if_pos hvc] at hv
        exact vm_prelude_frame.2.2 _ _ _ hv
      · simp only [Except.ok.injEq] at hv
        subst hv
        exact ⟨rfl, rfl⟩
    simp only [Except.ok.injEq] at h
    subst h
    rw [rollback_walk_foldl]
    obtain ⟨w1, _, _, w4⟩ := walk_tables env
      (fun s c => rollback_walk env s [c]) (fun e => e.new_phys0)
      (fun s c => (rollback_step env s c).1) (fun s c => (rollback_step env s c).2.1)
      (fun s c => (rollback_step env s c).2.2) s0.cow_elts s0
    refine ⟨w1.trans h0.1, ?_, ?_⟩
    · rw [foldl_cow_elts _ (fun s c => by
        simp only [rollback_walk, remap_entry_cow_elts, copy_frames_cow_elts,
          remap_cow_cow_elts])]
      exact h0.2
    · intro hd x hx
      have := w4 x (h0.2 ▸ hx) (origins_distinct_congr s s0 _ h0.1 (h0.2 ▸ hd))
      rw [h0.1] at this
      exact this

theorem same_fields {a b : Cow_elt} (h : ({ a with crc := 0 } : Cow_elt) = { b with crc := 0 }) :
    a.old_phys = b.old_phys ∧ a.new_phys0 = b.new_phys0 ∧ a.new_phys1 = b.new_phys1 ∧
    a.page_addr = b.page_addr ∧ a.hpt = b.hpt ∧ a.vtlb = b.vtlb ∧
    a.v_is_mapped_elsewhere = b.v_is_mapped_elsewhere ∧ a.attr = b.attr := by
  have h0 := congrArg Cow_elt.old_phys h
  have h1 := congrArg Cow_elt.new_phys0 h
  have h2 := congrArg Cow_elt.new_phys1 h
  have h3 := congrArg Cow_elt.page_addr h
  have h4 := congrArg Cow_elt.hpt h
  have h5 := congrArg Cow_elt.vtlb h
  have h6 := congrArg Cow_elt.v_is_mapped_elsewhere h
  have h7 := congrArg Cow_elt.attr h
  exact ⟨h0, h1, h2, h3, h4, h5, h6, h7⟩

/-- `maps_to` only depends on the two origin pointers of the entry and on the tables. -/
theorem maps_to_congr (s s1 : State) (x p : Nat)
    (hh : (s1.heap x).hpt = (s.heap x).hpt) (hv : (s1.heap x).vtlb = (s.heap x).vtlb)
    (ht : s1.hpt_tab = s.hpt_tab) (hvt : s1.vtlb_tab = s.vtlb_tab)
    (h : maps_to s x p) : maps_to s1 x p := by
  unfold maps_to at h ⊢
  rw [hh, hv, ht, hvt]
  exact h

theorem place_entry_heap (env : Env) (s : State) (d : Nat) :
    (place_entry env s d).heap = s.heap := by
  unfold place_entry
  dsimp only
  split <;> split <;> rfl

theorem place_entry_frame (env : Env) (s : State) (d : Nat) :
    (place_entry env s d).cow_elts = s.cow_elts ∧
    (place_entry env s d).pd_cow_elts = s.pd_cow_elts ∧
    (place_entry env s d).vm_kernel_stacks = s.vm_kernel_stacks ∧
    (place_entry env s d).is_virutalcpu = s.is_virutalcpu ∧
    (place_entry env s d).current_ec_cow_elts_size = s.current_ec_cow_elts_size := by
  unfold place_entry
  dsimp only
  split <;> split <;> exact ⟨rfl, rfl, rfl, rfl, rfl⟩

theorem place_entry_hpt_tab (env : Env) (s : State) (d : Nat) :
    (place_entry env s d).hpt_tab =
      match (s.heap d).hpt with
      | some h => Function.update s.hpt_tab h
          ((s.heap d).new_phys0, writable (s.heap d).attr Hpt.HPT_W Hpt.HPT_COW)
      | none => s.hpt_tab := by
  unfold place_entry
  dsimp only
  split <;> split <;> simp_all

theorem place_entry_vtlb_tab (env : Env) (s : State) (d : Nat) :
    (place_entry env s d).vtlb_tab =
      match (s.heap d).vtlb with
      | some t => Function.update s.vtlb_tab t
          ((s.heap d).new_phys0, writable (s.heap d).attr env.TLB_W env.TLB_COW)
      | none => s.vtlb_tab := by
  unfold place_entry
  dsimp only
  split <;> split <;> simp_all

/-- `place_entry` points the mapping of its entry at the first shadow and leaves the
mappings of the entries that use other page-table entries as they are. -/
theorem place_entry_maps (env : Env) (s : State) (z : Nat) :
    maps_to (place_entry env s z) z (s.heap z).new_phys0 ∧
    ∀ x p, ((s.heap x).hpt = none ∨ (s.heap x).hpt ≠ (s.heap z).hpt) →
      ((s.heap x).vtlb = none ∨ (s.heap x).vtlb ≠ (s.heap z).vtlb) →
      maps_to s x p → maps_to (place_entry env s z) x p := by
  constructor
  · unfold maps_to
    rw [place_entry_heap, place_entry_hpt_tab, place_entry_vtlb_tab]
    constructor
    · cases hv : (s.heap z).vtlb with
      | none => trivial
      | some t => simp
    · cases hh : (s.heap z).hpt with
      | none => trivial
      | some h => simp
  · intro x p h1 h2 hm
    unfold maps_to at hm ⊢
    rw [place_entry_heap, place_entry_hpt_tab, place_entry_vtlb_tab]
    constructor
    · cases hv : (s.heap x).vtlb with
      | none => trivial
      | some t =>
        have hm1 := hm.1
        rw [hv] at hm1 h2
        dsimp only at hm1 ⊢
        cases hz : (s.heap z).vtlb with
        | none => exact hm1
        | some t2 =>
          dsimp only
          rw [hz] at h2
          have : t ≠ t2 := by
            rcases h2 with h | h
            · cases h
            · exact fun e => h (by rw [e])
          rw [Function.update_noteq this]
          exact hm1
    · cases hh : (s.heap x).hpt with
      | none => trivial
      | some h =>
        have hm2 := hm.2
        rw [hh] at hm2 h1
        dsimp only at hm2 ⊢
        cases hz : (s.heap z).hpt with
        | none => exact hm2
        | some h2' =>
          dsimp only
          rw [hz] at h1
          have : h ≠ h2' := by
            rcases h1 with h3 | h3
            · cases h3
            · exact fun e => h3 (by rw [e])
          rw [Function.update_noteq this]
          exact hm2

theorem dequeue_subset (q : List Nat) (t : Option Nat) : (dequeue q t).2 ⊆ q := by
  unfold dequeue
  split
  · exact fun _ h => h
  · split
    · exact List.erase_subset _ _
    · exact fun _ h => h

theorem refresh_shadows_frame (env : Env) (s : State) (d a : Nat) :
    (∀ p, ({ (refresh_shadows env s d a).heap p with crc := 0 } : Cow_elt)
      = { s.heap p with crc := 0 }) ∧
    (refresh_shadows env s d a).hpt_tab = s.hpt_tab ∧
    (refresh_shadows env s d a).vtlb_tab = s.vtlb_tab ∧
    (refresh_shadows env s d a).cow_elts = s.cow_elts ∧
    (refresh_shadows env s d a).pd_cow_elts = s.pd_cow_elts ∧
    (refresh_shadows env s d a).vm_kernel_stacks = s.vm_kernel_stacks ∧
    (refresh_shadows env s d a).is_virutalcpu = s.is_virutalcpu := by
  unfold refresh_shadows
  dsimp only
  split
  · refine ⟨?_, rfl, rfl, rfl, rfl, rfl, rfl⟩
    intro p
    by_cases hp : p = d
    · subst hp; simp [State.modify, remap_cow]
    · simp [State.modify, remap_cow, Function.update_noteq hp]
  · exact ⟨fun _ => rfl, rfl, rfl, rfl, rfl, rfl, rfl⟩

theorem drop_stale_frame (s : State) (d : Nat) :
    (drop_stale s d).heap = s.heap ∧ (drop_stale s d).hpt_tab = s.hpt_tab ∧
    (drop_stale s d).vtlb_tab = s.vtlb_tab ∧ (drop_stale s d).cow_elts = s.cow_elts ∧
    (drop_stale s d).pd_cow_elts ⊆ s.pd_cow_elts ∧
    (drop_stale s d).vm_kernel_stacks = s.vm_kernel_stacks ∧
    (drop_stale s d).is_virutalcpu = s.is_virutalcpu := by
  unfold drop_stale
  dsimp only
  split
  · exact ⟨rfl, rfl, rfl, rfl, dequeue_subset _ _, rfl, rfl⟩
  · exact ⟨rfl, rfl, rfl, rfl, fun _ h => h, rfl, rfl⟩

/-- One iteration of the first loop of `place_phys0` keeps the mappings of the live
entries on their first shadow, for entries of a set `U` with pairwise distinct page-table
entries that is closed under the twin link. -/
theorem place_phys0_step_maps (env : Env) (s : State) (d : Nat) (U : List Nat)
    (hdU : d ∈ U)
    (htw : ∀ x ∈ U, ∀ de, (s.heap x).v_is_mapped_elsewhere = some de → de ∈ U)
    (hod : origins_distinct s U) (hlive : s.cow_elts ⊆ U)
    (hmaps : ∀ x ∈ s.cow_elts, maps_to s x (s.heap x).new_phys0) :
    (∀ p, ({ (place_phys0_step env s d).heap p with crc := 0 } : Cow_elt)
      = { s.heap p with crc := 0 }) ∧
    (place_phys0_step env s d).cow_elts ⊆ U ∧
    (place_phys0_step env s d).pd_cow_elts ⊆ s.pd_cow_elts ∧
    (place_phys0_step env s d).vm_kernel_stacks = s.vm_kernel_stacks ∧
    (place_phys0_step env s d).is_virutalcpu = s.is_virutalcpu ∧
    (∀ x ∈ (place_phys0_step env s d).cow_elts,
      maps_to (place_phys0_step env s d) x ((place_phys0_step env s d).heap x).new_phys0) := by
  unfold place_phys0_step
  dsimp only
  split
  · obtain ⟨a1, a2, a3, a4, a5, a6, a7⟩ := drop_stale_frame s d
    refine ⟨fun p => by rw [a1], a4 ▸ hlive, a5, a6, a7, ?_⟩
    intro x hx
    rw [a4] at hx
    rw [a1]
    exact maps_to_congr s _ x _ (by rw [a1]) (by rw [a1]) a2 a3 (hmaps x hx)
  · obtain ⟨r1, r2, r3, r4, r5, r6, r7⟩ := refresh_shadows_frame env s d (2 * PAGE_SIZE)
    -- the state after the shadows have been refreshed
    generalize refresh_shadows env s d (2 * PAGE_SIZE) = sa at r1 r2 r3 r4 r5 r6 r7 ⊢
    have hf : ∀ p, (sa.heap p).new_phys0 = (s.heap p).new_phys0 ∧
        (sa.heap p).hpt = (s.heap p).hpt ∧ (sa.heap p).vtlb = (s.heap p).vtlb ∧
        (sa.heap p).v_is_mapped_elsewhere = (s.heap p).v_is_mapped_elsewhere := fun p =>
      ⟨(same_fields (r1 p)).2.1, (same_fields (r1 p)).2.2.2.2.1,
        (same_fields (r1 p)).2.2.2.2.2.1, (same_fields (r1 p)).2.2.2.2.2.2.1⟩
    have hoda : ∀ x ∈ U, ∀ y ∈ U, x ≠ y →
        ((sa.heap x).hpt = none ∨ (sa.heap x).hpt ≠ (sa.heap y).hpt) ∧
        ((sa.heap x).vtlb = none ∨ (sa.heap x).vtlb ≠ (sa.heap y).vtlb) := by
      intro x hx y hy hxy
      rw [(hf x).2.1, (hf x).2.2.1, (hf y).2.1, (hf y).2.2.1]
      exact hod x hx y hy hxy
    have hmapsa : ∀ x ∈ s.cow_elts, maps_to sa x (sa.heap x).new_phys0 := by
      intro x hx
      rw [(hf x).1]
      exact maps_to_congr s sa x _ (hf x).2.1 (hf x).2.2.1 r2 r3 (hmaps x hx)
    -- after the entry itself has been placed
    have hb : ∀ x ∈ s.cow_elts ++ [d],
        maps_to (place_entry env sa d) x (sa.heap x).new_phys0 := by
      intro x hx
      by_cases hxd : x = d
      · subst hxd; exact (place_entry_maps env sa x).1
      · have hxl : x ∈ s.cow_elts := by
          rcases List.mem_append.1 hx with h | h
          · exact h
          · simp at h; exact absurd h hxd
        obtain ⟨o1, o2⟩ := hoda x (hlive hxl) d hdU hxd
        exact (place_entry_maps env sa d).2 x _ o1 o2 (hmapsa x hxl)
    have hsub : s.cow_elts ++ [d] ⊆ U := by
      intro x hx
      rcases List.mem_append.1 hx with h | h
      · exact hlive h
      · simp at h; exact h ▸ hdU
    obtain ⟨p1, p2, p3, p4, p5⟩ := place_entry_frame env sa d
    have ph := place_entry_heap env sa d
    have hstrip : ∀ p, ({ sa.heap p with crc := 0 } : Cow_elt) = { s.heap p with crc := 0 } := r1
    split
    · rename_i de hde
      change ((place_entry env sa d).heap d).v_is_mapped_elsewhere = some de at hde
      rw [ph, (hf d).2.2.2] at hde
      have hdeU : de ∈ U := htw d hdU de hde
      obtain ⟨q1, q2, q3, q4, q5⟩ := place_entry_frame env
        (live_enqueue (place_entry env sa d) d) de
      have qh := place_entry_heap env (live_enqueue (place_entry env sa d) d) de
      refine ⟨?_, ?_, ?_, ?_, ?_, ?_⟩
      · intro p
        change ({ (place_entry env (live_enqueue (place_entry env sa d) d) de).heap p
          with crc := 0 } : Cow_elt) = _
        rw [qh]
        change ({ (place_entry env sa d).heap p with crc := 0 } : Cow_elt) = _
        rw [ph]
        exact hstrip p
      · intro x hx
        change x ∈ enqueue (place_entry env (live_enqueue (place_entry env sa d) d) de).cow_elts
          de at hx
        rw [q1] at hx
        change x ∈ enqueue (enqueue (place_entry env sa d).cow_elts d) de at hx
        rw [p1, r4] at hx
        simp only [enqueue, List.mem_append, List.mem_singleton] at hx
        rcases hx with (h | h) | h
        · exact hlive h
        · exact h ▸ hdU
        · exact h ▸ hdeU
      · intro x hx
        change x ∈ (dequeue (place_entry env (live_enqueue (place_entry env sa d) d) de).pd_cow_elts
          (some de)).2 at hx
        have := dequeue_subset _ _ hx
        rw [q2] at this
        change x ∈ (place_entry env sa d).pd_cow_elts at this
        rw [p2, r5] at this
        exact this
      · change (place_entry env (live_enqueue (place_entry env sa d) d) de).vm_kernel_stacks = _
        rw [q3]
        change (place_entry env sa d).vm_kernel_stacks = _
        rw [p3, r6]
      · change (place_entry env (live_enqueue (place_entry env sa d) d) de).is_virutalcpu = _
        rw [q4]
        change (place_entry env sa d).is_virutalcpu = _
        rw [p4, r7]
      · intro x hx
        change x ∈ enqueue (place_entry env (live_enqueue (place_entry env sa d) d) de).cow_elts
          de at hx
        rw [q1] at hx
        change x ∈ enqueue (enqueue (place_entry env sa d).cow_elts d) de at hx
        rw [p1, r4] at hx
        have hsc : (live_enqueue (place_entry env sa d) d).heap = sa.heap := ph
        have key : maps_to (place_entry env (live_enqueue (place_entry env sa d) d) de) x
            (sa.heap x).new_phys0 := by
          by_cases hxde : x = de
          · subst hxde
            have := (place_entry_maps env (live_enqueue (place_entry env sa d) d) x).1
            rw [hsc] at this
            exact this
          · have hxl : x ∈ s.cow_elts ++ [d] := by
              simp only [enqueue, List.mem_append, List.mem_singleton] at hx ⊢
              rcases hx with h | h
              · exact h
              · exact absurd h hxde
            obtain ⟨o1, o2⟩ := hoda x (hsub hxl) de hdeU hxde
            refine (place_entry_maps env (live_enqueue (place_entry env sa d) d) de).2 x _
              (by rw [hsc]; exact o1) (by rw [hsc]; exact o2) ?_
            exact maps_to_congr (place_entry env sa d) _ x _
              (congrArg (fun h => (h x).hpt) (hsc.trans ph.symm))
              (congrArg (fun h => (h x).vtlb) (hsc.trans ph.symm)) rfl rfl (hb x hxl)
        have hheap : (live_enqueue (unpark (place_entry env
            (live_enqueue (place_entry env sa d) d) de) de) de).heap = sa.heap := by
          change (place_entry env (live_enqueue (place_entry env sa d) d) de).heap = _
          rw [qh]; exact ph
        rw [hheap]
        have hk : (place_entry env (live_enqueue (place_entry env sa d) d) de).heap = sa.heap :=
          qh.trans hsc
        exact maps_to_congr _ _ x _ (congrArg (fun h => (h x).hpt) (hheap.trans hk.symm))
          (congrArg (fun h => (h x).vtlb) (hheap.trans hk.symm)) rfl rfl key
    · refine ⟨?_, ?_, ?_, ?_, ?_, ?_⟩
      · intro p
        change ({ (place_entry env sa d).heap p with crc := 0 } : Cow_elt) = _
        rw [ph]
        exact hstrip p
      · intro x hx
        change x ∈ enqueue (place_entry env sa d).cow_elts d at hx
        rw [p1, r4] at hx
        exact hsub hx
      · intro x hx
        change x ∈ (place_entry env sa d).pd_cow_elts at hx
        rw [p2, r5] at hx
        exact hx
      · change (place_entry env sa d).vm_kernel_stacks = _
        rw [p3, r6]
      · change (place_entry env sa d).is_virutalcpu = _
        rw [p4, r7]
      · intro x hx
        change x ∈ enqueue (place_entry env sa d).cow_elts d at hx
        rw [p1, r4] at hx
        have hheap : (live_enqueue (place_entry env sa d) d).heap = sa.heap := ph
        rw [hheap]
        exact maps_to_congr (place_entry env sa d) _ x _
          (congrArg (fun h => (h x).hpt) (hheap.trans ph.symm))
          (congrArg (fun h => (h x).vtlb) (hheap.trans ph.symm)) rfl rfl (hb x hx)

/-- The first loop of `place_phys0` keeps the mappings of the live entries on their first
shadow. -/
theorem place_phys0_loop_maps (env : Env) (U : List Nat) (fuel : Nat) (s : State)
    (hpd : s.pd_cow_elts ⊆ U)
    (htw : ∀ x ∈ U, ∀ de, (s.heap x).v_is_mapped_elsewhere = some de → de ∈ U)
    (hod : origins_distinct s U) (hlive : s.cow_elts ⊆ U)
    (hmaps : ∀ x ∈ s.cow_elts, maps_to s x (s.heap x).new_phys0) :
    (∀ p, ({ (place_phys0_loop env fuel s).heap p with crc := 0 } : Cow_elt)
      = { s.heap p with crc := 0 }) ∧
    (place_phys0_loop env fuel s).cow_elts ⊆ U ∧
    (place_phys0_loop env fuel s).vm_kernel_stacks = s.vm_kernel_stacks ∧
    (place_phys0_loop env fuel s).is_virutalcpu = s.is_virutalcpu ∧
    (∀ x ∈ (place_phys0_loop env fuel s).cow_elts,
      maps_to (place_phys0_loop env fuel s) x ((place_phys0_loop env fuel s).heap x).new_phys0) := by
  induction fuel generalizing s with
  | zero => exact ⟨fun _ => rfl, hlive, rfl, rfl, hmaps⟩
  | succ fuel ih =>
    unfold place_phys0_loop
    split
    · exact ⟨fun _ => rfl, hlive, rfl, rfl, hmaps⟩
    · rename_i q hq
      split
      · exact ⟨fun _ => rfl, hlive, rfl, rfl, hmaps⟩
      · rename_i d hd
        have hdpd : d ∈ s.pd_cow_elts := List.mem_of_mem_head? hd
        have hqs : q ⊆ s.pd_cow_elts := by
          have := dequeue_subset s.pd_cow_elts s.pd_cow_elts.head?
          rw [hq] at this
          exact this
        obtain ⟨t1, t2, t3, t4, t5, t6⟩ := place_phys0_step_maps env
          { s with pd_cow_elts := q } d U (hpd hdpd) htw hod hlive hmaps
        generalize place_phys0_step env { s with pd_cow_elts := q } d = s1 at t1 t2 t3 t4 t5 t6 ⊢
        have hf : ∀ p, (s1.heap p).hpt = (s.heap p).hpt ∧ (s1.heap p).vtlb = (s.heap p).vtlb ∧
            (s1.heap p).v_is_mapped_elsewhere = (s.heap p).v_is_mapped_elsewhere := fun p =>
          ⟨(same_fields (t1 p)).2.2.2.2.1, (same_fields (t1 p)).2.2.2.2.2.1,
            (same_fields (t1 p)).2.2.2.2.2.2.1⟩
        obtain ⟨u1, u2, u3, u4, u5⟩ := ih s1 (fun x hx => hpd (hqs (t3 hx)))
          (fun x hx de hde => htw x hx de ((hf x).2.2 ▸ hde))
          (fun x hx y hy hxy => by
            rw [(hf x).1, (hf x).2.1, (hf y).1, (hf y).2.1]
            exact hod x hx y hy hxy)
          t2 t6
        exact ⟨fun p => (u1 p).trans (t1 p), u2, u3.trans t4, u4.trans t5, u5⟩

/-- The loop of `place_phys0` over the vm-stack queue changes `crc` fields and the
virtual-TLB entries of the entries of that queue only. -/
theorem place_phys0_vm_walk_frame (env : Env) (l : List Nat) (s r : State)
    (h : place_phys0_vm_walk env s l = Except.ok r) :
    (∀ p, ({ r.heap p with crc := 0 } : Cow_elt) = { s.heap p with crc := 0 }) ∧
    r.cow_elts = s.cow_elts ∧ r.hpt_tab = s.hpt_tab ∧
    (∀ t, (∀ c ∈ l, (s.heap c).vtlb ≠ some t) → r.vtlb_tab t = s.vtlb_tab t) := by
  induction l generalizing s with
  | nil =>
    simp only [place_phys0_vm_walk, Except.ok.injEq] at h
    subst h
    exact ⟨fun _ => rfl, rfl, rfl, fun _ _ => rfl⟩
  | cons c rest ih =>
    rw [place_phys0_vm_walk] at h
    obtain ⟨r1, r2, r3, r4, _, _, _⟩ := refresh_shadows_frame env s c 0
    generalize refresh_shadows env s c 0 = sa at r1 r2 r3 r4 h
    split at h
    · cases h
    · rename_i t ht
      obtain ⟨i1, i2, i3, i4⟩ := ih _ h
      refine ⟨fun p => (i1 p).trans (r1 p), i2.trans r4, i3.trans r2, ?_⟩
      intro t1 hne
      have hct : (s.heap c).vtlb = some t := (same_fields (r1 c)).2.2.2.2.2.1 ▸ ht
      have ht1 : t ≠ t1 := fun e => hne c (List.mem_cons_self _ _) (e ▸ hct)
      rw [i4 t1 (fun c1 hc1 => by
        have := hne c1 (List.mem_cons_of_mem _ hc1)
        change (sa.heap c1).vtlb ≠ some t1
        rw [(same_fields (r1 c1)).2.2.2.2.2.1]
        exact this)]
      change Function.update sa.vtlb_tab t _ t1 = _
      rw [Function.update_noteq (Ne.symm ht1), r3]

/-- After `place_phys0` every live entry comes from the parked list and its mapping
references its first shadow frame. -/
theorem place_phys0_maps (env : Env) (s s' : State)
    (h : place_phys0 env s = Except.ok s')
    (htw : ∀ x ∈ s.pd_cow_elts, ∀ de,
      (s.heap x).v_is_mapped_elsewhere = some de → de ∈ s.pd_cow_elts)
    (hod : origins_distinct s s.pd_cow_elts)
    (hvm : ∀ c ∈ s.vm_kernel_stacks, ∀ x ∈ s.pd_cow_elts,
      (s.heap x).vtlb = none ∨ (s.heap x).vtlb ≠ (s.heap c).vtlb) :
    (∀ p, ({ s'.heap p with crc := 0 } : Cow_elt) = { s.heap p with crc := 0 }) ∧
    s'.cow_elts ⊆ s.pd_cow_elts ∧
    (∀ x ∈ s'.cow_elts, maps_to s' x (s'.heap x).new_phys0) := by
  unfold place_phys0 at h
  simp only [bind, Except.bind, pure, Except.pure] at h
  split at h
  · cases h
  · rename_i hu
    have hempty : s.cow_elts = [] := by simpa using hu
    obtain ⟨l1, l2, l3, l4, l5⟩ := place_phys0_loop_maps env s.pd_cow_elts s.pd_cow_elts.length s
      (fun _ hx => hx) htw hod (by rw [hempty]; exact List.nil_subset _)
      (by rw [hempty]; intro x hx; cases hx)
    generalize place_phys0_loop env s.pd_cow_elts.length s = s1 at l1 l2 l3 l4 l5 h
    split at h
    · obtain ⟨v1, v2, v3, v4⟩ := place_phys0_vm_walk_frame env _ _ _ h
      refine ⟨fun p => (v1 p).trans (l1 p), v2 ▸ l2, ?_⟩
      intro x hx
      rw [v2] at hx
      have hxs := l5 x hx
      have f1 := same_fields (v1 x)
      rw [f1.2.1]
      unfold maps_to at hxs ⊢
      rw [f1.2.2.2.2.1, f1.2.2.2.2.2.1, v3]
      refine ⟨?_, hxs.2⟩
      cases hxv : (s1.heap x).vtlb with
      | none => trivial
      | some t =>
        have h1 := hxs.1
        rw [hxv] at h1
        change (s'.vtlb_tab t).1 = _
        rw [v4 t ?_]
        · exact h1
        · intro c hc hct
          rw [l3] at hc
          have g1 := same_fields (l1 x)
          have g2 := same_fields (l1 c)
          rcases hvm c hc x (l2 hx) with e | e
          · rw [← g1.2.2.2.2.2.1, hxv] at e; cases e
          · apply e
            rw [← g1.2.2.2.2.2.1, ← g2.2.2.2.2.2.1, hxv, hct]
    · simp only [Except.ok.injEq] at h
      subst h
      exact ⟨l1, l2, l5⟩

/-- What a returning call of `resolve_cow_fault` leaves: the older entries keep their
fields up to the twin link, the new entry records its origin, shares the shadows of an
older entry for the same original frame if there is one, and the mapping at its origin
references its first shadow frame while all other mappings are as before. -/
theorem resolve_ok_view (env : Env) (s s' : State) (tlb hpt : Option Nat)
    (virt phys attr : Nat) (hfresh : s.next_ptr ∉ s.cow_elts)
    (hr : resolve_cow_fault env s tlb hpt virt phys attr = Except.ok s') :
    s'.cow_elts = s.cow_elts ++ [s.next_ptr] ∧
    (∀ x, x ≠ s.next_ptr →
      ({ s'.heap x with v_is_mapped_elsewhere := none } : Cow_elt)
        = { s.heap x with v_is_mapped_elsewhere := none }) ∧
    (s'.heap s.next_ptr).old_phys = and_not phys PAGE_MASK ∧
    (s'.heap s.next_ptr).hpt = hpt ∧ (s'.heap s.next_ptr).vtlb = tlb ∧
    ((∀ x ∈ s.cow_elts, (s.heap x).old_phys ≠ and_not phys PAGE_MASK) ∨
      ∃ c ∈ s.cow_elts, (s.heap c).old_phys = and_not phys PAGE_MASK ∧
        (s'.heap s.next_ptr).new_phys0 = (s.heap c).new_phys0 ∧
        (s'.heap s.next_ptr).new_phys1 = (s.heap c).new_phys1) ∧
    (∀ h, hpt ≠ some h → s'.hpt_tab h = s.hpt_tab h) ∧
    (∀ t, tlb ≠ some t → s'.vtlb_tab t = s.vtlb_tab t) ∧
    (∀ h, hpt = some h → (s'.hpt_tab h).1 = (s'.heap s.next_ptr).new_phys0) ∧
    (∀ t, tlb = some t → (s'.vtlb_tab t).1 = (s'.heap s.next_ptr).new_phys0) := by
  cases hw : is_mapped_elsewhere s (and_not phys PAGE_MASK) with
  | error f =>
    rw [resolve_error_twin env s tlb hpt virt phys attr f hfresh hw] at hr
    cases hr
  | ok c =>
    have hwalk := hw
    unfold is_mapped_elsewhere at hwalk
    by_cases hone : tlb.isSome = hpt.isSome
    · rcases resolve_bad_origin env s tlb hpt virt phys attr c hfresh hone hw with h | h <;>
        (rw [h] at hr; cases hr)
    · rcases tlb with _ | t <;> rcases hpt with _ | h
      · simp at hone
      · rcases c with _ | c
        · obtain ⟨s2, h1, h2, h3, h4, h5, h6, h7, h8, h9, h10⟩ :=
            resolve_fresh_hpt env s h virt phys attr hfresh hw
          rw [hr] at h1; cases h1
          refine ⟨h2, ?_, ?_, ?_, ?_, Or.inl ((walk_none_iff _ _ _).1 hwalk), ?_, ?_, ?_, ?_⟩
          · intro x hx; rw [h3, Function.update_noteq hx]
          · rw [h3]; simp
          · rw [h3]; simp
          · rw [h3]; simp
          · intro h0 hh; rw [h6, Function.update_noteq (fun e => hh (congrArg some e.symm))]
          · intro t0 _; rw [h7]
          · intro h0 hh; cases hh; rw [h6, h3]; simp
          · intro t0 hh; cases hh
        · obtain ⟨s2, h1, h2, h3, h4, h5, h6, h7, h8, h9, h10⟩ :=
            resolve_aliased_hpt env s h virt phys attr c hfresh hw
          rw [hr] at h1; cases h1
          obtain ⟨w1, w2, _⟩ := walk_some _ _ _ _ hwalk
          have hcn : c ≠ s.next_ptr := fun e => hfresh (e ▸ w1)
          refine ⟨h2, ?_, ?_, ?_, ?_, Or.inr ⟨c, w1, w2, ?_, ?_⟩, ?_, ?_, ?_, ?_⟩
          · intro x hx
            rw [h3]
            by_cases hxc : x = c
            · subst hxc; simp
            · rw [Function.update_noteq hxc, Function.update_noteq hx]
          · rw [h3, Function.update_noteq hcn.symm]; simp
          · rw [h3, Function.update_noteq hcn.symm]; simp
          · rw [h3, Function.update_noteq hcn.symm]; simp
          · rw [h3, Function.update_noteq hcn.symm]; simp
          · rw [h3, Function.update_noteq hcn.symm]; simp
          · intro h0 hh; rw [h6, Function.update_noteq (fun e => hh (congrArg some e.symm))]
          · intro t0 _; rw [h7]
          · intro h0 hh; cases hh; rw [h6, h3, Function.update_noteq hcn.symm]; simp
          · intro t0 hh; cases hh
      · rcases c with _ | c
        · obtain ⟨s2, h1, h2, h3, h4, h5, h6, h7, h8, h9, h10⟩ :=
            resolve_fresh_vtlb env s t virt phys attr hfresh hw
          rw [hr] at h1; cases h1
          refine ⟨h2, ?_, ?_, ?_, ?_, Or.inl ((walk_none_iff _ _ _).1 hwalk), ?_, ?_, ?_, ?_⟩
          · intro x hx; rw [h3, Function.update_noteq hx]
          · rw [h3]; simp
          · rw [h3]; simp
          · rw [h3]; simp
          · intro h0 _; rw [h6]
          · intro t0 hh; rw [h7, Function.update_noteq (fun e => hh (congrArg some e.symm))]
          · intro h0 hh; cases hh
          · intro t0 hh; cases hh; rw [h7, h3]; simp
        · obtain ⟨s2, h1, h2, h3, h4, h5, h6, h7, h8, h9, h10⟩ :=
            resolve_aliased_vtlb env s t virt phys attr c hfresh hw
          rw [hr] at h1; cases h1
          obtain ⟨w1, w2, _⟩ := walk_some _ _ _ _ hwalk
          have hcn : c ≠ s.next_ptr := fun e => hfresh (e ▸ w1)
          refine ⟨h2, ?_, ?_, ?_, ?_, Or.inr ⟨c, w1, w2, ?_, ?_⟩, ?_, ?_, ?_, ?_⟩
          · intro x hx
            rw [h3]
            by_cases hxc : x = c
            · subst hxc; simp
            · rw [Function.update_noteq hxc, Function.update_noteq hx]
          · rw [h3, Function.update_noteq hcn.symm]; simp
          · rw [h3, Function.update_noteq hcn.symm]; simp
          · rw [h3, Function.update_noteq hcn.symm]; simp
          · rw [h3, Function.update_noteq hcn.symm]; simp
          · rw [h3, Function.update_noteq hcn.symm]; simp
          · intro h0 _; rw [h6]
          · intro t0 hh; rw [h7, Function.update_noteq (fun e => hh (congrArg some e.symm))]
          · intro h0 hh; cases hh
          · intro t0 hh; cases hh; rw [h7, h3, Function.update_noteq hcn.symm]; simp
      · simp at hone

theorem same_fields_twin {a b : Cow_elt}
    (h : ({ a with v_is_mapped_elsewhere := none } : Cow_elt)
      = { b with v_is_mapped_elsewhere := none }) :
    a.old_phys = b.old_phys ∧ a.new_phys0 = b.new_phys0 ∧ a.new_phys1 = b.new_phys1 ∧
    a.page_addr = b.page_addr ∧ a.hpt = b.hpt ∧ a.vtlb = b.vtlb := by
  have h0 := congrArg Cow_elt.old_phys h
  have h1 := congrArg Cow_elt.new_phys0 h
  have h2 := congrArg Cow_elt.new_phys1 h
  have h3 := congrArg Cow_elt.page_addr h
  have h4 := congrArg Cow_elt.hpt h
  have h5 := congrArg Cow_elt.vtlb h
  exact ⟨h0, h1, h2, h3, h4, h5⟩

/-- Entries that share their shadows and whose mappings all reference the shadow of the
run are alias consistent. -/
theorem alias_of_maps (s : State) (run : Nat) (l : List Nat) (hl : s.cow_elts ⊆ l)
    (hs : shared_shadows s l) (hm : ∀ x ∈ s.cow_elts, maps_to s x (shadow (s.heap x) run)) :
    alias_consistent s run := by
  intro x hx y hy hop _
  obtain ⟨a, b⟩ := hs x (hl hx) y (hl hy) hop
  refine ⟨a, b, hm x hx, ?_⟩
  have : shadow (s.heap x) run = shadow (s.heap y) run := by
    unfold shadow; rw [a, b]
  rw [this]
  exact hm y hy

/-- A returning call of `resolve_cow_fault` on a state whose live mappings all reference
the first shadow keeps the shadows shared and the mappings on the first shadow. -/
theorem resolve_maps (env : Env) (s s' : State) (tlb hpt : Option Nat)
    (virt phys attr : Nat) (hfresh : s.next_ptr ∉ s.cow_elts)
    (hs : shared_shadows s s.cow_elts)
    (hm : ∀ x ∈ s.cow_elts, maps_to s x (s.heap x).new_phys0)
    (ho : ∀ x ∈ s.cow_elts, ((s.heap x).hpt = none ∨ (s.heap x).hpt ≠ hpt) ∧
      ((s.heap x).vtlb = none ∨ (s.heap x).vtlb ≠ tlb))
    (hr : resolve_cow_fault env s tlb hpt virt phys attr = Except.ok s') :
    shared_shadows s' s'.cow_elts ∧ ∀ x ∈ s'.cow_elts, maps_to s' x (s'.heap x).new_phys0 := by
  obtain ⟨v1, v2, v3, v4, v5, v6, v7, v8, v9, v10⟩ :=
    resolve_ok_view env s s' tlb hpt virt phys attr hfresh hr
  have hold : ∀ x ∈ s.cow_elts, x ≠ s.next_ptr := fun x hx e => hfresh (e ▸ hx)
  have hnew : ∀ y ∈ s.cow_elts, (s.heap y).old_phys = and_not phys PAGE_MASK →
      (s'.heap s.next_ptr).new_phys0 = (s.heap y).new_phys0 ∧
      (s'.heap s.next_ptr).new_phys1 = (s.heap y).new_phys1 := by
    intro y hy hyo
    rcases v6 with hnone | ⟨c, hc, hco, e0, e1⟩
    · exact absurd hyo (hnone y hy)
    · obtain ⟨a, b⟩ := hs c hc y hy (hco.trans hyo.symm)
      exact ⟨e0.trans a, e1.trans b⟩
  constructor
  · intro x hx y hy hop
    rw [v1] at hx hy
    rcases List.mem_append.1 hx with hx | hx <;> rcases List.mem_append.1 hy with hy | hy
    · have fx := same_fields_twin (v2 x (hold x hx))
      have fy := same_fields_twin (v2 y (hold y hy))
      rw [fx.1, fy.1] at hop
      rw [fx.2.1, fx.2.2.1, fy.2.1, fy.2.2.1]
      exact hs x hx y hy hop
    · simp only [List.mem_singleton] at hy
      subst hy
      have fx := same_fields_twin (v2 x (hold x hx))
      rw [fx.1, v3] at hop
      rw [fx.2.1, fx.2.2.1]
      obtain ⟨a, b⟩ := hnew x hx hop
      exact ⟨a.symm, b.symm⟩
    · simp only [List.mem_singleton] at hx
      subst hx
      have fy := same_fields_twin (v2 y (hold y hy))
      rw [fy.1, v3] at hop
      rw [fy.2.1, fy.2.2.1]
      exact hnew y hy hop.symm
    · simp only [List.mem_singleton] at hx hy
      subst hx; subst hy
      exact ⟨rfl, rfl⟩
  · intro x hx
    rw [v1] at hx
    rcases List.mem_append.1 hx with hx | hx
    · have fx := same_fields_twin (v2 x (hold x hx))
      have hmx := hm x hx
      obtain ⟨o1, o2⟩ := ho x hx
      unfold maps_to at hmx ⊢
      rw [fx.2.1, fx.2.2.2.2.1, fx.2.2.2.2.2]
      constructor
      · cases hxv : (s.heap x).vtlb with
        | none => trivial
        | some t =>
          have h1 := hmx.1
          rw [hxv] at h1 o2
          change (s'.vtlb_tab t).1 = _
          rw [v8 t (fun e => by rcases o2 with o | o; exact nomatch o; exact o e.symm)]
          exact h1
      · cases hxh : (s.heap x).hpt with
        | none => trivial
        | some h =>
          have h1 := hmx.2
          rw [hxh] at h1 o1
          change (s'.hpt_tab h).1 = _
          rw [v7 h (fun e => by rcases o1 with o | o; exact nomatch o; exact o e.symm)]
          exact h1
    · simp only [List.mem_singleton] at hx
      subst hx
      unfold maps_to
      rw [v4, v5]
      constructor
      · cases tlb with
        | none => trivial
        | some t => exact v10 t rfl
      · cases hpt with
        | none => trivial
        | some h => exact v9 h rfl

/-- C8, as stated, fails for `resolve_cow_fault` in run 1: run 0 has written the frame
0x9000 through the host entry 7 and `restore_state0` has pointed that mapping at
`new_phys[1]`; a write fault in run 1 through the host entry 8 on the same frame makes a
twin whose mapping references `new_phys[0]`. The two mappings of the twins reference
different frames, so the state is alias consistent for neither shadow. -/
theorem alias_consistency_counterexample :
    restore_state0 env0 s_one = Except.ok s_run1 ∧
    resolve_cow_fault env0 s_run1 none (some 8) 0x6123 0x9456 0x805 = Except.ok s_run1_fault ∧
    s_run1_fault.cow_elts = [1, 2] ∧
    (s_run1_fault.heap 1).old_phys = (s_run1_fault.heap 2).old_phys ∧
    (s_run1_fault.heap 1).page_addr ≠ (s_run1_fault.heap 2).page_addr ∧
    (s_run1_fault.heap 1).hpt = some 7 ∧ (s_run1_fault.heap 2).hpt = some 8 ∧
    (s_run1_fault.hpt_tab 7).1 = (s_run1_fault.heap 1).new_phys1 ∧
    (s_run1_fault.hpt_tab 8).1 = (s_run1_fault.heap 2).new_phys0 ∧
    (s_run1_fault.hpt_tab 7).1 ≠ (s_run1_fault.hpt_tab 8).1 ∧
    ¬ alias_consistent s_run1_fault 1 ∧ ¬ alias_consistent s_run1_fault 0 := by
  refine ⟨rfl, rfl, rfl, rfl, by decide, rfl, rfl, rfl, rfl, by decide, ?_, ?_⟩
  · intro h
    obtain ⟨_, _, _, m⟩ := h 1 (by decide) 2 (by decide) rfl (by decide)
    have m2 : (s_run1_fault.hpt_tab 8).1 = (s_run1_fault.heap 1).new_phys1 := m.2
    exact absurd m2 (by decide)
  · intro h
    obtain ⟨_, _, m, _⟩ := h 1 (by decide) 2 (by decide) rfl (by decide)
    have m2 : (s_run1_fault.hpt_tab 7).1 = (s_run1_fault.heap 1).new_phys0 := m.2
    exact absurd m2 (by decide)

/-- C8, amended: live entries for the same original frame keep identical `new_phys[0]` and
`new_phys[1]`, and their mappings reference the same shadow frame, as follows.
`restore_state0` leaves every pair of such entries mapped to `new_phys[1]`;
`restore_state1`, `rollback` and `place_phys0` leave them mapped to `new_phys[0]`;
`resolve_cow_fault` always installs `new_phys[0]`, so the pair is consistent after it when
the live mappings referenced `new_phys[0]` before the call (run 0). The entries are assumed
to share their shadows and to have pairwise distinct page-table entries; for `place_phys0`
the parked list is closed under the twin link and the vm-stack entries use other
virtual-TLB entries. -/
theorem alias_consistency (env : Env) :
    (∀ (s s' : State) (tlb hpt : Option Nat) (virt phys attr : Nat),
      s.next_ptr ∉ s.cow_elts → shared_shadows s s.cow_elts →
      (∀ x ∈ s.cow_elts, maps_to s x (s.heap x).new_phys0) →
      (∀ x ∈ s.cow_elts, ((s.heap x).hpt = none ∨ (s.heap x).hpt ≠ hpt) ∧
        ((s.heap x).vtlb = none ∨ (s.heap x).vtlb ≠ tlb)) →
      resolve_cow_fault env s tlb hpt virt phys attr = Except.ok s' →
      alias_consistent s' 0) ∧
    (∀ s s' : State, shared_shadows s s.cow_elts → origins_distinct s s.cow_elts →
      restore_state0 env s = Except.ok s' → alias_consistent s' 1) ∧
    (∀ s s' : State, shared_shadows s s.cow_elts → origins_distinct s s.cow_elts →
      restore_state1 env s = Except.ok s' → alias_consistent s' 0) ∧
    (∀ s s' : State, shared_shadows s s.cow_elts → origins_distinct s s.cow_elts →
      rollback env s = Except.ok s' → alias_consistent s' 0) ∧
    (∀ s s' : State, shared_shadows s s.pd_cow_elts → origins_distinct s s.pd_cow_elts →
      (∀ x ∈ s.pd_cow_elts, ∀ de,
        (s.heap x).v_is_mapped_elsewhere = some de → de ∈ s.pd_cow_elts) →
      (∀ c ∈ s.vm_kernel_stacks, ∀ x ∈ s.pd_cow_elts,
        (s.heap x).vtlb = none ∨ (s.heap x).vtlb ≠ (s.heap c).vtlb) →
      place_phys0 env s = Except.ok s' → alias_consistent s' 0) := by
  refine ⟨?_, ?_, ?_, ?_, ?_⟩
  · intro s s' tlb hpt virt phys attr hfresh hs hm ho hr
    obtain ⟨a, b⟩ := resolve_maps env s s' tlb hpt virt phys attr hfresh hs hm ho hr
    exact alias_of_maps s' 0 s'.cow_elts (fun _ h => h) a b
  · intro s s' hs hod hr
    obtain ⟨a, b, c⟩ := restore_state0_maps env s s' hr
    refine alias_of_maps s' 1 s.cow_elts (b ▸ fun _ h => h) ?_ ?_
    · intro x hx y hy; rw [a]; exact hs x hx y hy
    · intro x hx; rw [a]; rw [b] at hx; exact c hod x hx
  · intro s s' hs hod hr
    obtain ⟨a, b, c⟩ := restore_state1_maps env s s' hr
    refine alias_of_maps s' 0 s.cow_elts (b ▸ fun _ h => h) ?_ ?_
    · intro x hx y hy; rw [a]; exact hs x hx y hy
    · intro x hx; rw [a]; rw [b] at hx; exact c hod x hx
  · intro s s' hs hod hr
    obtain ⟨a, b, c⟩ := rollback_maps env s s' hr
    refine alias_of_maps s' 0 s.cow_elts (b ▸ fun _ h => h) ?_ ?_
    · intro x hx y hy; rw [a]; exact hs x hx y hy
    · intro x hx; rw [a]; rw [b] at hx; exact c hod x hx
  · intro s s' hs hod htw hvm hr
    obtain ⟨a, b, c⟩ := place_phys0_maps env s s' hr htw hod hvm
    refine alias_of_maps s' 0 s.pd_cow_elts b ?_ c
    intro x hx y hy hop
    have fx := same_fields (a x)
    have fy := same_fields (a y)
    rw [fx.1, fy.1] at hop
    rw [fx.2.1, fx.2.2.1, fy.2.1, fy.2.2.1]
    exact hs x hx y hy hop

theorem s_one_ready : s_one.next_ptr ∉ s_one.cow_elts ∧ shared_shadows s_one s_one.cow_elts ∧
    (∀ x ∈ s_one.cow_elts, maps_to s_one x (s_one.heap x).new_phys0) ∧
    (∀ x ∈ s_one.cow_elts, ((s_one.heap x).hpt = none ∨ (s_one.heap x).hpt ≠ some 8) ∧
      ((s_one.heap x).vtlb = none ∨ (s_one.heap x).vtlb ≠ none)) := by
  unfold shared_shadows
  decide

theorem s_two_ready : shared_shadows s_two s_two.cow_elts ∧
    origins_distinct s_two s_two.cow_elts := by
  unfold shared_shadows origins_distinct
  decide

theorem s_run1_two_ready : shared_shadows s_run1_two s_run1_two.cow_elts ∧
    origins_distinct s_run1_two s_run1_two.cow_elts := by
  unfold shared_shadows origins_distinct
  decide

theorem s_committed_ready : shared_shadows s_committed s_committed.pd_cow_elts ∧
    origins_distinct s_committed s_committed.pd_cow_elts ∧
    (∀ x ∈ s_committed.pd_cow_elts, ∀ de,
      (s_committed.heap x).v_is_mapped_elsewhere = some de → de ∈ s_committed.pd_cow_elts) ∧
    (∀ c ∈ s_committed.vm_kernel_stacks, ∀ x ∈ s_committed.pd_cow_elts,
      (s_committed.heap x).vtlb = none ∨
        (s_committed.heap x).vtlb ≠ (s_committed.heap c).vtlb) := by
  refine ⟨by unfold shared_shadows; decide, by unfold origins_distinct; decide, ?_, by decide⟩
  intro x hx de hde
  have hx2 : x ∈ [1, 2] := hx
  simp only [List.mem_cons, List.mem_singleton, List.not_mem_nil, or_false] at hx2
  rcases hx2 with e | e
  · subst e
    have : some 2 = some de := hde
    cases this
    decide
  · subst e
    have : some 1 = some de := hde
    cases this
    decide

theorem alias_consistency_witness :
    ((s_one.next_ptr ∉ s_one.cow_elts ∧ shared_shadows s_one s_one.cow_elts ∧
        (∀ x ∈ s_one.cow_elts, maps_to s_one x (s_one.heap x).new_phys0) ∧
        resolve_cow_fault env0 s_one none (some 8) 0x6123 0x9456 0x805 = Except.ok s_two) ∧
      alias_consistent s_two 0) ∧
    ((shared_shadows s_two s_two.cow_elts ∧ origins_distinct s_two s_two.cow_elts ∧
        restore_state0 env0 s_two = Except.ok s_run1_two) ∧
      alias_consistent s_run1_two 1) ∧
    ((shared_shadows s_run1_two s_run1_two.cow_elts ∧
        origins_distinct s_run1_two s_run1_two.cow_elts ∧
        restore_state1 env0 s_run1_two = Except.ok s_back) ∧
      alias_consistent s_back 0) ∧
    ((shared_shadows s_run1_two s_run1_two.cow_elts ∧
        origins_distinct s_run1_two s_run1_two.cow_elts ∧
        rollback env0 s_run1_two = Except.ok s_rolled) ∧
      alias_consistent s_rolled 0) ∧
    ((shared_shadows s_committed s_committed.pd_cow_elts ∧
        origins_distinct s_committed s_committed.pd_cow_elts ∧
        place_phys0 env0 s_committed = Except.ok s_placed) ∧
      alias_consistent s_placed 0) :=
  ⟨⟨⟨s_one_ready.1, s_one_ready.2.1, s_one_ready.2.2.1, rfl⟩,
      (alias_consistency env0).1 s_one s_two none (some 8) 0x6123 0x9456 0x805
        s_one_ready.1 s_one_ready.2.1 s_one_ready.2.2.1 s_one_ready.2.2.2 rfl⟩,
    ⟨⟨s_two_ready.1, s_two_ready.2, rfl⟩,
      (alias_consistency env0).2.1 s_two s_run1_two s_two_ready.1 s_two_ready.2 rfl⟩,
    ⟨⟨s_run1_two_ready.1, s_run1_two_ready.2, rfl⟩,
      (alias_consistency env0).2.2.1 s_run1_two s_back s_run1_two_ready.1
        s_run1_two_ready.2 rfl⟩,
    ⟨⟨s_run1_two_ready.1, s_run1_two_ready.2, rfl⟩,
      (alias_consistency env0).2.2.2.1 s_run1_two s_rolled s_run1_two_ready.1
        s_run1_two_ready.2 rfl⟩,
    ⟨⟨s_committed_ready.1, s_committed_ready.2.1, rfl⟩,
      (alias_consistency env0).2.2.2.2 s_committed s_placed s_committed_ready.1
        s_committed_ready.2.1 s_committed_ready.2.2.1 s_committed_ready.2.2.2 rfl⟩⟩

/-! ## Commit: which entries are destroyed and which are parked -/

theorem unmap_entry_rest (s : State) (c phys : Nat) :
    (unmap_entry s c phys).destroyed = s.destroyed ∧
    (unmap_entry s c phys).pd_cow_elts = s.pd_cow_elts ∧
    (unmap_entry s c phys).keep_cow = s.keep_cow ∧
    (unmap_entry s c phys).current_ec_cow_elts_size = s.current_ec_cow_elts_size ∧
    (unmap_entry s c phys).vm_kernel_stacks = s.vm_kernel_stacks ∧
    (unmap_entry s c phys).is_virutalcpu = s.is_virutalcpu := by
  unfold unmap_entry
  dsimp only
  split <;> split <;> exact ⟨rfl, rfl, rfl, rfl, rfl, rfl⟩

theorem write_back_rest (s : State) (c : Nat) :
    (write_back s c).destroyed = s.destroyed ∧
    (write_back s c).pd_cow_elts = s.pd_cow_elts ∧
    (write_back s c).keep_cow = s.keep_cow ∧
    (write_back s c).current_ec_cow_elts_size = s.current_ec_cow_elts_size ∧
    (write_back s c).vm_kernel_stacks = s.vm_kernel_stacks ∧
    (write_back s c).is_virutalcpu = s.is_virutalcpu ∧
    (write_back s c).hpt_tab = s.hpt_tab ∧ (write_back s c).vtlb_tab = s.vtlb_tab := by
  unfold write_back
  split
  · exact ⟨rfl, rfl, rfl, rfl, rfl, rfl, rfl, rfl⟩
  · exact ⟨rfl, rfl, rfl, rfl, rfl, rfl, rfl, rfl⟩

/-- The branch of `commit` for an entry of the previous PE with a twin destroys both when
`keep_cow` is not set and the checksums agree, and parks both otherwise. -/
theorem commit_old_twin_fate (s s2 : State) (c ce count old_phys c2 : Nat) (diff : Bool)
    (h : commit_old_twin s c ce count old_phys diff = Except.ok (s2, c2)) :
    s2.keep_cow = s.keep_cow ∧ s2.current_ec_cow_elts_size = s.current_ec_cow_elts_size ∧
    (if (s.keep_cow || diff) = true then
      s2.destroyed = s.destroyed ∧ s2.pd_cow_elts = s.pd_cow_elts ++ [c, ce]
    else s2.destroyed = s.destroyed ++ [c, ce] ∧ s2.pd_cow_elts = s.pd_cow_elts) := by
  unfold commit_old_twin at h
  dsimp only at h
  split at h
  · cases h
  · rename_i q hq
    simp only [Except.ok.injEq, Prod.mk.injEq] at h
    obtain ⟨hs, _⟩ := h
    subst hs
    obtain ⟨u1, u2, u3, u4, _, _⟩ := unmap_entry_rest
      (if (set_live (if ((index_of s.cow_elts ce).1 &&
        decide ((index_of s.cow_elts ce).2 + count < s.current_ec_cow_elts_size) &&
        (s.keep_cow || diff)) = true then count_used s else s) q).keep_cow || diff then
        park (park (count_used (set_live (if ((index_of s.cow_elts ce).1 &&
        decide ((index_of s.cow_elts ce).2 + count < s.current_ec_cow_elts_size) &&
        (s.keep_cow || diff)) = true then count_used s else s) q)) c) ce
      else destroy (destroy (set_live (if ((index_of s.cow_elts ce).1 &&
        decide ((index_of s.cow_elts ce).2 + count < s.current_ec_cow_elts_size) &&
        (s.keep_cow || diff)) = true then count_used s else s) q) c) ce) ce old_phys
    rw [u1, u2, u3, u4]
    generalize hX : (if ((index_of s.cow_elts ce).1 &&
        decide ((index_of s.cow_elts ce).2 + count < s.current_ec_cow_elts_size) &&
        (s.keep_cow || diff)) = true then count_used s else s) = X
    have hXf : X.keep_cow = s.keep_cow ∧
        X.current_ec_cow_elts_size = s.current_ec_cow_elts_size ∧
        X.destroyed = s.destroyed ∧ X.pd_cow_elts = s.pd_cow_elts := by
      subst hX
      split <;> exact ⟨rfl, rfl, rfl, rfl⟩
    obtain ⟨x1, x2, x3, x4⟩ := hXf
    have hk : (set_live X q).keep_cow = s.keep_cow := x1
    rw [hk]
    by_cases hkd : (s.keep_cow || diff) = true
    · rw [if_pos hkd, if_pos hkd]
      refine ⟨x1, x2, x3, ?_⟩
      change enqueue (enqueue X.pd_cow_elts c) ce = _
      rw [x4]
      simp [enqueue]
    · rw [if_neg hkd, if_neg hkd]
      refine ⟨x1, x2, ?_, x4⟩
      change (X.destroyed ++ [c]) ++ [ce] = _
      rw [x3]
      simp

theorem commit_new_fate (s s2 : State) (c : Nat) (ce : Option Nat) (old_phys : Nat)
    (h : commit_new s c ce old_phys = Except.ok s2) :
    s2.keep_cow = s.keep_cow ∧ s2.current_ec_cow_elts_size = s.current_ec_cow_elts_size ∧
    s2.destroyed = s.destroyed ∧ s2.pd_cow_elts = s.pd_cow_elts ++ c :: ce.toList := by
  unfold commit_new at h
  dsimp only at h
  split at h
  · rename_i x
    split at h
    · cases h
    · rename_i q hq
      simp only [Except.ok.injEq] at h
      subst h
      obtain ⟨u1, u2, u3, u4, _, _⟩ := unmap_entry_rest (park (set_live (park s c) q) x) x old_phys
      rw [u1, u2, u3, u4]
      refine ⟨rfl, rfl, rfl, ?_⟩
      change enqueue (enqueue s.pd_cow_elts c) x = _
      simp [enqueue]
  · simp only [Except.ok.injEq] at h
    subst h
    refine ⟨rfl, rfl, rfl, ?_⟩
    change enqueue s.pd_cow_elts c = _
    simp [enqueue]

/-- One iteration of the loop of `commit`: the entry taken from the head and its twin are
destroyed when the entry is doomed, and parked, in this order, otherwise. -/
theorem commit_step_fate (s s1 : State) (c count count1 : Nat)
    (h : commit_step s c count = Except.ok (s1, count1)) :
    s1.keep_cow = s.keep_cow ∧ s1.current_ec_cow_elts_size = s.current_ec_cow_elts_size ∧
    (doomed s c count →
      s1.destroyed = s.destroyed ++ with_twin s c ∧ s1.pd_cow_elts = s.pd_cow_elts) ∧
    (¬ doomed s c count →
      s1.destroyed = s.destroyed ∧ s1.pd_cow_elts = s.pd_cow_elts ++ with_twin s c) := by
  obtain ⟨w1, w2, w3, w4, _, _, _, _⟩ := write_back_rest s c
  unfold commit_step at h
  dsimp only at h
  split at h
  · cases h
  · rename_i s2 c2 hv
    simp only [Except.ok.injEq, Prod.mk.injEq] at h
    obtain ⟨h1, h2⟩ := h
    subst h1
    obtain ⟨u1, u2, u3, u4, _, _⟩ := unmap_entry_rest s2 c (s.heap c).old_phys
    rw [u1, u2, u3, u4]
    unfold doomed with_twin
    split at hv
    · rename_i hlt
      rw [w4] at hlt
      split at hv
      · rename_i ce hce
        rw [write_back_twin] at hce
        obtain ⟨a1, a2, a3⟩ := commit_old_twin_fate _ _ _ _ _ _ _ _ hv
        rw [w1, w2, w3] at a3
        rw [w3] at a1
        rw [w4] at a2
        refine ⟨a1, a2, ?_, ?_⟩
        · rintro ⟨_, hcrc, hk⟩
          rw [if_neg (by simp [hcrc, hk])] at a3
          simpa [hce] using a3
        · intro hnd
          have : (s.keep_cow || decide ((s.heap c).crc ≠ (s.heap c).crc1)) = true := by
            by_cases hk : s.keep_cow = true
            · simp [hk]
            · by_cases hcrc : (s.heap c).crc = (s.heap c).crc1
              · exact absurd ⟨hlt, hcrc, by simpa using hk⟩ hnd
              · simp [hcrc]
          rw [if_pos this] at a3
          simpa [hce] using a3
      · rename_i hce
        rw [write_back_twin] at hce
        simp only [Except.ok.injEq, Prod.mk.injEq] at hv
        obtain ⟨hs, _⟩ := hv
        subst hs
        unfold commit_old_single
        rw [w3]
        refine ⟨?_, ?_, ?_, ?_⟩
        · split <;> exact w3
        · split <;> exact w4
        · rintro ⟨_, hcrc, hk⟩
          rw [if_neg (by simp [hcrc, hk])]
          change (write_back s c).destroyed ++ [c] = _ ∧ (write_back s c).pd_cow_elts = _
          rw [w1, w2, hce]
          exact ⟨rfl, rfl⟩
        · intro hnd
          have : (s.keep_cow || decide ((s.heap c).crc ≠ (s.heap c).crc1)) = true := by
            by_cases hk : s.keep_cow = true
            · simp [hk]
            · by_cases hcrc : (s.heap c).crc = (s.heap c).crc1
              · exact absurd ⟨hlt, hcrc, by simpa using hk⟩ hnd
              · simp [hcrc]
          rw [if_pos this]
          change (write_back s c).destroyed = _ ∧ enqueue (write_back s c).pd_cow_elts c = _
          rw [w1, w2, hce]
          exact ⟨rfl, rfl⟩
    · rename_i hlt
      rw [w4] at hlt
      split at hv
      · cases hv
      · rename_i s3 hn
        simp only [Except.ok.injEq, Prod.mk.injEq] at hv
        obtain ⟨hs, _⟩ := hv
        subst hs
        obtain ⟨a1, a2, a3, a4⟩ := commit_new_fate _ _ _ _ _ hn
        rw [write_back_twin] at a4
        rw [w1] at a3
        rw [w2] at a4
        rw [w3] at a1
        rw [w4] at a2
        exact ⟨a1, a2, fun hd => absurd hd.1 hlt, fun _ => ⟨a3, a4⟩⟩

theorem commit_visits_cons (fuel : Nat) (s : State) (count c : Nat) (q : List Nat)
    (hq : s.cow_elts = c :: q) :
    commit_visits (fuel + 1) s count =
      match commit_step { s with cow_elts := q } c count with
      | Except.error _ => [(c, count)]
      | Except.ok (s1, count1) => (c, count) :: commit_visits fuel s1 count1 := by
  rw [commit_visits]
  simp only [hq]

theorem commit_visits_subset (fuel : Nat) :
    ∀ (s : State) (count : Nat), ∀ ck ∈ commit_visits fuel s count, ck.1 ∈ s.cow_elts := by
  induction fuel with
  | zero => intro s count; simp [commit_visits]
  | succ n ih =>
    intro s count
    cases hq : s.cow_elts with
    | nil => simp [commit_visits, hq]
    | cons c q =>
      rw [commit_visits_cons _ _ _ _ _ hq]
      split
      · simp
      · rename_i s1 count1 hstep
        have hsub := commit_step_subset _ _ _ _ _ hstep
        intro x hx
        rcases List.mem_cons.1 hx with hx | hx
        · simp [hx]
        · exact List.mem_cons_of_mem _ (hsub (ih s1 count1 x hx))

/-- The live set after one iteration of the loop of `commit`, together with the entry taken
from the head and its twin, is a rearrangement of the live set before. -/
theorem commit_step_perm (s s1 : State) (c count count1 : Nat)
    (h : commit_step s c count = Except.ok (s1, count1)) :
    List.Perm (with_twin s c ++ s1.cow_elts) (c :: s.cow_elts) := by
  obtain ⟨_, _, hc | ⟨ce, hce, hin, hc⟩⟩ := commit_step_effect _ _ _ _ _ h
  · unfold with_twin
    rw [hc.1, hc.2]
    exact List.Perm.refl _
  · unfold with_twin
    rw [hce, hc]
    exact List.Perm.cons c (List.perm_cons_erase hin).symm

/-- The loop of `commit` empties the live set; every entry of the live set ends up, once,
among the destroyed or among the parked entries, and the entry taken from the head decides
for itself and for its twin. -/
theorem commit_loop_fates (fuel : Nat) :
    ∀ (s : State) (count : Nat) (s' : State), commit_loop fuel s count = Except.ok s' →
      s.cow_elts.length ≤ fuel → s.cow_elts.Nodup →
      s'.cow_elts = [] ∧ s'.keep_cow = s.keep_cow ∧
      s'.current_ec_cow_elts_size = s.current_ec_cow_elts_size ∧
      ∃ D P, s'.destroyed = s.destroyed ++ D ∧ s'.pd_cow_elts = s.pd_cow_elts ++ P ∧
        List.Perm (D ++ P) s.cow_elts ∧
        (∀ ck ∈ commit_visits fuel s count,
          (doomed s ck.1 ck.2 → ∀ x ∈ with_twin s ck.1, x ∈ D) ∧
          (¬ doomed s ck.1 ck.2 → ∀ x ∈ with_twin s ck.1, x ∈ P)) ∧
        ∀ x ∈ s.cow_elts, ∃ ck ∈ commit_visits fuel s count, x ∈ with_twin s ck.1 := by
  induction fuel with
  | zero =>
    intro s count s' h hlen _
    simp only [commit_loop, Except.ok.injEq] at h
    subst h
    have hnil : s.cow_elts = [] := List.length_eq_zero.1 (Nat.le_zero.1 hlen)
    exact ⟨hnil, rfl, rfl, [], [], by simp, by simp, by simp [hnil], by simp [commit_visits],
      by simp [hnil]⟩
  | succ n ih =>
    intro s count s' h hlen hnd
    cases hq : s.cow_elts with
    | nil =>
      rw [commit_loop_nil _ _ _ hq] at h
      simp only [Except.ok.injEq] at h
      subst h
      exact ⟨hq, rfl, rfl, [], [], by simp, by simp, by simp, by simp [commit_visits, hq],
        by simp⟩
    | cons c q =>
      rw [hq] at hlen hnd
      rw [commit_loop_cons _ _ _ _ _ hq] at h
      rw [commit_visits_cons _ _ _ _ _ hq]
      split at h
      · cases h
      · rename_i s1 count1 hstep
        obtain ⟨_, e2, _⟩ := commit_step_effect _ _ _ _ _ hstep
        have hsub : s1.cow_elts ⊆ q := commit_step_subset _ _ _ _ _ hstep
        have hperm := commit_step_perm _ _ _ _ _ hstep
        obtain ⟨g1, g2, g3, g4⟩ := commit_step_fate _ _ _ _ _ hstep
        have hcq : c ∉ q := (List.nodup_cons.1 hnd).1
        have hlen1 : s1.cow_elts.length ≤ n := by
          have := hperm.length_eq
          simp only [List.length_append, List.length_cons, with_twin] at this
          simp only [List.length_cons] at hlen
          omega
        have hnd1 : s1.cow_elts.Nodup := by
          have : (with_twin { s with cow_elts := q } c ++ s1.cow_elts).Nodup :=
            hperm.nodup_iff.2 hnd
          exact (List.nodup_append.1 this).2.1
        obtain ⟨i1, i2, i3, D1, P1, i4, i5, i6, i7, i8⟩ := ih s1 count1 s' h hlen1 hnd1
        have hfields : ∀ p, ({ s1.heap p with crc := 0 } : Cow_elt) = { s.heap p with crc := 0 } :=
          fun p => by rw [e2]; exact write_back_heap_fields _ c p
        have hother : ∀ p, p ≠ c → s1.heap p = s.heap p := fun p hp => by
          rw [e2]; exact write_back_heap_other _ c p hp
        have hwt : ∀ p, with_twin s1 p = with_twin s p := fun p => by
          unfold with_twin; rw [(same_frames (hfields p)).2.2.1]
        have hdoom : ∀ p k, p ≠ c → (doomed s1 p k ↔ doomed s p k) := fun p k hp => by
          unfold doomed
          rw [hother p hp, g1, g2]
        have hw0 : with_twin { s with cow_elts := q } c = with_twin s c := rfl
        have hd0 : doomed { s with cow_elts := q } c count ↔ doomed s c count := Iff.rfl
        rw [hw0] at hperm g3 g4
        refine ⟨i1, i2.trans g1, i3.trans g2, ?_⟩
        have hcover : ∀ x ∈ c :: q,
            ∃ ck ∈ (c, count) :: commit_visits n s1 count1, x ∈ with_twin s ck.1 := by
          intro x hx
          rcases List.mem_append.1 (hperm.mem_iff.2 hx) with hx1 | hx1
          · exact ⟨(c, count), by simp, hx1⟩
          · obtain ⟨ck, hck, hxk⟩ := i8 x hx1
            rw [hwt] at hxk
            exact ⟨ck, List.mem_cons_of_mem _ hck, hxk⟩
        by_cases hd : doomed s c count
        · obtain ⟨k1, k2⟩ := g3 hd
          refine ⟨with_twin s c ++ D1, P1, ?_, ?_, ?_, ?_, hcover⟩
          · rw [i4, k1]; simp
          · rw [i5, k2]
          · rw [List.append_assoc]
            exact (List.Perm.append_left _ i6).trans hperm
          · intro ck hck
            rcases List.mem_cons.1 hck with hck | hck
            · subst hck
              exact ⟨fun _ x hx => List.mem_append_left _ hx, fun h => absurd hd h⟩
            · have hne : ck.1 ≠ c := fun e =>
                hcq (e ▸ hsub (commit_visits_subset n s1 count1 ck hck))
              obtain ⟨j1, j2⟩ := i7 ck hck
              rw [hwt, hdoom _ _ hne] at j1 j2
              exact ⟨fun h x hx => List.mem_append_right _ (j1 h x hx), j2⟩
        · obtain ⟨k1, k2⟩ := g4 hd
          refine ⟨D1, with_twin s c ++ P1, ?_, ?_, ?_, ?_, hcover⟩
          · rw [i4, k1]
          · rw [i5, k2]; simp
          · have : List.Perm (D1 ++ (with_twin s c ++ P1)) (with_twin s c ++ (D1 ++ P1)) := by
              rw [← List.append_assoc, ← List.append_assoc]
              exact List.Perm.append_right _ List.perm_append_comm
            exact this.trans ((List.Perm.append_left _ i6).trans hperm)
          · intro ck hck
            rcases List.mem_cons.1 hck with hck | hck
            · subst hck
              exact ⟨fun h => absurd h hd, fun _ x hx => List.mem_append_left _ hx⟩
            · have hne : ck.1 ≠ c := fun e =>
                hcq (e ▸ hsub (commit_visits_subset n s1 count1 ck hck))
              obtain ⟨j1, j2⟩ := i7 ck hck
              rw [hwt, hdoom _ _ hne] at j1 j2
              exact ⟨j1, fun h x hx => List.mem_append_right _ (j2 h x hx)⟩

/-- Without a twin the counter of the loop of `commit` advances by one. -/
theorem commit_step_count (s s1 : State) (c count count1 : Nat)
    (htw : (s.heap c).v_is_mapped_elsewhere = none)
    (h : commit_step s c count = Except.ok (s1, count1)) : count1 = count + 1 := by
  unfold commit_step at h
  dsimp only at h
  split at h
  · cases h
  · rename_i s2 c2 hv
    simp only [Except.ok.injEq, Prod.mk.injEq] at h
    obtain ⟨_, h2⟩ := h
    subst h2
    split at hv
    · split at hv
      · rename_i ce hce
        rw [write_back_twin, htw] at hce
        cases hce
      · simp only [Except.ok.injEq, Prod.mk.injEq] at hv
        rw [hv.2]
    · split at hv
      · cases hv
      · simp only [Except.ok.injEq, Prod.mk.injEq] at hv
        rw [hv.2]

/-- When no live entry has a twin, the counter of the loop of `commit` is the position the
entry had in the live set when the loop started. -/
theorem commit_visits_no_twins (fuel : Nat) :
    ∀ (s : State) (count : Nat) (s' : State), commit_loop fuel s count = Except.ok s' →
      s.cow_elts.length ≤ fuel →
      (∀ x ∈ s.cow_elts, (s.heap x).v_is_mapped_elsewhere = none) →
      ∀ (i : Nat) (hi : i < s.cow_elts.length),
        (s.cow_elts.get ⟨i, hi⟩, count + i) ∈ commit_visits fuel s count := by
  induction fuel with
  | zero =>
    intro s count s' _ hlen _ i hi
    omega
  | succ n ih =>
    intro s count s' h hlen hno i hi
    have hcases : s.cow_elts = [] ∨ ∃ c q, s.cow_elts = c :: q := by
      cases s.cow_elts with
      | nil => exact Or.inl rfl
      | cons c q => exact Or.inr ⟨c, q, rfl⟩
    rcases hcases with hq | ⟨c, q, hq⟩
    · have : s.cow_elts.length = 0 := by rw [hq]; rfl
      omega
    · rw [commit_loop_cons _ _ _ _ _ hq] at h
      rw [commit_visits_cons _ _ _ _ _ hq]
      have hget : ∀ (j : Nat) (hj : j < s.cow_elts.length) (hj2 : j < (c :: q).length),
          s.cow_elts.get ⟨j, hj⟩ = (c :: q).get ⟨j, hj2⟩ := by
        intro j hj hj2
        simp only [List.get_eq_getElem]
        exact List.getElem_of_eq hq hj
      have hi2 : i < (c :: q).length := hq ▸ hi
      rw [hget i hi hi2]
      split at h
      · cases h
      · rename_i s1 count1 hstep
        have hc1 := commit_step_count { s with cow_elts := q } _ _ _ _
          (hno c (by rw [hq]; simp)) hstep
        obtain ⟨_, e2, hc | ⟨ce, hce, _, _⟩⟩ := commit_step_effect _ _ _ _ _ hstep
        · have hs1 : s1.cow_elts = q := hc.2
          cases i with
          | zero => simp
          | succ j =>
            have hj : j < s1.cow_elts.length := by
              rw [hs1]; simpa using hi2
            have hlen1 : s1.cow_elts.length ≤ n := by
              rw [hs1]; rw [hq] at hlen; simpa using hlen
            have hno1 : ∀ x ∈ s1.cow_elts, (s1.heap x).v_is_mapped_elsewhere = none := by
              intro x hx
              rw [e2]
              have := write_back_heap_fields { s with cow_elts := q } c x
              rw [(same_frames this).2.2.1]
              exact hno x (by rw [hq]; exact List.mem_cons_of_mem _ (hs1 ▸ hx))
            have := ih s1 count1 s' h hlen1 hno1 j hj
            have hgj : s1.cow_elts.get ⟨j, hj⟩ = (c :: q).get ⟨j + 1, hi2⟩ := by
              simp only [List.get_eq_getElem, List.getElem_cons_succ]
              exact List.getElem_of_eq hs1 hj
            have he : count1 + j = count + (j + 1) := by omega
            rw [hgj, he] at this
            exact List.mem_cons_of_mem _ this
        · have := hno c (by rw [hq]; simp)
          rw [this] at hce
          cases hce

/-- C11, as stated, fails: the live set holds the entry 1, taken over from the previous
PE, and its twin 2, created by a fault of the current PE, so the position of the entry 2 is
not below `current_ec_cow_elts_size`; nothing was written and `keep_cow` is not set.
`commit` destroys the entry 2 together with the entry 1 and parks nothing. -/
theorem commit_destroy_rule_counterexample :
    commit env0 s_realiased = Except.ok s_realiased_committed ∧
    s_realiased.cow_elts = [1, 2] ∧ s_realiased.current_ec_cow_elts_size = 1 ∧
    s_realiased.keep_cow = false ∧ s_realiased.cow_elts.indexOf 2 = 1 ∧
    ¬ (s_realiased.cow_elts.indexOf 2 < s_realiased.current_ec_cow_elts_size) ∧
    s_realiased_committed.destroyed = s_realiased.destroyed ++ [1, 2] ∧
    s_realiased_committed.pd_cow_elts = [] := by
  refine ⟨rfl, rfl, rfl, rfl, by decide, by decide, rfl, rfl⟩

/-- C11, amended: `commit` decides for the entries it takes from the head of the live set.
With `count` the loop counter when the entry `c` is taken, `c` is destroyed if and only if
`count < current_ec_cow_elts_size`, `c.crc == c.crc1` and `keep_cow` is false, and is parked
otherwise; the twin of `c` leaves the live set in the same iteration and shares the fate of
`c`, whatever its own position. Every entry of the live set is the head or the twin of
the head of one iteration and ends up exactly once among the destroyed or the parked
entries. When no live entry has a twin, `count` is the position the entry had in the live
set when `commit` started. The state `s0` is the one in which the loop starts. -/
theorem commit_destroy_or_park (env : Env) (s s0 s' : State)
    (h0 : (if s.is_virutalcpu then commit_vm_stack env s else Except.ok s) = Except.ok s0)
    (hr : commit env s = Except.ok s') (hnd : s0.cow_elts.Nodup) :
    ∃ D, s'.destroyed = s0.destroyed ++ D ∧
      List.Perm (D ++ s'.pd_cow_elts) s0.cow_elts ∧ (D ++ s'.pd_cow_elts).Nodup ∧
      (∀ x ∈ s0.cow_elts,
        ∃ ck ∈ commit_visits s0.cow_elts.length s0 0, x ∈ with_twin s0 ck.1) ∧
      (∀ ck ∈ commit_visits s0.cow_elts.length s0 0, ∀ x ∈ with_twin s0 ck.1,
        (x ∈ D ↔ doomed s0 ck.1 ck.2) ∧ (x ∈ s'.pd_cow_elts ↔ ¬ doomed s0 ck.1 ck.2)) ∧
      ((∀ x ∈ s0.cow_elts, (s0.heap x).v_is_mapped_elsewhere = none) →
        ∀ (i : Nat) (hi : i < s0.cow_elts.length),
          (s0.cow_elts.get ⟨i, hi⟩ ∈ D ↔ doomed s0 (s0.cow_elts.get ⟨i, hi⟩) i) ∧
          (s0.cow_elts.get ⟨i, hi⟩ ∈ s'.pd_cow_elts ↔
            ¬ doomed s0 (s0.cow_elts.get ⟨i, hi⟩) i)) := by
  unfold commit at hr
  simp only [bind, Except.bind, pure, Except.pure] at hr
  split at hr
  · cases hr
  · rename_i v hv
    have hv0 : Except.ok s0 = Except.ok v := h0.symm.trans hv
    simp only [Except.ok.injEq] at hv0
    subst hv0
    split at hr
    · cases hr
    · rename_i hpd
      have hpd0 : s0.pd_cow_elts = [] := by simpa using hpd
      split at hr
      · cases hr
      · rename_i s1 hl
        simp only [Except.ok.injEq] at hr
        have e1 : s'.destroyed = s1.destroyed := by rw [← hr]
        have e2 : s'.pd_cow_elts = s1.pd_cow_elts := by rw [← hr]
        obtain ⟨_, _, _, D, P, f1, f2, f3, f4, f5⟩ :=
          commit_loop_fates _ s0 0 s1 hl (Nat.le_refl _) hnd
        rw [hpd0, List.nil_append] at f2
        rw [e1, e2, f2]
        have hndp : (D ++ P).Nodup := f3.nodup_iff.2 hnd
        have hdisj : ∀ x, x ∈ D → x ∈ P → False := fun x hd hp =>
          (List.nodup_append.1 hndp).2.2 hd hp
        have hiff : ∀ ck ∈ commit_visits s0.cow_elts.length s0 0, ∀ x ∈ with_twin s0 ck.1,
            (x ∈ D ↔ doomed s0 ck.1 ck.2) ∧ (x ∈ P ↔ ¬ doomed s0 ck.1 ck.2) := by
          intro ck hck x hx
          obtain ⟨j1, j2⟩ := f4 ck hck
          by_cases hd : doomed s0 ck.1 ck.2
          · exact ⟨⟨fun _ => hd, fun _ => j1 hd x hx⟩,
              ⟨fun hp => absurd hp (fun hp => hdisj x (j1 hd x hx) hp), fun h => absurd hd h⟩⟩
          · exact ⟨⟨fun hxd => absurd (j2 hd x hx) (fun hp => hdisj x hxd hp),
              fun h => absurd h hd⟩, ⟨fun _ => hd, fun _ => j2 hd x hx⟩⟩
        refine ⟨D, f1, f3, hndp, f5, hiff, ?_⟩
        intro hno i hi
        have hvis := commit_visits_no_twins _ s0 0 s1 hl (Nat.le_refl _) hno i hi
        rw [Nat.zero_add] at hvis
        exact hiff _ hvis _ (by simp [with_twin])

theorem commit_destroy_or_park_witness :
    ((if s_realiased.is_virutalcpu then commit_vm_stack env0 s_realiased
        else Except.ok s_realiased) = Except.ok s_realiased ∧
      commit env0 s_realiased = Except.ok s_realiased_committed ∧
      s_realiased.cow_elts.Nodup) ∧
    ∃ D, s_realiased_committed.destroyed = s_realiased.destroyed ++ D ∧
      List.Perm (D ++ s_realiased_committed.pd_cow_elts) s_realiased.cow_elts ∧
      (D ++ s_realiased_committed.pd_cow_elts).Nodup ∧
      (∀ x ∈ s_realiased.cow_elts,
        ∃ ck ∈ commit_visits s_realiased.cow_elts.length s_realiased 0,
          x ∈ with_twin s_realiased ck.1) ∧
      (∀ ck ∈ commit_visits s_realiased.cow_elts.length s_realiased 0,
        ∀ x ∈ with_twin s_realiased ck.1,
        (x ∈ D ↔ doomed s_realiased ck.1 ck.2) ∧
        (x ∈ s_realiased_committed.pd_cow_elts ↔ ¬ doomed s_realiased ck.1 ck.2)) ∧
      ((∀ x ∈ s_realiased.cow_elts, (s_realiased.heap x).v_is_mapped_elsewhere = none) →
        ∀ (i : Nat) (hi : i < s_realiased.cow_elts.length),
          (s_realiased.cow_elts.get ⟨i, hi⟩ ∈ D ↔
            doomed s_realiased (s_realiased.cow_elts.get ⟨i, hi⟩) i) ∧
          (s_realiased.cow_elts.get ⟨i, hi⟩ ∈ s_realiased_committed.pd_cow_elts ↔
            ¬ doomed s_realiased (s_realiased.cow_elts.get ⟨i, hi⟩) i)) :=
  ⟨⟨rfl, rfl, by decide⟩,
    commit_destroy_or_park env0 s_realiased s_realiased s_realiased_committed rfl rfl
      (by decide)⟩

/-! ## Commit: the mappings return to the original frame -/

theorem tab_after_apply (tab : Nat → Nat × Nat) (slot : Option Nat) (v : Nat × Nat) (h : Nat) :
    tab_after tab slot v h = if slot = some h then v else tab h := by
  unfold tab_after
  cases slot with
  | none => simp
  | some k =>
    by_cases hk : k = h
    · subst hk; simp
    · simp [hk, Function.update_noteq (Ne.symm hk)]

theorem unmap_entry_tabs (s : State) (c phys : Nat) :
    (unmap_entry s c phys).hpt_tab = tab_after s.hpt_tab (s.heap c).hpt (phys, (s.heap c).attr) ∧
    (unmap_entry s c phys).vtlb_tab =
      tab_after s.vtlb_tab (s.heap c).vtlb (phys, (s.heap c).attr) := by
  unfold unmap_entry tab_after
  dsimp only
  split <;> split <;> simp_all

theorem commit_old_twin_tabs (s s2 : State) (c ce count old_phys c2 : Nat) (diff : Bool)
    (h : commit_old_twin s c ce count old_phys diff = Except.ok (s2, c2)) :
    s2.hpt_tab = tab_after s.hpt_tab (s.heap ce).hpt (old_phys, (s.heap ce).attr) ∧
    s2.vtlb_tab = tab_after s.vtlb_tab (s.heap ce).vtlb (old_phys, (s.heap ce).attr) := by
  unfold commit_old_twin at h
  dsimp only at h
  split at h
  · cases h
  · rename_i q hq
    simp only [Except.ok.injEq, Prod.mk.injEq] at h
    obtain ⟨hs, _⟩ := h
    subst hs
    generalize hX : (if ((index_of s.cow_elts ce).1 &&
        decide ((index_of s.cow_elts ce).2 + count < s.current_ec_cow_elts_size) &&
        (s.keep_cow || diff)) = true then count_used s else s) = X
    have hXf : X.hpt_tab = s.hpt_tab ∧ X.vtlb_tab = s.vtlb_tab ∧ X.heap = s.heap := by
      subst hX
      split <;> exact ⟨rfl, rfl, rfl⟩
    obtain ⟨x1, x2, x3⟩ := hXf
    generalize hY : (if ((set_live X q).keep_cow || diff) = true then
        park (park (count_used (set_live X q)) c) ce
      else destroy (destroy (set_live X q) c) ce) = Y
    have hYf : Y.hpt_tab = s.hpt_tab ∧ Y.vtlb_tab = s.vtlb_tab ∧ Y.heap = s.heap := by
      subst hY
      split <;> exact ⟨x1, x2, x3⟩
    obtain ⟨y1, y2, y3⟩ := hYf
    obtain ⟨u1, u2⟩ := unmap_entry_tabs Y ce old_phys
    rw [u1, u2, y1, y2, y3]
    exact ⟨rfl, rfl⟩

theorem commit_new_tabs (s s2 : State) (c : Nat) (ce : Option Nat) (old_phys : Nat)
    (h : commit_new s c ce old_phys = Except.ok s2) :
    (ce = none → s2.hpt_tab = s.hpt_tab ∧ s2.vtlb_tab = s.vtlb_tab) ∧
    (∀ x, ce = some x →
      s2.hpt_tab = tab_after s.hpt_tab (s.heap x).hpt (old_phys, (s.heap x).attr) ∧
      s2.vtlb_tab = tab_after s.vtlb_tab (s.heap x).vtlb (old_phys, (s.heap x).attr)) := by
  cases ce with
  | none =>
    simp only [commit_new, Except.ok.injEq] at h
    subst h
    exact ⟨fun _ => ⟨rfl, rfl⟩, fun x hx => nomatch hx⟩
  | some x =>
    unfold commit_new at h
    dsimp only at h
    split at h
    · cases h
    · rename_i q hq
      simp only [Except.ok.injEq] at h
      subst h
      obtain ⟨u1, u2⟩ := unmap_entry_tabs (park (set_live (park s c) q) x) x old_phys
      refine ⟨fun hx => (nomatch hx), fun y hy => ?_⟩
      cases hy
      rw [u1, u2]
      exact ⟨rfl, rfl⟩

/-- The tables after one iteration of the loop of `commit`: the entry of the twin, if there
is one, then the entry of the head are pointed at the original frame of the head with the
permissions stored in the shadow entries. -/
theorem commit_step_tabs (s s1 : State) (c count count1 : Nat)
    (h : commit_step s c count = Except.ok (s1, count1)) :
    ((s.heap c).v_is_mapped_elsewhere = none →
      s1.hpt_tab = tab_after s.hpt_tab (s.heap c).hpt ((s.heap c).old_phys, (s.heap c).attr) ∧
      s1.vtlb_tab =
        tab_after s.vtlb_tab (s.heap c).vtlb ((s.heap c).old_phys, (s.heap c).attr)) ∧
    (∀ ce, (s.heap c).v_is_mapped_elsewhere = some ce →
      s1.hpt_tab = tab_after
        (tab_after s.hpt_tab (s.heap ce).hpt ((s.heap c).old_phys, (s.heap ce).attr))
        (s.heap c).hpt ((s.heap c).old_phys, (s.heap c).attr) ∧
      s1.vtlb_tab = tab_after
        (tab_after s.vtlb_tab (s.heap ce).vtlb ((s.heap c).old_phys, (s.heap ce).attr))
        (s.heap c).vtlb ((s.heap c).old_phys, (s.heap c).attr)) := by
  obtain ⟨_, _, _, _, _, _, w7, w8⟩ := write_back_rest s c
  have hf : ∀ p, ((write_back s c).heap p).hpt = (s.heap p).hpt ∧
      ((write_back s c).heap p).vtlb = (s.heap p).vtlb ∧
      ((write_back s c).heap p).attr = (s.heap p).attr := fun p =>
    ⟨(same_fields (write_back_heap_fields s c p)).2.2.2.2.1,
      (same_fields (write_back_heap_fields s c p)).2.2.2.2.2.1,
      (same_fields (write_back_heap_fields s c p)).2.2.2.2.2.2.2⟩
  unfold commit_step at h
  dsimp only at h
  split at h
  · cases h
  · rename_i s2 c2 hv
    simp only [Except.ok.injEq, Prod.mk.injEq] at h
    obtain ⟨h1, h2⟩ := h
    subst h1
    obtain ⟨u1, u2⟩ := unmap_entry_tabs s2 c (s.heap c).old_phys
    rw [u1, u2]
    have hheap : s2.heap = (write_back s c).heap := by
      split at hv
      · split at hv
        · exact (commit_old_twin_effect _ _ _ _ _ _ _ _ hv).2.1
        · simp only [Except.ok.injEq, Prod.mk.injEq] at hv
          rw [← hv.1]
          exact (commit_old_single_effect _ _ _).2.1
      · split at hv
        · cases hv
        · rename_i s3 hn
          simp only [Except.ok.injEq, Prod.mk.injEq] at hv
          rw [← hv.1]
          exact (commit_new_effect _ _ _ _ _ hn).2.1
    rw [hheap, (hf c).1, (hf c).2.1, (hf c).2.2]
    split at hv
    · split at hv
      · rename_i ce hce
        rw [write_back_twin] at hce
        obtain ⟨a1, a2⟩ := commit_old_twin_tabs _ _ _ _ _ _ _ _ hv
        rw [a1, a2, w7, w8, (hf ce).1, (hf ce).2.1, (hf ce).2.2]
        refine ⟨fun hn => ?_, fun x hx => ?_⟩
        · rw [hn] at hce; cases hce
        · rw [hx] at hce; cases hce
          exact ⟨rfl, rfl⟩
      · rename_i hce
        rw [write_back_twin] at hce
        simp only [Except.ok.injEq, Prod.mk.injEq] at hv
        obtain ⟨hs, _⟩ := hv
        subst hs
        have ht : (commit_old_single (write_back s c) c
            (decide ((s.heap c).crc ≠ (s.heap c).crc1))).hpt_tab = s.hpt_tab ∧
            (commit_old_single (write_back s c) c
            (decide ((s.heap c).crc ≠ (s.heap c).crc1))).vtlb_tab = s.vtlb_tab := by
          unfold commit_old_single
          split
          · exact ⟨w7, w8⟩
          · exact ⟨w7, w8⟩
        rw [ht.1, ht.2]
        exact ⟨fun _ => ⟨rfl, rfl⟩, fun x hx => by rw [hx] at hce; cases hce⟩
    · split at hv
      · cases hv
      · rename_i s3 hn
        simp only [Except.ok.injEq, Prod.mk.injEq] at hv
        obtain ⟨hs, _⟩ := hv
        subst hs
        obtain ⟨a1, a2⟩ := commit_new_tabs _ _ _ _ _ hn
        rw [write_back_twin] at a1 a2
        refine ⟨fun hn => ?_, fun x hx => ?_⟩
        · obtain ⟨b1, b2⟩ := a1 hn
          rw [b1, b2, w7, w8]
          exact ⟨rfl, rfl⟩
        · obtain ⟨b1, b2⟩ := a2 x hx
          rw [b1, b2, w7, w8, (hf x).1, (hf x).2.1, (hf x).2.2]
          exact ⟨rfl, rfl⟩

/-- The loop of `commit`, for one of the two tables: an entry of the table that no live
shadow entry uses is not touched, and the entry that a live shadow entry uses ends up with
the original frame and the stored permissions of that shadow entry. -/
theorem commit_loop_tab (tab : State → Nat → Nat × Nat) (sel : Cow_elt → Option Nat)
    (hsel : ∀ a b : Cow_elt, ({ a with crc := 0 } : Cow_elt) = { b with crc := 0 } → sel a = sel b)
    (hcut : ∀ (s : State) (q : List Nat), tab { s with cow_elts := q } = tab s)
    (hstep : ∀ s s1 c count count1, commit_step s c count = Except.ok (s1, count1) →
      ((s.heap c).v_is_mapped_elsewhere = none →
        tab s1 = tab_after (tab s) (sel (s.heap c)) ((s.heap c).old_phys, (s.heap c).attr)) ∧
      (∀ ce, (s.heap c).v_is_mapped_elsewhere = some ce →
        tab s1 = tab_after
          (tab_after (tab s) (sel (s.heap ce)) ((s.heap c).old_phys, (s.heap ce).attr))
          (sel (s.heap c)) ((s.heap c).old_phys, (s.heap c).attr)))
    (fuel : Nat) :
    ∀ (s : State) (count : Nat) (s' : State), commit_loop fuel s count = Except.ok s' →
      s.cow_elts.length ≤ fuel → s.cow_elts.Nodup →
      (∀ x ∈ s.cow_elts, ∀ y ∈ s.cow_elts, x ≠ y →
        sel (s.heap x) = none ∨ sel (s.heap x) ≠ sel (s.heap y)) →
      (∀ x ∈ s.cow_elts, ∀ y, (s.heap x).v_is_mapped_elsewhere = some y →
        (s.heap y).old_phys = (s.heap x).old_phys) →
      (∀ h, (∀ y ∈ s.cow_elts, sel (s.heap y) ≠ some h) → tab s' h = tab s h) ∧
      (∀ x ∈ s.cow_elts, ∀ h, sel (s.heap x) = some h →
        tab s' h = ((s.heap x).old_phys, (s.heap x).attr)) := by
  induction fuel with
  | zero =>
    intro s count s' h hlen _ _ _
    simp only [commit_loop, Except.ok.injEq] at h
    subst h
    have hnil : s.cow_elts = [] := List.length_eq_zero.1 (Nat.le_zero.1 hlen)
    exact ⟨fun _ _ => rfl, by simp [hnil]⟩
  | succ n ih =>
    intro s count s' h hlen hnd hod htw
    cases hq : s.cow_elts with
    | nil =>
      rw [commit_loop_nil _ _ _ hq] at h
      simp only [Except.ok.injEq] at h
      subst h
      exact ⟨fun _ _ => rfl, by simp⟩
    | cons c q =>
      rw [hq] at hlen hnd hod htw
      rw [commit_loop_cons _ _ _ _ _ hq] at h
      split at h
      · cases h
      · rename_i s1 count1 hstep1
        obtain ⟨_, e2, hlive⟩ := commit_step_effect _ _ _ _ _ hstep1
        have hsub : s1.cow_elts ⊆ q := commit_step_subset _ _ _ _ _ hstep1
        have hperm := commit_step_perm _ _ _ _ _ hstep1
        obtain ⟨t1a, t2a⟩ := hstep _ _ _ _ _ hstep1
        have t1 : (s.heap c).v_is_mapped_elsewhere = none →
            tab s1 = tab_after (tab s) (sel (s.heap c)) ((s.heap c).old_phys, (s.heap c).attr) :=
          fun hn => (t1a hn).trans (by rw [hcut])
        have t2 : ∀ ce, (s.heap c).v_is_mapped_elsewhere = some ce →
            tab s1 = tab_after
              (tab_after (tab s) (sel (s.heap ce)) ((s.heap c).old_phys, (s.heap ce).attr))
              (sel (s.heap c)) ((s.heap c).old_phys, (s.heap c).attr) :=
          fun ce hn => (t2a ce hn).trans (by rw [hcut])
        have hcq : c ∉ q := (List.nodup_cons.1 hnd).1
        have hlen1 : s1.cow_elts.length ≤ n := by
          have := hperm.length_eq
          simp only [List.length_append, List.length_cons, with_twin] at this
          simp only [List.length_cons] at hlen
          omega
        have hnd1 : s1.cow_elts.Nodup := by
          have : (with_twin { s with cow_elts := q } c ++ s1.cow_elts).Nodup :=
            hperm.nodup_iff.2 hnd
          exact (List.nodup_append.1 this).2.1
        have hfields : ∀ p, ({ s1.heap p with crc := 0 } : Cow_elt) = { s.heap p with crc := 0 } :=
          fun p => by rw [e2]; exact write_back_heap_fields _ c p
        have hs : ∀ p, sel (s1.heap p) = sel (s.heap p) := fun p => hsel _ _ (hfields p)
        have hff := fun p => same_fields (hfields p)
        obtain ⟨i1, i2⟩ := ih s1 count1 s' h hlen1 hnd1
          (fun x hx y hy hxy => by
            rw [hs x, hs y]
            exact hod x (List.mem_cons_of_mem _ (hsub hx)) y (List.mem_cons_of_mem _ (hsub hy)) hxy)
          (fun x hx y hy => by
            rw [(hff x).2.2.2.2.2.2.1] at hy
            rw [(hff y).1, (hff x).1]
            exact htw x (List.mem_cons_of_mem _ (hsub hx)) y hy)
        -- the table after the first iteration
        have hT1 : ∀ h, tab s1 h =
            if sel (s.heap c) = some h then ((s.heap c).old_phys, (s.heap c).attr)
            else match (s.heap c).v_is_mapped_elsewhere with
              | some ce => if sel (s.heap ce) = some h then ((s.heap c).old_phys, (s.heap ce).attr)
                  else tab s h
              | none => tab s h := by
          intro h
          cases htwc : (s.heap c).v_is_mapped_elsewhere with
          | none => rw [t1 htwc, tab_after_apply]
          | some ce => rw [t2 ce htwc, tab_after_apply, tab_after_apply]
        have htwin_in : ∀ ce, (s.heap c).v_is_mapped_elsewhere = some ce →
            ce ∈ q ∧ s1.cow_elts = q.erase ce := by
          intro ce hce
          rcases hlive with ⟨hn, _⟩ | ⟨ce2, h2, h3, h4⟩
          · have hn2 : (s.heap c).v_is_mapped_elsewhere = none := hn
            rw [hn2] at hce; cases hce
          · have h22 : (s.heap c).v_is_mapped_elsewhere = some ce2 := h2
            rw [h22] at hce; cases hce
            exact ⟨h3, h4⟩
        constructor
        · intro h hy
          rw [i1 h (fun y hyy => by rw [hs y]; exact hy y (List.mem_cons_of_mem _ (hsub hyy))),
            hT1 h, if_neg (hy c (by simp))]
          cases htwc : (s.heap c).v_is_mapped_elsewhere with
          | none => rfl
          | some ce =>
            dsimp only
            rw [if_neg (hy ce (List.mem_cons_of_mem _ (htwin_in ce htwc).1))]
        · intro x hx h hxh
          by_cases hx1 : x ∈ s1.cow_elts
          · have := i2 x hx1 h (by rw [hs x]; exact hxh)
            rw [(hff x).1, (hff x).2.2.2.2.2.2.2] at this
            exact this
          · have hframe : tab s' h = tab s1 h := by
              apply i1 h
              intro y hy
              rw [hs y]
              have hyx : x ≠ y := fun e => hx1 (e ▸ hy)
              rcases hod x hx y (List.mem_cons_of_mem _ (hsub hy)) hyx with o | o
              · rw [hxh] at o; cases o
              · rw [hxh] at o; exact fun e => o e.symm
            rw [hframe, hT1 h]
            rcases List.mem_cons.1 hx with hxc | hxq
            · subst hxc
              rw [if_pos hxh]
            · have hxc : x ≠ c := fun e => hcq (e ▸ hxq)
              have hselc : sel (s.heap c) ≠ some h := by
                rcases hod x hx c (by simp) hxc with o | o
                · rw [hxh] at o; cases o
                · rw [hxh] at o; exact fun e => o e.symm
              rw [if_neg hselc]
              cases htwc : (s.heap c).v_is_mapped_elsewhere with
              | none =>
                rcases hlive with ⟨_, hl⟩ | ⟨ce2, h2, _, _⟩
                · exact absurd (hl ▸ hxq) hx1
                · have h22 : (s.heap c).v_is_mapped_elsewhere = some ce2 := h2
                  rw [h22] at htwc; cases htwc
              | some ce =>
                dsimp only
                obtain ⟨hceq, hs1⟩ := htwin_in ce htwc
                have hxce : x = ce := by
                  by_contra hne
                  exact hx1 (hs1 ▸ (List.mem_erase_of_ne hne).2 hxq)
                subst hxce
                rw [if_pos hxh, htw c (by simp) x htwc]

/-- C12: after `commit`, the mapping of every entry that was in the live set when the loop
of `commit` started, twins included, holds the entry's `old_phys` with the permissions
`attr` stored in the entry (those found at the fault: COW set, WRITE clear), in its
virtual-TLB entry and in its host page-table entry alike. The live entries are distinct,
use pairwise distinct page-table entries, and a twin has the `old_phys` of its partner. -/
theorem commit_restores_mappings (env : Env) (s s0 s' : State)
    (h0 : (if s.is_virutalcpu then commit_vm_stack env s else Except.ok s) = Except.ok s0)
    (hr : commit env s = Except.ok s') (hnd : s0.cow_elts.Nodup)
    (hod : origins_distinct s0 s0.cow_elts)
    (htw : ∀ x ∈ s0.cow_elts, ∀ y, (s0.heap x).v_is_mapped_elsewhere = some y →
      (s0.heap y).old_phys = (s0.heap x).old_phys) :
    ∀ x ∈ s0.cow_elts,
      mapping_is s' x (s0.heap x).old_phys (s0.heap x).attr (s0.heap x).attr ∧
      (s'.heap x).old_phys = (s0.heap x).old_phys ∧ (s'.heap x).attr = (s0.heap x).attr := by
  unfold commit at hr
  simp only [bind, Except.bind, pure, Except.pure] at hr
  split at hr
  · cases hr
  · rename_i v hv
    have hv0 : Except.ok s0 = Except.ok v := h0.symm.trans hv
    simp only [Except.ok.injEq] at hv0
    subst hv0
    split at hr
    · cases hr
    · split at hr
      · cases hr
      · rename_i s1 hl
        simp only [Except.ok.injEq] at hr
        have e1 : s'.heap = s1.heap := by rw [← hr]
        have e2 : s'.hpt_tab = s1.hpt_tab := by rw [← hr]
        have e3 : s'.vtlb_tab = s1.vtlb_tab := by rw [← hr]
        obtain ⟨_, _, f3⟩ := commit_loop_frame _ s0 0 s1 hl
        obtain ⟨_, th⟩ := commit_loop_tab (fun t => t.hpt_tab) Cow_elt.hpt
          (fun a b hab => (same_fields hab).2.2.2.2.1) (fun _ _ => rfl)
          (fun a b c k k1 hs => ⟨fun hn => ((commit_step_tabs a b c k k1 hs).1 hn).1,
            fun ce hce => ((commit_step_tabs a b c k k1 hs).2 ce hce).1⟩)
          _ s0 0 s1 hl (Nat.le_refl _) hnd (fun x hx y hy hxy => (hod x hx y hy hxy).1) htw
        obtain ⟨_, tv⟩ := commit_loop_tab (fun t => t.vtlb_tab) Cow_elt.vtlb
          (fun a b hab => (same_fields hab).2.2.2.2.2.1) (fun _ _ => rfl)
          (fun a b c k k1 hs => ⟨fun hn => ((commit_step_tabs a b c k k1 hs).1 hn).2,
            fun ce hce => ((commit_step_tabs a b c k k1 hs).2 ce hce).2⟩)
          _ s0 0 s1 hl (Nat.le_refl _) hnd (fun x hx y hy hxy => (hod x hx y hy hxy).2) htw
        intro x hx
        have ff := same_fields (f3 x)
        refine ⟨?_, by rw [e1]; exact ff.1, by rw [e1]; exact ff.2.2.2.2.2.2.2⟩
        unfold mapping_is
        rw [e1, e2, e3, ff.2.2.2.2.1, ff.2.2.2.2.2.1]
        constructor
        · cases hxv : (s0.heap x).vtlb with
          | none => trivial
          | some t => exact tv x hx t hxv
        · cases hxh : (s0.heap x).hpt with
          | none => trivial
          | some h => exact th x hx h hxh

theorem commit_restores_mappings_witness :
    ((if s_compared.is_virutalcpu then commit_vm_stack env0 s_compared
        else Except.ok s_compared) = Except.ok s_compared ∧
      commit env0 s_compared = Except.ok s_committed ∧
      s_compared.cow_elts = [1, 2] ∧ origins_distinct s_compared s_compared.cow_elts) ∧
    ∀ x ∈ s_compared.cow_elts,
      mapping_is s_committed x (s_compared.heap x).old_phys (s_compared.heap x).attr
        (s_compared.heap x).attr ∧
      (s_committed.heap x).old_phys = (s_compared.heap x).old_phys ∧
      (s_committed.heap x).attr = (s_compared.heap x).attr :=
  ⟨⟨rfl, commit_s_compared, rfl, by unfold origins_distinct; decide⟩,
    commit_restores_mappings env0 s_compared s_compared s_committed rfl commit_s_compared
      (by decide) (by unfold origins_distinct; decide)
      (by
        intro x hx y hy
        have hx2 : x ∈ [1, 2] := hx
        simp only [List.mem_cons, List.mem_singleton, List.not_mem_nil, or_false] at hx2
        rcases hx2 with e | e
        · subst e
          have : some 2 = some y := hy
          cases this
          rfl
        · subst e
          have : some 1 = some y := hy
          cases this
          rfl)⟩

/-! ## Commit: the checksum of the surviving entries -/

/-- The loop of `commit` leaves the twin of an entry it takes from the head as it is. -/
theorem commit_loop_twin_kept (fuel : Nat) :
    ∀ (s : State) (count : Nat) (s' : State), commit_loop fuel s count = Except.ok s' →
      s.cow_elts.Nodup →
      ∀ c ∈ commit_heads fuel s count, ∀ ce, (s.heap c).v_is_mapped_elsewhere = some ce →
        ce ∈ s.cow_elts ∧ ce ∉ commit_heads fuel s count ∧ s'.heap ce = s.heap ce := by
  induction fuel with
  | zero => intro s count s' _ _ c hc; simp [commit_heads] at hc
  | succ n ih =>
    intro s count s' h hnd
    cases hq : s.cow_elts with
    | nil => intro c hc; simp [commit_heads, hq] at hc
    | cons c q =>
      rw [hq] at hnd
      rw [commit_loop_cons _ _ _ _ _ hq] at h
      rw [commit_heads_cons _ _ _ _ _ hq]
      split at h
      · cases h
      · rename_i s1 count1 hstep
        obtain ⟨_, e2, hlive⟩ := commit_step_effect _ _ _ _ _ hstep
        have hsub : s1.cow_elts ⊆ q := commit_step_subset _ _ _ _ _ hstep
        have hperm := commit_step_perm _ _ _ _ _ hstep
        have hcq : c ∉ q := (List.nodup_cons.1 hnd).1
        have hndq : q.Nodup := (List.nodup_cons.1 hnd).2
        have hnd1 : s1.cow_elts.Nodup := by
          have : (with_twin { s with cow_elts := q } c ++ s1.cow_elts).Nodup :=
            hperm.nodup_iff.2 hnd
          exact (List.nodup_append.1 this).2.1
        obtain ⟨_, f2, _⟩ := commit_loop_frame n s1 count1 s' h
        have hheads := commit_heads_subset n s1 count1
        have hfields : ∀ p, ({ s1.heap p with crc := 0 } : Cow_elt) = { s.heap p with crc := 0 } :=
          fun p => by rw [e2]; exact write_back_heap_fields _ c p
        have hother : ∀ p, p ≠ c → s1.heap p = s.heap p := fun p hp => by
          rw [e2]; exact write_back_heap_other _ c p hp
        intro x hx ce hce
        rcases List.mem_cons.1 hx with hxc | hxr
        · subst hxc
          rcases hlive with ⟨hn, _⟩ | ⟨ce2, h2, h3, h4⟩
          · have hn2 : (s.heap x).v_is_mapped_elsewhere = none := hn
            rw [hn2] at hce; cases hce
          · have h22 : (s.heap x).v_is_mapped_elsewhere = some ce2 := h2
            rw [h22] at hce; cases hce
            have hce1 : ce ∉ s1.cow_elts := by
              rw [h4]
              exact fun hm => (List.Nodup.mem_erase_iff hndq).1 hm |>.1 rfl
            have hcex : ce ≠ x := fun e => hcq (e ▸ h3)
            refine ⟨List.mem_cons_of_mem _ h3, ?_, ?_⟩
            · intro hm
              rcases List.mem_cons.1 hm with e | e
              · exact hcex e
              · exact hce1 (hheads e)
            · rw [f2 ce hce1, hother ce hcex]
        · have hxq : x ∈ q := hsub (hheads hxr)
          have hxc : x ≠ c := fun e => hcq (e ▸ hxq)
          have hce1 : (s1.heap x).v_is_mapped_elsewhere = some ce := by
            rw [(same_frames (hfields x)).2.2.1]; exact hce
          obtain ⟨j1, j2, j3⟩ := ih s1 count1 s' h hnd1 x hxr ce hce1
          have hcec : ce ≠ c := fun e => hcq (e ▸ hsub j1)
          refine ⟨List.mem_cons_of_mem _ (hsub j1), ?_, by rw [j3, hother ce hcec]⟩
          intro hm
          rcases List.mem_cons.1 hm with e | e
          · exact hcec e
          · exact j2 e

/-- C13, as stated, fails for twins: in the state `s_written` the two live entries hold the
checksum of the content of the original frame and `compare` returns false; after `commit`
the parked entry 2, the twin of the entry 1, still holds that checksum, although the
original frame now has the content of the first shadow. -/
theorem commit_crc_round_trip_counterexample :
    (∀ x ∈ s_written.cow_elts,
      (s_written.heap x).crc = env0.crc (s_written.mem (s_written.heap x).old_phys)) ∧
    compare env0 s_written = Except.ok (false, s_compared) ∧
    commit env0 s_compared = Except.ok s_committed ∧
    2 ∈ s_committed.pd_cow_elts ∧
    (s_compared.heap 1).v_is_mapped_elsewhere = some 2 ∧
    (s_committed.heap 2).crc ≠ env0.crc (s_committed.mem (s_committed.heap 2).old_phys) := by
  refine ⟨by decide, rfl, rfl, by decide, rfl, by decide⟩

/-- C13, amended: if, when the loop of `commit` starts, every live entry holds in `crc`
the checksum of its original frame and in `crc1` the checksum of its first shadow (as
after a `compare` that returned false), then after `commit` every entry the loop took
from the head of the live set holds in `crc` the checksum of its original frame. The twin
of such an entry is not the head of an iteration and is left as it was, so its `crc` is
still the checksum of the content from before the write-back. -/
theorem commit_crc_round_trip (env : Env) (s s0 s' : State)
    (h0 : (if s.is_virutalcpu then commit_vm_stack env s else Except.ok s) = Except.ok s0)
    (hr : commit env s = Except.ok s')
    (hnd : s0.cow_elts.Nodup)
    (hA : ∀ x ∈ s0.cow_elts, ∀ y ∈ s0.cow_elts, (s0.heap x).old_phys ≠ (s0.heap y).new_phys0)
    (hB : ∀ x ∈ s0.cow_elts, ∀ y ∈ s0.cow_elts, x ≠ y →
      (s0.heap x).old_phys = (s0.heap y).old_phys →
      (s0.heap x).v_is_mapped_elsewhere = some y)
    (hcrc : ∀ x ∈ s0.cow_elts, (s0.heap x).crc = env.crc (s0.mem (s0.heap x).old_phys))
    (hcrc1 : ∀ x ∈ s0.cow_elts, (s0.heap x).crc1 = env.crc (s0.mem (s0.heap x).new_phys0)) :
    ∀ c ∈ commit_heads s0.cow_elts.length s0 0,
      (s'.heap c).crc = env.crc (s'.mem (s'.heap c).old_phys) ∧
      ∀ ce, (s0.heap c).v_is_mapped_elsewhere = some ce →
        ce ∉ commit_heads s0.cow_elts.length s0 0 ∧ (s'.heap ce).crc = (s0.heap ce).crc := by
  unfold commit at hr
  simp only [bind, Except.bind, pure, Except.pure] at hr
  split at hr
  · cases hr
  · rename_i v hv
    have hv0 : Except.ok s0 = Except.ok v := h0.symm.trans hv
    simp only [Except.ok.injEq] at hv0
    subst hv0
    split at hr
    · cases hr
    · split at hr
      · cases hr
      · rename_i s1 hl
        simp only [Except.ok.injEq] at hr
        have e1 : s'.heap = s1.heap := by rw [← hr]
        have e2 : s'.mem = s1.mem := by rw [← hr]
        intro c hc
        have hcl : c ∈ s0.cow_elts := commit_heads_subset _ s0 0 hc
        obtain ⟨w1, w2⟩ := commit_loop_write_back _ s0 0 s1 hl hnd hA hB c hc
        obtain ⟨_, _, f3⟩ := commit_loop_frame _ s0 0 s1 hl
        rw [e1, e2, (same_fields (f3 c)).1]
        constructor
        · by_cases hd : (s0.heap c).crc = (s0.heap c).crc1
          · obtain ⟨a1, a2⟩ := w2 hd
            rw [a1, a2]
            exact hcrc c hcl
          · obtain ⟨a1, _, a3⟩ := w1 hd
            rw [a1, a3]
            exact hcrc1 c hcl
        · intro ce hce
          obtain ⟨_, k2, k3⟩ := commit_loop_twin_kept _ s0 0 s1 hl hnd c hc ce hce
          exact ⟨k2, by rw [k3]⟩

theorem commit_crc_round_trip_witness :
    ((if s_compared.is_virutalcpu then commit_vm_stack env0 s_compared
        else Except.ok s_compared) = Except.ok s_compared ∧
      commit env0 s_compared = Except.ok s_committed ∧
      (∀ x ∈ s_compared.cow_elts,
        (s_compared.heap x).crc = env0.crc (s_compared.mem (s_compared.heap x).old_phys)) ∧
      (∀ x ∈ s_compared.cow_elts,
        (s_compared.heap x).crc1 = env0.crc (s_compared.mem (s_compared.heap x).new_phys0))) ∧
    ∀ c ∈ commit_heads s_compared.cow_elts.length s_compared 0,
      (s_committed.heap c).crc = env0.crc (s_committed.mem (s_committed.heap c).old_phys) ∧
      ∀ ce, (s_compared.heap c).v_is_mapped_elsewhere = some ce →
        ce ∉ commit_heads s_compared.cow_elts.length s_compared 0 ∧
        (s_committed.heap ce).crc = (s_compared.heap ce).crc :=
  ⟨⟨rfl, commit_s_compared, by decide, by decide⟩,
    commit_crc_round_trip env0 s_compared s_compared s_committed rfl commit_s_compared
      (by decide) (by decide) (by decide) (by decide) (by decide)⟩

/-! ## Drain: the live set at the end of a PE -/

/-- The loop of `commit` ends with an empty live set and leaves `keep_cow` and
`current_ec_cow_elts_size` to the epilogue. -/
theorem commit_loop_empty (fuel : Nat) :
    ∀ (s : State) (count : Nat) (s' : State), commit_loop fuel s count = Except.ok s' →
      s.cow_elts.length ≤ fuel → s'.cow_elts = [] := by
  induction fuel with
  | zero =>
    intro s count s' h hlen
    simp only [commit_loop, Except.ok.injEq] at h
    subst h
    exact List.length_eq_zero.1 (Nat.le_zero.1 hlen)
  | succ n ih =>
    intro s count s' h hlen
    cases hq : s.cow_elts with
    | nil =>
      rw [commit_loop_nil _ _ _ hq] at h
      simp only [Except.ok.injEq] at h
      subst h
      exact hq
    | cons c q =>
      rw [hq] at hlen
      rw [commit_loop_cons _ _ _ _ _ hq] at h
      split at h
      · cases h
      · rename_i s1 count1 hstep
        have hperm := commit_step_perm _ _ _ _ _ hstep
        have hlen1 : s1.cow_elts.length ≤ n := by
          have := hperm.length_eq
          simp only [List.length_append, List.length_cons, with_twin] at this
          simp only [List.length_cons] at hlen
          omega
        exact ih s1 count1 s' h hlen1

/-- `commit`, when it returns, leaves an empty live set, `current_ec_cow_elts_size == 0`
and `keep_cow == false`. -/
theorem commit_drains (env : Env) (s s' : State) (hr : commit env s = Except.ok s') :
    s'.cow_elts = [] ∧ s'.current_ec_cow_elts_size = 0 ∧ s'.keep_cow = false := by
  unfold commit at hr
  simp only [bind, Except.bind, pure, Except.pure] at hr
  split at hr
  · cases hr
  · split at hr
    · cases hr
    · split at hr
      · cases hr
      · rename_i s1 hl
        simp only [Except.ok.injEq] at hr
        have e1 : s'.cow_elts = s1.cow_elts := by rw [← hr]
        have e2 : s'.current_ec_cow_elts_size = 0 := by rw [← hr]
        have e3 : s'.keep_cow = false := by rw [← hr]
        exact ⟨e1.trans (commit_loop_empty _ _ _ _ hl (Nat.le_refl _)), e2, e3⟩

theorem check_exit_not_returned (e e' : Ec) : check_exit e ≠ (Exit.returned, e') := by
  unfold check_exit
  split <;> simp

theorem single_step_not_returned (pr : Probe) (e e' : Ec) (r : Step_reason) :
    single_step pr e r ≠ (Exit.returned, e') := by
  unfold single_step
  split <;> simp

theorem reset_all_cow_elts (e : Ec) : (reset_all e).cow.cow_elts = e.cow.cow_elts := rfl

theorem reset_all_launch_state (e : Ec) : (reset_all e).launch_state = e.launch_state := rfl

theorem reset_all_run_number (e : Ec) : (reset_all e).run_number = 0 := rfl

theorem check_memory_run0_not_returned (env : Env) (pr : Probe) (e e' : Ec) (from_ : PE_stopby) :
    check_memory_run0 env pr e from_ ≠ (Exit.returned, e') := by
  unfold check_memory_run0
  dsimp only
  split
  · simp
  · split
    · split
      · simp
      · split
        · split
          · simp
          · exact check_exit_not_returned _ _
        · split
          · simp
          · exact check_exit_not_returned _ _
    · exact check_exit_not_returned _ _

/-- A `Cow_elt` operation run from the driver that does not stop the kernel has returned
the state that the driver continues with. -/
theorem cow_call_ok (e e1 : Ec) (ev : Event) (op : State → Except Fault State)
    (h : cow_call e ev op = (e1, none)) :
    op e.cow = Except.ok e1.cow ∧ e1.launch_state = e.launch_state := by
  unfold cow_call at h
  dsimp only at h
  split at h
  · simp at h
  · rename_i s hs
    simp only [Prod.mk.injEq, and_true] at h
    subst h
    exact ⟨hs, rfl⟩

/-- The comparison block of `check_memory` returns to its caller only on the commit path:
`compare` has returned false, `commit` has returned, and `launch_state` is `UNLAUNCHED`. -/
theorem check_memory_compare_returned (env : Env) (pr : Probe) (e e' : Ec) (from_ : PE_stopby)
    (h : check_memory_compare env pr e from_ = (Exit.returned, e')) :
    e'.launch_state = Launch_type.UNLAUNCHED ∧ e'.run_number = 0 ∧
    ∃ s s2, compare env e.cow = Except.ok (false, s) ∧ commit env s = Except.ok s2 ∧
      e'.cow.cow_elts = s2.cow_elts ∧
      e'.cow.current_ec_cow_elts_size = s2.current_ec_cow_elts_size ∧
      e'.cow.keep_cow = s2.keep_cow := by
  unfold check_memory_compare at h
  dsimp only at h
  split at h
  · simp at h
  · rename_i differ s hc
    split at h
    · split at h
      · simp at h
      · split at h
        · simp at h
        · split at h
          · exact absurd h (check_exit_not_returned _ _)
          · split at h
            · exact absurd h (check_exit_not_returned _ _)
            · simp at h
    · rename_i hd
      have hd2 : differ = false ∧ pr.compare_regs = 0 := by simpa [Ec.log] using hd
      split at h
      · simp at h
      · rename_i e1 hcc
        obtain ⟨k1, _⟩ := cow_call_ok _ _ _ _ hcc
        simp only [Prod.mk.injEq, true_and] at h
        subst h
        exact ⟨rfl, rfl, s, e1.cow, hd2.1 ▸ hc, k1, rfl, rfl, rfl⟩

/-- The run-1 branch of `check_memory` returns to its caller only through the comparison
block. -/
theorem check_memory_run1_returned (env : Env) (pr : Probe) (e e' : Ec) (from_ : PE_stopby)
    (h : check_memory_run1 env pr e from_ = (Exit.returned, e')) :
    ∃ e0 : Ec, e0.cow = e.cow ∧ check_memory_compare env pr e0 from_ = (Exit.returned, e') := by
  unfold check_memory_run1 at h
  dsimp only at h
  split at h
  · split at h
    · exact absurd h (check_exit_not_returned _ _)
    · split at h
      · simp at h
      · split at h
        · simp at h
        · split at h
          · split at h
            · exact absurd h (single_step_not_returned _ _ _ _)
            · exact ⟨_, by rfl, h⟩
          · split at h
            · exact absurd h (single_step_not_returned _ _ _ _)
            · split at h
              · split at h
                · simp at h
                · exact absurd h (single_step_not_returned _ _ _ _)
              · exact ⟨_, by rfl, h⟩
  · exact ⟨_, by rfl, h⟩

theorem dequeue_mem (q : List Nat) (p : Nat) (h : p ∈ q) :
    dequeue q (some p) = (true, q.erase p) := by
  simp [dequeue, h]

/-- One iteration of the loop of `commit` does not stop the kernel when the twin of the
entry, if it has one, is in the live set. -/
theorem commit_step_ok (s : State) (c count : Nat)
    (htw : ∀ ce, (s.heap c).v_is_mapped_elsewhere = some ce → ce ∈ s.cow_elts) :
    ∃ r, commit_step s c count = Except.ok r := by
  have hwb : ∀ ce, ((write_back s c).heap c).v_is_mapped_elsewhere = some ce →
      ce ∈ (write_back s c).cow_elts := by
    intro ce hce
    rw [write_back_twin] at hce
    rw [write_back_cow_elts]
    exact htw ce hce
  by_cases hlt : count < (write_back s c).current_ec_cow_elts_size
  · cases htwc : ((write_back s c).heap c).v_is_mapped_elsewhere with
    | none =>
      simp only [commit_step, hlt, htwc, if_true]
      exact ⟨_, rfl⟩
    | some ce =>
      have hin := hwb ce htwc
      have hX : ∀ b : Bool, (if b = true then count_used (write_back s c)
          else write_back s c).cow_elts = (write_back s c).cow_elts := by
        intro b; cases b <;> rfl
      simp only [commit_step, hlt, htwc, if_true, commit_old_twin, hX, dequeue_mem _ _ hin]
      exact ⟨_, rfl⟩
  · cases htwc : ((write_back s c).heap c).v_is_mapped_elsewhere with
    | none =>
      simp only [commit_step, hlt, htwc, if_false, commit_new]
      exact ⟨_, rfl⟩
    | some ce =>
      have hin : ce ∈ (park (write_back s c) c).cow_elts := hwb ce htwc
      simp only [commit_step, hlt, htwc, if_false, commit_new, dequeue_mem _ _ hin]
      exact ⟨_, rfl⟩

/-- The twin closure of the live set is kept by one iteration of the loop of `commit`. -/
theorem commit_step_twins_closed (s s1 : State) (c count count1 : Nat) (q : List Nat)
    (hq : s.cow_elts = c :: q) (hnd : s.cow_elts.Nodup) (htc : twins_closed s s.cow_elts)
    (h : commit_step { s with cow_elts := q } c count = Except.ok (s1, count1)) :
    s1.cow_elts.Nodup ∧ twins_closed s1 s1.cow_elts := by
  rw [hq] at hnd htc
  obtain ⟨_, e2, hlive⟩ := commit_step_effect _ _ _ _ _ h
  have hperm := commit_step_perm _ _ _ _ _ h
  have hsub : s1.cow_elts ⊆ q := commit_step_subset _ _ _ _ _ h
  have hcq : c ∉ q := (List.nodup_cons.1 hnd).1
  have hndq : q.Nodup := (List.nodup_cons.1 hnd).2
  have hnd1 : s1.cow_elts.Nodup := by
    have : (with_twin { s with cow_elts := q } c ++ s1.cow_elts).Nodup := hperm.nodup_iff.2 hnd
    exact (List.nodup_append.1 this).2.1
  have hfields : ∀ p, ({ s1.heap p with crc := 0 } : Cow_elt) = { s.heap p with crc := 0 } :=
    fun p => by rw [e2]; exact write_back_heap_fields _ c p
  have htwf : ∀ p, (s1.heap p).v_is_mapped_elsewhere = (s.heap p).v_is_mapped_elsewhere :=
    fun p => (same_frames (hfields p)).2.2.1
  refine ⟨hnd1, ?_⟩
  intro x hx y hxy
  rw [htwf] at hxy
  have hxq : x ∈ q := hsub hx
  obtain ⟨a1, a2, a3⟩ := htc x (List.mem_cons_of_mem _ hxq) y hxy
  rw [htwf]
  refine ⟨?_, a2, a3⟩
  rcases hlive with ⟨hn, hl⟩ | ⟨ce, h2, h3, h4⟩
  · have hn2 : (s.heap c).v_is_mapped_elsewhere = none := hn
    rw [hl]
    rcases List.mem_cons.1 a1 with e | e
    · subst e; rw [hn2] at a3; cases a3
    · exact e
  · have h22 : (s.heap c).v_is_mapped_elsewhere = some ce := h2
    rw [h4] at hx ⊢
    have hxce : x ≠ ce := fun e => ((List.Nodup.mem_erase_iff hndq).1 hx).1 e
    have hyc : y ≠ c := by
      intro e
      subst e
      rw [h22] at a3
      cases a3
      exact hxce rfl
    have hyce : y ≠ ce := by
      intro e
      subst e
      obtain ⟨_, _, b3⟩ := htc c (by simp) y h22
      rw [b3] at a3
      cases a3
      exact hcq hxq
    rcases List.mem_cons.1 a1 with e | e
    · exact absurd e hyc
    · exact (List.mem_erase_of_ne hyce).2 e

/-- The loop of `commit` does not stop the kernel when the live set has no repetition and
is closed under the twin link. -/
theorem commit_loop_ok (fuel : Nat) :
    ∀ (s : State) (count : Nat), s.cow_elts.Nodup → twins_closed s s.cow_elts →
      ∃ s', commit_loop fuel s count = Except.ok s' := by
  induction fuel with
  | zero => intro s count _ _; exact ⟨s, rfl⟩
  | succ n ih =>
    intro s count hnd htc
    cases hq : s.cow_elts with
    | nil => exact ⟨s, commit_loop_nil _ _ _ hq⟩
    | cons c q =>
      rw [commit_loop_cons _ _ _ _ _ hq]
      have hcq : c ∉ q := by rw [hq] at hnd; exact (List.nodup_cons.1 hnd).1
      obtain ⟨r, hr⟩ := commit_step_ok { s with cow_elts := q } c count (by
        intro ce hce
        obtain ⟨a1, a2, _⟩ := htc c (by rw [hq]; simp) ce hce
        rw [hq] at a1
        rcases List.mem_cons.1 a1 with e | e
        · exact absurd e a2
        · exact e)
      rw [hr]
      obtain ⟨s1, count1⟩ := r
      dsimp only
      obtain ⟨k1, k2⟩ := commit_step_twins_closed s s1 c count count1 q hq hnd htc hr
      exact ih s1 count1 k1 k2

/-- Every entry of the live set is destroyed or parked by the loop of `commit`. -/
theorem commit_loop_settles (fuel : Nat) :
    ∀ (s : State) (count : Nat) (s' : State), commit_loop fuel s count = Except.ok s' →
      s.cow_elts.length ≤ fuel →
      ∃ D P, s'.destroyed = s.destroyed ++ D ∧ s'.pd_cow_elts = s.pd_cow_elts ++ P ∧
        ∀ x ∈ s.cow_elts, x ∈ D ∨ x ∈ P := by
  induction fuel with
  | zero =>
    intro s count s' h hlen
    simp only [commit_loop, Except.ok.injEq] at h
    subst h
    have hnil : s.cow_elts = [] := List.length_eq_zero.1 (Nat.le_zero.1 hlen)
    exact ⟨[], [], by simp, by simp, by simp [hnil]⟩
  | succ n ih =>
    intro s count s' h hlen
    cases hq : s.cow_elts with
    | nil =>
      rw [commit_loop_nil _ _ _ hq] at h
      simp only [Except.ok.injEq] at h
      subst h
      exact ⟨[], [], by simp, by simp, by simp⟩
    | cons c q =>
      rw [hq] at hlen
      rw [commit_loop_cons _ _ _ _ _ hq] at h
      split at h
      · cases h
      · rename_i s1 count1 hstep
        have hperm := commit_step_perm _ _ _ _ _ hstep
        obtain ⟨_, _, g3, g4⟩ := commit_step_fate _ _ _ _ _ hstep
        have hlen1 : s1.cow_elts.length ≤ n := by
          have := hperm.length_eq
          simp only [List.length_append, List.length_cons, with_twin] at this
          simp only [List.length_cons] at hlen
          omega
        obtain ⟨D1, P1, i1, i2, i3⟩ := ih s1 count1 s' h hlen1
        have hw0 : with_twin { s with cow_elts := q } c = with_twin s c := rfl
        rw [hw0] at hperm g3 g4
        by_cases hd : doomed { s with cow_elts := q } c count
        · obtain ⟨k1, k2⟩ := g3 hd
          refine ⟨with_twin s c ++ D1, P1, by rw [i1, k1]; simp, by rw [i2, k2], ?_⟩
          intro x hx
          rcases List.mem_append.1 (hperm.mem_iff.2 hx) with hx1 | hx1
          · exact Or.inl (List.mem_append_left _ hx1)
          · rcases i3 x hx1 with e | e
            · exact Or.inl (List.mem_append_right _ e)
            · exact Or.inr e
        · obtain ⟨k1, k2⟩ := g4 hd
          refine ⟨D1, with_twin s c ++ P1, by rw [i1, k1], by rw [i2, k2]; simp, ?_⟩
          intro x hx
          rcases List.mem_append.1 (hperm.mem_iff.2 hx) with hx1 | hx1
          · exact Or.inr (List.mem_append_left _ hx1)
          · rcases i3 x hx1 with e | e
            · exact Or.inl e
            · exact Or.inr (List.mem_append_right _ e)

/-- `check_memory` returns to its caller only with `launch_state == UNLAUNCHED`, run
number 0 and an empty live set: at its early exit and after `commit`. -/
theorem check_memory_returned (env : Env) (pr : Probe) (e e' : Ec) (from_ : PE_stopby)
    (h : check_memory env pr e from_ = (Exit.returned, e')) :
    e'.launch_state = Launch_type.UNLAUNCHED ∧ e'.run_number = 0 ∧ e'.cow.cow_elts = [] := by
  unfold check_memory at h
  split at h
  · simp at h
  · split at h
    · rename_i hempty
      simp only [Prod.mk.injEq, true_and] at h
      subst h
      refine ⟨rfl, rfl, ?_⟩
      rw [reset_all_cow_elts]
      have he : is_empty e.cow = true := by
        simp only [Bool.and_eq_true] at hempty
        exact hempty.1.1
      unfold is_empty at he
      cases hl : e.cow.cow_elts with
      | nil => rfl
      | cons a l => rw [hl] at he; simp at he
    · split at h
      · exact absurd h (check_memory_run0_not_returned _ _ _ _ _)
      · obtain ⟨e0, _, h1⟩ := check_memory_run1_returned _ _ _ _ _ h
        obtain ⟨a1, a2, s, s2, _, a4, a5, _, _⟩ := check_memory_compare_returned _ _ _ _ _ h1
        exact ⟨a1, a2, a5.trans (commit_drains _ _ _ a4).1⟩
      · simp at h

/-- The case `SR_MMIO`, `SR_PIO`, `SR_RDTSC` of `handle_exc_db` sets `launch_state` to
`UNLAUNCHED` and leaves the live set as it is. -/
theorem handle_exc_db_io_effect (e : Ec) :
    (handle_exc_db_io e).1 = Exit.returned ∧
    (handle_exc_db_io e).2.launch_state = Launch_type.UNLAUNCHED ∧
    (handle_exc_db_io e).2.run_number = 0 ∧
    (handle_exc_db_io e).2.cow.cow_elts = e.cow.cow_elts := by
  unfold handle_exc_db_io
  dsimp only
  refine ⟨rfl, rfl, rfl, ?_⟩
  rw [reset_all_cow_elts]
  unfold disable_step_debug
  dsimp only
  split <;> split <;> (try split) <;> rfl

/-- C14, as stated, fails for the case `SR_MMIO` / `SR_PIO` / `SR_RDTSC` of
`handle_exc_db`: the thread has written one page in this PE (the live set holds the entry
1) and is single-stepped over an RDTSC; the debug trap sets `launch_state` to `UNLAUNCHED`
and resets the run state, and the live set still holds the entry, which is neither parked
nor destroyed. -/
theorem drain_counterexample :
    s_one.cow_elts = [1] ∧
    (handle_exc_db env0 pr0 (ec0 s_one 0 Step_reason.SR_RDTSC)).1 = Exit.returned ∧
    (handle_exc_db env0 pr0 (ec0 s_one 0 Step_reason.SR_RDTSC)).2.launch_state
      = Launch_type.UNLAUNCHED ∧
    (handle_exc_db env0 pr0 (ec0 s_one 0 Step_reason.SR_RDTSC)).2.cow.cow_elts = [1] ∧
    (handle_exc_db env0 pr0 (ec0 s_one 0 Step_reason.SR_RDTSC)).2.cow.pd_cow_elts = [] ∧
    (handle_exc_db env0 pr0 (ec0 s_one 0 Step_reason.SR_RDTSC)).2.cow.destroyed = [] :=
  ⟨rfl, rfl, rfl, rfl, rfl, rfl⟩

/-- C14, amended: `check_memory` returns to its caller only with `launch_state ==
UNLAUNCHED` and an empty live set (its early exit and its commit path). `commit`, when it
returns, leaves an empty live set, `current_ec_cow_elts_size == 0` and `keep_cow == false`,
and every entry that was in the live set is on the parked list or destroyed; for a thread
that is not a virtual CPU, with an empty parked list and a live set without repetition
that is closed under the twin link, `commit` does return. The case `SR_MMIO` / `SR_PIO` /
`SR_RDTSC` of `handle_exc_db` sets `launch_state` to `UNLAUNCHED` without touching the live
set, which it only reports when it is not empty. -/
theorem drain_at_pe_boundary (env : Env) (pr : Probe) :
    (∀ (e e' : Ec) (from_ : PE_stopby), check_memory env pr e from_ = (Exit.returned, e') →
      e'.launch_state = Launch_type.UNLAUNCHED ∧ e'.cow.cow_elts = []) ∧
    (∀ s s0 s' : State,
      (if s.is_virutalcpu then commit_vm_stack env s else Except.ok s) = Except.ok s0 →
      commit env s = Except.ok s' →
      s'.cow_elts = [] ∧ s'.current_ec_cow_elts_size = 0 ∧ s'.keep_cow = false ∧
      ∀ x ∈ s0.cow_elts, x ∈ s'.pd_cow_elts ∨ x ∈ s'.destroyed) ∧
    (∀ s : State, s.is_virutalcpu = false → s.pd_cow_elts = [] → s.cow_elts.Nodup →
      twins_closed s s.cow_elts → ∃ s', commit env s = Except.ok s') ∧
    (∀ e : Ec, pr.dr6 &&& 1 = 0 → pr.user = true →
      (e.step_reason = Step_reason.SR_MMIO ∨ e.step_reason = Step_reason.SR_PIO ∨
        e.step_reason = Step_reason.SR_RDTSC) →
      (handle_exc_db env pr e).1 = Exit.returned ∧
      (handle_exc_db env pr e).2.launch_state = Launch_type.UNLAUNCHED ∧
      (handle_exc_db env pr e).2.cow.cow_elts = e.cow.cow_elts) := by
  refine ⟨?_, ?_, ?_, ?_⟩
  · intro e e' from_ h
    obtain ⟨a, _, c⟩ := check_memory_returned env pr e e' from_ h
    exact ⟨a, c⟩
  · intro s s0 s' h0 hr
    obtain ⟨d1, d2, d3⟩ := commit_drains env s s' hr
    refine ⟨d1, d2, d3, ?_⟩
    unfold commit at hr
    simp only [bind, Except.bind, pure, Except.pure] at hr
    split at hr
    · cases hr
    · rename_i v hv
      have hv0 : Except.ok s0 = Except.ok v := h0.symm.trans hv
      simp only [Except.ok.injEq] at hv0
      subst hv0
      split at hr
      · cases hr
      · split at hr
        · cases hr
        · rename_i s1 hl
          simp only [Except.ok.injEq] at hr
          have e1 : s'.destroyed = s1.destroyed := by rw [← hr]
          have e2 : s'.pd_cow_elts = s1.pd_cow_elts := by rw [← hr]
          obtain ⟨D, P, f1, f2, f3⟩ := commit_loop_settles _ s0 0 s1 hl (Nat.le_refl _)
          intro x hx
          rw [e1, e2, f1, f2]
          rcases f3 x hx with h | h
          · exact Or.inr (List.mem_append_right _ h)
          · exact Or.inl (List.mem_append_right _ h)
  · intro s hnv hpd hnd htc
    obtain ⟨s1, h1⟩ := commit_loop_ok s.cow_elts.length s 0 hnd htc
    refine ⟨{ s1 with ss_val := s1.current_ec_cow_elts_size, current_ec_cow_elts_size := 0, keep_cow := false }, ?_⟩
    unfold commit
    simp only [bind, Except.bind, pure, Except.pure, hnv, Bool.false_eq_true, if_false, hpd,
      List.isEmpty_nil, Bool.not_true, h1]
  · intro e hdr hu hsr
    have hio := handle_exc_db_io_effect e
    have hdr2 : ¬ (pr.dr6 &&& 1 ≠ 0) := fun h => h hdr
    unfold handle_exc_db
    rw [if_neg hdr2, if_pos hu]
    rcases hsr with h | h | h <;> (rw [h]; exact ⟨hio.1, hio.2.1, hio.2.2.2⟩)

theorem check_memory_s_written :
    check_memory env0 pr0 (ec0 s_written 1 Step_reason.SR_NIL) PE_stopby.PES_PAGE_FAULT
      = (Exit.returned,
        (check_memory env0 pr0 (ec0 s_written 1 Step_reason.SR_NIL)
          PE_stopby.PES_PAGE_FAULT).2) := rfl

theorem drain_at_pe_boundary_witness :
    (check_memory env0 pr0 (ec0 s_written 1 Step_reason.SR_NIL) PE_stopby.PES_PAGE_FAULT
        = (Exit.returned,
          (check_memory env0 pr0 (ec0 s_written 1 Step_reason.SR_NIL)
            PE_stopby.PES_PAGE_FAULT).2) ∧
      (check_memory env0 pr0 (ec0 s_written 1 Step_reason.SR_NIL)
          PE_stopby.PES_PAGE_FAULT).2.launch_state = Launch_type.UNLAUNCHED ∧
      (check_memory env0 pr0 (ec0 s_written 1 Step_reason.SR_NIL)
          PE_stopby.PES_PAGE_FAULT).2.cow.cow_elts = []) ∧
    (commit env0 s_compared = Except.ok s_committed ∧ s_compared.cow_elts = [1, 2] ∧
      s_committed.cow_elts = [] ∧ s_committed.current_ec_cow_elts_size = 0 ∧
      s_committed.keep_cow = false ∧
      ∀ x ∈ s_compared.cow_elts, x ∈ s_committed.pd_cow_elts ∨ x ∈ s_committed.destroyed) ∧
    ((s_compared.cow_elts.Nodup ∧ twins_closed s_compared s_compared.cow_elts) ∧
      ∃ s', commit env0 s_compared = Except.ok s') ∧
    ((handle_exc_db env0 pr0 (ec0 s_empty 0 Step_reason.SR_PIO)).1 = Exit.returned ∧
      (handle_exc_db env0 pr0 (ec0 s_empty 0 Step_reason.SR_PIO)).2.launch_state
        = Launch_type.UNLAUNCHED ∧
      (handle_exc_db env0 pr0 (ec0 s_empty 0 Step_reason.SR_PIO)).2.cow.cow_elts
        = (ec0 s_empty 0 Step_reason.SR_PIO).cow.cow_elts) :=
  ⟨⟨check_memory_s_written, (drain_at_pe_boundary env0 pr0).1
      (ec0 s_written 1 Step_reason.SR_NIL) _ PE_stopby.PES_PAGE_FAULT check_memory_s_written⟩,
    ⟨commit_s_compared, rfl,
      (drain_at_pe_boundary env0 pr0).2.1 s_compared s_compared s_committed rfl
        commit_s_compared⟩,
    ⟨⟨by decide, by
        intro x hx y hy
        have hx2 : x ∈ [1, 2] := hx
        simp only [List.mem_cons, List.mem_singleton, List.not_mem_nil, or_false] at hx2
        rcases hx2 with e | e
        · subst e
          have : some 2 = some y := hy
          cases this
          exact ⟨by decide, by decide, rfl⟩
        · subst e
          have : some 1 = some y := hy
          cases this
          exact ⟨by decide, by decide, rfl⟩⟩,
      (drain_at_pe_boundary env0 pr0).2.2.1 s_compared rfl rfl (by decide) (by
        intro x hx y hy
        have hx2 : x ∈ [1, 2] := hx
        simp only [List.mem_cons, List.mem_singleton, List.not_mem_nil, or_false] at hx2
        rcases hx2 with e | e
        · subst e
          have : some 2 = some y := hy
          cases this
          exact ⟨by decide, by decide, rfl⟩
        · subst e
          have : some 1 = some y := hy
          cases this
          exact ⟨by decide, by decide, rfl⟩)⟩,
    (drain_at_pe_boundary env0 pr0).2.2.2 (ec0 s_empty 0 Step_reason.SR_PIO) rfl rfl
      (Or.inr (Or.inl rfl))⟩

/-! ## Rollback -/

theorem assign_cons {β : Type} (tab : Nat → β) (kv : Nat × β) (l : List (Nat × β)) :
    assign tab (kv :: l) = assign (Function.update tab kv.1 kv.2) l := rfl

theorem assign_append {β : Type} (tab : Nat → β) (l1 l2 : List (Nat × β)) :
    assign tab (l1 ++ l2) = assign (assign tab l1) l2 := by
  unfold assign
  rw [List.foldl_append]

theorem assign_not_key {β : Type} (l : List (Nat × β)) :
    ∀ (tab : Nat → β) (a : Nat), (∀ kv ∈ l, kv.1 ≠ a) → assign tab l a = tab a := by
  induction l with
  | nil => intro tab a _; rfl
  | cons kv rest ih =>
    intro tab a h
    rw [assign_cons, ih _ a (fun x hx => h x (List.mem_cons_of_mem _ hx)),
      Function.update_noteq (Ne.symm (h kv (by simp)))]

theorem assign_congr_key {β : Type} (l : List (Nat × β)) :
    ∀ (t1 t2 : Nat → β) (a : Nat), (∃ kv ∈ l, kv.1 = a) → assign t1 l a = assign t2 l a := by
  induction l with
  | nil => intro t1 t2 a h; obtain ⟨kv, hk, _⟩ := h; cases hk
  | cons kv rest ih =>
    intro t1 t2 a h
    rw [assign_cons, assign_cons]
    by_cases hr : ∃ x ∈ rest, x.1 = a
    · exact ih _ _ a hr
    · have hno : ∀ x ∈ rest, x.1 ≠ a := fun x hx e => hr ⟨x, hx, e⟩
      obtain ⟨x, hx, hxa⟩ := h
      have hkv : kv.1 = a := by
        rcases List.mem_cons.1 hx with e | e
        · rw [← e]; exact hxa
        · exact absurd hxa (hno x e)
      rw [assign_not_key rest _ a hno, assign_not_key rest _ a hno, ← hkv]
      simp

theorem assign_idem {β : Type} (tab : Nat → β) (l : List (Nat × β)) :
    assign (assign tab l) l = assign tab l := by
  funext a
  by_cases h : ∃ kv ∈ l, kv.1 = a
  · exact assign_congr_key l _ _ a h
  · have hno : ∀ x ∈ l, x.1 ≠ a := fun x hx e => h ⟨x, hx, e⟩
    rw [assign_not_key l _ a hno, assign_not_key l _ a hno]

theorem assign_all {β : Type} (l : List (Nat × β)) :
    ∀ (tab : Nat → β) (a : Nat) (w : β), (∃ kv ∈ l, kv.1 = a) →
      (∀ kv ∈ l, kv.1 = a → kv.2 = w) → assign tab l a = w := by
  induction l with
  | nil => intro tab a w h; obtain ⟨kv, hk, _⟩ := h; cases hk
  | cons kv rest ih =>
    intro tab a w h hall
    rw [assign_cons]
    by_cases hr : ∃ x ∈ rest, x.1 = a
    · exact ih _ a w hr (fun x hx => hall x (List.mem_cons_of_mem _ hx))
    · have hno : ∀ x ∈ rest, x.1 ≠ a := fun x hx e => hr ⟨x, hx, e⟩
      obtain ⟨x, hx, hxa⟩ := h
      have hkv : kv.1 = a := by
        rcases List.mem_cons.1 hx with e | e
        · rw [← e]; exact hxa
        · exact absurd hxa (hno x e)
      rw [assign_not_key rest _ a hno, ← hkv]
      simp only [Function.update_same]
      exact hall kv (by simp) hkv

theorem tab_after_assign (tab : Nat → Nat × Nat) (slot : Option Nat) (v : Nat × Nat) :
    tab_after tab slot v = assign tab (slot_store slot v) := by
  cases slot <;> rfl

/-- The memory after `copy_frames` has read the original frame of the entry through slot 2
of the window. -/
theorem reseed_mem (s : State) (c : Nat)
    (h0 : (s.heap c).old_phys ≠ (s.heap c).new_phys0) :
    (copy_frames (remap_cow s (s.heap c).old_phys (2 * PAGE_SIZE)).2 (s.heap c).new_phys0
      (s.heap c).new_phys1 (remap_cow s (s.heap c).old_phys (2 * PAGE_SIZE)).1).mem
      = assign s.mem (reseed_stores s.mem (s.heap c)) := by
  have h20 : (2 : Nat) ≠ 0 := by decide
  simp only [copy_frames, remap_cow, memcpy, read_page, frame_of, slot0, slot2,
    Function.update_same, Function.update_noteq h20, assign, reseed_stores, List.foldl_cons,
    List.foldl_nil, Function.update_noteq h0]

theorem stores_of_append {β : Type} (f : Nat → List (Nat × β)) (l1 l2 : List Nat) :
    stores_of f (l1 ++ l2) = stores_of f l1 ++ stores_of f l2 := by
  induction l1 with
  | nil => rfl
  | cons c rest ih =>
    show f c ++ stores_of f (rest ++ l2) = (f c ++ stores_of f rest) ++ stores_of f l2
    rw [ih, List.append_assoc]

theorem stores_of_congr {β : Type} (f g : Nat → List (Nat × β)) (l : List Nat)
    (h : ∀ x ∈ l, f x = g x) : stores_of f l = stores_of g l := by
  induction l with
  | nil => rfl
  | cons c rest ih =>
    simp only [stores_of]
    rw [h c (by simp), ih (fun x hx => h x (List.mem_cons_of_mem _ hx))]

theorem mem_stores_of {β : Type} (f : Nat → List (Nat × β)) (l : List Nat) (kv : Nat × β) :
    kv ∈ stores_of f l ↔ ∃ c ∈ l, kv ∈ f c := by
  induction l with
  | nil => simp [stores_of]
  | cons c rest ih => simp [stores_of, ih]

theorem remap_entry_rest (env : Env) (s : State) (c phys : Nat) :
    (remap_entry env s c phys).mem = s.mem ∧
    (remap_entry env s c phys).destroyed = s.destroyed ∧
    (remap_entry env s c phys).pd_cow_elts = s.pd_cow_elts ∧
    (remap_entry env s c phys).vm_kernel_stacks = s.vm_kernel_stacks ∧
    (remap_entry env s c phys).is_virutalcpu = s.is_virutalcpu ∧
    (remap_entry env s c phys).buddy_frees = s.buddy_frees := by
  unfold remap_entry
  dsimp only
  split <;> split <;> exact ⟨rfl, rfl, rfl, rfl, rfl, rfl⟩

theorem remap_entry_tabs (env : Env) (s : State) (c phys : Nat) :
    (remap_entry env s c phys).hpt_tab = assign s.hpt_tab
      (slot_store (s.heap c).hpt (phys, writable (s.heap c).attr Hpt.HPT_W Hpt.HPT_COW)) ∧
    (remap_entry env s c phys).vtlb_tab = assign s.vtlb_tab
      (slot_store (s.heap c).vtlb (phys, writable (s.heap c).attr env.TLB_W env.TLB_COW)) := by
  rw [remap_entry_hpt_tab, remap_entry_vtlb_tab]
  constructor
  · cases (s.heap c).hpt <;> rfl
  · cases (s.heap c).vtlb <;> rfl

/-- The stores of the loop of `rollback` over the live set: into the two shadow frames of
every entry and into its page-table entries. -/
theorem rollback_walk_stores (env : Env) (l : List Nat) :
    ∀ s : State,
      (rollback_walk env s l).heap = s.heap ∧
      (rollback_walk env s l).cow_elts = s.cow_elts ∧
      (rollback_walk env s l).destroyed = s.destroyed ∧
      (rollback_walk env s l).pd_cow_elts = s.pd_cow_elts ∧
      (rollback_walk env s l).vm_kernel_stacks = s.vm_kernel_stacks ∧
      (rollback_walk env s l).is_virutalcpu = s.is_virutalcpu ∧
      (frames_apart s l → (rollback_walk env s l).mem
        = assign s.mem (stores_of (fun c => reseed_stores s.mem (s.heap c)) l)) ∧
      (rollback_walk env s l).hpt_tab = assign s.hpt_tab (stores_of (fun c =>
        slot_store (s.heap c).hpt
          ((s.heap c).new_phys0, writable (s.heap c).attr Hpt.HPT_W Hpt.HPT_COW)) l) ∧
      (rollback_walk env s l).vtlb_tab = assign s.vtlb_tab (stores_of (fun c =>
        slot_store (s.heap c).vtlb
          ((s.heap c).new_phys0, writable (s.heap c).attr env.TLB_W env.TLB_COW)) l) := by
  induction l with
  | nil => intro s; exact ⟨rfl, rfl, rfl, rfl, rfl, rfl, fun _ => rfl, rfl, rfl⟩
  | cons c rest ih =>
    intro s
    have hstep : rollback_walk env s (c :: rest) = rollback_walk env (remap_entry env
        (copy_frames (remap_cow s (s.heap c).old_phys (2 * PAGE_SIZE)).2 (s.heap c).new_phys0
          (s.heap c).new_phys1 (remap_cow s (s.heap c).old_phys (2 * PAGE_SIZE)).1) c
        (s.heap c).new_phys0) rest := rfl
    rw [hstep]
    obtain ⟨r1, r2, r3, r4, r5, r6⟩ := remap_entry_rest env
      (copy_frames (remap_cow s (s.heap c).old_phys (2 * PAGE_SIZE)).2 (s.heap c).new_phys0
        (s.heap c).new_phys1 (remap_cow s (s.heap c).old_phys (2 * PAGE_SIZE)).1) c
      (s.heap c).new_phys0
    obtain ⟨t1, t2⟩ := remap_entry_tabs env
      (copy_frames (remap_cow s (s.heap c).old_phys (2 * PAGE_SIZE)).2 (s.heap c).new_phys0
        (s.heap c).new_phys1 (remap_cow s (s.heap c).old_phys (2 * PAGE_SIZE)).1) c
      (s.heap c).new_phys0
    have hh := remap_entry_heap env
      (copy_frames (remap_cow s (s.heap c).old_phys (2 * PAGE_SIZE)).2 (s.heap c).new_phys0
        (s.heap c).new_phys1 (remap_cow s (s.heap c).old_phys (2 * PAGE_SIZE)).1) c
      (s.heap c).new_phys0
    have hc := remap_entry_cow_elts env
      (copy_frames (remap_cow s (s.heap c).old_phys (2 * PAGE_SIZE)).2 (s.heap c).new_phys0
        (s.heap c).new_phys1 (remap_cow s (s.heap c).old_phys (2 * PAGE_SIZE)).1) c
      (s.heap c).new_phys0
    generalize remap_entry env
      (copy_frames (remap_cow s (s.heap c).old_phys (2 * PAGE_SIZE)).2 (s.heap c).new_phys0
        (s.heap c).new_phys1 (remap_cow s (s.heap c).old_phys (2 * PAGE_SIZE)).1) c
      (s.heap c).new_phys0 = s1 at r1 r2 r3 r4 r5 r6 t1 t2 hh hc
    have hh1 : s1.heap = s.heap := hh
    have ht1 : s1.hpt_tab = assign s.hpt_tab (slot_store (s.heap c).hpt
        ((s.heap c).new_phys0, writable (s.heap c).attr Hpt.HPT_W Hpt.HPT_COW)) := t1
    have ht2 : s1.vtlb_tab = assign s.vtlb_tab (slot_store (s.heap c).vtlb
        ((s.heap c).new_phys0, writable (s.heap c).attr env.TLB_W env.TLB_COW)) := t2
    obtain ⟨i1, i2, i3, i4, i5, i6, i7, i8, i9⟩ := ih s1
    refine ⟨i1.trans hh1, i2.trans hc, i3.trans r2, i4.trans r3, i5.trans r4, i6.trans r5,
      ?_, ?_, ?_⟩
    · intro hfa
      have hm := reseed_mem s c (hfa c (by simp) c (by simp)).1
      have hm1 : s1.mem = assign s.mem (reseed_stores s.mem (s.heap c)) := r1.trans hm
      have hold : ∀ x ∈ rest, s1.mem (s.heap x).old_phys = s.mem (s.heap x).old_phys := by
        intro x hx
        rw [hm1]
        apply assign_not_key
        intro kv hkv
        obtain ⟨a, b⟩ := hfa x (List.mem_cons_of_mem _ hx) c (by simp)
        simp only [reseed_stores, List.mem_cons, List.mem_singleton, List.not_mem_nil,
          or_false] at hkv
        rcases hkv with e | e
        · rw [e]; exact Ne.symm a
        · rw [e]; exact Ne.symm b
      have hcongr : stores_of (fun x => reseed_stores s1.mem (s.heap x)) rest
          = stores_of (fun x => reseed_stores s.mem (s.heap x)) rest :=
        stores_of_congr _ _ _ (fun x hx => by unfold reseed_stores; rw [hold x hx])
      rw [i7 (by
        intro x hx y hy
        rw [hh1]
        exact hfa x (List.mem_cons_of_mem _ hx) y (List.mem_cons_of_mem _ hy)),
        hh1, hcongr, hm1]
      simp only [stores_of]
      rw [assign_append]
    · rw [i8, hh1, ht1]
      simp only [stores_of]
      rw [assign_append]
    · rw [i9, hh1, ht2]
      simp only [stores_of]
      rw [assign_append]

/-- The stores of the loop of `rollback_vm_stack` over the vm-stack queue. -/
theorem rollback_vm_walk_stores (l : List Nat) :
    ∀ s s0 : State, rollback_vm_stack_walk s l = Except.ok s0 →
      s0.heap = s.heap ∧ s0.cow_elts = s.cow_elts ∧ s0.destroyed = s.destroyed ∧
      s0.pd_cow_elts = s.pd_cow_elts ∧ s0.vm_kernel_stacks = s.vm_kernel_stacks ∧
      s0.is_virutalcpu = s.is_virutalcpu ∧
      (frames_apart s l →
        s0.mem = assign s.mem (stores_of (fun c => reseed_stores s.mem (s.heap c)) l)) ∧
      s0.hpt_tab = s.hpt_tab ∧
      s0.vtlb_tab = assign s.vtlb_tab (stores_of (fun c =>
        slot_store (s.heap c).vtlb ((s.heap c).new_phys0, (s.heap c).attr)) l) ∧
      ∀ x ∈ l, (s.heap x).vtlb ≠ none := by
  induction l with
  | nil =>
    intro s s0 h
    simp only [rollback_vm_stack_walk, Except.ok.injEq] at h
    subst h
    exact ⟨rfl, rfl, rfl, rfl, rfl, rfl, fun _ => rfl, rfl, rfl, by simp⟩
  | cons c rest ih =>
    intro s s0 h
    cases hv : (s.heap c).vtlb with
    | none =>
      have hstep : rollback_vm_stack_walk s (c :: rest) = Except.error Fault.null_deref := by
        rw [rollback_vm_stack_walk]
        dsimp only
        have : ((copy_frames (remap_cow s (s.heap c).old_phys (2 * PAGE_SIZE)).2
            ((remap_cow s (s.heap c).old_phys (2 * PAGE_SIZE)).2.heap c).new_phys0
            ((remap_cow s (s.heap c).old_phys (2 * PAGE_SIZE)).2.heap c).new_phys1
            (remap_cow s (s.heap c).old_phys (2 * PAGE_SIZE)).1).heap c).vtlb = none := hv
        rw [this]
      rw [hstep] at h
      cases h
    | some t =>
      have hstep : rollback_vm_stack_walk s (c :: rest) = rollback_vm_stack_walk
          (Vtlb.cow_update (copy_frames (remap_cow s (s.heap c).old_phys (2 * PAGE_SIZE)).2
            (s.heap c).new_phys0 (s.heap c).new_phys1
            (remap_cow s (s.heap c).old_phys (2 * PAGE_SIZE)).1) t (s.heap c).new_phys0
            (s.heap c).attr) rest := by
        rw [rollback_vm_stack_walk]
        dsimp only
        have : ((copy_frames (remap_cow s (s.heap c).old_phys (2 * PAGE_SIZE)).2
            ((remap_cow s (s.heap c).old_phys (2 * PAGE_SIZE)).2.heap c).new_phys0
            ((remap_cow s (s.heap c).old_phys (2 * PAGE_SIZE)).2.heap c).new_phys1
            (remap_cow s (s.heap c).old_phys (2 * PAGE_SIZE)).1).heap c).vtlb = some t := hv
        rw [this]
        rfl
      rw [hstep] at h
      generalize hs1 : Vtlb.cow_update (copy_frames (remap_cow s (s.heap c).old_phys
        (2 * PAGE_SIZE)).2 (s.heap c).new_phys0 (s.heap c).new_phys1
        (remap_cow s (s.heap c).old_phys (2 * PAGE_SIZE)).1) t (s.heap c).new_phys0
        (s.heap c).attr = s1 at h
      have hh1 : s1.heap = s.heap := by rw [← hs1]; rfl
      have ht1 : s1.vtlb_tab = assign s.vtlb_tab (slot_store (s.heap c).vtlb
          ((s.heap c).new_phys0, (s.heap c).attr)) := by
        rw [← hs1, hv]; rfl
      have hrest : s1.cow_elts = s.cow_elts ∧ s1.destroyed = s.destroyed ∧
          s1.pd_cow_elts = s.pd_cow_elts ∧ s1.vm_kernel_stacks = s.vm_kernel_stacks ∧
          s1.is_virutalcpu = s.is_virutalcpu ∧ s1.hpt_tab = s.hpt_tab := by
        rw [← hs1]; exact ⟨rfl, rfl, rfl, rfl, rfl, rfl⟩
      obtain ⟨q1, q2, q3, q4, q5, q6⟩ := hrest
      obtain ⟨i1, i2, i3, i4, i5, i6, i7, i8, i9, i10⟩ := ih s1 s0 h
      refine ⟨i1.trans hh1, i2.trans q1, i3.trans q2, i4.trans q3, i5.trans q4, i6.trans q5,
        ?_, i8.trans q6, ?_, ?_⟩
      · intro hfa
        have hm := reseed_mem s c (hfa c (by simp) c (by simp)).1
        have hm1 : s1.mem = assign s.mem (reseed_stores s.mem (s.heap c)) := by
          rw [← hs1]; exact hm
        have hold : ∀ x ∈ rest, s1.mem (s.heap x).old_phys = s.mem (s.heap x).old_phys := by
          intro x hx
          rw [hm1]
          apply assign_not_key
          intro kv hkv
          obtain ⟨a, b⟩ := hfa x (List.mem_cons_of_mem _ hx) c (by simp)
          simp only [reseed_stores, List.mem_cons, List.mem_singleton, List.not_mem_nil,
            or_false] at hkv
          rcases hkv with e | e
          · rw [e]; exact Ne.symm a
          · rw [e]; exact Ne.symm b
        have hcongr : stores_of (fun x => reseed_stores s1.mem (s.heap x)) rest
            = stores_of (fun x => reseed_stores s.mem (s.heap x)) rest :=
          stores_of_congr _ _ _ (fun x hx => by unfold reseed_stores; rw [hold x hx])
        rw [i7 (by
          intro x hx y hy
          rw [hh1]
          exact hfa x (List.mem_cons_of_mem _ hx) y (List.mem_cons_of_mem _ hy)),
          hh1, hcongr, hm1]
        simp only [stores_of]
        rw [assign_append]
      · rw [i9, hh1, ht1]
        simp only [stores_of]
        rw [assign_append]
      · intro x hx
        rcases List.mem_cons.1 hx with e | e
        · rw [e, hv]; simp
        · have := i10 x e
          rw [hh1] at this
          exact this

/-- The loop of `rollback_vm_stack` returns when every entry of the queue has a virtual-TLB
entry. -/
theorem rollback_vm_walk_ok (l : List Nat) :
    ∀ s : State, (∀ x ∈ l, (s.heap x).vtlb ≠ none) →
      ∃ s0, rollback_vm_stack_walk s l = Except.ok s0 := by
  induction l with
  | nil => intro s _; exact ⟨s, rfl⟩
  | cons c rest ih =>
    intro s h
    cases hv : (s.heap c).vtlb with
    | none => exact absurd hv (h c (by simp))
    | some t =>
      have hstep : rollback_vm_stack_walk s (c :: rest) = rollback_vm_stack_walk
          (Vtlb.cow_update (copy_frames (remap_cow s (s.heap c).old_phys (2 * PAGE_SIZE)).2
            (s.heap c).new_phys0 (s.heap c).new_phys1
            (remap_cow s (s.heap c).old_phys (2 * PAGE_SIZE)).1) t (s.heap c).new_phys0
            (s.heap c).attr) rest := by
        rw [rollback_vm_stack_walk]
        dsimp only
        have : ((copy_frames (remap_cow s (s.heap c).old_phys (2 * PAGE_SIZE)).2
            ((remap_cow s (s.heap c).old_phys (2 * PAGE_SIZE)).2.heap c).new_phys0
            ((remap_cow s (s.heap c).old_phys (2 * PAGE_SIZE)).2.heap c).new_phys1
            (remap_cow s (s.heap c).old_phys (2 * PAGE_SIZE)).1).heap c).vtlb = some t := hv
        rw [this]
        rfl
      rw [hstep]
      exact ih _ (fun x hx => h x (List.mem_cons_of_mem _ hx))

/-- What `rollback` does, as a list of stores: the content of the original frame of every
entry it walks goes into the two shadow frames of the entry, and the page-table entries of
the entries are pointed at the first shadow frame. Nothing else changes. -/
theorem rollback_stores (env : Env) (s s' : State) (h : rollback env s = Except.ok s') :
    s'.heap = s.heap ∧ s'.cow_elts = s.cow_elts ∧ s'.destroyed = s.destroyed ∧
    s'.pd_cow_elts = s.pd_cow_elts ∧ s'.vm_kernel_stacks = s.vm_kernel_stacks ∧
    s'.is_virutalcpu = s.is_virutalcpu ∧
    (frames_apart s (rollback_entries s) → s'.mem = assign s.mem
      (stores_of (fun c => reseed_stores s.mem (s.heap c)) (rollback_entries s))) ∧
    s'.hpt_tab = assign s.hpt_tab (stores_of (fun c =>
      slot_store (s.heap c).hpt
        ((s.heap c).new_phys0, writable (s.heap c).attr Hpt.HPT_W Hpt.HPT_COW)) s.cow_elts) ∧
    s'.vtlb_tab = assign s.vtlb_tab
      ((if s.is_virutalcpu then stores_of (fun c =>
          slot_store (s.heap c).vtlb ((s.heap c).new_phys0, (s.heap c).attr)) s.vm_kernel_stacks
        else []) ++
       stores_of (fun c => slot_store (s.heap c).vtlb
        ((s.heap c).new_phys0, writable (s.heap c).attr env.TLB_W env.TLB_COW)) s.cow_elts) ∧
    (s.is_virutalcpu = true → ∀ x ∈ s.vm_kernel_stacks, (s.heap x).vtlb ≠ none) := by
  unfold rollback at h
  simp only [bind, Except.bind, pure, Except.pure] at h
  by_cases hv : s.is_virutalcpu = true
  · have hent : rollback_entries s = s.vm_kernel_stacks ++ s.cow_elts := by
      unfold rollback_entries; rw [if_pos hv]
    rw [hent]
    rw [if_pos hv] at h ⊢
    split at h
    · cases h
    · rename_i s0 h0
      unfold rollback_vm_stack at h0
      rw [if_pos hv] at h0
      simp only [Except.ok.injEq] at h
      subst h
      obtain ⟨v1, v2, v3, v4, v5, v6, v7, v8, v9, v10⟩ := rollback_vm_walk_stores _ s s0 h0
      obtain ⟨w1, w2, w3, w4, w5, w6, w7, w8, w9⟩ := rollback_walk_stores env s0.cow_elts s0
      refine ⟨w1.trans v1, w2.trans v2, w3.trans v3, w4.trans v4, w5.trans v5, w6.trans v6,
        ?_, ?_, ?_, fun _ => v10⟩
      · intro hfa
        have v7a := v7 (fun x hx y hy =>
          hfa x (List.mem_append_left _ hx) y (List.mem_append_left _ hy))
        have hold : ∀ x ∈ s.cow_elts,
            s0.mem (s.heap x).old_phys = s.mem (s.heap x).old_phys := by
          intro x hx
          rw [v7a]
          apply assign_not_key
          intro kv hkv
          obtain ⟨y, hy, hk⟩ := (mem_stores_of _ _ _).1 hkv
          obtain ⟨a, b⟩ := hfa x (List.mem_append_right _ hx) y (List.mem_append_left _ hy)
          simp only [reseed_stores, List.mem_cons, List.mem_singleton, List.not_mem_nil,
            or_false] at hk
          rcases hk with e | e
          · rw [e]; exact Ne.symm a
          · rw [e]; exact Ne.symm b
        have hcongr : stores_of (fun x => reseed_stores s0.mem (s.heap x)) s.cow_elts
            = stores_of (fun x => reseed_stores s.mem (s.heap x)) s.cow_elts :=
          stores_of_congr _ _ _ (fun x hx => by unfold reseed_stores; rw [hold x hx])
        rw [w7 (by
          intro x hx y hy
          rw [v1]
          rw [v2] at hx hy
          exact hfa x (List.mem_append_right _ hx) y (List.mem_append_right _ hy)),
          v1, v2, hcongr, v7a, stores_of_append, assign_append]
      · rw [w8, v1, v2, v8]
      · rw [w9, v1, v2, v9, assign_append]
  · have hent : rollback_entries s = s.cow_elts := by
      unfold rollback_entries; rw [if_neg hv]
    rw [hent]
    rw [if_neg hv] at h ⊢
    simp only [Except.ok.injEq] at h
    subst h
    obtain ⟨w1, w2, w3, w4, w5, w6, w7, w8, w9⟩ := rollback_walk_stores env s.cow_elts s
    exact ⟨w1, w2, w3, w4, w5, w6, w7, w8, by rw [w9, List.nil_append],
      fun h => absurd h hv⟩

/-- `rollback` returns when every entry of the vm-stack queue of a virtual CPU has a
virtual-TLB entry; for any other thread it always returns. -/
theorem rollback_ok (env : Env) (s : State)
    (h : s.is_virutalcpu = true → ∀ x ∈ s.vm_kernel_stacks, (s.heap x).vtlb ≠ none) :
    ∃ s', rollback env s = Except.ok s' := by
  unfold rollback
  simp only [bind, Except.bind, pure, Except.pure]
  by_cases hv : s.is_virutalcpu = true
  · obtain ⟨s0, h0⟩ := rollback_vm_walk_ok s.vm_kernel_stacks s (h hv)
    unfold rollback_vm_stack
    rw [if_pos hv, if_pos hv, h0]
    exact ⟨_, rfl⟩
  · rw [if_neg hv]
    exact ⟨_, rfl⟩

theorem rollback_entries_congr (s s1 : State) (h1 : s1.is_virutalcpu = s.is_virutalcpu)
    (h2 : s1.vm_kernel_stacks = s.vm_kernel_stacks) (h3 : s1.cow_elts = s.cow_elts) :
    rollback_entries s1 = rollback_entries s := by
  unfold rollback_entries
  rw [h1, h2, h3]

/-- The original frames keep their content through `rollback`. -/
theorem rollback_keeps_originals (env : Env) (s s' : State) (h : rollback env s = Except.ok s')
    (hfa : frames_apart s (rollback_entries s)) :
    ∀ x ∈ rollback_entries s, s'.mem (s.heap x).old_phys = s.mem (s.heap x).old_phys := by
  obtain ⟨_, _, _, _, _, _, m, _⟩ := rollback_stores env s s' h
  intro x hx
  rw [m hfa]
  apply assign_not_key
  intro kv hkv
  obtain ⟨y, hy, hk⟩ := (mem_stores_of _ _ _).1 hkv
  obtain ⟨a, b⟩ := hfa x hx y hy
  simp only [reseed_stores, List.mem_cons, List.mem_singleton, List.not_mem_nil,
    or_false] at hk
  rcases hk with e | e
  · rw [e]; exact Ne.symm a
  · rw [e]; exact Ne.symm b

/-- C15: `rollback` run a second time returns and yields the same live set, the same
content of every frame and the same mappings as the first run (and the same shadow
entries and vm-stack queue). The states are those in which no original frame of an entry
that `rollback` walks is a shadow frame of such an entry. -/
theorem rollback_idempotent (env : Env) (s s1 : State)
    (hfa : frames_apart s (rollback_entries s)) (h : rollback env s = Except.ok s1) :
    ∃ s2, rollback env s1 = Except.ok s2 ∧ s2.cow_elts = s1.cow_elts ∧ s2.mem = s1.mem ∧
      s2.hpt_tab = s1.hpt_tab ∧ s2.vtlb_tab = s1.vtlb_tab ∧ s2.heap = s1.heap ∧
      s2.vm_kernel_stacks = s1.vm_kernel_stacks := by
  obtain ⟨a1, a2, a3, a4, a5, a6, a7f, a8, a9, a10⟩ := rollback_stores env s s1 h
  have a7 := a7f hfa
  have hkeep := rollback_keeps_originals env s s1 h hfa
  have hent := rollback_entries_congr s s1 a6 a5 a2
  obtain ⟨s2, h2⟩ := rollback_ok env s1 (by
    intro hv x hx
    rw [a1]
    rw [a5] at hx
    exact a10 (a6 ▸ hv) x hx)
  have hfa1 : frames_apart s1 (rollback_entries s1) := by
    rw [hent]
    intro x hx y hy
    rw [a1]
    exact hfa x hx y hy
  obtain ⟨b1, b2, b3, b4, b5, b6, b7f, b8, b9, _⟩ := rollback_stores env s1 s2 h2
  have b7 := b7f hfa1
  refine ⟨s2, h2, b2, ?_, ?_, ?_, b1, b5⟩
  · have hcongr : stores_of (fun x => reseed_stores s1.mem (s.heap x)) (rollback_entries s)
        = stores_of (fun x => reseed_stores s.mem (s.heap x)) (rollback_entries s) :=
      stores_of_congr _ _ _ (fun x hx => by unfold reseed_stores; rw [hkeep x hx])
    rw [b7, a1, hent, hcongr]
    nth_rewrite 1 [a7]
    rw [assign_idem]
    exact a7.symm
  · rw [b8, a1, a2]
    nth_rewrite 1 [a8]
    rw [assign_idem]
    exact a8.symm
  · rw [b9, a1, a2, a5, a6]
    nth_rewrite 1 [a9]
    rw [assign_idem]
    exact a9.symm

theorem rollback_idempotent_witness :
    (frames_apart s_run1_two (rollback_entries s_run1_two) ∧
      rollback env0 s_run1_two = Except.ok s_rolled ∧ s_run1_two.cow_elts = [1, 2]) ∧
    ∃ s2, rollback env0 s_rolled = Except.ok s2 ∧ s2.cow_elts = s_rolled.cow_elts ∧
      s2.mem = s_rolled.mem ∧ s2.hpt_tab = s_rolled.hpt_tab ∧
      s2.vtlb_tab = s_rolled.vtlb_tab ∧ s2.heap = s_rolled.heap ∧
      s2.vm_kernel_stacks = s_rolled.vm_kernel_stacks :=
  ⟨⟨by unfold frames_apart; decide, rfl, rfl⟩,
    rollback_idempotent env0 s_run1_two s_rolled (by unfold frames_apart; decide) rfl⟩

theorem live_in_rollback_entries (s : State) : s.cow_elts ⊆ rollback_entries s := by
  unfold rollback_entries
  split
  · exact fun x hx => List.mem_append_right _ hx
  · exact fun x hx => hx

/-- C16: after `rollback`, for every entry of the live set the content of `new_phys[0]` and
the content of `new_phys[1]` are the content of `old_phys`, and the content of `old_phys`
is what it was before the call. The states are those in which no original frame of an
entry that `rollback` walks is a shadow frame of such an entry, and entries with a shadow
frame in common have the same original frame. -/
theorem rollback_reseeds (env : Env) (s s' : State)
    (hfa : frames_apart s (rollback_entries s)) (hso : shadows_owned s (rollback_entries s))
    (h : rollback env s = Except.ok s') :
    ∀ x ∈ s'.cow_elts,
      s'.mem (s'.heap x).new_phys0 = s'.mem (s'.heap x).old_phys ∧
      s'.mem (s'.heap x).new_phys1 = s'.mem (s'.heap x).old_phys ∧
      s'.mem (s'.heap x).old_phys = s.mem (s.heap x).old_phys := by
  obtain ⟨a1, a2, _, _, _, _, a7f, _⟩ := rollback_stores env s s' h
  have a7 := a7f hfa
  have hkeep := rollback_keeps_originals env s s' h hfa
  intro x hx
  rw [a2] at hx
  have hxe : x ∈ rollback_entries s := live_in_rollback_entries s hx
  rw [a1, hkeep x hxe]
  have hshadow : ∀ a, (a = (s.heap x).new_phys0 ∨ a = (s.heap x).new_phys1) →
      s'.mem a = s.mem (s.heap x).old_phys := by
    intro a ha
    rw [a7]
    apply assign_all
    · rcases ha with e | e
      · exact ⟨((s.heap x).new_phys0, s.mem (s.heap x).old_phys),
          (mem_stores_of _ _ _).2 ⟨x, hxe, by simp [reseed_stores]⟩, e.symm⟩
      · exact ⟨((s.heap x).new_phys1, s.mem (s.heap x).old_phys),
          (mem_stores_of _ _ _).2 ⟨x, hxe, by simp [reseed_stores]⟩, e.symm⟩
    · intro kv hkv hka
      obtain ⟨y, hy, hk⟩ := (mem_stores_of _ _ _).1 hkv
      simp only [reseed_stores, List.mem_cons, List.mem_singleton, List.not_mem_nil,
        or_false] at hk
      have hold : (s.heap x).old_phys = (s.heap y).old_phys := by
        apply hso x hxe y hy
        rcases hk with e | e <;> rcases ha with f | f
        · left; rw [← f, ← hka, e]
        · right; right; left; rw [← f, ← hka, e]
        · right; left; rw [← f, ← hka, e]
        · right; right; right; rw [← f, ← hka, e]
      rcases hk with e | e
      · rw [e, hold]
      · rw [e, hold]
  exact ⟨hshadow _ (Or.inl rfl), hshadow _ (Or.inr rfl), rfl⟩

theorem rollback_reseeds_witness :
    (frames_apart s_written (rollback_entries s_written) ∧
      shadows_owned s_written (rollback_entries s_written) ∧
      rollback env0 s_written = Except.ok s_written_rolled ∧
      s_written.cow_elts = [1, 2] ∧ s_written.mem 0x100000 = [9, 2, 3] ∧
      s_written.mem 0x9000 = [1, 2, 3]) ∧
    ∀ x ∈ s_written_rolled.cow_elts,
      s_written_rolled.mem (s_written_rolled.heap x).new_phys0
        = s_written_rolled.mem (s_written_rolled.heap x).old_phys ∧
      s_written_rolled.mem (s_written_rolled.heap x).new_phys1
        = s_written_rolled.mem (s_written_rolled.heap x).old_phys ∧
      s_written_rolled.mem (s_written_rolled.heap x).old_phys
        = s_written.mem (s_written.heap x).old_phys :=
  ⟨⟨by unfold frames_apart; decide, by unfold shadows_owned; decide, rfl, rfl, rfl, rfl⟩,
    rollback_reseeds env0 s_written s_written_rolled (by unfold frames_apart; decide)
      (by unfold shadows_owned; decide) rfl⟩

/-- The mapping of a live entry after a walk whose last stores are those of the live set:
the stores of the entry itself decide, when the entries use distinct page-table entries. -/
theorem assign_live_slot (tab : Nat → Nat × Nat) (pre : List (Nat × (Nat × Nat)))
    (sel : Nat → Option Nat) (val : Nat → Nat × Nat) (l : List Nat)
    (hd : ∀ x ∈ l, ∀ y ∈ l, x ≠ y → sel x = none ∨ sel x ≠ sel y)
    (x : Nat) (hx : x ∈ l) (h : Nat) (hs : sel x = some h) :
    assign tab (pre ++ stores_of (fun c => slot_store (sel c) (val c)) l) h = val x := by
  rw [assign_append]
  apply assign_all
  · exact ⟨(h, val x), (mem_stores_of _ _ _).2 ⟨x, hx, by rw [hs]; simp [slot_store]⟩, rfl⟩
  · intro kv hkv hk
    obtain ⟨y, hy, hky⟩ := (mem_stores_of _ _ _).1 hkv
    cases hsy : sel y with
    | none => rw [hsy] at hky; simp [slot_store] at hky
    | some k =>
      rw [hsy] at hky
      simp only [slot_store, List.mem_singleton] at hky
      have hkh : k = h := by rw [hky] at hk; exact hk
      by_cases hxy : x = y
      · rw [hky, ← hxy]
      · rcases hd x hx y hy hxy with o | o
        · rw [hs] at o; cases o
        · rw [hs, hsy, hkh] at o
          exact absurd rfl o

/-- C17, as stated, fails: after `rollback` the live set still holds the entries 1 and 2,
nothing has been destroyed, and the mapping of the entry 1 references its first shadow
frame with the WRITE bit set, not its original frame 0x9000. -/
theorem rollback_cancellation_counterexample :
    rollback env0 s_run1_two = Except.ok s_rolled ∧
    s_run1_two.cow_elts = [1, 2] ∧ s_rolled.cow_elts = [1, 2] ∧ s_rolled.destroyed = [] ∧
    (s_rolled.heap 1).hpt = some 7 ∧ (s_rolled.heap 1).old_phys = 0x9000 ∧
    (s_rolled.heap 1).new_phys0 = 0x100000 ∧
    s_rolled.hpt_tab 7 = (0x100000, 0x007) ∧ (s_rolled.heap 1).attr = 0x805 :=
  ⟨rfl, rfl, rfl, rfl, rfl, rfl, rfl, by decide, rfl⟩

/-- C17, amended: `rollback` destroys nothing and leaves the live set and the shadow
entries as they are; afterwards the mapping of every live entry references the entry's
`new_phys[0]`, with the permissions `attr` of the entry with WRITE set and COW cleared
(the bits of the virtual TLB in its virtual-TLB entry, those of the host table in its
host page-table entry). The live entries use pairwise distinct page-table entries. -/
theorem rollback_keeps_live (env : Env) (s s' : State)
    (hod : origins_distinct s s.cow_elts) (h : rollback env s = Except.ok s') :
    s'.cow_elts = s.cow_elts ∧ s'.destroyed = s.destroyed ∧ s'.heap = s.heap ∧
    (∀ x ∈ s.cow_elts,
      mapping_is s' x (s.heap x).new_phys0 (writable (s.heap x).attr env.TLB_W env.TLB_COW)
        (writable (s.heap x).attr Hpt.HPT_W Hpt.HPT_COW)) ∧
    (∀ a : Nat, (writable a Hpt.HPT_W Hpt.HPT_COW).testBit 1 = true ∧
      (writable a Hpt.HPT_W Hpt.HPT_COW).testBit 11 = false) := by
  obtain ⟨a1, a2, a3, _, _, _, _, a8, a9, _⟩ := rollback_stores env s s' h
  refine ⟨a2, a3, a1, ?_, ?_⟩
  · intro x hx
    unfold mapping_is
    rw [a1]
    constructor
    · cases hv : (s.heap x).vtlb with
      | none => trivial
      | some t =>
        dsimp only
        rw [a9]
        exact assign_live_slot s.vtlb_tab _ (fun c => (s.heap c).vtlb)
          (fun c => ((s.heap c).new_phys0, writable (s.heap c).attr env.TLB_W env.TLB_COW))
          s.cow_elts (fun x hx y hy hxy => (hod x hx y hy hxy).2) x hx t hv
    · cases hh : (s.heap x).hpt with
      | none => trivial
      | some k =>
        dsimp only
        rw [a8]
        have := assign_live_slot s.hpt_tab [] (fun c => (s.heap c).hpt)
          (fun c => ((s.heap c).new_phys0, writable (s.heap c).attr Hpt.HPT_W Hpt.HPT_COW))
          s.cow_elts (fun x hx y hy hxy => (hod x hx y hy hxy).1) x hx k hh
        rw [List.nil_append] at this
        exact this
  · intro a
    have h1 := writable_testBit a 1 11 1 (by decide)
    have h11 := writable_testBit a 1 11 11 (by decide)
    exact ⟨by rw [show Hpt.HPT_W = 1 <<< 1 from rfl, show Hpt.HPT_COW = 1 <<< 11 from rfl, h1]; simp,
      by rw [show Hpt.HPT_W = 1 <<< 1 from rfl, show Hpt.HPT_COW = 1 <<< 11 from rfl, h11]; simp⟩

theorem rollback_keeps_live_witness :
    (origins_distinct s_run1_two s_run1_two.cow_elts ∧
      rollback env0 s_run1_two = Except.ok s_rolled ∧ s_run1_two.cow_elts = [1, 2]) ∧
    s_rolled.cow_elts = s_run1_two.cow_elts ∧ s_rolled.destroyed = s_run1_two.destroyed ∧
    s_rolled.heap = s_run1_two.heap ∧
    (∀ x ∈ s_run1_two.cow_elts,
      mapping_is s_rolled x (s_run1_two.heap x).new_phys0
        (writable (s_run1_two.heap x).attr env0.TLB_W env0.TLB_COW)
        (writable (s_run1_two.heap x).attr Hpt.HPT_W Hpt.HPT_COW)) ∧
    (∀ a : Nat, (writable a Hpt.HPT_W Hpt.HPT_COW).testBit 1 = true ∧
      (writable a Hpt.HPT_W Hpt.HPT_COW).testBit 11 = false) :=
  ⟨⟨s_run1_two_ready.2, rfl, rfl⟩,
    rollback_keeps_live env0 s_run1_two s_rolled s_run1_two_ready.2 rfl⟩

/-! ## `place_phys0`: what is migrated and what is destroyed -/

theorem dequeue_erase (q : List Nat) (p : Nat) : (dequeue q (some p)).2 = q.erase p := by
  unfold dequeue
  dsimp only
  split
  · rfl
  · rename_i h
    exact (List.erase_of_not_mem h).symm

theorem refresh_shadows_rest (env : Env) (s : State) (d a : Nat) :
    (refresh_shadows env s d a).destroyed = s.destroyed ∧
    (refresh_shadows env s d a).current_ec_cow_elts_size = s.current_ec_cow_elts_size ∧
    (refresh_shadows env s d a).loc_walk = s.loc_walk ∧
    (∀ f, f ≠ (s.heap d).new_phys0 → f ≠ (s.heap d).new_phys1 →
      (refresh_shadows env s d a).mem f = s.mem f) := by
  unfold refresh_shadows
  dsimp only
  split
  · refine ⟨rfl, rfl, rfl, ?_⟩
    intro f h0 h1
    simp [copy_frames, remap_cow, memcpy, State.modify, frame_of, Function.update_noteq h0,
      Function.update_noteq h1]
  · exact ⟨rfl, rfl, rfl, fun _ _ _ => rfl⟩

theorem place_entry_rest (env : Env) (s : State) (d : Nat) :
    (place_entry env s d).destroyed = s.destroyed ∧
    (place_entry env s d).loc_walk = s.loc_walk ∧
    (place_entry env s d).mem = s.mem ∧
    (place_entry env s d).hpt_tab = assign s.hpt_tab (slot_store (s.heap d).hpt
      ((s.heap d).new_phys0, writable (s.heap d).attr Hpt.HPT_W Hpt.HPT_COW)) ∧
    (place_entry env s d).vtlb_tab = assign s.vtlb_tab (slot_store (s.heap d).vtlb
      ((s.heap d).new_phys0, writable (s.heap d).attr env.TLB_W env.TLB_COW)) := by
  refine ⟨?_, ?_, ?_, ?_, ?_⟩
  · unfold place_entry
    dsimp only
    split <;> split <;> rfl
  · unfold place_entry
    dsimp only
    split <;> split <;> rfl
  · unfold place_entry
    dsimp only
    split <;> split <;> rfl
  · rw [place_entry_hpt_tab]
    cases (s.heap d).hpt <;> rfl
  · rw [place_entry_vtlb_tab]
    cases (s.heap d).vtlb <;> rfl

theorem drop_stale_rest (s : State) (d : Nat) :
    (drop_stale s d).destroyed = s.destroyed ++ lost s d true ∧
    (drop_stale s d).pd_cow_elts = without_twin s d s.pd_cow_elts ∧
    (drop_stale s d).current_ec_cow_elts_size = s.current_ec_cow_elts_size ∧
    (drop_stale s d).loc_walk = s.loc_walk ∧ (drop_stale s d).mem = s.mem := by
  unfold drop_stale lost without_twin
  dsimp only
  cases (s.heap d).v_is_mapped_elsewhere with
  | none => exact ⟨by simp [destroy], rfl, rfl, rfl, rfl⟩
  | some de =>
    refine ⟨by simp [destroy, unpark], ?_, rfl, rfl, rfl⟩
    exact dequeue_erase _ _

theorem place_phys0_step_eq (env : Env) (s : State) (d : Nat) :
    place_phys0_step env s d =
      if is_stale s d then drop_stale s d
      else
        match ((refresh_shadows env s d (2 * PAGE_SIZE)).heap d).v_is_mapped_elsewhere with
        | some de =>
          live_enqueue (unpark (place_entry env
            (live_enqueue (place_entry env (refresh_shadows env s d (2 * PAGE_SIZE)) d) d) de) de) de
        | none => live_enqueue (place_entry env (refresh_shadows env s d (2 * PAGE_SIZE)) d) d := by
  have hh : (live_enqueue (place_entry env (refresh_shadows env s d (2 * PAGE_SIZE)) d) d).heap
      = (refresh_shadows env s d (2 * PAGE_SIZE)).heap := place_entry_heap _ _ _
  by_cases h : is_stale s d = true
  · rw [if_pos h]
    show (if is_stale s d = true then drop_stale s d else _) = _
    rw [if_pos h]
  · rw [if_neg h, ← hh]
    show (if is_stale s d = true then drop_stale s d else _) = _
    rw [if_neg h]

/-- One iteration of the first loop of `place_phys0`, field by field. -/
theorem place_phys0_step_char (env : Env) (s : State) (d : Nat) :
    (∀ p, ({ (place_phys0_step env s d).heap p with crc := 0 } : Cow_elt)
      = { s.heap p with crc := 0 }) ∧
    (place_phys0_step env s d).cow_elts = s.cow_elts ++ kept s d (is_stale s d) ∧
    (place_phys0_step env s d).destroyed = s.destroyed ++ lost s d (is_stale s d) ∧
    (place_phys0_step env s d).pd_cow_elts = without_twin s d s.pd_cow_elts ∧
    (place_phys0_step env s d).current_ec_cow_elts_size
      = s.current_ec_cow_elts_size + (kept s d (is_stale s d)).length ∧
    (place_phys0_step env s d).hpt_tab = assign s.hpt_tab (stores_of (fun c =>
      slot_store (s.heap c).hpt
        ((s.heap c).new_phys0, writable (s.heap c).attr Hpt.HPT_W Hpt.HPT_COW))
      (kept s d (is_stale s d))) ∧
    (place_phys0_step env s d).vtlb_tab = assign s.vtlb_tab (stores_of (fun c =>
      slot_store (s.heap c).vtlb
        ((s.heap c).new_phys0, writable (s.heap c).attr env.TLB_W env.TLB_COW))
      (kept s d (is_stale s d))) ∧
    (place_phys0_step env s d).vm_kernel_stacks = s.vm_kernel_stacks ∧
    (place_phys0_step env s d).is_virutalcpu = s.is_virutalcpu ∧
    (place_phys0_step env s d).loc_walk = s.loc_walk ∧
    (∀ f, f ≠ (s.heap d).new_phys0 → f ≠ (s.heap d).new_phys1 →
      (place_phys0_step env s d).mem f = s.mem f) := by
  rw [place_phys0_step_eq]
  cases hst : is_stale s d with
  | true =>
    rw [if_pos rfl]
    obtain ⟨a1, a2, a3, a4, a5, a6, a7⟩ := drop_stale_frame s d
    obtain ⟨b1, b2, b3, b4, b5⟩ := drop_stale_rest s d
    refine ⟨fun p => by rw [a1], by rw [a4]; simp [kept], b1, b2, by rw [b3]; simp [kept],
      by rw [a2]; rfl, by rw [a3]; rfl, a6, a7, b4, fun f _ _ => by rw [b5]⟩
  | false =>
    rw [if_neg (by simp)]
    obtain ⟨r1, r2, r3, r4, r5, r6, r7⟩ := refresh_shadows_frame env s d (2 * PAGE_SIZE)
    obtain ⟨q1, q2, q3, q4⟩ := refresh_shadows_rest env s d (2 * PAGE_SIZE)
    generalize refresh_shadows env s d (2 * PAGE_SIZE) = s1 at r1 r2 r3 r4 r5 r6 r7 q1 q2 q3 q4 ⊢
    have fd := same_fields (r1 d)
    obtain ⟨e1, e2, e3, e4, e5⟩ := place_entry_rest env s1 d
    obtain ⟨g1, g2, g3, g4, g5⟩ := place_entry_frame env s1 d
    have gh := place_entry_heap env s1 d
    rw [fd.2.2.2.2.2.2.1]
    cases htw : (s.heap d).v_is_mapped_elsewhere with
    | none =>
      dsimp only
      have hk : kept s d false = [d] := by simp [kept, with_twin, htw]
      rw [hk]
      refine ⟨fun p => ?_, ?_, ?_, ?_, ?_, ?_, ?_, ?_, ?_, ?_, ?_⟩
      · show ({ (place_entry env s1 d).heap p with crc := 0 } : Cow_elt) = _
        rw [gh]; exact r1 p
      · show enqueue (place_entry env s1 d).cow_elts d = _
        rw [g1, r4]; rfl
      · show (place_entry env s1 d).destroyed = _
        rw [e1, q1]; simp [lost]
      · show (place_entry env s1 d).pd_cow_elts = _
        rw [g2, r5]; simp [without_twin, htw]
      · show (place_entry env s1 d).current_ec_cow_elts_size + 1 = _
        rw [g5, q2]; rfl
      · show (place_entry env s1 d).hpt_tab = _
        rw [e4, r2, fd.2.1, fd.2.2.2.2.1, fd.2.2.2.2.2.2.2]
        simp [stores_of]
      · show (place_entry env s1 d).vtlb_tab = _
        rw [e5, r3, fd.2.1, fd.2.2.2.2.2.1, fd.2.2.2.2.2.2.2]
        simp [stores_of]
      · show (place_entry env s1 d).vm_kernel_stacks = _
        rw [g3, r6]
      · show (place_entry env s1 d).is_virutalcpu = _
        rw [g4, r7]
      · show (place_entry env s1 d).loc_walk = _
        rw [e2, q3]
      · intro f h0 h1
        show (place_entry env s1 d).mem f = _
        rw [e3, q4 f h0 h1]
    | some de =>
      dsimp only
      have hk : kept s d false = [d, de] := by simp [kept, with_twin, htw]
      rw [hk]
      have fde := same_fields (r1 de)
      generalize hs3 : live_enqueue (place_entry env s1 d) d = s3
      have k1 : s3.heap = s1.heap := by rw [← hs3]; exact gh
      have k2 : s3.cow_elts = s.cow_elts ++ [d] := by
        rw [← hs3]; show enqueue (place_entry env s1 d).cow_elts d = _
        rw [g1, r4]; rfl
      have k3 : s3.destroyed = s.destroyed := by
        rw [← hs3]; show (place_entry env s1 d).destroyed = _
        rw [e1, q1]
      have k4 : s3.pd_cow_elts = s.pd_cow_elts := by
        rw [← hs3]; show (place_entry env s1 d).pd_cow_elts = _
        rw [g2, r5]
      have k5 : s3.current_ec_cow_elts_size = s.current_ec_cow_elts_size + 1 := by
        rw [← hs3]; show (place_entry env s1 d).current_ec_cow_elts_size + 1 = _
        rw [g5, q2]
      have k6 : s3.hpt_tab = assign s.hpt_tab (slot_store (s.heap d).hpt
          ((s.heap d).new_phys0, writable (s.heap d).attr Hpt.HPT_W Hpt.HPT_COW)) := by
        rw [← hs3]; show (place_entry env s1 d).hpt_tab = _
        rw [e4, r2, fd.2.1, fd.2.2.2.2.1, fd.2.2.2.2.2.2.2]
      have k7 : s3.vtlb_tab = assign s.vtlb_tab (slot_store (s.heap d).vtlb
          ((s.heap d).new_phys0, writable (s.heap d).attr env.TLB_W env.TLB_COW)) := by
        rw [← hs3]; show (place_entry env s1 d).vtlb_tab = _
        rw [e5, r3, fd.2.1, fd.2.2.2.2.2.1, fd.2.2.2.2.2.2.2]
      have k8 : s3.vm_kernel_stacks = s.vm_kernel_stacks := by
        rw [← hs3]; show (place_entry env s1 d).vm_kernel_stacks = _
        rw [g3, r6]
      have k9 : s3.is_virutalcpu = s.is_virutalcpu := by
        rw [← hs3]; show (place_entry env s1 d).is_virutalcpu = _
        rw [g4, r7]
      have k10 : s3.loc_walk = s.loc_walk := by
        rw [← hs3]; show (place_entry env s1 d).loc_walk = _
        rw [e2, q3]
      have k11 : ∀ f, f ≠ (s.heap d).new_phys0 → f ≠ (s.heap d).new_phys1 →
          s3.mem f = s.mem f := by
        intro f h0 h1
        rw [← hs3]; show (place_entry env s1 d).mem f = _
        rw [e3, q4 f h0 h1]
      obtain ⟨m1, m2, m3, m4, m5⟩ := place_entry_rest env s3 de
      obtain ⟨n1, n2, n3, n4, n5⟩ := place_entry_frame env s3 de
      have nh := place_entry_heap env s3 de
      refine ⟨fun p => ?_, ?_, ?_, ?_, ?_, ?_, ?_, ?_, ?_, ?_, ?_⟩
      · show ({ (place_entry env s3 de).heap p with crc := 0 } : Cow_elt) = _
        rw [nh, k1]; exact r1 p
      · show enqueue (place_entry env s3 de).cow_elts de = _
        rw [n1, k2]; simp [enqueue]
      · show (place_entry env s3 de).destroyed = _
        rw [m1, k3]; simp [lost]
      · show (dequeue (place_entry env s3 de).pd_cow_elts (some de)).2 = _
        rw [n2, k4, dequeue_erase]; simp [without_twin, htw]
      · show (place_entry env s3 de).current_ec_cow_elts_size + 1 = _
        rw [n5, k5]; rfl
      · show (place_entry env s3 de).hpt_tab = _
        rw [m4, k6, k1, fde.2.1, fde.2.2.2.2.1, fde.2.2.2.2.2.2.2]
        simp [stores_of, assign_append]
      · show (place_entry env s3 de).vtlb_tab = _
        rw [m5, k7, k1, fde.2.1, fde.2.2.2.2.2.1, fde.2.2.2.2.2.2.2]
        simp [stores_of, assign_append]
      · show (place_entry env s3 de).vm_kernel_stacks = _
        rw [n3, k8]
      · show (place_entry env s3 de).is_virutalcpu = _
        rw [n4, k9]
      · show (place_entry env s3 de).loc_walk = _
        rw [m2, k10]
      · intro f h0 h1
        show (place_entry env s3 de).mem f = _
        rw [m3, k11 f h0 h1]

theorem place_phys0_loop_nil (env : Env) (fuel : Nat) (s : State) (hq : s.pd_cow_elts = []) :
    place_phys0_loop env fuel s = s := by
  cases fuel with
  | zero => rfl
  | succ n =>
    rw [place_phys0_loop]
    simp [hq, dequeue]

theorem place_phys0_loop_cons (env : Env) (fuel : Nat) (s : State) (d : Nat) (q : List Nat)
    (hq : s.pd_cow_elts = d :: q) :
    place_phys0_loop env (fuel + 1) s =
      place_phys0_loop env fuel (place_phys0_step env { s with pd_cow_elts := q } d) := by
  rw [place_phys0_loop]
  simp only [hq, dequeue_head, List.head?_cons]

theorem place_visits_cons (env : Env) (fuel : Nat) (s : State) (d : Nat) (q : List Nat)
    (hq : s.pd_cow_elts = d :: q) :
    place_visits env (fuel + 1) s =
      (d, is_stale s d) ::
        place_visits env fuel (place_phys0_step env { s with pd_cow_elts := q } d) := by
  rw [place_visits]
  simp only [hq]
  rfl

theorem place_visits_nil (env : Env) (fuel : Nat) (s : State) (hq : s.pd_cow_elts = []) :
    place_visits env fuel s = [] := by
  cases fuel with
  | zero => rfl
  | succ n =>
    rw [place_visits]
    simp only [hq]

theorem migrated_congr (s s1 : State) (V : List (Nat × Bool))
    (h : ∀ p, (s1.heap p).v_is_mapped_elsewhere = (s.heap p).v_is_mapped_elsewhere) :
    migrated s1 V = migrated s V ∧ dropped s1 V = dropped s V := by
  induction V with
  | nil => exact ⟨rfl, rfl⟩
  | cons v rest ih =>
    simp only [migrated, dropped, kept, lost, with_twin, h, ih.1, ih.2, and_self]

/-- The entry and its twin are, together, what an iteration of `place_phys0` takes out of
the parked list. -/
theorem without_twin_perm (s : State) (d : Nat) (q : List Nat)
    (htc : twins_closed s (d :: q)) :
    List.Perm (with_twin s d ++ without_twin s d q) (d :: q) := by
  unfold with_twin without_twin
  cases htw : (s.heap d).v_is_mapped_elsewhere with
  | none => simp
  | some de =>
    obtain ⟨a1, a2, _⟩ := htc d (List.mem_cons_self _ _) de htw
    have hde : de ∈ q := by
      rcases List.mem_cons.1 a1 with e | e
      · exact absurd e a2
      · exact e
    simp only [Option.toList_some, List.cons_append, List.singleton_append, List.nil_append]
    exact List.Perm.cons _ (List.perm_cons_erase hde).symm

theorem without_twin_closed (s : State) (d : Nat) (q : List Nat) (hnd : (d :: q).Nodup)
    (htc : twins_closed s (d :: q)) :
    (without_twin s d q).Nodup ∧ twins_closed s (without_twin s d q) := by
  have hdq : d ∉ q := (List.nodup_cons.1 hnd).1
  have hndq : q.Nodup := (List.nodup_cons.1 hnd).2
  unfold without_twin
  cases htw : (s.heap d).v_is_mapped_elsewhere with
  | none =>
    refine ⟨hndq, ?_⟩
    intro x hx y hxy
    obtain ⟨a1, a2, a3⟩ := htc x (List.mem_cons_of_mem _ hx) y hxy
    refine ⟨?_, a2, a3⟩
    rcases List.mem_cons.1 a1 with e | e
    · rw [e, htw] at a3; cases a3
    · exact e
  | some de =>
    obtain ⟨_, _, b3⟩ := htc d (List.mem_cons_self _ _) de htw
    refine ⟨hndq.erase _, ?_⟩
    intro x hx y hxy
    have hx2 := (List.Nodup.mem_erase_iff hndq).1 hx
    obtain ⟨a1, a2, a3⟩ := htc x (List.mem_cons_of_mem _ hx2.2) y hxy
    refine ⟨?_, a2, a3⟩
    have hyd : y ≠ d := by
      intro e
      rw [e, htw] at a3
      cases a3
      exact hx2.1 rfl
    have hyde : y ≠ de := by
      intro e
      rw [e, b3] at a3
      cases a3
      exact hdq hx2.2
    rcases List.mem_cons.1 a1 with e | e
    · exact absurd e hyd
    · exact (List.Nodup.mem_erase_iff hndq).2 ⟨hyde, e⟩

theorem kept_lost_perm (s : State) (d : Nat) (b : Bool) :
    List.Perm (kept s d b ++ lost s d b) (with_twin s d) := by
  cases b with
  | true =>
    simp only [kept, lost, with_twin, if_true, List.nil_append]
    exact List.perm_append_comm
  | false => simp [kept, lost]

/-- The first loop of `place_phys0`, field by field: the parked list ends empty, the
entries of the iterations whose head passed the test are appended to the live set and
their page-table entries pointed at their first shadow frame, the others are destroyed. -/
theorem place_phys0_loop_char (env : Env) (fuel : Nat) :
    ∀ (s : State), s.pd_cow_elts.length ≤ fuel → s.pd_cow_elts.Nodup →
      twins_closed s s.pd_cow_elts →
      (∀ p, ({ (place_phys0_loop env fuel s).heap p with crc := 0 } : Cow_elt)
        = { s.heap p with crc := 0 }) ∧
      (place_phys0_loop env fuel s).pd_cow_elts = [] ∧
      (place_phys0_loop env fuel s).cow_elts
        = s.cow_elts ++ migrated s (place_visits env fuel s) ∧
      (place_phys0_loop env fuel s).destroyed
        = s.destroyed ++ dropped s (place_visits env fuel s) ∧
      (place_phys0_loop env fuel s).current_ec_cow_elts_size
        = s.current_ec_cow_elts_size + (migrated s (place_visits env fuel s)).length ∧
      (place_phys0_loop env fuel s).hpt_tab = assign s.hpt_tab (stores_of (fun c =>
        slot_store (s.heap c).hpt
          ((s.heap c).new_phys0, writable (s.heap c).attr Hpt.HPT_W Hpt.HPT_COW))
        (migrated s (place_visits env fuel s))) ∧
      (place_phys0_loop env fuel s).vtlb_tab = assign s.vtlb_tab (stores_of (fun c =>
        slot_store (s.heap c).vtlb
          ((s.heap c).new_phys0, writable (s.heap c).attr env.TLB_W env.TLB_COW))
        (migrated s (place_visits env fuel s))) ∧
      (place_phys0_loop env fuel s).vm_kernel_stacks = s.vm_kernel_stacks ∧
      (place_phys0_loop env fuel s).is_virutalcpu = s.is_virutalcpu ∧
      (∀ f, (∀ x ∈ s.pd_cow_elts, f ≠ (s.heap x).new_phys0 ∧ f ≠ (s.heap x).new_phys1) →
        (place_phys0_loop env fuel s).mem f = s.mem f) ∧
      List.Perm (migrated s (place_visits env fuel s) ++ dropped s (place_visits env fuel s))
        s.pd_cow_elts ∧
      (∀ v ∈ place_visits env fuel s, v.1 ∈ s.pd_cow_elts) := by
  induction fuel with
  | zero =>
    intro s hlen _ _
    have hnil : s.pd_cow_elts = [] := List.length_eq_zero.1 (Nat.le_zero.1 hlen)
    rw [place_phys0_loop_nil _ _ _ hnil, place_visits_nil _ _ _ hnil]
    simp [migrated, dropped, hnil, stores_of, assign]
  | succ n ih =>
    intro s hlen hnd htc
    rcases (show s.pd_cow_elts = [] ∨ ∃ d q, s.pd_cow_elts = d :: q from by
      cases s.pd_cow_elts with
      | nil => exact Or.inl rfl
      | cons d q => exact Or.inr ⟨d, q, rfl⟩) with hnil | ⟨d, q, hq⟩
    · rw [place_phys0_loop_nil _ _ _ hnil, place_visits_nil _ _ _ hnil]
      simp [migrated, dropped, hnil, stores_of, assign]
    · rw [place_phys0_loop_cons _ _ _ _ _ hq, place_visits_cons _ _ _ _ _ hq]
      rw [hq] at hlen hnd htc
      obtain ⟨c1, c2, c3, c4, c5, c6, c7, c8, c9, _, c11⟩ :=
        place_phys0_step_char env { s with pd_cow_elts := q } d
      have hst : is_stale { s with pd_cow_elts := q } d = is_stale s d := rfl
      have hkp : ∀ b, kept { s with pd_cow_elts := q } d b = kept s d b := fun _ => rfl
      have hls : ∀ b, lost { s with pd_cow_elts := q } d b = lost s d b := fun _ => rfl
      rw [hst, hkp] at c2 c5 c6 c7
      rw [hst, hls] at c3
      generalize place_phys0_step env { s with pd_cow_elts := q } d = s1 at *
      have c1a : ∀ p, ({ s1.heap p with crc := 0 } : Cow_elt) = { s.heap p with crc := 0 } := c1
      have c2a : s1.cow_elts = s.cow_elts ++ kept s d (is_stale s d) := c2
      have c3a : s1.destroyed = s.destroyed ++ lost s d (is_stale s d) := c3
      have c4a : s1.pd_cow_elts = without_twin s d q := c4
      have c5a : s1.current_ec_cow_elts_size
          = s.current_ec_cow_elts_size + (kept s d (is_stale s d)).length := c5
      have c6a : s1.hpt_tab = assign s.hpt_tab (stores_of (fun c =>
          slot_store (s.heap c).hpt
            ((s.heap c).new_phys0, writable (s.heap c).attr Hpt.HPT_W Hpt.HPT_COW))
          (kept s d (is_stale s d))) := c6
      have c7a : s1.vtlb_tab = assign s.vtlb_tab (stores_of (fun c =>
          slot_store (s.heap c).vtlb
            ((s.heap c).new_phys0, writable (s.heap c).attr env.TLB_W env.TLB_COW))
          (kept s d (is_stale s d))) := c7
      have c8a : s1.vm_kernel_stacks = s.vm_kernel_stacks := c8
      have c9a : s1.is_virutalcpu = s.is_virutalcpu := c9
      have c11a : ∀ f, f ≠ (s.heap d).new_phys0 → f ≠ (s.heap d).new_phys1 →
          s1.mem f = s.mem f := c11
      have htwf : ∀ p, (s1.heap p).v_is_mapped_elsewhere = (s.heap p).v_is_mapped_elsewhere :=
        fun p => (same_fields (c1a p)).2.2.2.2.2.2.1
      obtain ⟨w1, w2⟩ := without_twin_closed s d q hnd htc
      have hperm := without_twin_perm s d q htc
      have hlen1 : s1.pd_cow_elts.length ≤ n := by
        rw [c4a]
        have := hperm.length_eq
        simp only [List.length_append, List.length_cons, with_twin] at this
        simp only [List.length_cons] at hlen
        omega
      have htc1 : twins_closed s1 s1.pd_cow_elts := by
        rw [c4a]
        intro x hx y hxy
        rw [htwf] at hxy
        rw [htwf]
        exact w2 x hx y hxy
      obtain ⟨i1, i2, i3, i4, i5, i6, i7, i8, i9, i10, i11, i12⟩ :=
        ih s1 hlen1 (c4a ▸ w1) htc1
      generalize place_visits env n s1 = V at *
      obtain ⟨m1, m2⟩ := migrated_congr s s1 V htwf
      rw [m1] at i3 i5 i6 i7 i11
      rw [m2] at i4 i11
      have hmig : migrated s ((d, is_stale s d) :: V) = kept s d (is_stale s d) ++ migrated s V :=
        rfl
      have hdrp : dropped s ((d, is_stale s d) :: V) = lost s d (is_stale s d) ++ dropped s V :=
        rfl
      rw [hmig, hdrp]
      refine ⟨fun p => (i1 p).trans (c1a p), i2, ?_, ?_, ?_, ?_, ?_, i8.trans c8a, i9.trans c9a,
        ?_, ?_, ?_⟩
      · rw [i3, c2a, List.append_assoc]
      · rw [i4, c3a, List.append_assoc]
      · rw [i5, c5a, List.length_append]; omega
      · have hc : stores_of (fun c => slot_store (s1.heap c).hpt
              ((s1.heap c).new_phys0, writable (s1.heap c).attr Hpt.HPT_W Hpt.HPT_COW))
              (migrated s V)
            = stores_of (fun c => slot_store (s.heap c).hpt
              ((s.heap c).new_phys0, writable (s.heap c).attr Hpt.HPT_W Hpt.HPT_COW))
              (migrated s V) :=
          stores_of_congr _ _ _ (fun x _ => by
            rw [(same_fields (c1a x)).2.1, (same_fields (c1a x)).2.2.2.2.1,
              (same_fields (c1a x)).2.2.2.2.2.2.2])
        rw [i6, hc, c6a, stores_of_append, assign_append]
      · have hc : stores_of (fun c => slot_store (s1.heap c).vtlb
              ((s1.heap c).new_phys0, writable (s1.heap c).attr env.TLB_W env.TLB_COW))
              (migrated s V)
            = stores_of (fun c => slot_store (s.heap c).vtlb
              ((s.heap c).new_phys0, writable (s.heap c).attr env.TLB_W env.TLB_COW))
              (migrated s V) :=
          stores_of_congr _ _ _ (fun x _ => by
            rw [(same_fields (c1a x)).2.1, (same_fields (c1a x)).2.2.2.2.2.1,
              (same_fields (c1a x)).2.2.2.2.2.2.2])
        rw [i7, hc, c7a, stores_of_append, assign_append]
      · intro f hf
        have hf1 : ∀ x ∈ s1.pd_cow_elts,
            f ≠ (s1.heap x).new_phys0 ∧ f ≠ (s1.heap x).new_phys1 := by
          intro x hx
          rw [c4a] at hx
          have hxq : x ∈ d :: q := hperm.subset (List.mem_append_right _ hx)
          rw [(same_fields (c1a x)).2.1, (same_fields (c1a x)).2.2.1]
          exact hf x (hq ▸ hxq)
        rw [i10 f hf1]
        exact c11a f (hf d (hq ▸ List.mem_cons_self _ _)).1 (hf d (hq ▸ List.mem_cons_self _ _)).2
      · rw [hq]
        rw [c4a] at i11
        have hkl := kept_lost_perm s d (is_stale s d)
        rw [List.perm_iff_count]
        intro a
        have e1 := (List.perm_iff_count.1 i11) a
        have e2 := (List.perm_iff_count.1 hkl) a
        have e3 := (List.perm_iff_count.1 hperm) a
        simp only [List.count_append] at e1 e2 e3 ⊢
        omega
      · intro v hv
        rw [hq]
        rcases List.mem_cons.1 hv with e | e
        · rw [e]; exact List.mem_cons_self _ _
        · have := i12 v e
          rw [c4a] at this
          exact hperm.subset (List.mem_append_right _ this)

/-- The loop of `place_phys0` over the vm-stack queue leaves the queues, the destroyed
entries and the counter alone and writes shadow frames of the entries of that queue only. -/
theorem place_phys0_vm_walk_rest (env : Env) (l : List Nat) :
    ∀ (s r : State), place_phys0_vm_walk env s l = Except.ok r →
      r.pd_cow_elts = s.pd_cow_elts ∧ r.destroyed = s.destroyed ∧
      r.current_ec_cow_elts_size = s.current_ec_cow_elts_size ∧
      (∀ f, (∀ c ∈ l, f ≠ (s.heap c).new_phys0 ∧ f ≠ (s.heap c).new_phys1) →
        r.mem f = s.mem f) := by
  induction l with
  | nil =>
    intro s r h
    simp only [place_phys0_vm_walk, Except.ok.injEq] at h
    subst h
    exact ⟨rfl, rfl, rfl, fun _ _ => rfl⟩
  | cons c rest ih =>
    intro s r h
    rw [place_phys0_vm_walk] at h
    obtain ⟨r1, _, _, _, r5, _, _⟩ := refresh_shadows_frame env s c 0
    obtain ⟨q1, q2, _, q4⟩ := refresh_shadows_rest env s c 0
    generalize refresh_shadows env s c 0 = sa at r1 r5 q1 q2 q4 h
    split at h
    · cases h
    · rename_i t ht
      obtain ⟨i1, i2, i3, i4⟩ := ih _ _ h
      refine ⟨i1.trans r5, i2.trans q1, i3.trans q2, ?_⟩
      intro f hf
      have hf1 : ∀ c1 ∈ rest, f ≠ (sa.heap c1).new_phys0 ∧ f ≠ (sa.heap c1).new_phys1 := by
        intro c1 hc1
        rw [(same_fields (r1 c1)).2.1, (same_fields (r1 c1)).2.2.1]
        exact hf c1 (List.mem_cons_of_mem _ hc1)
      have := i4 f hf1
      rw [this]
      exact q4 f (hf c (List.mem_cons_self _ _)).1 (hf c (List.mem_cons_self _ _)).2

/-- The loop of `place_phys0` over the vm-stack queue returns when every entry of the queue
has a virtual-TLB entry. -/
theorem place_phys0_vm_walk_ok (env : Env) (l : List Nat) :
    ∀ (s : State), (∀ c ∈ l, (s.heap c).vtlb ≠ none) →
      ∃ r, place_phys0_vm_walk env s l = Except.ok r := by
  induction l with
  | nil => intro s _; exact ⟨s, rfl⟩
  | cons c rest ih =>
    intro s hv
    rw [place_phys0_vm_walk]
    obtain ⟨r1, _⟩ := refresh_shadows_frame env s c 0
    generalize refresh_shadows env s c 0 = sa at r1
    have hc : (sa.heap c).vtlb ≠ none := by
      rw [(same_fields (r1 c)).2.2.2.2.2.1]
      exact hv c (List.mem_cons_self _ _)
    cases hvt : (sa.heap c).vtlb with
    | none => exact absurd hvt hc
    | some t =>
      dsimp only
      apply ih
      intro c1 hc1
      show (sa.heap c1).vtlb ≠ none
      rw [(same_fields (r1 c1)).2.2.2.2.2.1]
      exact hv c1 (List.mem_cons_of_mem _ hc1)

/-- What `place_phys0` leaves, field by field. -/
theorem place_phys0_char (env : Env) (s s' : State) (h : place_phys0 env s = Except.ok s')
    (hnd : s.pd_cow_elts.Nodup) (htc : twins_closed s s.pd_cow_elts) :
    s.cow_elts = [] ∧
    (∀ p, ({ s'.heap p with crc := 0 } : Cow_elt) = { s.heap p with crc := 0 }) ∧
    s'.pd_cow_elts = [] ∧
    s'.cow_elts = migrated s (place_visits env s.pd_cow_elts.length s) ∧
    s'.destroyed = s.destroyed ++ dropped s (place_visits env s.pd_cow_elts.length s) ∧
    s'.current_ec_cow_elts_size = s.current_ec_cow_elts_size + s'.cow_elts.length ∧
    s'.hpt_tab = assign s.hpt_tab (stores_of (fun c =>
      slot_store (s.heap c).hpt
        ((s.heap c).new_phys0, writable (s.heap c).attr Hpt.HPT_W Hpt.HPT_COW)) s'.cow_elts) ∧
    (∀ t, (∀ c ∈ s.vm_kernel_stacks, (s.heap c).vtlb ≠ some t) →
      s'.vtlb_tab t = assign s.vtlb_tab (stores_of (fun c =>
        slot_store (s.heap c).vtlb
          ((s.heap c).new_phys0, writable (s.heap c).attr env.TLB_W env.TLB_COW))
        s'.cow_elts) t) ∧
    (∀ f, (∀ x ∈ s.pd_cow_elts ++ s.vm_kernel_stacks,
        f ≠ (s.heap x).new_phys0 ∧ f ≠ (s.heap x).new_phys1) → s'.mem f = s.mem f) ∧
    List.Perm (s'.cow_elts ++ dropped s (place_visits env s.pd_cow_elts.length s))
      s.pd_cow_elts := by
  unfold place_phys0 at h
  simp only [bind, Except.bind, pure, Except.pure] at h
  split at h
  · cases h
  · rename_i hu
    have hempty : s.cow_elts = [] := by simpa using hu
    obtain ⟨l1, l2, l3, l4, l5, l6, l7, l8, l9, l10, l11, _⟩ :=
      place_phys0_loop_char env s.pd_cow_elts.length s (Nat.le_refl _) hnd htc
    rw [hempty, List.nil_append] at l3
    generalize place_visits env s.pd_cow_elts.length s = V at *
    generalize place_phys0_loop env s.pd_cow_elts.length s = s1 at *
    split at h
    · obtain ⟨v1, v2, v3, v4⟩ := place_phys0_vm_walk_frame env _ _ _ h
      obtain ⟨u1, u2, u3, u4⟩ := place_phys0_vm_walk_rest env _ _ _ h
      refine ⟨hempty, fun p => (v1 p).trans (l1 p), u1.trans l2, v2.trans l3, u2.trans l4, ?_,
        ?_, ?_, ?_, ?_⟩
      · rw [u3, l5, v2, l3]
      · rw [v3, l6, v2, l3]
      · intro t ht
        rw [v4 t ?_, l7, v2, l3]
        intro c hc
        rw [(same_fields (l1 c)).2.2.2.2.2.1]
        exact ht c (l8 ▸ hc)
      · intro f hf
        rw [u4 f ?_]
        · exact l10 f (fun x hx => hf x (List.mem_append_left _ hx))
        · intro c hc
          rw [(same_fields (l1 c)).2.1, (same_fields (l1 c)).2.2.1]
          exact hf c (List.mem_append_right _ (l8 ▸ hc))
      · rw [v2, l3]; exact l11
    · simp only [Except.ok.injEq] at h
      subst h
      refine ⟨hempty, l1, l2, l3, l4, ?_, ?_, ?_, ?_, ?_⟩
      · rw [l5, l3]
      · rw [l6, l3]
      · intro t _
        rw [l7, l3]
      · intro f hf
        exact l10 f (fun x hx => hf x (List.mem_append_left _ hx))
      · rw [l3]; exact l11

theorem place_phys0_loop_heap (env : Env) (fuel : Nat) :
    ∀ (s : State),
      (∀ p, ({ (place_phys0_loop env fuel s).heap p with crc := 0 } : Cow_elt)
        = { s.heap p with crc := 0 }) ∧
      (place_phys0_loop env fuel s).vm_kernel_stacks = s.vm_kernel_stacks ∧
      (place_phys0_loop env fuel s).is_virutalcpu = s.is_virutalcpu := by
  induction fuel with
  | zero => intro s; exact ⟨fun _ => rfl, rfl, rfl⟩
  | succ n ih =>
    intro s
    rcases (show s.pd_cow_elts = [] ∨ ∃ d q, s.pd_cow_elts = d :: q from by
      cases s.pd_cow_elts with
      | nil => exact Or.inl rfl
      | cons d q => exact Or.inr ⟨d, q, rfl⟩) with hnil | ⟨d, q, hq⟩
    · rw [place_phys0_loop_nil _ _ _ hnil]
      exact ⟨fun _ => rfl, rfl, rfl⟩
    · rw [place_phys0_loop_cons _ _ _ _ _ hq]
      obtain ⟨c1, _, _, _, _, _, _, c8, c9, _⟩ :=
        place_phys0_step_char env { s with pd_cow_elts := q } d
      obtain ⟨i1, i2, i3⟩ := ih (place_phys0_step env { s with pd_cow_elts := q } d)
      exact ⟨fun p => (i1 p).trans (c1 p), i2.trans c8, i3.trans c9⟩

/-- `place_phys0` returns when the live set is empty and, on a virtual CPU, every entry of
the vm-stack queue has a virtual-TLB entry. -/
theorem place_phys0_ok (env : Env) (s : State) (hempty : s.cow_elts = [])
    (hvt : s.is_virutalcpu = true → ∀ c ∈ s.vm_kernel_stacks, (s.heap c).vtlb ≠ none) :
    ∃ s', place_phys0 env s = Except.ok s' := by
  unfold place_phys0
  simp only [bind, Except.bind, pure, Except.pure, hempty, List.isEmpty_nil, Bool.not_true,
    Bool.false_eq_true, if_false]
  obtain ⟨l1, l2, l3⟩ := place_phys0_loop_heap env s.pd_cow_elts.length s
  generalize place_phys0_loop env s.pd_cow_elts.length s = s1 at l1 l2 l3
  by_cases hv : s1.is_virutalcpu = true
  · rw [if_pos hv]
    apply place_phys0_vm_walk_ok
    intro c hc
    rw [(same_fields (l1 c)).2.2.2.2.2.1]
    exact hvt (l3 ▸ hv) c (l2 ▸ hc)
  · rw [if_neg hv]
    exact ⟨s1, rfl⟩

theorem is_stale_congr (s s1 : State) (d : Nat) (hl : s1.loc_walk = s.loc_walk)
    (hf : ({ s1.heap d with crc := 0 } : Cow_elt) = { s.heap d with crc := 0 })
    (ht : ∀ e, s.loc_walk (s.heap d).page_addr = some e → s1.hpt_tab e = s.hpt_tab e) :
    is_stale s1 d = is_stale s d := by
  have f := same_fields hf
  unfold is_stale lookup
  rw [hl, f.1, f.2.2.2.1, f.2.2.2.2.2.2.2]
  cases hw : s.loc_walk (s.heap d).page_addr with
  | none => rfl
  | some e =>
    dsimp only
    rw [ht e hw]

theorem is_stale_iff (s : State) (d : Nat) :
    is_stale s d = false ↔
      lookup s (s.heap d).page_addr = some ((s.heap d).old_phys, (s.heap d).attr) := by
  unfold is_stale
  cases hlk : lookup s (s.heap d).page_addr with
  | none => simp
  | some pa =>
    obtain ⟨p, a⟩ := pa
    simp only [ne_eq, decide_eq_false_iff_not, not_or, Decidable.not_not, Option.some.injEq,
      Prod.mk.injEq]

/-- The outcome of the test on a head is that of the test in the state of the call, when no
host page-table entry of a parked entry serves the page of another parked entry. -/
theorem place_visits_flags (env : Env) (fuel : Nat) :
    ∀ (s : State), s.pd_cow_elts.length ≤ fuel → s.pd_cow_elts.Nodup →
      twins_closed s s.pd_cow_elts → lookup_apart s s.pd_cow_elts →
      ∀ v ∈ place_visits env fuel s, v.2 = is_stale s v.1 := by
  induction fuel with
  | zero =>
    intro s _ _ _ _ v hv
    simp [place_visits] at hv
  | succ n ih =>
    intro s hlen hnd htc hla v hv
    rcases (show s.pd_cow_elts = [] ∨ ∃ d q, s.pd_cow_elts = d :: q from by
      cases s.pd_cow_elts with
      | nil => exact Or.inl rfl
      | cons d q => exact Or.inr ⟨d, q, rfl⟩) with hnil | ⟨d, q, hq⟩
    · rw [place_visits_nil _ _ _ hnil] at hv
      cases hv
    · rw [place_visits_cons _ _ _ _ _ hq] at hv
      rw [hq] at hlen hnd htc hla
      rcases List.mem_cons.1 hv with e | hv1
      · rw [e]
      · obtain ⟨c1, _, _, c4, _, c6, _, _, _, c10, _⟩ :=
          place_phys0_step_char env { s with pd_cow_elts := q } d
        have hst : is_stale { s with pd_cow_elts := q } d = is_stale s d := rfl
        have hkp : ∀ b, kept { s with pd_cow_elts := q } d b = kept s d b := fun _ => rfl
        rw [hst, hkp] at c6
        generalize place_phys0_step env { s with pd_cow_elts := q } d = s1 at *
        have c1a : ∀ p, ({ s1.heap p with crc := 0 } : Cow_elt) = { s.heap p with crc := 0 } := c1
        have c4a : s1.pd_cow_elts = without_twin s d q := c4
        have c6a : s1.hpt_tab = assign s.hpt_tab (stores_of (fun c =>
            slot_store (s.heap c).hpt
              ((s.heap c).new_phys0, writable (s.heap c).attr Hpt.HPT_W Hpt.HPT_COW))
            (kept s d (is_stale s d))) := c6
        have c10a : s1.loc_walk = s.loc_walk := c10
        have htwf : ∀ p, (s1.heap p).v_is_mapped_elsewhere = (s.heap p).v_is_mapped_elsewhere :=
          fun p => (same_fields (c1a p)).2.2.2.2.2.2.1
        obtain ⟨w1, w2⟩ := without_twin_closed s d q hnd htc
        have hperm := without_twin_perm s d q htc
        have hlen1 : s1.pd_cow_elts.length ≤ n := by
          rw [c4a]
          have := hperm.length_eq
          simp only [List.length_append, List.length_cons, with_twin] at this
          simp only [List.length_cons] at hlen
          omega
        have htc1 : twins_closed s1 s1.pd_cow_elts := by
          rw [c4a]
          intro x hx y hxy
          rw [htwf] at hxy
          rw [htwf]
          exact w2 x hx y hxy
        have hsub : ∀ x ∈ s1.pd_cow_elts, x ∈ d :: q := fun x hx =>
          hperm.subset (List.mem_append_right _ (c4a ▸ hx))
        have hla1 : lookup_apart s1 s1.pd_cow_elts := by
          intro x hx y hy hxy h hxh
          rw [c10a, (same_fields (c1a y)).2.2.2.1]
          rw [(same_fields (c1a x)).2.2.2.2.1] at hxh
          exact hla x (hsub x hx) y (hsub y hy) hxy h hxh
        have hflag := ih s1 hlen1 (c4a ▸ w1) htc1 hla1 v hv1
        have hv1p : v.1 ∈ s1.pd_cow_elts :=
          (place_phys0_loop_char env n s1 hlen1 (c4a ▸ w1) htc1).2.2.2.2.2.2.2.2.2.2.2 v hv1
        rw [hflag]
        apply is_stale_congr s s1 v.1 c10a (c1a v.1)
        intro e he
        rw [c6a]
        apply assign_not_key
        intro kv hkv hk
        obtain ⟨x, hx, hkx⟩ := (mem_stores_of _ _ _).1 hkv
        have hxw : x ∈ with_twin s d := by
          unfold kept at hx
          split at hx
          · cases hx
          · exact hx
        have hnd2 : (with_twin s d ++ without_twin s d q).Nodup := hperm.nodup_iff.2 hnd
        have hxv : x ≠ v.1 := by
          intro e2
          have := (List.nodup_append.1 hnd2).2.2
          exact this hxw (c4a ▸ (e2 ▸ hv1p))
        cases hxh : (s.heap x).hpt with
        | none => rw [hxh] at hkx; simp [slot_store] at hkx
        | some k =>
          rw [hxh] at hkx
          simp only [slot_store, List.mem_singleton] at hkx
          have hke : k = e := by rw [hkx] at hk; exact hk
          exact hla x (hperm.subset (List.mem_append_left _ hxw)) v.1 (hsub _ hv1p) hxv k hxh
            (hke ▸ he)

theorem s_committed_twins :
    s_committed.pd_cow_elts.Nodup ∧ twins_closed s_committed s_committed.pd_cow_elts := by
  refine ⟨by decide, ?_⟩
  intro x hx y hy
  have hx2 : x ∈ [1, 2] := hx
  simp only [List.mem_cons, List.mem_singleton, List.not_mem_nil, or_false] at hx2
  rcases hx2 with e | e
  · subst e
    have : some 2 = some y := hy
    cases this
    exact ⟨by decide, by decide, rfl⟩
  · subst e
    have : some 1 = some y := hy
    cases this
    exact ⟨by decide, by decide, rfl⟩

theorem mem_migrated (s : State) (V : List (Nat × Bool)) (x : Nat) :
    x ∈ migrated s V ↔ ∃ v ∈ V, v.2 = false ∧ x ∈ with_twin s v.1 := by
  induction V with
  | nil => simp [migrated]
  | cons v rest ih =>
    rw [migrated, List.mem_append, ih]
    unfold kept
    cases hv : v.2 <;> simp [hv]

theorem mem_dropped (s : State) (V : List (Nat × Bool)) (x : Nat) :
    x ∈ dropped s V ↔ ∃ v ∈ V, v.2 = true ∧ x ∈ with_twin s v.1 := by
  induction V with
  | nil => simp [dropped]
  | cons v rest ih =>
    rw [dropped, List.mem_append, ih]
    unfold lost with_twin
    cases hv : v.2 <;> simp [hv, or_comm]

/-- C18: called with an empty live set, `place_phys0` returns with an empty parked list.
The live set is then the list of the entries migrated by the iterations whose head passed
the test, without repetition: an entry is live exactly when it was parked and has not been
destroyed as stale. The page-table entries of every live entry hold its first shadow frame
with the WRITE bit set and the COW bit clear. The counter `current_ec_cow_elts_size` has
grown by the length of the live set, so that it is that length when it was 0 at the call,
as `commit` leaves it. The states are those in which the parked list has no repetition and
is closed under the twin link, in which the parked entries use pairwise distinct page-table
entries that are not those of the vm-stack queue, and in which, on a virtual CPU, the
entries of that queue have a virtual-TLB entry. -/
theorem place_phys0_migrates (env : Env) (s : State)
    (hempty : s.cow_elts = []) (hnd : s.pd_cow_elts.Nodup) (htc : twins_closed s s.pd_cow_elts)
    (hod : origins_distinct s s.pd_cow_elts)
    (hvm : ∀ c ∈ s.vm_kernel_stacks, ∀ x ∈ s.pd_cow_elts,
      (s.heap x).vtlb = none ∨ (s.heap x).vtlb ≠ (s.heap c).vtlb)
    (hvt : s.is_virutalcpu = true → ∀ c ∈ s.vm_kernel_stacks, (s.heap c).vtlb ≠ none) :
    ∃ s', place_phys0 env s = Except.ok s' ∧ s'.pd_cow_elts = [] ∧
      s'.cow_elts = migrated s (place_visits env s.pd_cow_elts.length s) ∧
      s'.destroyed = s.destroyed ++ dropped s (place_visits env s.pd_cow_elts.length s) ∧
      s'.cow_elts.Nodup ∧
      (∀ x, x ∈ s'.cow_elts ↔
        x ∈ s.pd_cow_elts ∧ x ∉ dropped s (place_visits env s.pd_cow_elts.length s)) ∧
      (∀ x ∈ s'.cow_elts,
        mapping_is s' x (s.heap x).new_phys0 (writable (s.heap x).attr env.TLB_W env.TLB_COW)
          (writable (s.heap x).attr Hpt.HPT_W Hpt.HPT_COW)) ∧
      (∀ a : Nat, (writable a Hpt.HPT_W Hpt.HPT_COW).testBit 1 = true ∧
        (writable a Hpt.HPT_W Hpt.HPT_COW).testBit 11 = false) ∧
      s'.current_ec_cow_elts_size = s.current_ec_cow_elts_size + s'.cow_elts.length ∧
      (s.current_ec_cow_elts_size = 0 → s'.current_ec_cow_elts_size = s'.cow_elts.length) := by
  obtain ⟨s', h⟩ := place_phys0_ok env s hempty hvt
  obtain ⟨_, a1, a2, a3, a4, a5, a6, a7, _, a9⟩ := place_phys0_char env s s' h hnd htc
  have hnd2 : (s'.cow_elts ++ dropped s (place_visits env s.pd_cow_elts.length s)).Nodup :=
    a9.nodup_iff.2 hnd
  have hsub : ∀ x ∈ s'.cow_elts, x ∈ s.pd_cow_elts := fun x hx =>
    a9.subset (List.mem_append_left _ hx)
  refine ⟨s', h, a2, a3, a4, (List.nodup_append.1 hnd2).1, ?_, ?_, ?_, a5, ?_⟩
  · intro x
    constructor
    · intro hx
      exact ⟨hsub x hx, fun hd => (List.nodup_append.1 hnd2).2.2 hx hd⟩
    · intro hx
      rcases List.mem_append.1 (a9.mem_iff.2 hx.1) with e | e
      · exact e
      · exact absurd e hx.2
  · intro x hx
    unfold mapping_is
    rw [(same_fields (a1 x)).2.2.2.2.1, (same_fields (a1 x)).2.2.2.2.2.1]
    constructor
    · cases hv : (s.heap x).vtlb with
      | none => trivial
      | some t =>
        dsimp only
        rw [a7 t (fun c hc hct => by
          rcases hvm c hc x (hsub x hx) with o | o
          · rw [hv] at o; cases o
          · rw [hv, hct] at o; exact o rfl)]
        have := assign_live_slot s.vtlb_tab [] (fun c => (s.heap c).vtlb)
          (fun c => ((s.heap c).new_phys0, writable (s.heap c).attr env.TLB_W env.TLB_COW))
          s'.cow_elts (fun x hx y hy hxy => (hod x (hsub x hx) y (hsub y hy) hxy).2) x hx t hv
        rw [List.nil_append] at this
        exact this
    · cases hh : (s.heap x).hpt with
      | none => trivial
      | some k =>
        dsimp only
        rw [a6]
        have := assign_live_slot s.hpt_tab [] (fun c => (s.heap c).hpt)
          (fun c => ((s.heap c).new_phys0, writable (s.heap c).attr Hpt.HPT_W Hpt.HPT_COW))
          s'.cow_elts (fun x hx y hy hxy => (hod x (hsub x hx) y (hsub y hy) hxy).1) x hx k hh
        rw [List.nil_append] at this
        exact this
  · intro a
    have h1 := writable_testBit a 1 11 1 (by decide)
    have h11 := writable_testBit a 1 11 11 (by decide)
    exact ⟨by rw [show Hpt.HPT_W = 1 <<< 1 from rfl, show Hpt.HPT_COW = 1 <<< 11 from rfl, h1]; simp,
      by rw [show Hpt.HPT_W = 1 <<< 1 from rfl, show Hpt.HPT_COW = 1 <<< 11 from rfl, h11]; simp⟩
  · intro hsz
    rw [a5, hsz, Nat.zero_add]

theorem place_phys0_migrates_witness :
    (s_committed.cow_elts = [] ∧ s_committed.current_ec_cow_elts_size = 0 ∧
      s_committed.pd_cow_elts = [1, 2] ∧ s_committed.pd_cow_elts.Nodup ∧
      twins_closed s_committed s_committed.pd_cow_elts ∧
      origins_distinct s_committed s_committed.pd_cow_elts ∧
      place_phys0 env0 s_committed = Except.ok s_placed ∧ s_placed.cow_elts = [1, 2] ∧
      s_placed.current_ec_cow_elts_size = 2 ∧ s_placed.hpt_tab 7 = (0x100000, 0x007)) ∧
    ∃ s', place_phys0 env0 s_committed = Except.ok s' ∧ s'.pd_cow_elts = [] ∧
      s'.cow_elts = migrated s_committed
        (place_visits env0 s_committed.pd_cow_elts.length s_committed) ∧
      s'.destroyed = s_committed.destroyed ++ dropped s_committed
        (place_visits env0 s_committed.pd_cow_elts.length s_committed) ∧
      s'.cow_elts.Nodup ∧
      (∀ x, x ∈ s'.cow_elts ↔
        x ∈ s_committed.pd_cow_elts ∧ x ∉ dropped s_committed
          (place_visits env0 s_committed.pd_cow_elts.length s_committed)) ∧
      (∀ x ∈ s'.cow_elts,
        mapping_is s' x (s_committed.heap x).new_phys0
          (writable (s_committed.heap x).attr env0.TLB_W env0.TLB_COW)
          (writable (s_committed.heap x).attr Hpt.HPT_W Hpt.HPT_COW)) ∧
      (∀ a : Nat, (writable a Hpt.HPT_W Hpt.HPT_COW).testBit 1 = true ∧
        (writable a Hpt.HPT_W Hpt.HPT_COW).testBit 11 = false) ∧
      s'.current_ec_cow_elts_size = s_committed.current_ec_cow_elts_size + s'.cow_elts.length ∧
      (s_committed.current_ec_cow_elts_size = 0 →
        s'.current_ec_cow_elts_size = s'.cow_elts.length) :=
  ⟨⟨rfl, rfl, rfl, s_committed_twins.1, s_committed_twins.2, s_committed_ready.2.1, rfl,
      by decide, by decide, by decide⟩,
    place_phys0_migrates env0 s_committed rfl s_committed_twins.1 s_committed_twins.2
      s_committed_ready.2.1 s_committed_ready.2.2.2 (fun h => nomatch h)⟩

/-- C19, as stated, fails: the lookup of the page of the parked entry 2 fails, and after
`place_phys0` the entry 2 is in the live set and nothing has been destroyed. The entry 2 is
the twin of the entry 1 at the head of the parked list, whose lookup succeeds. -/
theorem stale_park_counterexample :
    s_half_unmapped.cow_elts = [] ∧ s_half_unmapped.pd_cow_elts = [1, 2] ∧
    lookup s_half_unmapped (s_half_unmapped.heap 2).page_addr = none ∧
    place_phys0 env0 s_half_unmapped = Except.ok s_half_placed ∧
    2 ∈ s_half_placed.cow_elts ∧ s_half_placed.destroyed = [] := by
  refine ⟨rfl, rfl, by decide, rfl, by decide, by decide⟩

/-- C19, amended: called with an empty live set, `place_phys0` returns, and every parked
entry is the head of an iteration of its loop or the twin of such a head. When the lookup
made for the head fails, or gives another frame or another permission word than the head
holds, the head and its twin are destroyed and are not in the live set afterwards; in the
other case the head and its twin are in the live set and are not destroyed, and no lookup
is made for the twin. The lookup made for a head is the lookup in the state of the call
when no host page-table entry of a parked entry serves the page of another parked entry.
The states are those in which the parked list has no repetition and is closed under the
twin link and in which, on a virtual CPU, the entries of the vm-stack queue have a
virtual-TLB entry. -/
theorem place_phys0_drops_stale (env : Env) (s : State)
    (hempty : s.cow_elts = []) (hnd : s.pd_cow_elts.Nodup)
    (htc : twins_closed s s.pd_cow_elts)
    (hvt : s.is_virutalcpu = true → ∀ c ∈ s.vm_kernel_stacks, (s.heap c).vtlb ≠ none) :
    ∃ s', place_phys0 env s = Except.ok s' ∧
      s'.destroyed = s.destroyed ++ dropped s (place_visits env s.pd_cow_elts.length s) ∧
      (∀ x ∈ s.pd_cow_elts,
        ∃ v ∈ place_visits env s.pd_cow_elts.length s, x ∈ with_twin s v.1) ∧
      (∀ v ∈ place_visits env s.pd_cow_elts.length s,
        (v.2 = true → ∀ x ∈ with_twin s v.1, x ∈ s'.destroyed ∧ x ∉ s'.cow_elts) ∧
        (v.2 = false → ∀ x ∈ with_twin s v.1,
          x ∈ s'.cow_elts ∧ x ∉ dropped s (place_visits env s.pd_cow_elts.length s))) ∧
      (lookup_apart s s.pd_cow_elts →
        ∀ v ∈ place_visits env s.pd_cow_elts.length s, v.2 = is_stale s v.1) ∧
      (∀ d, is_stale s d = false ↔
        lookup s (s.heap d).page_addr = some ((s.heap d).old_phys, (s.heap d).attr)) := by
  obtain ⟨s', h⟩ := place_phys0_ok env s hempty hvt
  obtain ⟨_, _, _, a3, a4, _, _, _, _, a9⟩ := place_phys0_char env s s' h hnd htc
  have hnd2 : (s'.cow_elts ++ dropped s (place_visits env s.pd_cow_elts.length s)).Nodup :=
    a9.nodup_iff.2 hnd
  have hdis := (List.nodup_append.1 hnd2).2.2
  refine ⟨s', h, a4, ?_, ?_, place_visits_flags env _ s (Nat.le_refl _) hnd htc,
    is_stale_iff s⟩
  · intro x hx
    rcases List.mem_append.1 (a9.mem_iff.2 hx) with e | e
    · rw [a3] at e
      obtain ⟨v, hv, _, hxv⟩ := (mem_migrated s _ x).1 e
      exact ⟨v, hv, hxv⟩
    · obtain ⟨v, hv, _, hxv⟩ := (mem_dropped s _ x).1 e
      exact ⟨v, hv, hxv⟩
  · intro v hv
    constructor
    · intro hst x hx
      have hd : x ∈ dropped s (place_visits env s.pd_cow_elts.length s) :=
        (mem_dropped s _ x).2 ⟨v, hv, hst, hx⟩
      exact ⟨by rw [a4]; exact List.mem_append_right _ hd, fun hl => hdis hl hd⟩
    · intro hst x hx
      have hm : x ∈ s'.cow_elts := by
        rw [a3]; exact (mem_migrated s _ x).2 ⟨v, hv, hst, hx⟩
      exact ⟨hm, fun hd => hdis hm hd⟩

theorem place_phys0_drops_stale_witness :
    (s_unmapped.cow_elts = [] ∧ s_unmapped.pd_cow_elts = [1, 2] ∧
      s_unmapped.pd_cow_elts.Nodup ∧ twins_closed s_unmapped s_unmapped.pd_cow_elts ∧
      place_visits env0 s_unmapped.pd_cow_elts.length s_unmapped = [(1, true)] ∧
      with_twin s_unmapped 1 = [1, 2] ∧
      place_phys0 env0 s_unmapped = Except.ok s_unmapped_placed ∧
      s_unmapped_placed.destroyed = [2, 1] ∧ s_unmapped_placed.cow_elts = []) ∧
    ∃ s', place_phys0 env0 s_unmapped = Except.ok s' ∧
      s'.destroyed = s_unmapped.destroyed ++ dropped s_unmapped
        (place_visits env0 s_unmapped.pd_cow_elts.length s_unmapped) ∧
      (∀ x ∈ s_unmapped.pd_cow_elts,
        ∃ v ∈ place_visits env0 s_unmapped.pd_cow_elts.length s_unmapped,
          x ∈ with_twin s_unmapped v.1) ∧
      (∀ v ∈ place_visits env0 s_unmapped.pd_cow_elts.length s_unmapped,
        (v.2 = true → ∀ x ∈ with_twin s_unmapped v.1,
          x ∈ s'.destroyed ∧ x ∉ s'.cow_elts) ∧
        (v.2 = false → ∀ x ∈ with_twin s_unmapped v.1,
          x ∈ s'.cow_elts ∧ x ∉ dropped s_unmapped
            (place_visits env0 s_unmapped.pd_cow_elts.length s_unmapped))) ∧
      (lookup_apart s_unmapped s_unmapped.pd_cow_elts →
        ∀ v ∈ place_visits env0 s_unmapped.pd_cow_elts.length s_unmapped,
          v.2 = is_stale s_unmapped v.1) ∧
      (∀ d, is_stale s_unmapped d = false ↔
        lookup s_unmapped (s_unmapped.heap d).page_addr
          = some ((s_unmapped.heap d).old_phys, (s_unmapped.heap d).attr)) :=
  ⟨⟨rfl, rfl, s_committed_twins.1, s_committed_twins.2, by decide, by decide, rfl, by decide,
      by decide⟩,
    place_phys0_drops_stale env0 s_unmapped rfl s_committed_twins.1 s_committed_twins.2
      (fun h => nomatch h)⟩

/-! ## The original frames -/

theorem copy_frames_mem (s : State) (p1 p2 : Nat) (virt : Ptr) (f : Nat)
    (h1 : f ≠ p1) (h2 : f ≠ p2) : (copy_frames s p1 p2 virt).mem f = s.mem f := by
  simp [copy_frames, remap_cow, memcpy, frame_of, Function.update_noteq h1,
    Function.update_noteq h2]

/-- A call of `resolve_cow_fault` that returns writes the two frames of the block the
allocator hands out and no other frame. -/
theorem resolve_cow_fault_mem (env : Env) (s s' : State) (tlb hpt : Option Nat)
    (virt phys attr : Nat)
    (hr : resolve_cow_fault env s tlb hpt virt phys attr = Except.ok s') (f : Nat)
    (h0 : f ≠ env.ptr_to_phys (env.buddy_alloc s.buddy_allocs))
    (h1 : f ≠ env.ptr_to_phys (env.buddy_alloc s.buddy_allocs) + PAGE_SIZE) :
    s'.mem f = s.mem f := by
  have hps : (1 <<< ((1 - 1) + PAGE_BITS) : Nat) = PAGE_SIZE := by decide
  unfold resolve_cow_fault at hr
  simp only [bind, Except.bind, pure, Except.pure, Cow_elt.create] at hr
  split at hr
  · cases hr
  · rename_i c hc
    rcases tlb with _ | t <;> rcases hpt with _ | h
    · simp at hr
    · simp only [Except.ok.injEq] at hr
      subst hr
      cases c with
      | none =>
        simp only [State.modify, Function.update_same, Hpt.cow_update]
        rw [copy_frames_mem _ _ _ _ _ h0 (by rw [if_pos trivial, hps]; exact h1)]
      | some c => rfl
    · simp only [Except.ok.injEq] at hr
      subst hr
      cases c with
      | none =>
        simp only [State.modify, Function.update_same, Vtlb.cow_update, remap_cow]
        rw [copy_frames_mem _ _ _ _ _ h0 (by rw [if_pos trivial, hps]; exact h1)]
      | some c => rfl
    · simp at hr

theorem restore_walks_mem (env : Env) (l : List Nat) :
    (∀ (s s0 : State), restore_vm_stack_state0_walk s l = Except.ok s0 → s0.mem = s.mem) ∧
    (∀ (s s0 : State), restore_vm_stack_state1_walk s l = Except.ok s0 → s0.mem = s.mem) ∧
    (∀ s : State, (restore_state0_walk env s l).mem = s.mem) ∧
    (∀ s : State, (restore_state1_walk env s l).mem = s.mem) := by
  induction l with
  | nil =>
    refine ⟨?_, ?_, fun _ => rfl, fun _ => rfl⟩
    · intro s s0 h
      simp only [restore_vm_stack_state0_walk, Except.ok.injEq] at h
      rw [← h]
    · intro s s0 h
      simp only [restore_vm_stack_state1_walk, Except.ok.injEq] at h
      rw [← h]
  | cons c rest ih =>
    obtain ⟨i1, i2, i3, i4⟩ := ih
    refine ⟨?_, ?_, ?_, ?_⟩
    · intro s s0 h
      rw [restore_vm_stack_state0_walk] at h
      split at h
      · cases h
      · have := i1 _ _ h
        exact this
    · intro s s0 h
      rw [restore_vm_stack_state1_walk] at h
      split at h
      · cases h
      · have := i2 _ _ h
        exact this
    · intro s
      rw [restore_state0_walk, i3, (remap_entry_rest env s c _).1]
    · intro s
      rw [restore_state1_walk, i4, (remap_entry_rest env s c _).1]

/-- The two restores write no frame. -/
theorem restore_state_mem (env : Env) (s s' : State) :
    (restore_state0 env s = Except.ok s' → s'.mem = s.mem) ∧
    (restore_state1 env s = Except.ok s' → s'.mem = s.mem) := by
  constructor
  · intro h
    unfold restore_state0 at h
    simp only [bind, Except.bind, pure, Except.pure] at h
    split at h
    · cases h
    · rename_i s0 h0
      simp only [Except.ok.injEq] at h
      rw [← h, (restore_walks_mem env _).2.2.1]
      by_cases hv : s.is_virutalcpu = true
      · rw [if_pos hv] at h0
        unfold restore_vm_stack_state0 at h0
        rw [if_pos hv] at h0
        exact (restore_walks_mem env _).1 _ _ h0
      · rw [if_neg hv] at h0
        simp only [Except.ok.injEq] at h0
        rw [← h0]
  · intro h
    unfold restore_state1 at h
    simp only [bind, Except.bind, pure, Except.pure] at h
    split at h
    · cases h
    · rename_i s0 h0
      simp only [Except.ok.injEq] at h
      rw [← h, (restore_walks_mem env _).2.2.2]
      by_cases hv : s.is_virutalcpu = true
      · rw [if_pos hv] at h0
        unfold restore_vm_stack_state1 at h0
        rw [if_pos hv] at h0
        exact (restore_walks_mem env _).2.1 _ _ h0
      · rw [if_neg hv] at h0
        simp only [Except.ok.injEq] at h0
        rw [← h0]

/-- The loops of `rollback` write the shadow frames of the entries they walk and no other
frame. -/
theorem rollback_walks_mem (env : Env) (l : List Nat) :
    (∀ (s s0 : State), rollback_vm_stack_walk s l = Except.ok s0 →
      s0.heap = s.heap ∧
      ∀ f, (∀ x ∈ l, f ≠ (s.heap x).new_phys0 ∧ f ≠ (s.heap x).new_phys1) →
        s0.mem f = s.mem f) ∧
    (∀ (s : State) (f : Nat),
      (∀ x ∈ l, f ≠ (s.heap x).new_phys0 ∧ f ≠ (s.heap x).new_phys1) →
      (rollback_walk env s l).mem f = s.mem f) := by
  induction l with
  | nil =>
    refine ⟨?_, fun _ _ _ => rfl⟩
    intro s s0 h
    simp only [rollback_vm_stack_walk, Except.ok.injEq] at h
    rw [← h]
    exact ⟨rfl, fun _ _ => rfl⟩
  | cons c rest ih =>
    obtain ⟨i1, i2⟩ := ih
    refine ⟨?_, ?_⟩
    · intro s s0 h
      rw [rollback_vm_stack_walk] at h
      dsimp only at h
      split at h
      · cases h
      · obtain ⟨a1, a2⟩ := i1 _ _ h
        refine ⟨a1, ?_⟩
        intro f hf
        rw [a2 f (fun x hx => hf x (List.mem_cons_of_mem _ hx))]
        exact copy_frames_mem _ _ _ _ f (hf c (List.mem_cons_self _ _)).1
          (hf c (List.mem_cons_self _ _)).2
    · intro s f hf
      have hstep : rollback_walk env s (c :: rest) = rollback_walk env
          (remap_entry env (copy_frames (remap_cow s (s.heap c).old_phys (2 * PAGE_SIZE)).2
            (s.heap c).new_phys0 (s.heap c).new_phys1
            (remap_cow s (s.heap c).old_phys (2 * PAGE_SIZE)).1) c (s.heap c).new_phys0)
          rest := rfl
      rw [hstep, i2 _ f (fun x hx => by
        rw [remap_entry_heap]
        exact hf x (List.mem_cons_of_mem _ hx)), (remap_entry_rest env _ c _).1]
      exact copy_frames_mem _ _ _ _ f (hf c (List.mem_cons_self _ _)).1
        (hf c (List.mem_cons_self _ _)).2

/-- A call of `rollback` that returns writes the shadow frames of the entries it walks and
no other frame. -/
theorem rollback_mem (env : Env) (s s' : State) (h : rollback env s = Except.ok s') (f : Nat)
    (hf : ∀ x ∈ rollback_entries s, f ≠ (s.heap x).new_phys0 ∧ f ≠ (s.heap x).new_phys1) :
    s'.mem f = s.mem f := by
  unfold rollback at h
  simp only [bind, Except.bind, pure, Except.pure] at h
  unfold rollback_entries at hf
  split at h
  · cases h
  · rename_i s0 h0
    simp only [Except.ok.injEq] at h
    by_cases hv : s.is_virutalcpu = true
    · rw [if_pos hv] at h0 hf
      unfold rollback_vm_stack at h0
      rw [if_pos hv] at h0
      obtain ⟨a1, a2⟩ := (rollback_walks_mem env _).1 _ _ h0
      have hl : s0.cow_elts = s.cow_elts := (vm_prelude_frame.2.2 _ _ _ h0).2
      rw [← h, (rollback_walks_mem env _).2 s0 f (fun x hx => by
        rw [a1]
        exact hf x (List.mem_append_right _ (hl ▸ hx)))]
      exact a2 f (fun x hx => hf x (List.mem_append_left _ hx))
    · rw [if_neg hv] at h0 hf
      simp only [Except.ok.injEq] at h0
      rw [← h, ← h0]
      exact (rollback_walks_mem env _).2 s f hf

theorem place_phys0_loop_mem (env : Env) (fuel : Nat) :
    ∀ (s : State) (f : Nat),
      (∀ x ∈ s.pd_cow_elts, f ≠ (s.heap x).new_phys0 ∧ f ≠ (s.heap x).new_phys1) →
      (place_phys0_loop env fuel s).mem f = s.mem f := by
  induction fuel with
  | zero => intro s f _; rfl
  | succ n ih =>
    intro s f hf
    rcases (show s.pd_cow_elts = [] ∨ ∃ d q, s.pd_cow_elts = d :: q from by
      cases s.pd_cow_elts with
      | nil => exact Or.inl rfl
      | cons d q => exact Or.inr ⟨d, q, rfl⟩) with hnil | ⟨d, q, hq⟩
    · rw [place_phys0_loop_nil _ _ _ hnil]
    · rw [place_phys0_loop_cons _ _ _ _ _ hq]
      rw [hq] at hf
      obtain ⟨c1, _, _, c4, _, _, _, _, _, _, c11⟩ :=
        place_phys0_step_char env { s with pd_cow_elts := q } d
      have hsub : (place_phys0_step env { s with pd_cow_elts := q } d).pd_cow_elts ⊆ q := by
        rw [c4]
        unfold without_twin
        split
        · exact List.erase_subset _ _
        · exact fun _ hx => hx
      rw [ih _ f (fun x hx => by
        rw [(same_fields (c1 x)).2.1, (same_fields (c1 x)).2.2.1]
        exact hf x (List.mem_cons_of_mem _ (hsub hx)))]
      exact c11 f (hf d (List.mem_cons_self _ _)).1 (hf d (List.mem_cons_self _ _)).2

/-- A call of `place_phys0` that returns writes shadow frames of parked entries and of
entries of the vm-stack queue and no other frame. -/
theorem place_phys0_mem (env : Env) (s s' : State) (h : place_phys0 env s = Except.ok s')
    (f : Nat)
    (hf : ∀ x ∈ s.pd_cow_elts ++ s.vm_kernel_stacks,
      f ≠ (s.heap x).new_phys0 ∧ f ≠ (s.heap x).new_phys1) :
    s'.mem f = s.mem f := by
  unfold place_phys0 at h
  simp only [bind, Except.bind, pure, Except.pure] at h
  split at h
  · cases h
  · obtain ⟨l1, l2, _⟩ := place_phys0_loop_heap env s.pd_cow_elts.length s
    have l3 := place_phys0_loop_mem env s.pd_cow_elts.length s f
      (fun x hx => hf x (List.mem_append_left _ hx))
    generalize place_phys0_loop env s.pd_cow_elts.length s = s1 at *
    split at h
    · obtain ⟨_, _, _, u4⟩ := place_phys0_vm_walk_rest env _ _ _ h
      rw [u4 f (fun c hc => by
        rw [(same_fields (l1 c)).2.1, (same_fields (l1 c)).2.2.1]
        exact hf c (List.mem_append_right _ (l2 ▸ hc)))]
      exact l3
    · simp only [Except.ok.injEq] at h
      rw [← h]
      exact l3

/-- The copy of `commit_vm_stack_ce` goes through slot 0 of the window on both sides, the
pointer `ptr1` of `compare` having been obtained for that slot: after the remap to the
original frame it copies that frame onto itself. -/
theorem commit_vm_stack_ce_mem (env : Env) (s s' : State) (c crc1 : Nat)
    (h : commit_vm_stack_ce env s c crc1 (Ptr.cow 0) = Except.ok s') : s'.mem = s.mem := by
  have hcopy : ∀ (t : State) (k : Nat),
      (memcpy (remap_cow t k 0).2 (remap_cow t k 0).1 (Ptr.cow 0)).mem = t.mem := by
    intro t k
    simp [memcpy, remap_cow, frame_of, read_page]
  unfold commit_vm_stack_ce at h
  simp only [bind, Except.bind, pure, Except.pure] at h
  generalize hs4 : (ite (_ ≠ crc1) _ _ : State) = s4 at h
  have hm4 : s4.mem = s.mem := by
    rw [← hs4]
    split
    · exact hcopy _ _
    · rfl
  clear hs4
  split at h
  · cases h
  · split at h
    · cases h
    · rename_i v hv
      have hmv : v.mem = s4.mem := by
        split at hv
        · cases hv
        · simp only [Except.ok.injEq] at hv
          rw [← hv]
          rfl
      split at h
      · cases h
      · rename_i v2 hv2
        have hmv2 : v2.mem = v.mem := by
          split at hv2
          · simp only [Except.ok.injEq] at hv2
            rw [← hv2]
          · split at hv2
            · cases hv2
            · split at hv2
              · cases hv2
              · simp only [Except.ok.injEq] at hv2
                rw [← hv2]
                rfl
        split at h
        · simp only [Except.ok.injEq] at h
          rw [← h]
          exact (hmv2.trans hmv).trans hm4
        · simp only [Except.ok.injEq] at h
          rw [← h]
          exact (hmv2.trans hmv).trans hm4

/-- The loop of `compare` writes, on a virtual CPU, the first shadow frame of the entry on
which it stops, and no other frame. -/
theorem compare_walk_mem (env : Env) (l : List Nat) :
    ∀ (s : State) (b : Bool) (s' : State), compare_walk env s l = Except.ok (b, s') →
      ∀ f, (∀ x ∈ l, f ≠ (s.heap x).new_phys0) → s'.mem f = s.mem f := by
  have h01 : (0 : Nat) ≠ 1 := by decide
  induction l with
  | nil =>
    intro s b s' h f _
    simp only [compare_walk, Except.ok.injEq, Prod.mk.injEq] at h
    rw [← h.2]
  | cons c rest ih =>
    intro s b s' h f hf
    have hfc : f ≠ (s.heap c).new_phys0 := hf c (List.mem_cons_self _ _)
    rw [compare_walk] at h
    dsimp only at h
    split at h
    · have := ih _ b s' h f (fun x hx => by
        have hx0 := hf x (List.mem_cons_of_mem _ hx)
        by_cases hxc : x = c
        · rw [hxc] at hx0 ⊢
          simpa [State.modify, remap_cow] using hx0
        · simpa [State.modify, remap_cow, Function.update_noteq hxc] using hx0)
      rw [this]
      rfl
    · split at h
      · cases h
      · split at h
        · have hpatch : ∀ P : Page, Function.update s.mem
              (frame_of (remap_cow (remap_cow s (s.heap c).new_phys0 0).2
                ((remap_cow s (s.heap c).new_phys0 0).2.heap c).new_phys1 PAGE_SIZE).2
                (remap_cow s (s.heap c).new_phys0 0).1) P f = s.mem f := by
            intro P
            simp only [remap_cow, frame_of, slot0, slot1, Function.update_same,
              Function.update_noteq h01]
            exact Function.update_noteq hfc _ _
          split at h
          · cases hce : commit_vm_stack_ce env _ c _ (remap_cow s (s.heap c).new_phys0 0).1 with
            | error e => rw [hce] at h; cases h
            | ok r =>
              rw [hce] at h
              simp only [Except.map, Except.ok.injEq, Prod.mk.injEq] at h
              rw [← h.2]
              show r.mem f = _
              rw [commit_vm_stack_ce_mem env _ r c _ hce]
              exact hpatch _
          · simp only [Except.ok.injEq, Prod.mk.injEq] at h
            rw [← h.2]
            exact hpatch _
        · simp only [Except.ok.injEq, Prod.mk.injEq] at h
          rw [← h.2]
          rfl

theorem compare_vm_stack_walk_mem (env : Env) (l : List Nat) :
    ∀ (s : State) (b : Bool) (s' : State), compare_vm_stack_walk env s l = Except.ok (b, s') →
      s'.mem = s.mem ∧ s'.cow_elts = s.cow_elts ∧
      ∀ p, (s'.heap p).new_phys0 = (s.heap p).new_phys0 := by
  induction l with
  | nil =>
    intro s b s' h
    simp only [compare_vm_stack_walk, Except.ok.injEq, Prod.mk.injEq] at h
    rw [← h.2]
    exact ⟨rfl, rfl, fun _ => rfl⟩
  | cons c rest ih =>
    intro s b s' h
    rw [compare_vm_stack_walk] at h
    dsimp only at h
    split at h
    · obtain ⟨a1, a2, a3⟩ := ih _ b s' h
      refine ⟨a1, a2, fun p => ?_⟩
      rw [a3 p]
      by_cases hpc : p = c
      · rw [hpc]; simp [State.modify, remap_cow]
      · simp [State.modify, remap_cow, Function.update_noteq hpc]
    · split at h
      · cases h
      · simp only [Except.ok.injEq, Prod.mk.injEq] at h
        rw [← h.2]
        exact ⟨rfl, rfl, fun _ => rfl⟩

/-- A call of `compare` that returns writes no frame that is not the first shadow frame of
a live entry. -/
theorem compare_mem (env : Env) (s : State) (b : Bool) (s' : State)
    (h : compare env s = Except.ok (b, s')) (f : Nat)
    (hf : ∀ x ∈ s.cow_elts, f ≠ (s.heap x).new_phys0) : s'.mem f = s.mem f := by
  unfold compare at h
  simp only [bind, Except.bind, pure, Except.pure] at h
  by_cases hv : s.is_virutalcpu = true
  · rw [if_pos hv] at h
    split at h
    · cases h
    · rename_i v hvm
      obtain ⟨r, s0⟩ := v
      unfold compare_vm_stack at hvm
      rw [if_pos hv] at hvm
      obtain ⟨a1, a2, a3⟩ := compare_vm_stack_walk_mem env _ _ _ _ hvm
      dsimp only at h
      split at h
      · simp only [Except.ok.injEq, Prod.mk.injEq] at h
        rw [← h.2, a1]
      · rw [compare_walk_mem env _ _ _ _ h f (fun x hx => by
          rw [a3]; exact hf x (a2 ▸ hx)), a1]
  · rw [if_neg hv] at h
    exact compare_walk_mem env _ _ _ _ h f hf

/-- C20: a call of `resolve_cow_fault`, `restore_state0`, `restore_state1`, `compare`,
`rollback` or `place_phys0` that returns leaves the content of the original frame of every
shadow entry (live, parked or of the vm-stack queue) as it was, on a virtual CPU or not;
`resolve_cow_fault` also leaves the frame of the fault as it was. The states are those in
which no original frame of an entry is a shadow frame of an entry, and, for
`resolve_cow_fault`, in which the block that the allocator hands out holds no original
frame. -/
theorem original_frames_kept (env : Env) (s : State) (hfa : frames_apart s (entries s)) :
    (∀ tlb hpt virt phys attr s',
      resolve_cow_fault env s tlb hpt virt phys attr = Except.ok s' →
      (∀ x ∈ entries s, (s.heap x).old_phys ∉ fresh_frames env s) →
      and_not phys PAGE_MASK ∉ fresh_frames env s →
      (∀ x ∈ entries s, s'.mem (s.heap x).old_phys = s.mem (s.heap x).old_phys) ∧
      s'.mem (and_not phys PAGE_MASK) = s.mem (and_not phys PAGE_MASK)) ∧
    (∀ s', restore_state0 env s = Except.ok s' →
      ∀ x ∈ entries s, s'.mem (s.heap x).old_phys = s.mem (s.heap x).old_phys) ∧
    (∀ s', restore_state1 env s = Except.ok s' →
      ∀ x ∈ entries s, s'.mem (s.heap x).old_phys = s.mem (s.heap x).old_phys) ∧
    (∀ b s', compare env s = Except.ok (b, s') →
      ∀ x ∈ entries s, s'.mem (s.heap x).old_phys = s.mem (s.heap x).old_phys) ∧
    (∀ s', rollback env s = Except.ok s' →
      ∀ x ∈ entries s, s'.mem (s.heap x).old_phys = s.mem (s.heap x).old_phys) ∧
    (∀ s', place_phys0 env s = Except.ok s' →
      ∀ x ∈ entries s, s'.mem (s.heap x).old_phys = s.mem (s.heap x).old_phys) := by
  have hlive : ∀ y ∈ s.cow_elts, y ∈ entries s := fun y hy =>
    List.mem_append_left _ (List.mem_append_left _ hy)
  have hpark : ∀ y ∈ s.pd_cow_elts, y ∈ entries s := fun y hy =>
    List.mem_append_left _ (List.mem_append_right _ hy)
  have hvm : ∀ y ∈ s.vm_kernel_stacks, y ∈ entries s := fun y hy =>
    List.mem_append_right _ hy
  refine ⟨?_, ?_, ?_, ?_, ?_, ?_⟩
  · intro tlb hpt virt phys attr s' hr hfresh hphys
    have hmem : ∀ f, f ∉ fresh_frames env s → s'.mem f = s.mem f := by
      intro f hf
      unfold fresh_frames at hf
      simp only [List.mem_cons, List.mem_singleton, List.not_mem_nil, or_false, not_or] at hf
      exact resolve_cow_fault_mem env s s' tlb hpt virt phys attr hr f hf.1 hf.2
    exact ⟨fun x hx => hmem _ (hfresh x hx), hmem _ hphys⟩
  · intro s' h x _
    rw [(restore_state_mem env s s').1 h]
  · intro s' h x _
    rw [(restore_state_mem env s s').2 h]
  · intro b s' h x hx
    exact compare_mem env s b s' h _ (fun y hy => (hfa x hx y (hlive y hy)).1)
  · intro s' h x hx
    apply rollback_mem env s s' h
    intro y hy
    have hye : y ∈ entries s := by
      unfold rollback_entries at hy
      split at hy
      · rcases List.mem_append.1 hy with e | e
        · exact hvm y e
        · exact hlive y e
      · exact hlive y hy
    exact hfa x hx y hye
  · intro s' h x hx
    apply place_phys0_mem env s s' h
    intro y hy
    have hye : y ∈ entries s := by
      rcases List.mem_append.1 hy with e | e
      · exact hpark y e
      · exact hvm y e
    exact hfa x hx y hye

theorem original_frames_kept_witness :
    (frames_apart s_guest_written (entries s_guest_written) ∧
      s_guest_written.is_virutalcpu = true ∧ entries s_guest_written = [1] ∧
      (s_guest_written.heap 1).old_phys = 0x9000 ∧
      (after_compare s_guest_written).mem 0x100000 ≠ s_guest_written.mem 0x100000 ∧
      (after_compare s_guest_written).mem 0x9000 = s_guest_written.mem 0x9000) ∧
    ((∀ tlb hpt virt phys attr s',
      resolve_cow_fault env0 s_guest_written tlb hpt virt phys attr = Except.ok s' →
      (∀ x ∈ entries s_guest_written,
        (s_guest_written.heap x).old_phys ∉ fresh_frames env0 s_guest_written) →
      and_not phys PAGE_MASK ∉ fresh_frames env0 s_guest_written →
      (∀ x ∈ entries s_guest_written, s'.mem (s_guest_written.heap x).old_phys
        = s_guest_written.mem (s_guest_written.heap x).old_phys) ∧
      s'.mem (and_not phys PAGE_MASK) = s_guest_written.mem (and_not phys PAGE_MASK)) ∧
    (∀ s', restore_state0 env0 s_guest_written = Except.ok s' →
      ∀ x ∈ entries s_guest_written, s'.mem (s_guest_written.heap x).old_phys
        = s_guest_written.mem (s_guest_written.heap x).old_phys) ∧
    (∀ s', restore_state1 env0 s_guest_written = Except.ok s' →
      ∀ x ∈ entries s_guest_written, s'.mem (s_guest_written.heap x).old_phys
        = s_guest_written.mem (s_guest_written.heap x).old_phys) ∧
    (∀ b s', compare env0 s_guest_written = Except.ok (b, s') →
      ∀ x ∈ entries s_guest_written, s'.mem (s_guest_written.heap x).old_phys
        = s_guest_written.mem (s_guest_written.heap x).old_phys) ∧
    (∀ s', rollback env0 s_guest_written = Except.ok s' →
      ∀ x ∈ entries s_guest_written, s'.mem (s_guest_written.heap x).old_phys
        = s_guest_written.mem (s_guest_written.heap x).old_phys) ∧
    (∀ s', place_phys0 env0 s_guest_written = Except.ok s' →
      ∀ x ∈ entries s_guest_written, s'.mem (s_guest_written.heap x).old_phys
        = s_guest_written.mem (s_guest_written.heap x).old_phys)) :=
  ⟨⟨by unfold frames_apart; decide, rfl, rfl, rfl, by decide, by decide⟩,
    original_frames_kept env0 s_guest_written (by unfold frames_apart; decide)⟩

/-! ## The instruction count of a run -/

theorem sub64_exact (a b : Nat) (ha : a < 2 ^ 64) (hb : b ≤ a) : sub64 a b = a - b := by
  unfold sub64
  have hb2 : b < 2 ^ 64 := Nat.lt_of_le_of_lt hb ha
  rw [Nat.mod_eq_of_lt ha, Nat.mod_eq_of_lt hb2]
  have : a + 2 ^ 64 - b = (a - b) + 2 ^ 64 := by omega
  rw [this, Nat.add_mod_right, Nat.mod_eq_of_lt (by omega)]

theorem add64_exact (a b : Nat) (h : a + b < 2 ^ 64) : add64 a b = a + b := by
  unfold add64
  exact Nat.mod_eq_of_lt h

/-- The value of `instr_number` when the counter started at
`perf_max_count - MAX_INSTRUCTION`. -/
theorem instr_number_value (env : Env) (e : Ec) (counter exc : Nat)
    (hstart : e.start_counter = e.perf_max_count - env.MAX_INSTRUCTION)
    (hmax : env.MAX_INSTRUCTION ≤ e.perf_max_count) (hp : e.perf_max_count < 2 ^ 64)
    (hc : counter < e.perf_max_count) (hexc : exc ≤ env.MAX_INSTRUCTION + counter) :
    instr_number env e counter exc
      = (if counter < e.start_counter then env.MAX_INSTRUCTION + counter - exc
         else counter - e.start_counter) ∧
    instr_number env e counter exc < e.perf_max_count := by
  unfold instr_number
  by_cases h : counter < e.start_counter
  · rw [if_pos h, if_pos h]
    have h1 : env.MAX_INSTRUCTION + counter < e.perf_max_count := by omega
    rw [add64_exact _ _ (by omega), sub64_exact _ _ (by omega) hexc]
    exact ⟨rfl, by omega⟩
  · rw [if_neg h, if_neg h]
    rw [sub64_exact _ _ hp hmax, ← hstart, sub64_exact _ _ (by omega) (by omega)]
    exact ⟨rfl, by omega⟩

theorem check_exit_exit (e : Ec) :
    (∃ l, (check_exit e).1 = Exit.ret_user l) ∨
    (check_exit e).1 = Exit.stopped Stop.bad_launch_state := by
  unfold check_exit
  split
  · exact Or.inl ⟨_, rfl⟩
  · exact Or.inl ⟨_, rfl⟩
  · exact Or.inl ⟨_, rfl⟩
  · exact Or.inl ⟨_, rfl⟩
  · exact Or.inr rfl

theorem check_exit_state (e : Ec) : (check_exit e).2 = e := by
  unfold check_exit
  split <;> rfl

theorem check_exit_ne_assert (e : Ec) :
    (check_exit e).1 ≠ Exit.stopped Stop.assert_instr_number := by
  rcases check_exit_exit e with ⟨l, h⟩ | h <;> rw [h] <;> intro h2 <;> cases h2

theorem single_step_exit (pr : Probe) (e : Ec) (r : Step_reason) :
    (single_step pr e r).1 = (if e.utcb then Exit.ret_user Launch_type.IRET
      else Exit.vmx_single_step) := by
  unfold single_step
  split <;> rfl

theorem single_step_ne_assert (pr : Probe) (e : Ec) (r : Step_reason) :
    (single_step pr e r).1 ≠ Exit.stopped Stop.assert_instr_number := by
  rw [single_step_exit]
  split <;> intro h <;> cases h

/-- The comparing block stops on its assertion only when `nbInstr_to_execute` is not below
`perf_max_count`. -/
theorem check_memory_compare_ne_assert (env : Env) (pr : Probe) (e : Ec) (from_ : PE_stopby)
    (h : e.nbInstr_to_execute < e.perf_max_count) :
    (check_memory_compare env pr e from_).1 ≠ Exit.stopped Stop.assert_instr_number := by
  unfold check_memory_compare
  dsimp only
  split
  · intro h2; cases h2
  · split
    · split
      · rename_i hn
        exact absurd h hn
      · split
        · intro h2; cases h2
        · split
          · exact check_exit_ne_assert _
          · split
            · exact check_exit_ne_assert _
            · intro h2; cases h2
    · split
      · intro h2; cases h2
      · intro h2; cases h2

theorem cow_call_none (e e1 : Ec) (ev : Event) (op : State → Except Fault State)
    (h : cow_call e ev op = (e1, none)) :
    ∃ s, op e.cow = Except.ok s ∧ e1 = { e.log ev with cow := s } := by
  unfold cow_call at h
  dsimp only at h
  split at h
  · simp at h
  · rename_i s hs
    simp only [Prod.mk.injEq, and_true] at h
    exact ⟨s, hs, h.symm⟩

theorem cow_call_some (e e1 : Ec) (ev : Event) (op : State → Except Fault State) (f : Fault)
    (h : cow_call e ev op = (e1, some f)) :
    op e.cow = Except.error f ∧ e1 = e.log ev := by
  unfold cow_call at h
  dsimp only at h
  split at h
  · rename_i f1 hs
    simp only [Prod.mk.injEq, Option.some.injEq] at h
    exact ⟨h.2 ▸ hs, h.1.symm⟩
  · simp at h

theorem instr_number_congr (env : Env) (e2 e : Ec) (counter exc : Nat)
    (h1 : e2.start_counter = e.start_counter) (h2 : e2.perf_max_count = e.perf_max_count) :
    instr_number env e2 counter exc = instr_number env e counter exc := by
  unfold instr_number
  rw [h1, h2]

/-- C22: for a run that ends on a PMI, `check_memory` derives the instruction count
`counter < start_counter ? MAX_INSTRUCTION + counter - exc_counter :
counter - (perf_max_count - MAX_INSTRUCTION)` in 64-bit arithmetic. When
`start_counter = perf_max_count - MAX_INSTRUCTION`, `counter < perf_max_count` and
`exc_counter ≤ MAX_INSTRUCTION + counter`, nothing wraps around: on the first branch the sum
stays below 2^64 and the count plus `exc_counter` is `MAX_INSTRUCTION + counter`, on the
second the count plus `start_counter` is `counter`, that is, the count is the number of
ticks since `start_counter`. The count is below `perf_max_count`, so that the assertion on
it holds in run 0 and in run 1, and it is the value run 0 stores in
`first_run_instr_number`. -/
theorem instr_number_canonical (env : Env) (pr : Probe) (e : Ec)
    (hstart : e.start_counter = e.perf_max_count - env.MAX_INSTRUCTION)
    (hmax : env.MAX_INSTRUCTION ≤ e.perf_max_count) (hp : e.perf_max_count < 2 ^ 64)
    (hc : pr.inst_counter < e.perf_max_count)
    (hexc : e.exc_counter ≤ env.MAX_INSTRUCTION + pr.inst_counter) :
    (pr.inst_counter < e.start_counter →
      env.MAX_INSTRUCTION + pr.inst_counter < 2 ^ 64 ∧
      instr_number env e pr.inst_counter e.exc_counter + e.exc_counter
        = env.MAX_INSTRUCTION + pr.inst_counter) ∧
    (e.start_counter ≤ pr.inst_counter →
      instr_number env e pr.inst_counter e.exc_counter + e.start_counter
        = pr.inst_counter) ∧
    instr_number env e pr.inst_counter e.exc_counter < e.perf_max_count ∧
    (check_memory_run0 env pr e PE_stopby.PES_PMI).1
      ≠ Exit.stopped Stop.assert_instr_number ∧
    ((∀ f, (check_memory_run0 env pr e PE_stopby.PES_PMI).1 ≠ Exit.stopped (Stop.cow f)) →
      (check_memory_run0 env pr e PE_stopby.PES_PMI).2.first_run_instr_number
        = instr_number env e pr.inst_counter e.exc_counter) ∧
    (e.nbInstr_to_execute < e.perf_max_count →
      (check_memory_run1 env pr e PE_stopby.PES_PMI).1
        ≠ Exit.stopped Stop.assert_instr_number) := by
  obtain ⟨hv, hlt⟩ := instr_number_value env e pr.inst_counter e.exc_counter hstart hmax hp
    hc hexc
  refine ⟨?_, ?_, hlt, ?_, ?_, ?_⟩
  · intro h
    rw [hv, if_pos h]
    omega
  · intro h
    rw [hv, if_neg (by omega)]
    omega
  · unfold check_memory_run0
    dsimp only
    cases hcc : cow_call { e with prev_reason := PE_stopby.PES_PMI } Event.restore_state0
        (restore_state0 env) with
    | mk e1 o =>
      cases o with
      | some f => intro h; cases h
      | none =>
        dsimp only
        rw [if_pos rfl]
        obtain ⟨s, _, he1⟩ := cow_call_none _ _ _ _ hcc
        have g1 : e1.perf_max_count = e.perf_max_count := by rw [he1]; rfl
        have g2 : e1.start_counter = e.start_counter := by rw [he1]; rfl
        have g3 : e1.exc_counter = e.exc_counter := by rw [he1]; rfl
        generalize hv2 : instr_number env _ pr.inst_counter e1.exc_counter = v
        have hvv : v = instr_number env e pr.inst_counter e.exc_counter := by
          rw [← hv2, g3]
          exact instr_number_congr env _ e _ _ g2 g1
        rw [if_neg (by rw [g1, hvv]; exact not_not.2 hlt)]
        split <;> split <;> first | exact check_exit_ne_assert _ | (intro h; cases h)
  · intro hno
    unfold check_memory_run0 at hno ⊢
    dsimp only at hno ⊢
    cases hcc : cow_call { e with prev_reason := PE_stopby.PES_PMI } Event.restore_state0
        (restore_state0 env) with
    | mk e1 o =>
      cases o with
      | some f =>
        rw [hcc] at hno
        exact absurd rfl (hno f)
      | none =>
        dsimp only
        rw [if_pos rfl]
        obtain ⟨s, _, he1⟩ := cow_call_none _ _ _ _ hcc
        have g1 : e1.perf_max_count = e.perf_max_count := by rw [he1]; rfl
        have g2 : e1.start_counter = e.start_counter := by rw [he1]; rfl
        have g3 : e1.exc_counter = e.exc_counter := by rw [he1]; rfl
        generalize hv2 : instr_number env _ pr.inst_counter e1.exc_counter = v
        have hvv : v = instr_number env e pr.inst_counter e.exc_counter := by
          rw [← hv2, g3]
          exact instr_number_congr env _ e _ _ g2 g1
        rw [if_neg (by rw [g1, hvv]; exact not_not.2 hlt), ← hvv]
        split <;> split <;> first | rfl | (rw [check_exit_state]; rfl)
  · intro hnb
    unfold check_memory_run1
    dsimp only
    rw [if_pos (Or.inl rfl)]
    split
    · exact check_exit_ne_assert _
    · split
      · rename_i hn
        exact absurd hlt hn
      · split
        · intro h; cases h
        · split
          · split
            · exact single_step_ne_assert _ _ _
            · exact check_memory_compare_ne_assert env pr _ _ hnb
          · split
            · exact single_step_ne_assert _ _ _
            · split
              · split
                · intro h; cases h
                · exact single_step_ne_assert _ _ _
              · exact check_memory_compare_ne_assert env pr _ _ hnb

theorem instr_number_canonical_witness :
    ((ec_pmi s_two).start_counter = (ec_pmi s_two).perf_max_count - env0.MAX_INSTRUCTION ∧
      env0.MAX_INSTRUCTION ≤ (ec_pmi s_two).perf_max_count ∧
      (ec_pmi s_two).perf_max_count < 2 ^ 64 ∧
      pr_pmi.inst_counter < (ec_pmi s_two).perf_max_count ∧
      (ec_pmi s_two).exc_counter ≤ env0.MAX_INSTRUCTION + pr_pmi.inst_counter ∧
      instr_number env0 (ec_pmi s_two) pr_pmi.inst_counter (ec_pmi s_two).exc_counter
        = 0x100001) ∧
    ((pr_pmi.inst_counter < (ec_pmi s_two).start_counter →
      env0.MAX_INSTRUCTION + pr_pmi.inst_counter < 2 ^ 64 ∧
      instr_number env0 (ec_pmi s_two) pr_pmi.inst_counter (ec_pmi s_two).exc_counter
          + (ec_pmi s_two).exc_counter
        = env0.MAX_INSTRUCTION + pr_pmi.inst_counter) ∧
    ((ec_pmi s_two).start_counter ≤ pr_pmi.inst_counter →
      instr_number env0 (ec_pmi s_two) pr_pmi.inst_counter (ec_pmi s_two).exc_counter
          + (ec_pmi s_two).start_counter
        = pr_pmi.inst_counter) ∧
    instr_number env0 (ec_pmi s_two) pr_pmi.inst_counter (ec_pmi s_two).exc_counter
      < (ec_pmi s_two).perf_max_count ∧
    (check_memory_run0 env0 pr_pmi (ec_pmi s_two) PE_stopby.PES_PMI).1
      ≠ Exit.stopped Stop.assert_instr_number ∧
    ((∀ f, (check_memory_run0 env0 pr_pmi (ec_pmi s_two) PE_stopby.PES_PMI).1
        ≠ Exit.stopped (Stop.cow f)) →
      (check_memory_run0 env0 pr_pmi (ec_pmi s_two) PE_stopby.PES_PMI).2.first_run_instr_number
        = instr_number env0 (ec_pmi s_two) pr_pmi.inst_counter (ec_pmi s_two).exc_counter) ∧
    ((ec_pmi s_two).nbInstr_to_execute < (ec_pmi s_two).perf_max_count →
      (check_memory_run1 env0 pr_pmi (ec_pmi s_two) PE_stopby.PES_PMI).1
        ≠ Exit.stopped Stop.assert_instr_number)) :=
  ⟨⟨by decide, by decide, by decide, by decide, by decide, by decide⟩,
    instr_number_canonical env0 pr_pmi (ec_pmi s_two) (by decide) (by decide) (by decide)
      (by decide) (by decide)⟩

/-! ## The runs are checked only when their instruction counts are close -/

theorem single_step_state (pr : Probe) (e : Ec) (r : Step_reason) :
    (single_step pr e r).2.step_reason = r ∧
    (single_step pr e r).2.nbInstr_to_execute = e.nbInstr_to_execute ∧
    (single_step pr e r).2.cow = e.cow ∧
    (single_step pr e r).2.run_number = e.run_number ∧
    (single_step pr e r).2.prev_rip = (if e.utcb then pr.regs_ip else pr.guest_rip) ∧
    (single_step pr e r).2.trace = e.trace ++
      [if e.utcb then Event.enable_step_debug r else Event.vmx_enable_single_step r] ∧
    (single_step pr e r).2.in_recover_from_stack_fault_mode
      = e.in_recover_from_stack_fault_mode ∧
    (single_step pr e r).2.in_debug_mode = e.in_debug_mode := by
  unfold single_step
  split <;> exact ⟨rfl, rfl, rfl, rfl, rfl, rfl, rfl, rfl⟩

theorem single_step_no_checks (pr : Probe) (e : Ec) (r : Step_reason) (t pre : List Event)
    (he : e.trace = t ++ pre) (hp : ¬ checks pre) :
    ¬ checks ((single_step pr e r).2.trace.drop t.length) := by
  rw [(single_step_state pr e r).2.2.2.2.2.1, he]
  unfold checks at hp ⊢
  simp only [List.append_assoc, List.drop_left', List.mem_append, List.mem_singleton,
    not_or, not_exists] at hp ⊢
  obtain ⟨h1, h2, h3⟩ := hp
  refine ⟨⟨h1, ?_⟩, fun b => ⟨h2 b, ?_⟩, ⟨h3, ?_⟩⟩
  · intro h; split at h <;> cases h
  · intro h; split at h <;> cases h
  · intro h; split at h <;> cases h

theorem distance_zero (a : Nat) : distance a a = 0 := by
  unfold distance
  simp

/-- In run 1, when the instruction counts are reconciled, `check_memory` checks the two
runs only if the counts are at most 2 apart. -/
theorem check_memory_run1_checks (env : Env) (pr : Probe) (e : Ec) (from_ : PE_stopby)
    (hfrom : from_ = PE_stopby.PES_PMI ∨
      (e.prev_reason = PE_stopby.PES_PMI ∧ from_ ≠ PE_stopby.PES_SINGLE_STEP))
    (h : checks ((check_memory_run1 env pr e from_).2.trace.drop e.trace.length)) :
    distance e.first_run_instr_number (instr_number env e pr.inst_counter e.exc_counter)
      ≤ 2 := by
  have hnil : ¬ checks [] := by simp [checks]
  have hc : ¬ checks [Event.cancel_pmi] := by simp [checks]
  have hcr : ¬ checks [Event.cancel_pmi, Event.restore_state1] := by simp [checks]
  unfold check_memory_run1 at h
  dsimp only at h
  rw [if_pos hfrom] at h
  split at h
  · rw [check_exit_trace] at h
    simp [checks] at h
  · split at h
    · simp [checks, log_trace] at h
    · split at h
      · simp [checks, log_trace] at h
      · split at h
        · rename_i hd
          exact hd
        · split at h
          · exact absurd h (single_step_no_checks pr _ _ e.trace [Event.cancel_pmi]
              (by simp [log_trace]) hc)
          · split at h
            · split at h
              · rename_i e1 f hcc
                have ht := cow_call_eq_trace hcc
                simp [checks, log_trace, ht] at h
              · rename_i e1 hcc
                have ht := cow_call_eq_trace hcc
                exact absurd h (single_step_no_checks pr _ _ e.trace
                  [Event.cancel_pmi, Event.restore_state1] (by simp [log_trace, ht]) hcr)
            · rename_i h1 h2
              have h1c : ¬ e.first_run_instr_number
                  > instr_number env e pr.inst_counter e.exc_counter := h1
              have h2c : ¬ e.first_run_instr_number
                  < instr_number env e pr.inst_counter e.exc_counter := h2
              have heq : e.first_run_instr_number
                  = instr_number env e pr.inst_counter e.exc_counter := by omega
              rw [← heq, distance_zero]
              exact Nat.zero_le _

/-- In run 1, when the instruction counts are more than 2 apart, `check_memory` arms
single-stepping for `SR_PMI` with the difference of the counts, after `restore_state1` when
the second run is the longer one. -/
theorem check_memory_run1_far (env : Env) (pr : Probe) (e : Ec) (from_ : PE_stopby)
    (hfrom : from_ = PE_stopby.PES_PMI ∨
      (e.prev_reason = PE_stopby.PES_PMI ∧ from_ ≠ PE_stopby.PES_SINGLE_STEP))
    (hnear : ¬ (e.prev_reason ≠ PE_stopby.PES_PMI ∧
      pr.inst_counter = add64 (sub64 e.perf_max_count env.MAX_INSTRUCTION) 1))
    (hlt : instr_number env e pr.inst_counter e.exc_counter < e.perf_max_count)
    (hle : ¬ instr_number env e pr.inst_counter e.exc_counter > env.MAX_INSTRUCTION + 300)
    (hd : 2 < distance e.first_run_instr_number
      (instr_number env e pr.inst_counter e.exc_counter)) :
    (e.first_run_instr_number > instr_number env e pr.inst_counter e.exc_counter →
      ∃ E : Ec, check_memory_run1 env pr e from_ = single_step pr E Step_reason.SR_PMI ∧
        E.nbInstr_to_execute = sub64 e.first_run_instr_number
          (instr_number env e pr.inst_counter e.exc_counter) ∧
        E.cow = e.cow ∧ E.utcb = e.utcb ∧ E.trace = e.trace ++ [Event.cancel_pmi] ∧
        E.run_number = e.run_number) ∧
    (e.first_run_instr_number < instr_number env e pr.inst_counter e.exc_counter →
      (∀ f, restore_state1 env e.cow = Except.error f →
        ∃ E : Ec, check_memory_run1 env pr e from_ = (Exit.stopped (Stop.cow f), E) ∧
          E.trace = e.trace ++ [Event.cancel_pmi, Event.restore_state1]) ∧
      (∀ s1, restore_state1 env e.cow = Except.ok s1 →
        ∃ E : Ec, check_memory_run1 env pr e from_ = single_step pr E Step_reason.SR_PMI ∧
          E.nbInstr_to_execute = sub64 (instr_number env e pr.inst_counter e.exc_counter)
            e.first_run_instr_number ∧
          E.cow = s1 ∧ E.utcb = e.utcb ∧
          E.trace = e.trace ++ [Event.cancel_pmi, Event.restore_state1] ∧
          E.run_number = e.run_number)) := by
  constructor
  · intro hgt
    unfold check_memory_run1
    dsimp only
    rw [if_pos hfrom]
    split
    · rename_i h; exact absurd h hnear
    · split
      · rename_i h; exact absurd hlt h
      · split
        · rename_i h; exact absurd h hle
        · split
          · rename_i h; exact absurd h (Nat.not_le.2 hd)
          · split
            · exact ⟨_, rfl, rfl, rfl, rfl, rfl, rfl⟩
            · rename_i h; exact absurd hgt h
  · intro hlt2
    have hngt : ¬ e.first_run_instr_number
        > instr_number env e pr.inst_counter e.exc_counter := by omega
    constructor
    · intro f hf
      unfold check_memory_run1
      dsimp only
      rw [if_pos hfrom]
      split
      · rename_i h; exact absurd h hnear
      · split
        · rename_i h; exact absurd hlt h
        · split
          · rename_i h; exact absurd h hle
          · split
            · rename_i h; exact absurd h (Nat.not_le.2 hd)
            · split
              · rename_i h; exact absurd h hngt
              · split
                · split
                  · rename_i e1 f1 hcc
                    obtain ⟨hop, he1⟩ := cow_call_some _ _ _ _ _ hcc
                    have hop2 : restore_state1 env e.cow = Except.error f1 := hop
                    rw [hf] at hop2
                    cases hop2
                    exact ⟨_, rfl, by rw [he1]; simp [log_trace]⟩
                  · rename_i e1 hcc
                    obtain ⟨s, hop, _⟩ := cow_call_none _ _ _ _ hcc
                    have hop2 : restore_state1 env e.cow = Except.ok s := hop
                    rw [hf] at hop2
                    cases hop2
                · rename_i h; exact absurd hlt2 h
    · intro s1 hs1
      unfold check_memory_run1
      dsimp only
      rw [if_pos hfrom]
      split
      · rename_i h; exact absurd h hnear
      · split
        · rename_i h; exact absurd hlt h
        · split
          · rename_i h; exact absurd h hle
          · split
            · rename_i h; exact absurd h (Nat.not_le.2 hd)
            · split
              · rename_i h; exact absurd h hngt
              · split
                · split
                  · rename_i e1 f1 hcc
                    obtain ⟨hop, _⟩ := cow_call_some _ _ _ _ _ hcc
                    have hop2 : restore_state1 env e.cow = Except.error f1 := hop
                    rw [hs1] at hop2
                    cases hop2
                  · rename_i e1 hcc
                    obtain ⟨s, hop, he1⟩ := cow_call_none _ _ _ _ hcc
                    have hop2 : restore_state1 env e.cow = Except.ok s := hop
                    rw [hs1] at hop2
                    cases hop2
                    refine ⟨_, rfl, ?_, ?_, ?_, ?_, ?_⟩
                    · show sub64 _ e1.first_run_instr_number = _
                      rw [he1]
                      rfl
                    · show e1.cow = _
                      rw [he1]
                    · show e1.utcb = _
                      rw [he1]
                      rfl
                    · show e1.trace = _
                      rw [he1]
                      simp [log_trace]
                    · show e1.run_number = _
                      rw [he1]
                      rfl
                · rename_i h; exact absurd hlt2 h

/-- In run 1, past the assertion on `from` and the early exit, `check_memory` is its
branch `case 1`. -/
theorem check_memory_run1_eq (env : Env) (pr : Probe) (e : Ec) (from_ : PE_stopby)
    (hrun : e.run_number = 1) (hf : from_ ≠ PE_stopby.PES_DEFAULT)
    (hearly : (is_empty e.cow && !e.in_recover_from_stack_fault_mode && !e.in_debug_mode)
      = false) :
    check_memory env pr e from_ = check_memory_run1 env pr e from_ := by
  unfold check_memory
  rw [if_neg hf, hearly, hrun]
  rfl

/-- C23: in run 1, when `check_memory` reconciles the instruction counts (the run ended on
a PMI, or the first run did and this one did not end on a single step), the invocation
compares the registers, compares the shadows or commits only if the two counts are at most
2 apart. When they are further apart it makes none of these calls; past its assertions and
early exits it then leaves through the single-stepping exit with the step reason `SR_PMI`,
or stops on a fault of `restore_state1`. The events are those that the invocation appends
to the trace. -/
theorem budget_soundness (env : Env) (pr : Probe) (e : Ec) (from_ : PE_stopby)
    (hrun : e.run_number = 1)
    (hfrom : from_ = PE_stopby.PES_PMI ∨
      (e.prev_reason = PE_stopby.PES_PMI ∧ from_ ≠ PE_stopby.PES_SINGLE_STEP)) :
    (checks ((check_memory env pr e from_).2.trace.drop e.trace.length) →
      distance e.first_run_instr_number (instr_number env e pr.inst_counter e.exc_counter)
        ≤ 2) ∧
    (2 < distance e.first_run_instr_number
        (instr_number env e pr.inst_counter e.exc_counter) →
      ¬ checks ((check_memory env pr e from_).2.trace.drop e.trace.length) ∧
      (from_ ≠ PE_stopby.PES_DEFAULT →
        (is_empty e.cow && !e.in_recover_from_stack_fault_mode && !e.in_debug_mode)
          = false →
        ¬ (e.prev_reason ≠ PE_stopby.PES_PMI ∧
          pr.inst_counter = add64 (sub64 e.perf_max_count env.MAX_INSTRUCTION) 1) →
        instr_number env e pr.inst_counter e.exc_counter < e.perf_max_count →
        ¬ instr_number env e pr.inst_counter e.exc_counter > env.MAX_INSTRUCTION + 300 →
        ((check_memory env pr e from_).1
            = (if e.utcb then Exit.ret_user Launch_type.IRET else Exit.vmx_single_step) ∧
          (check_memory env pr e from_).2.step_reason = Step_reason.SR_PMI) ∨
        ∃ f, restore_state1 env e.cow = Except.error f ∧
          (check_memory env pr e from_).1 = Exit.stopped (Stop.cow f))) := by
  have hfirst : checks ((check_memory env pr e from_).2.trace.drop e.trace.length) →
      distance e.first_run_instr_number (instr_number env e pr.inst_counter e.exc_counter)
        ≤ 2 := by
    intro h
    unfold check_memory at h
    split at h
    · simp [checks] at h
    · split at h
      · simp [checks, reset_all_trace] at h
      · split at h
        · rename_i h0
          rw [hrun] at h0
          cases h0
        · exact check_memory_run1_checks env pr e from_ hfrom h
        · rename_i h0 h1
          exact absurd hrun h1
  refine ⟨hfirst, fun hd => ⟨fun h => absurd (hfirst h) (Nat.not_le.2 hd), ?_⟩⟩
  intro hf hearly hnear hlt hle
  rw [check_memory_run1_eq env pr e from_ hrun hf hearly]
  obtain ⟨a, b⟩ := check_memory_run1_far env pr e from_ hfrom hnear hlt hle hd
  by_cases hgt : e.first_run_instr_number > instr_number env e pr.inst_counter e.exc_counter
  · obtain ⟨E, h1, _, _, h4, _⟩ := a hgt
    left
    rw [h1, single_step_exit, (single_step_state pr E _).1, h4]
    exact ⟨rfl, rfl⟩
  · have hlt2 : e.first_run_instr_number
        < instr_number env e pr.inst_counter e.exc_counter := by
      unfold distance at hd
      split at hd <;> omega
    obtain ⟨b1, b2⟩ := b hlt2
    cases hr : restore_state1 env e.cow with
    | error f =>
      obtain ⟨E, h1, _⟩ := b1 f hr
      right
      exact ⟨f, rfl, by rw [h1]⟩
    | ok s1 =>
      obtain ⟨E, h1, _, _, h4, _⟩ := b2 s1 hr
      left
      rw [h1, single_step_exit, (single_step_state pr E _).1, h4]
      exact ⟨rfl, rfl⟩

theorem budget_soundness_witness :
    ((ec_pmi s_two).run_number = 1 ∧
      distance (ec_pmi s_two).first_run_instr_number
        (instr_number env0 (ec_pmi s_two) pr_pmi.inst_counter (ec_pmi s_two).exc_counter) = 4 ∧
      (check_memory env0 pr_pmi (ec_pmi s_two) PE_stopby.PES_PMI).1
        = Exit.ret_user Launch_type.IRET ∧
      (check_memory env0 pr_pmi (ec_pmi s_two) PE_stopby.PES_PMI).2.trace
        = [Event.cancel_pmi, Event.enable_step_debug Step_reason.SR_PMI]) ∧
    ((checks ((check_memory env0 pr_pmi (ec_pmi s_two) PE_stopby.PES_PMI).2.trace.drop
        (ec_pmi s_two).trace.length) →
      distance (ec_pmi s_two).first_run_instr_number
        (instr_number env0 (ec_pmi s_two) pr_pmi.inst_counter (ec_pmi s_two).exc_counter)
        ≤ 2) ∧
    (2 < distance (ec_pmi s_two).first_run_instr_number
        (instr_number env0 (ec_pmi s_two) pr_pmi.inst_counter (ec_pmi s_two).exc_counter) →
      ¬ checks ((check_memory env0 pr_pmi (ec_pmi s_two) PE_stopby.PES_PMI).2.trace.drop
        (ec_pmi s_two).trace.length) ∧
      (PE_stopby.PES_PMI ≠ PE_stopby.PES_DEFAULT →
        (is_empty (ec_pmi s_two).cow && !(ec_pmi s_two).in_recover_from_stack_fault_mode
          && !(ec_pmi s_two).in_debug_mode) = false →
        ¬ ((ec_pmi s_two).prev_reason ≠ PE_stopby.PES_PMI ∧
          pr_pmi.inst_counter
            = add64 (sub64 (ec_pmi s_two).perf_max_count env0.MAX_INSTRUCTION) 1) →
        instr_number env0 (ec_pmi s_two) pr_pmi.inst_counter (ec_pmi s_two).exc_counter
          < (ec_pmi s_two).perf_max_count →
        ¬ instr_number env0 (ec_pmi s_two) pr_pmi.inst_counter (ec_pmi s_two).exc_counter
          > env0.MAX_INSTRUCTION + 300 →
        ((check_memory env0 pr_pmi (ec_pmi s_two) PE_stopby.PES_PMI).1
            = (if (ec_pmi s_two).utcb then Exit.ret_user Launch_type.IRET
              else Exit.vmx_single_step) ∧
          (check_memory env0 pr_pmi (ec_pmi s_two) PE_stopby.PES_PMI).2.step_reason
            = Step_reason.SR_PMI) ∨
        ∃ f, restore_state1 env0 (ec_pmi s_two).cow = Except.error f ∧
          (check_memory env0 pr_pmi (ec_pmi s_two) PE_stopby.PES_PMI).1
            = Exit.stopped (Stop.cow f)))) :=
  ⟨⟨rfl, by decide, by decide, by decide⟩,
    budget_soundness env0 pr_pmi (ec_pmi s_two) PE_stopby.PES_PMI rfl (Or.inl rfl)⟩

/-! ## `restore_state0` and `restore_state1` -/

theorem remap_entry_updates (env : Env) (s : State) (c phys : Nat) :
    (remap_entry env s c phys).updates = s.updates ++ remap_updates env (s.heap c) phys := by
  unfold remap_entry remap_updates
  dsimp only
  cases hv : (s.heap c).vtlb <;> cases hh : (s.heap c).hpt <;>
    simp [Vtlb.cow_update, Hpt.cow_update, hv, hh]

/-- The stores and the mapping updates of a walk over `l` that remaps every entry towards
the frame `sel` selects. -/
theorem remap_walk_stores (env : Env) (sel : Cow_elt → Nat) (l : List Nat) :
    ∀ s : State,
      (l.foldl (fun s c => remap_entry env s c (sel (s.heap c))) s).heap = s.heap ∧
      (l.foldl (fun s c => remap_entry env s c (sel (s.heap c))) s).cow_elts = s.cow_elts ∧
      (l.foldl (fun s c => remap_entry env s c (sel (s.heap c))) s).mem = s.mem ∧
      (l.foldl (fun s c => remap_entry env s c (sel (s.heap c))) s).vm_kernel_stacks
        = s.vm_kernel_stacks ∧
      (l.foldl (fun s c => remap_entry env s c (sel (s.heap c))) s).is_virutalcpu
        = s.is_virutalcpu ∧
      (l.foldl (fun s c => remap_entry env s c (sel (s.heap c))) s).hpt_tab
        = assign s.hpt_tab (stores_of (fun c => slot_store (s.heap c).hpt
          (sel (s.heap c), writable (s.heap c).attr Hpt.HPT_W Hpt.HPT_COW)) l) ∧
      (l.foldl (fun s c => remap_entry env s c (sel (s.heap c))) s).vtlb_tab
        = assign s.vtlb_tab (stores_of (fun c => slot_store (s.heap c).vtlb
          (sel (s.heap c), writable (s.heap c).attr env.TLB_W env.TLB_COW)) l) ∧
      (l.foldl (fun s c => remap_entry env s c (sel (s.heap c))) s).updates
        = s.updates ++ updates_of (fun c => remap_updates env (s.heap c) (sel (s.heap c))) l := by
  induction l with
  | nil => intro s; exact ⟨rfl, rfl, rfl, rfl, rfl, rfl, rfl, by simp [updates_of]⟩
  | cons c rest ih =>
    intro s
    rw [List.foldl_cons]
    obtain ⟨r1, _, _, r4, r5, _⟩ := remap_entry_rest env s c (sel (s.heap c))
    obtain ⟨t1, t2⟩ := remap_entry_tabs env s c (sel (s.heap c))
    have hh := remap_entry_heap env s c (sel (s.heap c))
    have hc := remap_entry_cow_elts env s c (sel (s.heap c))
    have hu := remap_entry_updates env s c (sel (s.heap c))
    generalize remap_entry env s c (sel (s.heap c)) = s1 at r1 r4 r5 t1 t2 hh hc hu
    obtain ⟨i1, i2, i3, i4, i5, i6, i7, i8⟩ := ih s1
    refine ⟨i1.trans hh, i2.trans hc, i3.trans r1, i4.trans r4, i5.trans r5, ?_, ?_, ?_⟩
    · rw [i6, hh, t1]
      simp only [stores_of]
      rw [assign_append]
    · rw [i7, hh, t2]
      simp only [stores_of]
      rw [assign_append]
    · rw [i8, hh, hu]
      simp only [updates_of, List.append_assoc]

/-- The preludes of `restore_state0` and `restore_state1` on the vm-stack queue store into
the virtual TLB only. -/
theorem vm_prelude_stores (l : List Nat) :
    (∀ (s s0 : State), restore_vm_stack_state0_walk s l = Except.ok s0 →
      s0.hpt_tab = s.hpt_tab ∧ s0.vm_kernel_stacks = s.vm_kernel_stacks ∧
      s0.is_virutalcpu = s.is_virutalcpu ∧
      ∃ P U, s0.vtlb_tab = assign s.vtlb_tab P ∧ s0.updates = s.updates ++ U) ∧
    (∀ (s s0 : State), restore_vm_stack_state1_walk s l = Except.ok s0 →
      s0.hpt_tab = s.hpt_tab ∧ s0.vm_kernel_stacks = s.vm_kernel_stacks ∧
      s0.is_virutalcpu = s.is_virutalcpu ∧
      ∃ P U, s0.vtlb_tab = assign s.vtlb_tab P ∧ s0.updates = s.updates ++ U) := by
  induction l with
  | nil =>
    constructor
    · intro s s0 h
      simp only [restore_vm_stack_state0_walk, Except.ok.injEq] at h
      subst h
      exact ⟨rfl, rfl, rfl, [], [], rfl, by simp⟩
    · intro s s0 h
      simp only [restore_vm_stack_state1_walk, Except.ok.injEq] at h
      subst h
      exact ⟨rfl, rfl, rfl, [], [], rfl, by simp⟩
  | cons c rest ih =>
    constructor
    · intro s s0 h
      rw [restore_vm_stack_state0_walk] at h
      split at h
      · cases h
      · rename_i t ht
        obtain ⟨a, b, c1, P, U, hP, hU⟩ := ih.1 _ _ h
        refine ⟨a, b, c1, (t, ((s.heap c).new_phys1, (s.heap c).attr)) :: P,
          Update.vtlb t (s.heap c).new_phys1 (s.heap c).attr :: U, ?_, ?_⟩
        · rw [hP]; rfl
        · rw [hU]; simp [Vtlb.cow_update]
    · intro s s0 h
      rw [restore_vm_stack_state1_walk] at h
      split at h
      · cases h
      · rename_i t ht
        obtain ⟨a, b, c1, P, U, hP, hU⟩ := ih.2 _ _ h
        refine ⟨a, b, c1, (t, ((s.heap c).new_phys0, (s.heap c).attr)) :: P,
          Update.vtlb t (s.heap c).new_phys0 (s.heap c).attr :: U, ?_, ?_⟩
        · rw [hP]; rfl
        · rw [hU]; simp [Vtlb.cow_update]

/-- The preludes of `restore_state0` and `restore_state1` return when every entry of the
vm-stack queue has a virtual-TLB entry. -/
theorem vm_prelude_returns (l : List Nat) :
    ∀ s : State, (∀ x ∈ l, (s.heap x).vtlb ≠ none) →
      (∃ s0, restore_vm_stack_state0_walk s l = Except.ok s0) ∧
      (∃ s0, restore_vm_stack_state1_walk s l = Except.ok s0) := by
  induction l with
  | nil => intro s _; exact ⟨⟨s, rfl⟩, ⟨s, rfl⟩⟩
  | cons c rest ih =>
    intro s h
    cases hv : (s.heap c).vtlb with
    | none => exact absurd hv (h c (by simp))
    | some t =>
      constructor
      · rw [restore_vm_stack_state0_walk]
        simp only [hv]
        exact (ih (Vtlb.cow_update s t (s.heap c).new_phys1 (s.heap c).attr)
          (fun x hx => h x (List.mem_cons_of_mem _ hx))).1
      · rw [restore_vm_stack_state1_walk]
        simp only [hv]
        exact (ih (Vtlb.cow_update s t (s.heap c).new_phys0 (s.heap c).attr)
          (fun x hx => h x (List.mem_cons_of_mem _ hx))).2

/-- What `restore_state0` and `restore_state1` do, with the shadow frame as a parameter:
`prelude` is the prelude on the vm-stack queue of a virtual CPU. -/
theorem restore_walk_char (env : Env) (sel : Cow_elt → Nat)
    (prelude : State → List Nat → Except Fault State)
    (hpre : ∀ (l : List Nat) (s s0 : State), prelude s l = Except.ok s0 →
      s0.heap = s.heap ∧ s0.cow_elts = s.cow_elts ∧ s0.mem = s.mem ∧
      s0.hpt_tab = s.hpt_tab ∧ s0.vm_kernel_stacks = s.vm_kernel_stacks ∧
      s0.is_virutalcpu = s.is_virutalcpu ∧
      ∃ P U, s0.vtlb_tab = assign s.vtlb_tab P ∧ s0.updates = s.updates ++ U)
    (s s0 : State)
    (h0 : (if s.is_virutalcpu = true then prelude s s.vm_kernel_stacks else Except.ok s)
      = Except.ok s0) :
    (s.cow_elts.foldl (fun s c => remap_entry env s c (sel (s.heap c))) s0).cow_elts
      = s.cow_elts ∧
    (s.cow_elts.foldl (fun s c => remap_entry env s c (sel (s.heap c))) s0).heap = s.heap ∧
    (s.cow_elts.foldl (fun s c => remap_entry env s c (sel (s.heap c))) s0).mem = s.mem ∧
    (s.cow_elts.foldl (fun s c => remap_entry env s c (sel (s.heap c))) s0).vm_kernel_stacks
      = s.vm_kernel_stacks ∧
    (s.cow_elts.foldl (fun s c => remap_entry env s c (sel (s.heap c))) s0).is_virutalcpu
      = s.is_virutalcpu ∧
    (∃ pre, (s.cow_elts.foldl (fun s c => remap_entry env s c (sel (s.heap c))) s0).updates
        = s.updates ++ pre ++
          updates_of (fun c => remap_updates env (s.heap c) (sel (s.heap c))) s.cow_elts ∧
      (s.is_virutalcpu = false → pre = [])) ∧
    (origins_distinct s s.cow_elts → ∀ x ∈ s.cow_elts,
      mapping_is (s.cow_elts.foldl (fun s c => remap_entry env s c (sel (s.heap c))) s0) x
        (sel (s.heap x)) (writable (s.heap x).attr env.TLB_W env.TLB_COW)
        (writable (s.heap x).attr Hpt.HPT_W Hpt.HPT_COW)) := by
  have hs0 : s0.heap = s.heap ∧ s0.cow_elts = s.cow_elts ∧ s0.mem = s.mem ∧
      s0.hpt_tab = s.hpt_tab ∧ s0.vm_kernel_stacks = s.vm_kernel_stacks ∧
      s0.is_virutalcpu = s.is_virutalcpu ∧
      ∃ P U, s0.vtlb_tab = assign s.vtlb_tab P ∧ s0.updates = s.updates ++ U ∧
        (s.is_virutalcpu = false → U = []) := by
    by_cases hv : s.is_virutalcpu = true
    · rw [if_pos hv] at h0
      obtain ⟨a1, a2, a3, a4, a5, a6, P, U, hP, hU⟩ := hpre _ _ _ h0
      exact ⟨a1, a2, a3, a4, a5, a6, P, U, hP, hU, fun hf => by rw [hf] at hv; cases hv⟩
    · rw [if_neg hv] at h0
      simp only [Except.ok.injEq] at h0
      subst h0
      exact ⟨rfl, rfl, rfl, rfl, rfl, rfl, [], [], rfl, by simp, fun _ => rfl⟩
  obtain ⟨a1, a2, a3, a4, a5, a6, P, U, hP, hU, hUn⟩ := hs0
  obtain ⟨w1, w2, w3, w4, w5, w6, w7, w8⟩ := remap_walk_stores env sel s.cow_elts s0
  refine ⟨w2.trans a2, w1.trans a1, w3.trans a3, w4.trans a5, w5.trans a6, ⟨U, ?_, hUn⟩, ?_⟩
  · rw [w8, hU, a1]
  · intro hod x hx
    unfold mapping_is
    rw [w1, a1]
    constructor
    · cases hv : (s.heap x).vtlb with
      | none => trivial
      | some t =>
        dsimp only
        rw [w7, hP, a1, ← assign_append]
        exact assign_live_slot s.vtlb_tab P (fun c => (s.heap c).vtlb)
          (fun c => (sel (s.heap c), writable (s.heap c).attr env.TLB_W env.TLB_COW))
          s.cow_elts (fun x hx y hy hxy => (hod x hx y hy hxy).2) x hx t hv
    · cases hh : (s.heap x).hpt with
      | none => trivial
      | some k =>
        dsimp only
        rw [w6, a4, a1]
        have := assign_live_slot s.hpt_tab [] (fun c => (s.heap c).hpt)
          (fun c => (sel (s.heap c), writable (s.heap c).attr Hpt.HPT_W Hpt.HPT_COW))
          s.cow_elts (fun x hx y hy hxy => (hod x hx y hy hxy).1) x hx k hh
        rw [List.nil_append] at this
        exact this

/-- What `restore_state0` leaves and what it stores. -/
theorem restore_state0_char (env : Env) : ∀ (s : State),
      ∀ s', restore_state0 env s = Except.ok s' →
      s'.cow_elts = s.cow_elts ∧ s'.heap = s.heap ∧ s'.mem = s.mem ∧
      (∃ pre, s'.updates = s.updates ++ pre ++
          updates_of (fun c => remap_updates env (s.heap c) (s.heap c).new_phys1) s.cow_elts ∧
        (s.is_virutalcpu = false → pre = [])) ∧
      (origins_distinct s s.cow_elts → ∀ x ∈ s.cow_elts, mapping_is s' x (s.heap x).new_phys1
        (writable (s.heap x).attr env.TLB_W env.TLB_COW)
        (writable (s.heap x).attr Hpt.HPT_W Hpt.HPT_COW)) := by
  intro s s' h
  unfold restore_state0 at h
  simp only [bind, Except.bind, pure, Except.pure] at h
  split at h
  · cases h
  · rename_i s0 hv
    simp only [Except.ok.injEq] at h
    subst h
    have hf := vm_prelude_frame.1
    have hm := fun l => (restore_walks_mem env l).1
    have hs := fun l => (vm_prelude_stores l).1
    have hc := restore_walk_char env (fun e => e.new_phys1) restore_vm_stack_state0_walk
      (fun l s s0 h => ⟨(hf l s s0 h).1, (hf l s s0 h).2, hm l s s0 h, (hs l s s0 h).1,
        (hs l s s0 h).2.1, (hs l s s0 h).2.2.1, (hs l s s0 h).2.2.2⟩) s s0
      (by
        by_cases hvc : s.is_virutalcpu = true
        · rw [if_pos hvc] at hv ⊢
          unfold restore_vm_stack_state0 at hv
          rw [if_pos hvc] at hv
          exact hv
        · rw [if_neg hvc] at hv ⊢
          exact hv)
    have hce : s0.cow_elts = s.cow_elts := by
      by_cases hvc : s.is_virutalcpu = true
      · rw [if_pos hvc] at hv
        unfold restore_vm_stack_state0 at hv
        rw [if_pos hvc] at hv
        exact (hf _ _ _ hv).2
      · rw [if_neg hvc] at hv
        simp only [Except.ok.injEq] at hv
        rw [← hv]
    rw [restore_state0_walk_foldl, hce]
    exact ⟨hc.1, hc.2.1, hc.2.2.1, hc.2.2.2.2.2.1, hc.2.2.2.2.2.2⟩

/-- What `restore_state1` leaves and what it stores. -/
theorem restore_state1_char (env : Env) : ∀ (s : State),
      ∀ s', restore_state1 env s = Except.ok s' →
      s'.cow_elts = s.cow_elts ∧ s'.heap = s.heap ∧ s'.mem = s.mem ∧
      (∃ pre, s'.updates = s.updates ++ pre ++
          updates_of (fun c => remap_updates env (s.heap c) (s.heap c).new_phys0) s.cow_elts ∧
        (s.is_virutalcpu = false → pre = [])) ∧
      (origins_distinct s s.cow_elts → ∀ x ∈ s.cow_elts, mapping_is s' x (s.heap x).new_phys0
        (writable (s.heap x).attr env.TLB_W env.TLB_COW)
        (writable (s.heap x).attr Hpt.HPT_W Hpt.HPT_COW)) := by
  intro s s' h
  unfold restore_state1 at h
  simp only [bind, Except.bind, pure, Except.pure] at h
  split at h
  · cases h
  · rename_i s0 hv
    simp only [Except.ok.injEq] at h
    subst h
    have hf := vm_prelude_frame.2.1
    have hm := fun l => (restore_walks_mem env l).2.1
    have hs := fun l => (vm_prelude_stores l).2
    have hc := restore_walk_char env (fun e => e.new_phys0) restore_vm_stack_state1_walk
      (fun l s s0 h => ⟨(hf l s s0 h).1, (hf l s s0 h).2, hm l s s0 h, (hs l s s0 h).1,
        (hs l s s0 h).2.1, (hs l s s0 h).2.2.1, (hs l s s0 h).2.2.2⟩) s s0
      (by
        by_cases hvc : s.is_virutalcpu = true
        · rw [if_pos hvc] at hv ⊢
          unfold restore_vm_stack_state1 at hv
          rw [if_pos hvc] at hv
          exact hv
        · rw [if_neg hvc] at hv ⊢
          exact hv)
    have hce : s0.cow_elts = s.cow_elts := by
      by_cases hvc : s.is_virutalcpu = true
      · rw [if_pos hvc] at hv
        unfold restore_vm_stack_state1 at hv
        rw [if_pos hvc] at hv
        exact (hf _ _ _ hv).2
      · rw [if_neg hvc] at hv
        simp only [Except.ok.injEq] at hv
        rw [← hv]
    rw [restore_state1_walk_foldl, hce]
    exact ⟨hc.1, hc.2.1, hc.2.2.1, hc.2.2.2.2.2.1, hc.2.2.2.2.2.2⟩

/-- The two restore walks return on a host EC, and on a virtual CPU when every entry of
the vm-stack queue has a virtual-TLB entry. -/
theorem restore_state_returns (env : Env) (s : State)
    (hret : s.is_virutalcpu = false ∨ ∀ x ∈ s.vm_kernel_stacks, (s.heap x).vtlb ≠ none) :
    (∃ s', restore_state0 env s = Except.ok s') ∧
    (∃ s', restore_state1 env s = Except.ok s') := by
  unfold restore_state0 restore_state1
  simp only [bind, Except.bind, pure, Except.pure]
  by_cases hvc : s.is_virutalcpu = true
  · have hq : ∀ x ∈ s.vm_kernel_stacks, (s.heap x).vtlb ≠ none := by
      rcases hret with hn | hq
      · rw [hn] at hvc; cases hvc
      · exact hq
    obtain ⟨⟨a, ha⟩, ⟨b, hb⟩⟩ := vm_prelude_returns s.vm_kernel_stacks s hq
    simp only [restore_vm_stack_state0, restore_vm_stack_state1, hvc, if_true, ha, hb]
    exact ⟨⟨_, rfl⟩, ⟨_, rfl⟩⟩
  · simp only [hvc, if_false]
    exact ⟨⟨_, rfl⟩, ⟨_, rfl⟩⟩

/-- C24: `restore_state0` returns (on a virtual CPU when every entry of the vm-stack queue
has a virtual-TLB entry), leaves the live set, the fields of every entry and the content
of every frame as they are, and issues, after the updates of its prelude on the vm-stack
queue (none on a host EC), for every entry of the live set in order the mapping updates
to the entry's `new_phys[1]` with the permissions `attr` with WRITE set and COW cleared;
afterwards the mapping of every live entry holds that frame with these permissions.
`restore_state1` does the same with `new_phys[0]`; so after `restore_state0` followed by
`restore_state1` every live mapping that held `new_phys[0]` with these permissions, as
the fault left it, has the value it had. The live entries use pairwise distinct
page-table entries. -/
theorem restore_state_remaps (env : Env) (s : State)
    (hod : origins_distinct s s.cow_elts) :
    ((s.is_virutalcpu = false ∨ ∀ x ∈ s.vm_kernel_stacks, (s.heap x).vtlb ≠ none) →
      (∃ s', restore_state0 env s = Except.ok s') ∧
      (∃ s', restore_state1 env s = Except.ok s')) ∧
    (∀ s', restore_state0 env s = Except.ok s' →
      s'.cow_elts = s.cow_elts ∧ s'.heap = s.heap ∧ s'.mem = s.mem ∧
      (∃ pre, s'.updates = s.updates ++ pre ++
          updates_of (fun c => remap_updates env (s.heap c) (s.heap c).new_phys1) s.cow_elts ∧
        (s.is_virutalcpu = false → pre = [])) ∧
      ∀ x ∈ s.cow_elts, mapping_is s' x (s.heap x).new_phys1
        (writable (s.heap x).attr env.TLB_W env.TLB_COW)
        (writable (s.heap x).attr Hpt.HPT_W Hpt.HPT_COW)) ∧
    (∀ s', restore_state1 env s = Except.ok s' →
      s'.cow_elts = s.cow_elts ∧ s'.heap = s.heap ∧ s'.mem = s.mem ∧
      (∃ pre, s'.updates = s.updates ++ pre ++
          updates_of (fun c => remap_updates env (s.heap c) (s.heap c).new_phys0) s.cow_elts ∧
        (s.is_virutalcpu = false → pre = [])) ∧
      ∀ x ∈ s.cow_elts, mapping_is s' x (s.heap x).new_phys0
        (writable (s.heap x).attr env.TLB_W env.TLB_COW)
        (writable (s.heap x).attr Hpt.HPT_W Hpt.HPT_COW)) ∧
    (∀ s' s'', restore_state0 env s = Except.ok s' → restore_state1 env s' = Except.ok s'' →
      s''.cow_elts = s.cow_elts ∧ s''.heap = s.heap ∧ s''.mem = s.mem ∧
      ∀ x ∈ s.cow_elts,
        mapping_is s x (s.heap x).new_phys0 (writable (s.heap x).attr env.TLB_W env.TLB_COW)
          (writable (s.heap x).attr Hpt.HPT_W Hpt.HPT_COW) →
        (∀ t, (s.heap x).vtlb = some t → s''.vtlb_tab t = s.vtlb_tab t) ∧
        (∀ k, (s.heap x).hpt = some k → s''.hpt_tab k = s.hpt_tab k)) := by
  refine ⟨restore_state_returns env s, ?_, ?_, ?_⟩
  · intro s' h
    obtain ⟨a1, a2, a3, a4, a5⟩ := restore_state0_char env s s' h
    exact ⟨a1, a2, a3, a4, a5 hod⟩
  · intro s' h
    obtain ⟨a1, a2, a3, a4, a5⟩ := restore_state1_char env s s' h
    exact ⟨a1, a2, a3, a4, a5 hod⟩
  · intro s' s'' ha hb
    obtain ⟨a1, a2, a3, _, _⟩ := restore_state0_char env s s' ha
    have hod' : origins_distinct s' s'.cow_elts := by
      rw [a1]
      exact origins_distinct_congr s s' _ a2 hod
    obtain ⟨b1, b2, b3, _, b5'⟩ := restore_state1_char env s' s'' hb
    have b5 := b5' hod'
    refine ⟨b1.trans a1, b2.trans a2, b3.trans a3, ?_⟩
    intro x hx hm
    have hb5 := b5 x (a1 ▸ hx)
    rw [a2] at hb5
    unfold mapping_is at hm hb5
    rw [b2, a2] at hb5
    constructor
    · intro t ht
      rw [ht] at hm hb5
      exact hb5.1.trans hm.1.symm
    · intro k hk
      rw [hk] at hm hb5
      exact hb5.2.trans hm.2.symm

theorem restore_state_remaps_witness :
    origins_distinct s_two s_two.cow_elts ∧
    restore_state0 env0 s_two = Except.ok s_run1_two ∧
    restore_state1 env0 s_run1_two = Except.ok s_back ∧
    s_two.cow_elts = [1, 2] ∧ (s_two.heap 1).hpt = some 7 ∧
    s_two.hpt_tab 7 = (0x100000, 0x007) ∧ s_run1_two.hpt_tab 7 = (0x101000, 0x007) ∧
    s_back.hpt_tab 7 = s_two.hpt_tab 7 ∧ s_back.mem = s_two.mem :=
  ⟨s_two_ready.2, rfl, rfl, rfl, rfl, by decide, by decide,
    (((restore_state_remaps env0 s_two s_two_ready.2).2.2.2 s_run1_two s_back rfl rfl).2.2.2
      1 (by decide) (by decide)).2 7 rfl,
    ((restore_state_remaps env0 s_two s_two_ready.2).2.2.2 s_run1_two s_back rfl rfl).2.2.1⟩

/-! ## Catching up by single-stepping -/

theorem instr_number_lt (env : Env) (e : Ec) (counter exc : Nat) :
    instr_number env e counter exc < 2 ^ 64 := by
  unfold instr_number sub64
  split <;> exact Nat.mod_lt _ (by decide)

/-- C25: in run 1 ended by a PMI, past the early exits and the assertions of
`check_memory`, when the instruction counts of the two runs are more than 2 apart the
invocation leaves through the single-stepping exit with the step reason `SR_PMI` and
`nbInstr_to_execute` equal to the distance. When the first run is the longer one nothing
but `cancel_pmi` and the arming of the single step happens: the shadow state is left as it
is. When the second run is the longer one `restore_state1` runs first (it returns on a host
EC, and on a virtual CPU when every entry of the vm-stack queue has a virtual-TLB entry),
so that every live mapping holds the entry's `new_phys[0]` when the live entries use
pairwise distinct page-table entries. -/
theorem catch_up (env : Env) (pr : Probe) (e : Ec) (from_ : PE_stopby)
    (hrun : e.run_number = 1) (hfrom : from_ = PE_stopby.PES_PMI)
    (hearly : (is_empty e.cow && !e.in_recover_from_stack_fault_mode && !e.in_debug_mode)
      = false)
    (hnear : ¬ (e.prev_reason ≠ PE_stopby.PES_PMI ∧
      pr.inst_counter = add64 (sub64 e.perf_max_count env.MAX_INSTRUCTION) 1))
    (hlt : instr_number env e pr.inst_counter e.exc_counter < e.perf_max_count)
    (hle : ¬ instr_number env e pr.inst_counter e.exc_counter > env.MAX_INSTRUCTION + 300)
    (hfirst : e.first_run_instr_number < 2 ^ 64)
    (hd : 2 < distance e.first_run_instr_number
      (instr_number env e pr.inst_counter e.exc_counter)) :
    (e.first_run_instr_number > instr_number env e pr.inst_counter e.exc_counter →
      (check_memory env pr e from_).1
        = (if e.utcb then Exit.ret_user Launch_type.IRET else Exit.vmx_single_step) ∧
      (check_memory env pr e from_).2.step_reason = Step_reason.SR_PMI ∧
      (check_memory env pr e from_).2.nbInstr_to_execute
        = distance e.first_run_instr_number
          (instr_number env e pr.inst_counter e.exc_counter) ∧
      (check_memory env pr e from_).2.cow = e.cow ∧
      (check_memory env pr e from_).2.trace = e.trace ++ [Event.cancel_pmi,
        if e.utcb then Event.enable_step_debug Step_reason.SR_PMI
        else Event.vmx_enable_single_step Step_reason.SR_PMI]) ∧
    (e.first_run_instr_number < instr_number env e pr.inst_counter e.exc_counter →
      ((e.cow.is_virutalcpu = false ∨
          ∀ x ∈ e.cow.vm_kernel_stacks, (e.cow.heap x).vtlb ≠ none) →
        ∃ s1, restore_state1 env e.cow = Except.ok s1) ∧
      ∀ s1, restore_state1 env e.cow = Except.ok s1 →
        (check_memory env pr e from_).1
          = (if e.utcb then Exit.ret_user Launch_type.IRET else Exit.vmx_single_step) ∧
        (check_memory env pr e from_).2.step_reason = Step_reason.SR_PMI ∧
        (check_memory env pr e from_).2.nbInstr_to_execute
          = distance e.first_run_instr_number
            (instr_number env e pr.inst_counter e.exc_counter) ∧
        (check_memory env pr e from_).2.cow = s1 ∧
        (check_memory env pr e from_).2.trace = e.trace ++ [Event.cancel_pmi,
          Event.restore_state1,
          if e.utcb then Event.enable_step_debug Step_reason.SR_PMI
          else Event.vmx_enable_single_step Step_reason.SR_PMI] ∧
        s1.cow_elts = e.cow.cow_elts ∧ s1.heap = e.cow.heap ∧ s1.mem = e.cow.mem ∧
        (origins_distinct e.cow e.cow.cow_elts → ∀ x ∈ e.cow.cow_elts,
          mapping_is s1 x (e.cow.heap x).new_phys0
            (writable (e.cow.heap x).attr env.TLB_W env.TLB_COW)
            (writable (e.cow.heap x).attr Hpt.HPT_W Hpt.HPT_COW))) := by
  have hf : from_ ≠ PE_stopby.PES_DEFAULT := by rw [hfrom]; decide
  rw [check_memory_run1_eq env pr e from_ hrun hf hearly]
  obtain ⟨a, b⟩ := check_memory_run1_far env pr e from_ (Or.inl hfrom) hnear hlt hle hd
  constructor
  · intro hgt
    obtain ⟨E, h1, h2, h3, h4, h5, _⟩ := a hgt
    obtain ⟨s1, s2, s3, _, _, s6, _⟩ := single_step_state pr E Step_reason.SR_PMI
    rw [h1, single_step_exit, h4]
    refine ⟨rfl, s1, ?_, s3.trans h3, ?_⟩
    · rw [s2, h2, sub64_exact _ _ hfirst (Nat.le_of_lt hgt)]
      unfold distance
      rw [if_pos hgt]
    · rw [s6, h5, h4]
      simp
  · intro hlt2
    refine ⟨fun hret => (restore_state_returns env e.cow hret).2, ?_⟩
    intro s1 hs1
    obtain ⟨E, h1, h2, h3, h4, h5, _⟩ := (b hlt2).2 s1 hs1
    obtain ⟨t1, t2, t3, _, _, t6, _⟩ := single_step_state pr E Step_reason.SR_PMI
    have hngt : ¬ e.first_run_instr_number
        > instr_number env e pr.inst_counter e.exc_counter := by omega
    rw [h1, single_step_exit, h4]
    obtain ⟨c1, c2, c3, _, c5⟩ := restore_state1_char env e.cow s1 hs1
    refine ⟨rfl, t1, ?_, t3.trans h3, ?_, c1, c2, c3, c5⟩
    · rw [t2, h2, sub64_exact _ _ (instr_number_lt _ _ _ _) (Nat.le_of_lt hlt2)]
      unfold distance
      rw [if_neg hngt]
    · rw [t6, h5, h4]
      simp

theorem catch_up_witness :
    ((ec_pmi s_two).first_run_instr_number = env0.MAX_INSTRUCTION + 5 ∧
      instr_number env0 (ec_pmi s_two) pr_pmi.inst_counter (ec_pmi s_two).exc_counter
        = env0.MAX_INSTRUCTION + 1 ∧
      distance (ec_pmi s_two).first_run_instr_number
        (instr_number env0 (ec_pmi s_two) pr_pmi.inst_counter (ec_pmi s_two).exc_counter) = 4) ∧
    ((check_memory env0 pr_pmi (ec_pmi s_two) PE_stopby.PES_PMI).1
        = (if (ec_pmi s_two).utcb then Exit.ret_user Launch_type.IRET
          else Exit.vmx_single_step) ∧
      (check_memory env0 pr_pmi (ec_pmi s_two) PE_stopby.PES_PMI).2.step_reason
        = Step_reason.SR_PMI ∧
      (check_memory env0 pr_pmi (ec_pmi s_two) PE_stopby.PES_PMI).2.nbInstr_to_execute
        = distance (ec_pmi s_two).first_run_instr_number
          (instr_number env0 (ec_pmi s_two) pr_pmi.inst_counter (ec_pmi s_two).exc_counter) ∧
      (check_memory env0 pr_pmi (ec_pmi s_two) PE_stopby.PES_PMI).2.cow = (ec_pmi s_two).cow ∧
      (check_memory env0 pr_pmi (ec_pmi s_two) PE_stopby.PES_PMI).2.trace
        = (ec_pmi s_two).trace ++ [Event.cancel_pmi,
          if (ec_pmi s_two).utcb then Event.enable_step_debug Step_reason.SR_PMI
          else Event.vmx_enable_single_step Step_reason.SR_PMI]) :=
  ⟨⟨by decide, by decide, by decide⟩,
    (catch_up env0 pr_pmi (ec_pmi s_two) PE_stopby.PES_PMI rfl rfl (by decide) (by decide)
      (by decide) (by decide) (by decide) (by decide)).1 (by decide)⟩

/-! ## Divergence handling and the run number -/

theorem check_exit_congr (a b : Ec) (h : a.launch_state = b.launch_state) :
    (check_exit a).1 = (check_exit b).1 := by
  unfold check_exit
  rw [h]
  cases b.launch_state <;> rfl

/-- The comparing block of `check_memory` on a divergence, when its assertion holds. -/
theorem check_memory_compare_diverged (env : Env) (pr : Probe) (e : Ec) (from_ : PE_stopby)
    (differ : Bool) (s : State) (hc : compare env e.cow = Except.ok (differ, s))
    (hdiv : differ = true ∨ pr.compare_regs ≠ 0)
    (hn : e.nbInstr_to_execute < e.perf_max_count) :
    (∀ f, rollback env s = Except.error f →
      (check_memory_compare env pr e from_).1 = Exit.stopped (Stop.cow f)) ∧
    (∀ s2, rollback env s = Except.ok s2 →
      (check_memory_compare env pr e from_).2.run_number = 0 ∧
      (check_memory_compare env pr e from_).2.cow
        = { s2 with cow_fault := 0, used_cows_in_old_cow_elts := 0 } ∧
      (from_ = e.prev_reason ∧ pr.compare_regs = 0 ∧
          e.in_recover_from_stack_fault_mode = false →
        (check_memory_compare env pr e from_).2.in_recover_from_stack_fault_mode = true ∧
        (check_memory_compare env pr e from_).2.in_debug_mode = e.in_debug_mode ∧
        (check_memory_compare env pr e from_).2.step_reason = e.step_reason ∧
        (check_memory_compare env pr e from_).1 = (check_exit e).1 ∧
        (check_memory_compare env pr e from_).2.trace = e.trace ++
          [Event.prepare_checking, Event.compare_regs, Event.compare (some differ),
            Event.rollback, Event.reset_all, Event.program_pmi, Event.restore_state0_data]) ∧
      (¬ (from_ = e.prev_reason ∧ pr.compare_regs = 0 ∧
          e.in_recover_from_stack_fault_mode = false) →
        (check_memory_compare env pr e from_).2.in_recover_from_stack_fault_mode = false ∧
        (check_memory_compare env pr e from_).2.in_debug_mode = true ∧
        (check_memory_compare env pr e from_).2.step_reason = Step_reason.SR_DBG ∧
        (check_memory_compare env pr e from_).2.nbInstr_to_execute
          = instr_number env e e.counter1 e.exc_counter1 ∧
        (check_memory_compare env pr e from_).1
          = (if e.utcb then (check_exit e).1 else Exit.vmx_single_step) ∧
        (check_memory_compare env pr e from_).2.trace = e.trace ++
          [Event.prepare_checking, Event.compare_regs, Event.compare (some differ),
            Event.rollback, Event.reset_all, Event.program_pmi, Event.restore_state0_data,
            if e.utcb then Event.enable_step_debug Step_reason.SR_DBG
            else Event.vmx_enable_single_step Step_reason.SR_DBG])) := by
  have hd : (differ || decide (pr.compare_regs ≠ 0)) = true := by
    rcases hdiv with h | h
    · rw [h]; rfl
    · simp [h]
  unfold check_memory_compare cow_call
  dsimp only [Ec.log]
  rw [hc]
  dsimp only
  rw [if_pos hd, if_neg (not_not.2 hn)]
  constructor
  · intro f hf
    rw [hf]
  · intro s2 hs2
    rw [hs2]
    dsimp only
    split
    · rename_i hcond
      have hcond2 : from_ = e.prev_reason ∧ pr.compare_regs = 0 ∧
          e.in_recover_from_stack_fault_mode = false := hcond
      rw [check_exit_state]
      refine ⟨rfl, rfl, fun _ => ⟨rfl, rfl, rfl, check_exit_congr _ _ rfl, ?_⟩,
        fun hne => absurd hcond2 hne⟩
      simp [reset_all, reset_counter, Ec.log]
    · rename_i hcond
      have hcond2 : ¬ (from_ = e.prev_reason ∧ pr.compare_regs = 0 ∧
          e.in_recover_from_stack_fault_mode = false) := hcond
      split
      · rename_i hu
        have hu2 : e.utcb = true := hu
        rw [check_exit_state, if_pos hu2, if_pos hu2]
        refine ⟨rfl, rfl, fun hc2 => absurd hc2 hcond2,
          fun _ => ⟨rfl, rfl, rfl, rfl, check_exit_congr _ _ rfl, ?_⟩⟩
        simp [reset_all, reset_counter, Ec.log]
      · rename_i hu
        have hu2 : ¬ e.utcb = true := hu
        rw [if_neg hu2, if_neg hu2]
        refine ⟨rfl, rfl, fun hc2 => absurd hc2 hcond2,
          fun _ => ⟨rfl, rfl, rfl, rfl, rfl, ?_⟩⟩
        simp [reset_all, reset_counter, Ec.log]

theorem check_exit_ne_bad (e : Ec) :
    (check_exit e).1 ≠ Exit.stopped Stop.bad_run_number := by
  rcases check_exit_exit e with ⟨l, h⟩ | h <;> rw [h] <;> intro h2 <;> cases h2

theorem cow_call_fields (e e1 : Ec) (ev : Event) (op : State → Except Fault State)
    (o : Option Fault) (h : cow_call e ev op = (e1, o)) :
    e1.run_number = e.run_number ∧
    e1.in_recover_from_stack_fault_mode = e.in_recover_from_stack_fault_mode ∧
    e1.in_debug_mode = e.in_debug_mode ∧ e1.launch_state = e.launch_state ∧
    e1.utcb = e.utcb ∧ e1.first_run_instr_number = e.first_run_instr_number := by
  cases o with
  | none =>
    obtain ⟨s, _, he1⟩ := cow_call_none _ _ _ _ h
    rw [he1]
    exact ⟨rfl, rfl, rfl, rfl, rfl, rfl⟩
  | some f =>
    obtain ⟨_, he1⟩ := cow_call_some _ _ _ _ _ h
    rw [he1]
    exact ⟨rfl, rfl, rfl, rfl, rfl, rfl⟩

theorem check_memory_compare_frame (env : Env) (pr : Probe) (e : Ec) (from_ : PE_stopby) :
    ((check_memory_compare env pr e from_).2.run_number = e.run_number ∨
      (check_memory_compare env pr e from_).2.run_number = 0) ∧
    recover_moves e (check_memory_compare env pr e from_).2 ∧
    (check_memory_compare env pr e from_).1 ≠ Exit.stopped Stop.bad_run_number := by
  unfold check_memory_compare recover_moves
  dsimp only
  split
  · exact ⟨Or.inl rfl, Or.inl rfl, fun h => nomatch h⟩
  · split
    · split
      · exact ⟨Or.inl rfl, Or.inl rfl, fun h => nomatch h⟩
      · split
        · rename_i e1 f hcc
          obtain ⟨a, b, _⟩ := cow_call_fields _ _ _ _ _ hcc
          exact ⟨Or.inl a, Or.inl b, fun h => nomatch h⟩
        · rename_i e1 hcc
          obtain ⟨a, b, _⟩ := cow_call_fields _ _ _ _ _ hcc
          split
          · rename_i hcond
            have hc3 : e1.in_recover_from_stack_fault_mode = false := hcond.2.2
            rw [check_exit_state]
            exact ⟨Or.inr rfl, Or.inr (Or.inl ⟨b ▸ hc3, rfl⟩), check_exit_ne_bad _⟩
          · split
            · rw [check_exit_state]
              exact ⟨Or.inr rfl, Or.inr (Or.inr ⟨rfl, rfl⟩), check_exit_ne_bad _⟩
            · exact ⟨Or.inr rfl, Or.inr (Or.inr ⟨rfl, rfl⟩), fun h => nomatch h⟩
    · split
      · rename_i e1 f hcc
        obtain ⟨a, b, _⟩ := cow_call_fields _ _ _ _ _ hcc
        exact ⟨Or.inl a, Or.inl b, fun h => nomatch h⟩
      · rename_i e1 hcc
        obtain ⟨a, b, _⟩ := cow_call_fields _ _ _ _ _ hcc
        exact ⟨Or.inr rfl, Or.inl b, fun h => nomatch h⟩

theorem single_step_frame (pr : Probe) (e : Ec) (r : Step_reason) :
    ((single_step pr e r).2.run_number = e.run_number ∨
      (single_step pr e r).2.run_number = 0) ∧
    recover_moves e (single_step pr e r).2 ∧
    (single_step pr e r).1 ≠ Exit.stopped Stop.bad_run_number := by
  obtain ⟨_, _, _, a, _, _, b, _⟩ := single_step_state pr e r
  refine ⟨Or.inl a, Or.inl b, ?_⟩
  rw [single_step_exit]
  split <;> intro h <;> cases h

theorem check_exit_frame (e : Ec) :
    ((check_exit e).2.run_number = e.run_number ∨ (check_exit e).2.run_number = 0) ∧
    recover_moves e (check_exit e).2 ∧
    (check_exit e).1 ≠ Exit.stopped Stop.bad_run_number := by
  rw [check_exit_state]
  exact ⟨Or.inl rfl, Or.inl rfl, check_exit_ne_bad e⟩

theorem check_memory_run1_frame (env : Env) (pr : Probe) (e : Ec) (from_ : PE_stopby) :
    ((check_memory_run1 env pr e from_).2.run_number = e.run_number ∨
      (check_memory_run1 env pr e from_).2.run_number = 0) ∧
    recover_moves e (check_memory_run1 env pr e from_).2 ∧
    (check_memory_run1 env pr e from_).1 ≠ Exit.stopped Stop.bad_run_number := by
  unfold check_memory_run1
  dsimp only
  split
  · split
    · exact check_exit_frame e
    · split
      · exact ⟨Or.inl rfl, Or.inl rfl, fun h => nomatch h⟩
      · split
        · exact ⟨Or.inl rfl, Or.inl rfl, fun h => nomatch h⟩
        · split
          · split
            · exact single_step_frame pr _ _
            · exact check_memory_compare_frame env pr _ from_
          · split
            · exact single_step_frame pr _ _
            · split
              · split
                · rename_i e1 f hcc
                  obtain ⟨a, b, _⟩ := cow_call_fields _ _ _ _ _ hcc
                  exact ⟨Or.inl a, Or.inl b, fun h => nomatch h⟩
                · rename_i e1 hcc
                  obtain ⟨a, b, _⟩ := cow_call_fields _ _ _ _ _ hcc
                  obtain ⟨x, y, z⟩ := single_step_frame pr
                    { e1 with
                      nbInstr_to_execute :=
                        (sub64 e1.second_run_instr_number e1.first_run_instr_number) }
                    Step_reason.SR_PMI
                  refine ⟨?_, ?_, z⟩
                  · rcases x with x | x
                    · exact Or.inl (x.trans a)
                    · exact Or.inr x
                  · unfold recover_moves at y ⊢
                    rcases y with y | y | y
                    · exact Or.inl (y.trans b)
                    · exact Or.inr (Or.inl ⟨b ▸ y.1, y.2⟩)
                    · exact Or.inr (Or.inr y)
              · exact check_memory_compare_frame env pr _ from_
  · exact check_memory_compare_frame env pr e from_

theorem check_memory_run0_frame (env : Env) (pr : Probe) (e : Ec) (from_ : PE_stopby) :
    ((check_memory_run0 env pr e from_).2.run_number = e.run_number ∨
      (check_memory_run0 env pr e from_).2.run_number = e.run_number + 1) ∧
    (check_memory_run0 env pr e from_).2.in_recover_from_stack_fault_mode
      = e.in_recover_from_stack_fault_mode ∧
    (check_memory_run0 env pr e from_).1 ≠ Exit.stopped Stop.bad_run_number := by
  unfold check_memory_run0
  dsimp only
  split
  · rename_i e1 f hcc
    obtain ⟨a, b, _⟩ := cow_call_fields _ _ _ _ _ hcc
    exact ⟨Or.inl a, b, fun h => nomatch h⟩
  · rename_i e1 hcc
    obtain ⟨a, b, _⟩ := cow_call_fields _ _ _ _ _ hcc
    have a2 : e1.run_number = e.run_number := a
    have b2 : e1.in_recover_from_stack_fault_mode = e.in_recover_from_stack_fault_mode := b
    split <;> (try split) <;> (try split) <;> (try split) <;>
      first
      | exact ⟨Or.inl a2, b2, fun h => nomatch h⟩
      | (rw [check_exit_state]; exact ⟨Or.inr (by show e1.run_number + 1 = e.run_number + 1; rw [a2]), b2,
          check_exit_ne_bad _⟩)

theorem recover_moves_congr (e e2 r : Ec)
    (h : e2.in_recover_from_stack_fault_mode = e.in_recover_from_stack_fault_mode)
    (hm : recover_moves e2 r) : recover_moves e r := by
  unfold recover_moves at hm ⊢
  rw [h] at hm
  exact hm

/-- What `check_memory` does to `run_number` and to the flag of the recovery mode, and when
it stops on the panic of its switch. -/
theorem check_memory_frame (env : Env) (pr : Probe) (e : Ec) (from_ : PE_stopby) :
    run_moves e.run_number (check_memory env pr e from_).2.run_number ∧
    recover_moves e (check_memory env pr e from_).2 ∧
    ((check_memory env pr e from_).1 = Exit.stopped Stop.bad_run_number ↔
      from_ ≠ PE_stopby.PES_DEFAULT ∧
      (is_empty e.cow && !e.in_recover_from_stack_fault_mode && !e.in_debug_mode) = false ∧
      2 ≤ e.run_number) := by
  unfold check_memory run_moves recover_moves
  split
  · rename_i hf
    exact ⟨Or.inl rfl, Or.inl rfl, ⟨(fun h => nomatch h), fun h => absurd hf h.1⟩⟩
  · rename_i hf
    split
    · rename_i he
      refine ⟨Or.inr (Or.inl rfl), Or.inl rfl, ⟨(fun h => nomatch h), fun h => ?_⟩⟩
      rw [he] at h
      exact nomatch h.2.1
    · rename_i he
      have he2 : (is_empty e.cow && !e.in_recover_from_stack_fault_mode && !e.in_debug_mode)
          = false := by simpa using he
      split
      · rename_i h0
        obtain ⟨a, b, c⟩ := check_memory_run0_frame env pr e from_
        refine ⟨?_, Or.inl b, ⟨fun h => absurd h c, fun h => ?_⟩⟩
        · rcases a with a | a
          · exact Or.inl a
          · exact Or.inr (Or.inr ⟨h0, by rw [a, h0]⟩)
        · rw [h0] at h
          exact absurd h.2.2 (by decide)
      · rename_i h1
        obtain ⟨a, b, c⟩ := check_memory_run1_frame env pr e from_
        refine ⟨?_, b, ⟨fun h => absurd h c, fun h => ?_⟩⟩
        · rcases a with a | a
          · exact Or.inl a
          · exact Or.inr (Or.inl a)
        · rw [h1] at h
          exact absurd h.2.2 (by decide)
      · rename_i h0 h1
        refine ⟨Or.inl rfl, Or.inl rfl, ⟨fun _ => ⟨hf, he2, ?_⟩, fun _ => rfl⟩⟩
        have h0c : e.run_number ≠ 0 := h0
        have h1c : e.run_number ≠ 1 := h1
        omega

theorem count_step_fields (pr : Probe) (e : Ec) :
    (count_step pr e).run_number = e.run_number ∧
    (count_step pr e).in_recover_from_stack_fault_mode = e.in_recover_from_stack_fault_mode ∧
    (count_step pr e).in_debug_mode = e.in_debug_mode := by
  unfold count_step
  dsimp only
  split <;> split <;> exact ⟨rfl, rfl, rfl⟩

theorem finish_stepping_frame (env : Env) (pr : Probe) (e e0 : Ec)
    (h1 : e.run_number = e0.run_number)
    (h2 : e.in_recover_from_stack_fault_mode = e0.in_recover_from_stack_fault_mode) :
    run_moves e0.run_number (finish_stepping env pr e).2.run_number ∧
    recover_moves e0 (finish_stepping env pr e).2 ∧
    (e0.run_number ≤ 1 → (finish_stepping env pr e).1 ≠ Exit.stopped Stop.bad_run_number) := by
  unfold finish_stepping
  obtain ⟨a, b, c⟩ := check_memory_frame env pr (disable_step_debug e) PE_stopby.PES_SINGLE_STEP
  have a2 : run_moves e.run_number
      (check_memory env pr (disable_step_debug e) PE_stopby.PES_SINGLE_STEP).2.run_number := a
  rw [h1] at a2
  refine ⟨a2, recover_moves_congr e0 (disable_step_debug e) _ h2 b, ?_⟩
  intro hle hbad
  have h2le : 2 ≤ e.run_number := (c.1 hbad).2.2
  omega

/-- What `handle_exc_db` does to `run_number` and to the flag of the recovery mode. -/
theorem handle_exc_db_frame (env : Env) (pr : Probe) (e : Ec) :
    run_moves e.run_number (handle_exc_db env pr e).2.run_number ∧
    recover_moves e (handle_exc_db env pr e).2 ∧
    (e.run_number ≤ 1 → (handle_exc_db env pr e).1 ≠ Exit.stopped Stop.bad_run_number) := by
  have hsame : ∀ (x : Exit) (r : Ec), x ≠ Exit.stopped Stop.bad_run_number →
      r.run_number = e.run_number →
      r.in_recover_from_stack_fault_mode = e.in_recover_from_stack_fault_mode →
      run_moves e.run_number (x, r).2.run_number ∧ recover_moves e (x, r).2 ∧
      (e.run_number ≤ 1 → (x, r).1 ≠ Exit.stopped Stop.bad_run_number) :=
    fun x r hx h1 h2 => ⟨Or.inl h1, Or.inl h2, fun _ => hx⟩
  have hio : run_moves e.run_number (handle_exc_db_io e).2.run_number ∧
      recover_moves e (handle_exc_db_io e).2 ∧
      (e.run_number ≤ 1 → (handle_exc_db_io e).1 ≠ Exit.stopped Stop.bad_run_number) := by
    unfold handle_exc_db_io
    dsimp only
    refine ⟨Or.inr (Or.inl rfl), Or.inl ?_, fun _ h => nomatch h⟩
    show (disable_step_debug _).in_recover_from_stack_fault_mode = _
    unfold disable_step_debug
    dsimp only
    split <;> split <;> (try split) <;> rfl
  obtain ⟨c1, c2, _⟩ := count_step_fields pr e
  unfold handle_exc_db
  split
  · exact hsame _ _ (fun h => nomatch h) rfl rfl
  · split
    · split
      · exact hio
      · exact hio
      · exact hio
      · unfold handle_exc_db_pmi
        dsimp only
        split
        · exact finish_stepping_frame env pr _ e c1 c2
        · split
          · exact hsame _ _ (fun h => nomatch h) c1 c2
          · split
            · exact finish_stepping_frame env pr _ e c1 c2
            · exact hsame _ _ (fun h => nomatch h) c1 c2
      · exact hsame _ _ (fun h => nomatch h) rfl rfl
      · exact hsame _ _ (fun h => nomatch h) rfl rfl
      · unfold handle_exc_db_equ
        dsimp only
        split
        · exact finish_stepping_frame env pr _ e c1 c2
        · split
          · exact finish_stepping_frame env pr _ e c1 c2
          · split
            · split
              · rename_i e1 f hcc
                obtain ⟨a, b, _⟩ := cow_call_fields _ _ _ _ _ hcc
                exact hsame _ _ (fun h => nomatch h) (a.trans c1) (b.trans c2)
              · rename_i e1 hcc
                obtain ⟨a, b, _⟩ := cow_call_fields _ _ _ _ _ hcc
                exact hsame _ _ (fun h => nomatch h) (a.trans c1) (b.trans c2)
            · exact hsame _ _ (fun h => nomatch h) c1 c2
      · exact hsame _ _ (fun h => nomatch h) rfl rfl
    · exact hsame _ _ (fun h => nomatch h) rfl rfl

/-- What `start_debugging` does to `run_number` and to the flag of the recovery mode. -/
theorem start_debugging_frame (env : Env) (e : Ec) :
    run_moves e.run_number (start_debugging env e).2.run_number ∧
    recover_moves e (start_debugging env e).2 ∧
    (start_debugging env e).1 ≠ Exit.stopped Stop.bad_run_number := by
  unfold start_debugging
  dsimp only
  split
  · rename_i e1 f hcc
    obtain ⟨a, b, _⟩ := cow_call_fields _ _ _ _ _ hcc
    exact ⟨Or.inl a, Or.inl b, fun h => nomatch h⟩
  · rename_i e1 hcc
    obtain ⟨a, b, _⟩ := cow_call_fields _ _ _ _ _ hcc
    rw [check_exit_state]
    exact ⟨Or.inr (Or.inl rfl), Or.inl b, check_exit_ne_bad _⟩

theorem call_driver_frame (env : Env) (e : Ec) (c : Driver_call) :
    run_moves e.run_number (call_driver env e c).2.run_number ∧
    recover_moves e (call_driver env e c).2 ∧
    (e.run_number ≤ 1 → (call_driver env e c).1 ≠ Exit.stopped Stop.bad_run_number) := by
  cases c with
  | check_memory pr from_ =>
    refine ⟨(check_memory_frame env pr e from_).1, (check_memory_frame env pr e from_).2.1, ?_⟩
    intro hle hbad
    have h2le : 2 ≤ e.run_number := ((check_memory_frame env pr e from_).2.2.1 hbad).2.2
    omega
  | handle_exc_db pr => exact handle_exc_db_frame env pr e
  | reset_all => exact ⟨Or.inr (Or.inl rfl), Or.inl rfl, fun _ h => nomatch h⟩
  | start_debugging =>
    exact ⟨(start_debugging_frame env e).1, (start_debugging_frame env e).2.1,
      fun _ => (start_debugging_frame env e).2.2⟩

theorem run_calls_run_number (env : Env) (calls : List Driver_call) :
    ∀ e : Ec, e.run_number ≤ 1 → (run_calls env e calls).run_number ≤ 1 := by
  induction calls with
  | nil => intro e h; exact h
  | cons c rest ih =>
    intro e h
    apply ih (call_driver env e c).2
    rcases (call_driver_frame env e c).1 with a | a | a
    · rw [a]; exact h
    · rw [a]; exact Nat.zero_le _
    · rw [a.2]

/-- In run 1, when the instruction counts are at most 2 apart and the registers agree at
the first look, `check_memory` goes on to its comparing block with the bookkeeping of the
counts done. -/
theorem check_memory_run1_near (env : Env) (pr : Probe) (e : Ec) (from_ : PE_stopby)
    (hfrom : from_ = PE_stopby.PES_PMI ∨
      (e.prev_reason = PE_stopby.PES_PMI ∧ from_ ≠ PE_stopby.PES_SINGLE_STEP))
    (hnear : ¬ (e.prev_reason ≠ PE_stopby.PES_PMI ∧
      pr.inst_counter = add64 (sub64 e.perf_max_count env.MAX_INSTRUCTION) 1))
    (hlt : instr_number env e pr.inst_counter e.exc_counter < e.perf_max_count)
    (hle : ¬ instr_number env e pr.inst_counter e.exc_counter > env.MAX_INSTRUCTION + 300)
    (hd : distance e.first_run_instr_number
      (instr_number env e pr.inst_counter e.exc_counter) ≤ 2)
    (hregs : pr.regs_mute_differ = false) :
    ∃ E : Ec, check_memory_run1 env pr e from_ = check_memory_compare env pr E from_ ∧
      E.cow = e.cow ∧ E.prev_reason = e.prev_reason ∧
      E.in_recover_from_stack_fault_mode = e.in_recover_from_stack_fault_mode ∧
      E.in_debug_mode = e.in_debug_mode ∧ E.nbInstr_to_execute = e.nbInstr_to_execute ∧
      E.perf_max_count = e.perf_max_count ∧ E.launch_state = e.launch_state ∧
      E.utcb = e.utcb ∧ E.counter1 = e.counter1 ∧ E.exc_counter1 = e.exc_counter1 ∧
      E.start_counter = e.start_counter ∧ E.trace = e.trace ++ [Event.cancel_pmi] := by
  unfold check_memory_run1
  dsimp only
  rw [if_pos hfrom]
  split
  · rename_i h; exact absurd h hnear
  · split
    · rename_i h; exact absurd hlt h
    · split
      · rename_i h; exact absurd h hle
      · split
        · split
          · rename_i h
            rw [hregs] at h
            cases h
          · exact ⟨_, rfl, rfl, rfl, rfl, rfl, rfl, rfl, rfl, rfl, rfl, rfl, rfl, rfl⟩
        · rename_i h; exact absurd hd h

/-- C27: starting from `run_number == 0`, after every sequence of calls of
`check_memory`, `handle_exc_db`, `reset_all` and `start_debugging`, each with any reading
of the hardware, `run_number` is 0 or 1, and no further call stops on the panic
`run_number must be 0 or 1`. In any state a call leaves `run_number` as it is, puts it
back to 0, or advances it from 0 to 1; `reset_all` puts it back to 0. At its switch, that
is past the assertion on `from` and the early exit, `check_memory` stops on the panic
exactly when `run_number` is neither 0 nor 1. -/
theorem run_bookkeeping (env : Env) (e : Ec) (calls : List Driver_call)
    (h0 : e.run_number = 0) :
    ((run_calls env e calls).run_number = 0 ∨ (run_calls env e calls).run_number = 1) ∧
    (∀ c, (call_driver env (run_calls env e calls) c).1
      ≠ Exit.stopped Stop.bad_run_number) ∧
    (∀ (E : Ec) (c : Driver_call), run_moves E.run_number (call_driver env E c).2.run_number) ∧
    (∀ E : Ec, (reset_all E).run_number = 0) ∧
    (∀ (E : Ec) (pr : Probe) (from_ : PE_stopby),
      (check_memory env pr E from_).1 = Exit.stopped Stop.bad_run_number ↔
        from_ ≠ PE_stopby.PES_DEFAULT ∧
        (is_empty E.cow && !E.in_recover_from_stack_fault_mode && !E.in_debug_mode) = false ∧
        ¬ (E.run_number = 0 ∨ E.run_number = 1)) := by
  have hle : (run_calls env e calls).run_number ≤ 1 :=
    run_calls_run_number env calls e (by rw [h0]; exact Nat.zero_le _)
  refine ⟨by omega, fun c => (call_driver_frame env _ c).2.2 hle,
    fun E c => (call_driver_frame env E c).1, fun _ => rfl, ?_⟩
  intro E pr from_
  rw [(check_memory_frame env pr E from_).2.2]
  constructor
  · intro h
    exact ⟨h.1, h.2.1, by omega⟩
  · intro h
    exact ⟨h.1, h.2.1, by omega⟩

theorem run_bookkeeping_witness :
    (ec0 s_two 0 Step_reason.SR_NIL).run_number = 0 ∧
    (run_calls env0 (ec0 s_two 0 Step_reason.SR_NIL)
      [Driver_call.check_memory pr0 PE_stopby.PES_PAGE_FAULT]).run_number = 1 ∧
    (run_calls env0 (ec0 s_two 0 Step_reason.SR_NIL)
      [Driver_call.check_memory pr0 PE_stopby.PES_PAGE_FAULT,
        Driver_call.check_memory pr0 PE_stopby.PES_PAGE_FAULT]).run_number = 0 ∧
    ((run_calls env0 (ec0 s_two 0 Step_reason.SR_NIL)
        [Driver_call.check_memory pr0 PE_stopby.PES_PAGE_FAULT,
          Driver_call.check_memory pr0 PE_stopby.PES_PAGE_FAULT]).run_number = 0 ∨
      (run_calls env0 (ec0 s_two 0 Step_reason.SR_NIL)
        [Driver_call.check_memory pr0 PE_stopby.PES_PAGE_FAULT,
          Driver_call.check_memory pr0 PE_stopby.PES_PAGE_FAULT]).run_number = 1) :=
  ⟨rfl, by decide, by decide,
    (run_bookkeeping env0 (ec0 s_two 0 Step_reason.SR_NIL)
      [Driver_call.check_memory pr0 PE_stopby.PES_PAGE_FAULT,
        Driver_call.check_memory pr0 PE_stopby.PES_PAGE_FAULT] rfl).1⟩

/-- C26: the comparing block of `check_memory` on a divergence (`compare` returned true, or
`compare_regs` reported a difference), when its assertion on `nbInstr_to_execute` holds and
`rollback` returns: it rolls back, resets the run state (`run_number` is 0 afterwards) and
restores the saved registers; it then raises the flag of the recovery mode and leaves
through `check_exit`, to run the PE again, exactly when `from` equals `prev_reason` as it
was before the reset, the registers agree and the flag was not yet raised; otherwise it
clears the flag, enters debug mode and arms single-stepping for `SR_DBG`. While the flag
is raised a divergence therefore leads to debug mode, and no call of the driver lowers the
flag without entering debug mode. In run 1, past the assertion on `from` and the early
exit, `check_memory` is this block when neither run ended on a PMI, and it reaches this
block with the same shadow state, reasons, flags and trace but for `cancel_pmi` when the
instruction counts are at most 2 apart and the registers agree at the first look. -/
theorem divergence_handling (env : Env) (pr : Probe) (e : Ec) (from_ : PE_stopby)
    (differ : Bool) (s s2 : State) (hc : compare env e.cow = Except.ok (differ, s))
    (hdiv : differ = true ∨ pr.compare_regs ≠ 0)
    (hn : e.nbInstr_to_execute < e.perf_max_count)
    (hrb : rollback env s = Except.ok s2) :
    (check_memory_compare env pr e from_).2.run_number = 0 ∧
    (check_memory_compare env pr e from_).2.cow
      = { s2 with cow_fault := 0, used_cows_in_old_cow_elts := 0 } ∧
    (check_memory_compare env pr e from_).2.trace.take (e.trace.length + 7) = e.trace ++
      [Event.prepare_checking, Event.compare_regs, Event.compare (some differ),
        Event.rollback, Event.reset_all, Event.program_pmi, Event.restore_state0_data] ∧
    ((check_memory_compare env pr e from_).2.in_recover_from_stack_fault_mode = true ↔
      from_ = e.prev_reason ∧ pr.compare_regs = 0 ∧
        e.in_recover_from_stack_fault_mode = false) ∧
    (from_ = e.prev_reason ∧ pr.compare_regs = 0 ∧
        e.in_recover_from_stack_fault_mode = false →
      (check_memory_compare env pr e from_).1 = (check_exit e).1 ∧
      (check_memory_compare env pr e from_).2.in_debug_mode = e.in_debug_mode ∧
      (check_memory_compare env pr e from_).2.step_reason = e.step_reason) ∧
    (¬ (from_ = e.prev_reason ∧ pr.compare_regs = 0 ∧
        e.in_recover_from_stack_fault_mode = false) →
      (check_memory_compare env pr e from_).2.in_recover_from_stack_fault_mode = false ∧
      (check_memory_compare env pr e from_).2.in_debug_mode = true ∧
      (check_memory_compare env pr e from_).2.step_reason = Step_reason.SR_DBG ∧
      (check_memory_compare env pr e from_).2.nbInstr_to_execute
        = instr_number env e e.counter1 e.exc_counter1 ∧
      (check_memory_compare env pr e from_).1
        = (if e.utcb then (check_exit e).1 else Exit.vmx_single_step) ∧
      (check_memory_compare env pr e from_).2.trace = e.trace ++
        [Event.prepare_checking, Event.compare_regs, Event.compare (some differ),
          Event.rollback, Event.reset_all, Event.program_pmi, Event.restore_state0_data,
          if e.utcb then Event.enable_step_debug Step_reason.SR_DBG
          else Event.vmx_enable_single_step Step_reason.SR_DBG]) ∧
    (e.in_recover_from_stack_fault_mode = true →
      (check_memory_compare env pr e from_).2.in_recover_from_stack_fault_mode = false ∧
      (check_memory_compare env pr e from_).2.in_debug_mode = true) ∧
    (∀ (E : Ec) (c : Driver_call), E.in_recover_from_stack_fault_mode = true →
      (call_driver env E c).2.in_recover_from_stack_fault_mode = true ∨
      ((call_driver env E c).2.in_recover_from_stack_fault_mode = false ∧
        (call_driver env E c).2.in_debug_mode = true)) ∧
    (e.run_number = 1 → from_ ≠ PE_stopby.PES_DEFAULT →
      (is_empty e.cow && !e.in_recover_from_stack_fault_mode && !e.in_debug_mode) = false →
      (¬ (from_ = PE_stopby.PES_PMI ∨
          (e.prev_reason = PE_stopby.PES_PMI ∧ from_ ≠ PE_stopby.PES_SINGLE_STEP)) →
        check_memory env pr e from_ = check_memory_compare env pr e from_) ∧
      ((from_ = PE_stopby.PES_PMI ∨
          (e.prev_reason = PE_stopby.PES_PMI ∧ from_ ≠ PE_stopby.PES_SINGLE_STEP)) →
        ¬ (e.prev_reason ≠ PE_stopby.PES_PMI ∧
          pr.inst_counter = add64 (sub64 e.perf_max_count env.MAX_INSTRUCTION) 1) →
        instr_number env e pr.inst_counter e.exc_counter < e.perf_max_count →
        ¬ instr_number env e pr.inst_counter e.exc_counter > env.MAX_INSTRUCTION + 300 →
        distance e.first_run_instr_number
          (instr_number env e pr.inst_counter e.exc_counter) ≤ 2 →
        pr.regs_mute_differ = false →
        ∃ E : Ec, check_memory env pr e from_ = check_memory_compare env pr E from_ ∧
          E.cow = e.cow ∧ E.prev_reason = e.prev_reason ∧
          E.in_recover_from_stack_fault_mode = e.in_recover_from_stack_fault_mode ∧
          E.in_debug_mode = e.in_debug_mode ∧ E.nbInstr_to_execute = e.nbInstr_to_execute ∧
          E.perf_max_count = e.perf_max_count ∧ E.launch_state = e.launch_state ∧
          E.utcb = e.utcb ∧ E.counter1 = e.counter1 ∧ E.exc_counter1 = e.exc_counter1 ∧
          E.start_counter = e.start_counter ∧ E.trace = e.trace ++ [Event.cancel_pmi])) := by
  obtain ⟨_, hmain⟩ := check_memory_compare_diverged env pr e from_ differ s hc hdiv hn
  obtain ⟨m1, m2, m3, m4⟩ := hmain s2 hrb
  have htake : (check_memory_compare env pr e from_).2.trace.take (e.trace.length + 7)
      = e.trace ++ [Event.prepare_checking, Event.compare_regs, Event.compare (some differ),
        Event.rollback, Event.reset_all, Event.program_pmi, Event.restore_state0_data] := by
    by_cases hcond : from_ = e.prev_reason ∧ pr.compare_regs = 0 ∧
        e.in_recover_from_stack_fault_mode = false
    · rw [(m3 hcond).2.2.2.2]
      apply List.take_of_length_le
      simp
    · rw [(m4 hcond).2.2.2.2.2]
      have hsplit : e.trace ++
          [Event.prepare_checking, Event.compare_regs, Event.compare (some differ),
            Event.rollback, Event.reset_all, Event.program_pmi, Event.restore_state0_data,
            if e.utcb then Event.enable_step_debug Step_reason.SR_DBG
            else Event.vmx_enable_single_step Step_reason.SR_DBG]
          = (e.trace ++ [Event.prepare_checking, Event.compare_regs,
            Event.compare (some differ), Event.rollback, Event.reset_all, Event.program_pmi,
            Event.restore_state0_data]) ++
            [if e.utcb then Event.enable_step_debug Step_reason.SR_DBG
              else Event.vmx_enable_single_step Step_reason.SR_DBG] := by simp
      rw [hsplit]
      apply List.take_left'
      simp
  refine ⟨m1, m2, htake, ?_, fun hcond => ⟨(m3 hcond).2.2.2.1, (m3 hcond).2.1,
    (m3 hcond).2.2.1⟩, m4, ?_, ?_, ?_⟩
  · constructor
    · intro h
      by_contra hcond
      rw [(m4 hcond).1] at h
      cases h
    · intro hcond
      exact (m3 hcond).1
  · intro hrec
    have hcond : ¬ (from_ = e.prev_reason ∧ pr.compare_regs = 0 ∧
        e.in_recover_from_stack_fault_mode = false) := by
      intro h
      rw [hrec] at h
      exact nomatch h.2.2
    exact ⟨(m4 hcond).1, (m4 hcond).2.1⟩
  · intro E c hE
    have h := (call_driver_frame env E c).2.1
    unfold recover_moves at h
    rw [hE] at h
    rcases h with h | h | h
    · exact Or.inl h
    · exact nomatch h.1
    · exact Or.inr h
  · intro hrun hf hearly
    rw [check_memory_run1_eq env pr e from_ hrun hf hearly]
    constructor
    · intro hnf
      unfold check_memory_run1
      rw [if_neg hnf]
    · intro hfrom hnear hlt hle hd hregs
      exact check_memory_run1_near env pr e from_ hfrom hnear hlt hle hd hregs

theorem divergence_handling_witness :
    (compare env0 s_diverged = Except.ok (true, after_compare s_diverged) ∧
      rollback env0 (after_compare s_diverged) = Except.ok s_diverged_rolled ∧
      (ec0 s_diverged 1 Step_reason.SR_NIL).prev_reason = PE_stopby.PES_PAGE_FAULT) ∧
    (check_memory env0 pr0 (ec0 s_diverged 1 Step_reason.SR_NIL) PE_stopby.PES_PAGE_FAULT).1
      = Exit.ret_user Launch_type.IRET ∧
    (check_memory_compare env0 pr0 (ec0 s_diverged 1 Step_reason.SR_NIL)
      PE_stopby.PES_PAGE_FAULT).2.run_number = 0 ∧
    ((check_memory_compare env0 pr0 (ec0 s_diverged 1 Step_reason.SR_NIL)
        PE_stopby.PES_PAGE_FAULT).2.in_recover_from_stack_fault_mode = true ↔
      PE_stopby.PES_PAGE_FAULT = (ec0 s_diverged 1 Step_reason.SR_NIL).prev_reason ∧
        pr0.compare_regs = 0 ∧
        (ec0 s_diverged 1 Step_reason.SR_NIL).in_recover_from_stack_fault_mode = false) :=
  ⟨⟨rfl, rfl, rfl⟩, by decide,
    (divergence_handling env0 pr0 (ec0 s_diverged 1 Step_reason.SR_NIL)
      PE_stopby.PES_PAGE_FAULT true (after_compare s_diverged) s_diverged_rolled rfl
      (Or.inl rfl) (by decide) rfl).1,
    (divergence_handling env0 pr0 (ec0 s_diverged 1 Step_reason.SR_NIL)
      PE_stopby.PES_PAGE_FAULT true (after_compare s_diverged) s_diverged_rolled rfl
      (Or.inl rfl) (by decide) rfl).2.2.2.1⟩

/-! ## The vm-stack queue after `commit` -/

theorem write_back_vm (s : State) (c : Nat) :
    (write_back s c).vm_kernel_stacks = s.vm_kernel_stacks ∧
    (write_back s c).is_virutalcpu = s.is_virutalcpu := by
  unfold write_back
  split <;> exact ⟨rfl, rfl⟩

theorem unmap_entry_vm (s : State) (c phys : Nat) :
    (unmap_entry s c phys).vm_kernel_stacks = s.vm_kernel_stacks := by
  unfold unmap_entry
  dsimp only
  split <;> split <;> rfl

theorem commit_step_vm (s s1 : State) (c count count1 : Nat)
    (h : commit_step s c count = Except.ok (s1, count1)) :
    s1.vm_kernel_stacks = s.vm_kernel_stacks := by
  unfold commit_step at h
  dsimp only at h
  split at h
  · cases h
  · rename_i s2 c2 hv
    simp only [Except.ok.injEq, Prod.mk.injEq] at h
    obtain ⟨h1, _⟩ := h
    subst h1
    rw [unmap_entry_vm]
    have hw := (write_back_vm s c).1
    split at hv
    · split at hv
      · unfold commit_old_twin at hv
        dsimp only at hv
        split at hv
        · cases hv
        · simp only [Except.ok.injEq, Prod.mk.injEq] at hv
          obtain ⟨hs, _⟩ := hv
          subst hs
          rw [unmap_entry_vm, ← hw]
          unfold set_live park destroy count_used
          dsimp only
          split <;> split <;> rfl
      · simp only [Except.ok.injEq, Prod.mk.injEq] at hv
        obtain ⟨hs, _⟩ := hv
        subst hs
        rw [← hw]
        unfold commit_old_single park destroy
        split <;> rfl
    · split at hv
      · cases hv
      · rename_i s3 hn
        simp only [Except.ok.injEq, Prod.mk.injEq] at hv
        obtain ⟨hs, _⟩ := hv
        subst hs
        rw [← hw]
        unfold commit_new at hn
        dsimp only at hn
        split at hn
        · split at hn
          · cases hn
          · simp only [Except.ok.injEq] at hn
            subst hn
            rw [unmap_entry_vm]
            rfl
        · simp only [Except.ok.injEq] at hn
          subst hn
          rfl

theorem commit_loop_vm (fuel : Nat) :
    ∀ (s : State) (count : Nat) (s' : State), commit_loop fuel s count = Except.ok s' →
      s'.vm_kernel_stacks = s.vm_kernel_stacks := by
  induction fuel with
  | zero =>
    intro s count s' h
    simp only [commit_loop, Except.ok.injEq] at h
    rw [← h]
  | succ n ih =>
    intro s count s' h
    cases hq : s.cow_elts with
    | nil =>
      rw [commit_loop_nil _ _ _ hq] at h
      simp only [Except.ok.injEq] at h
      rw [← h]
    | cons c q =>
      rw [commit_loop_cons _ _ _ _ _ hq] at h
      split at h
      · cases h
      · rename_i s1 count1 hstep
        rw [ih s1 count1 s' h, commit_step_vm _ _ _ _ _ hstep]

theorem commit_vm_stack_walk_vm (l : List Nat) :
    ∀ (s s' : State), commit_vm_stack_walk s l = Except.ok s' →
      s'.vm_kernel_stacks = s.vm_kernel_stacks := by
  induction l with
  | nil =>
    intro s s' h
    simp only [commit_vm_stack_walk, Except.ok.injEq] at h
    rw [← h]
  | cons c rest ih =>
    intro s s' h
    rw [commit_vm_stack_walk] at h
    split at h
    · cases h
    · rw [ih _ _ h]
      exact (write_back_vm s c).1

/-- The vm-stack queue after `commit_vm_stack`: the head is gone when the queue held more
than one entry. -/
theorem commit_vm_stack_queue (env : Env) (s s' : State)
    (h : commit_vm_stack env s = Except.ok s') :
    s'.vm_kernel_stacks = (if s.vm_kernel_stacks.length > 1 then s.vm_kernel_stacks.tail
      else s.vm_kernel_stacks) := by
  unfold commit_vm_stack at h
  simp only [bind, Except.bind, pure, Except.pure] at h
  split at h
  · cases h
  · split at h
    · cases h
    · rename_i s1 hw
      have hq := commit_vm_stack_walk_vm _ _ _ hw
      rw [← hq]
      split at h
      · rename_i hlen
        rw [if_pos hlen]
        split at h
        · rename_i hnil
          rw [hnil] at hlen
          simp at hlen
        · rename_i head t hcons
          unfold Cow_elt.free at h
          dsimp only at h
          split at h
          · cases h
          · simp only [Except.ok.injEq] at h
            rw [← h, hcons]
            show (dequeue (head :: t) (some head)).2 = t
            rw [dequeue_head]
      · rename_i hlen
        rw [if_neg hlen]
        simp only [Except.ok.injEq] at h
        rw [← h]

set_option maxHeartbeats 4000000

/-- C21, as stated, fails: in its second PE the virtual CPU has one entry in the vm-stack
queue, and `compare` moves the twins 3 and 2 into it; after `commit` the queue still holds
two entries. -/
theorem vm_stack_bound_counterexample :
    s_guest_twins_written.is_virutalcpu = true ∧
    s_guest_twins_written.vm_kernel_stacks = [1] ∧
    s_guest_twins_written.cow_elts = [2, 3] ∧
    compare env0 s_guest_twins_written
      = Except.ok (false, after_compare s_guest_twins_written) ∧
    (after_compare s_guest_twins_written).vm_kernel_stacks = [1, 3, 2] ∧
    (∃ s', commit env0 (after_compare s_guest_twins_written) = Except.ok s' ∧
      s'.vm_kernel_stacks = [3, 2]) :=
  ⟨rfl, by decide, by decide, rfl, by decide, _, rfl, rfl⟩

/-- C21, amended: for a virtual CPU `commit` takes the head off the vm-stack queue when
the queue holds more than one entry, and leaves the queue as it is otherwise; so the queue
holds at most one entry after `commit` exactly when it held at most two before. -/
theorem commit_trims_head (env : Env) (s s' : State) (hv : s.is_virutalcpu = true)
    (h : commit env s = Except.ok s') :
    s'.vm_kernel_stacks = (if s.vm_kernel_stacks.length > 1 then s.vm_kernel_stacks.tail
      else s.vm_kernel_stacks) ∧
    s'.vm_kernel_stacks.length
      = (if s.vm_kernel_stacks.length > 1 then s.vm_kernel_stacks.length - 1
        else s.vm_kernel_stacks.length) ∧
    (s'.vm_kernel_stacks.length ≤ 1 ↔ s.vm_kernel_stacks.length ≤ 2) := by
  have hq : s'.vm_kernel_stacks = (if s.vm_kernel_stacks.length > 1
      then s.vm_kernel_stacks.tail else s.vm_kernel_stacks) := by
    unfold commit at h
    simp only [bind, Except.bind, pure, Except.pure] at h
    rw [if_pos hv] at h
    split at h
    · cases h
    · rename_i s0 h0
      split at h
      · cases h
      · split at h
        · cases h
        · rename_i s1 hl
          simp only [Except.ok.injEq] at h
          rw [← h]
          show s1.vm_kernel_stacks = _
          rw [commit_loop_vm _ _ _ _ hl, commit_vm_stack_queue env s s0 h0]
  have hlen : s'.vm_kernel_stacks.length
      = (if s.vm_kernel_stacks.length > 1 then s.vm_kernel_stacks.length - 1
        else s.vm_kernel_stacks.length) := by
    rw [hq]
    split
    · rw [List.length_tail]
    · rfl
  refine ⟨hq, hlen, ?_⟩
  rw [hlen]
  split <;> omega

theorem commit_trims_head_witness :
    ((after_compare s_guest_twins_written).is_virutalcpu = true ∧
      (after_compare s_guest_twins_written).vm_kernel_stacks = [1, 3, 2]) ∧
    (after (after_compare s_guest_twins_written)
      (commit env0 (after_compare s_guest_twins_written))).vm_kernel_stacks
      = (if (after_compare s_guest_twins_written).vm_kernel_stacks.length > 1
        then (after_compare s_guest_twins_written).vm_kernel_stacks.tail
        else (after_compare s_guest_twins_written).vm_kernel_stacks) :=
  ⟨⟨rfl, by decide⟩,
    (commit_trims_head env0 (after_compare s_guest_twins_written)
      (after (after_compare s_guest_twins_written)
        (commit env0 (after_compare s_guest_twins_written))) rfl rfl).1⟩

/-! ## The reconciliation of an entry inside `compare` -/

/-- When the shadows of the entry at the head differ, the loop of `compare` does not look
at the entries that follow. -/
theorem compare_walk_head (env : Env) (s : State) (c : Nat) (rest : List Nat)
    (hcrc : env.crc (s.mem (s.heap c).new_phys0) ≠ env.crc (s.mem (s.heap c).new_phys1)) :
    compare_walk env s (c :: rest) = compare_walk env s [c] := by
  have h01 : (0 : Nat) ≠ 1 := by decide
  simp only [compare_walk, remap_cow, read_page, frame_of, slot0, slot1,
    Function.update_same, Function.update_noteq h01]
  rw [if_neg hcrc, if_neg hcrc]

/-- What `commit_vm_stack_ce` does to the live set, to the parked list and to
`current_ec_cow_elts_size`. -/
theorem commit_vm_stack_ce_queues (env : Env) (s s' : State) (c crc1 : Nat) (ptr1 : Ptr)
    (h : commit_vm_stack_ce env s c crc1 ptr1 = Except.ok s') :
    c ∈ s.cow_elts ∧
    s'.cow_elts = (match (s.heap c).v_is_mapped_elsewhere with
      | none => s.cow_elts.erase c
      | some ce => (s.cow_elts.erase c).erase ce) ∧
    s'.pd_cow_elts = s.pd_cow_elts ∧
    s'.current_ec_cow_elts_size
      = (if (index_of s.pd_cow_elts c).2 < s.current_ec_cow_elts_size
        then s.current_ec_cow_elts_size - 1 else s.current_ec_cow_elts_size) := by
  unfold commit_vm_stack_ce at h
  simp only [bind, Except.bind, pure, Except.pure] at h
  generalize hs4 : (ite (_ ≠ crc1) _ _ : State) = s4 at h
  have h4 : s4.cow_elts = s.cow_elts ∧ s4.pd_cow_elts = s.pd_cow_elts ∧
      s4.current_ec_cow_elts_size = s.current_ec_cow_elts_size ∧
      (s4.heap c).v_is_mapped_elsewhere = (s.heap c).v_is_mapped_elsewhere := by
    rw [← hs4]
    split
    · refine ⟨rfl, rfl, rfl, ?_⟩
      simp [memcpy, remap_cow, State.modify]
    · refine ⟨rfl, rfl, rfl, ?_⟩
      simp [remap_cow, State.modify]
  clear hs4
  obtain ⟨k1, k2, k3, k4⟩ := h4
  split at h
  · cases h
  · rename_i hok
    have hmem : c ∈ s.cow_elts := by
      rw [← k1]
      by_contra hn
      simp [dequeue, hn] at hok
    split at h
    · cases h
    · rename_i v hv
      have hv5 : v.cow_elts = s.cow_elts.erase c ∧ v.pd_cow_elts = s.pd_cow_elts ∧
          v.current_ec_cow_elts_size = s.current_ec_cow_elts_size ∧
          (v.heap c).v_is_mapped_elsewhere = (s.heap c).v_is_mapped_elsewhere := by
        split at hv
        · cases hv
        · simp only [Except.ok.injEq] at hv
          rw [← hv]
          refine ⟨?_, k2, k3, k4⟩
          show (dequeue s4.cow_elts (some c)).2 = _
          rw [dequeue_erase, k1]
      obtain ⟨v1, v2, v3, v4⟩ := hv5
      split at h
      · cases h
      · rename_i w hw
        have hw5 : w.cow_elts = (match (s.heap c).v_is_mapped_elsewhere with
              | none => s.cow_elts.erase c
              | some ce => (s.cow_elts.erase c).erase ce) ∧
            w.pd_cow_elts = s.pd_cow_elts ∧
            w.current_ec_cow_elts_size = s.current_ec_cow_elts_size := by
          rw [← v4]
          cases hce : (v.heap c).v_is_mapped_elsewhere with
          | none =>
            rw [hce] at hw
            simp only [Except.ok.injEq] at hw
            rw [← hw]
            exact ⟨v1, v2, v3⟩
          | some ce =>
            rw [hce] at hw
            dsimp only at hw
            split at hw
            · cases hw
            · split at hw
              · cases hw
              · simp only [Except.ok.injEq] at hw
                rw [← hw]
                refine ⟨?_, v2, v3⟩
                show (dequeue v.cow_elts (some ce)).2 = _
                rw [dequeue_erase, v1]
        obtain ⟨w1, w2, w3⟩ := hw5
        rw [← w2, ← w3]
        split at h
        · rename_i hlt
          simp only [Except.ok.injEq] at h
          rw [← h, if_pos hlt]
          exact ⟨hmem, w1, rfl, rfl⟩
        · rename_i hlt
          simp only [Except.ok.injEq] at h
          rw [← h, if_neg hlt]
          exact ⟨hmem, w1, rfl, rfl⟩

/-- C29, as stated, fails in the code: on the virtual CPU with the live entries 1 and 2,
`compare` reconciles the entry 1 word-wise, moves it to the vm-stack queue and returns
false at once. The entry 2 is still in the live set; its two shadow frames have different
CRCs and its `crc1` is not the CRC of its first shadow frame. -/
theorem compare_unchecked_counterexample :
    s_guest_pair_written.is_virutalcpu = true ∧ s_guest_pair_written.cow_elts = [1, 2] ∧
    compare env0 s_guest_pair_written
      = Except.ok (false, after_compare s_guest_pair_written) ∧
    (after_compare s_guest_pair_written).cow_elts = [2] ∧
    (after_compare s_guest_pair_written).vm_kernel_stacks = [1] ∧
    env0.crc ((after_compare s_guest_pair_written).mem
        ((after_compare s_guest_pair_written).heap 2).new_phys0)
      ≠ env0.crc ((after_compare s_guest_pair_written).mem
        ((after_compare s_guest_pair_written).heap 2).new_phys1) ∧
    ((after_compare s_guest_pair_written).heap 2).crc1
      ≠ env0.crc ((after_compare s_guest_pair_written).mem
        ((after_compare s_guest_pair_written).heap 2).new_phys0) :=
  ⟨rfl, by decide, rfl, by decide, by decide, by decide, by decide⟩

/-- C29, what the code does: when the two shadows of the entry the loop of `compare` has
reached differ, the loop decides on this entry alone and looks at none of the entries that
follow it in the live set: its result is the same whatever these entries are. -/
theorem compare_stops_at_mismatch (env : Env) (s : State) (c : Nat) (rest other : List Nat)
    (hcrc : env.crc (s.mem (s.heap c).new_phys0) ≠ env.crc (s.mem (s.heap c).new_phys1)) :
    compare_walk env s (c :: rest) = compare_walk env s (c :: other) := by
  rw [compare_walk_head env s c rest hcrc, compare_walk_head env s c other hcrc]

theorem compare_stops_at_mismatch_witness :
    env0.crc (s_guest_pair_written.mem (s_guest_pair_written.heap 1).new_phys0)
      ≠ env0.crc (s_guest_pair_written.mem (s_guest_pair_written.heap 1).new_phys1) ∧
    compare_walk env0 s_guest_pair_written [1, 2] = compare_walk env0 s_guest_pair_written [1] :=
  ⟨by decide, compare_stops_at_mismatch env0 s_guest_pair_written 1 [2] [] (by decide)⟩

/-- C30, as stated, fails in the code: in the second PE of the virtual CPU the live set
holds the entry 1, migrated by `place_phys0`, and the entry 2, created by a fault of this
PE; `current_ec_cow_elts_size` is 1 and the parked list is empty. The call of
`commit_vm_stack_ce` on the entry 2, which stands at position 1, takes the counter from 1
to 0, on its own and inside `compare`; the entry 1 stays in the live set. -/
theorem vm_stack_counter_counterexample :
    s_guest_next_written.cow_elts = [1, 2] ∧ s_guest_next_written.pd_cow_elts = [] ∧
    s_guest_next_written.current_ec_cow_elts_size = 1 ∧
    (index_of s_guest_next_written.cow_elts 2).2 = 1 ∧
    (∃ s', commit_vm_stack_ce env0 s_guest_next_written 2 (env0.crc [1, 2, 4]) (Ptr.cow 0)
        = Except.ok s' ∧
      s'.cow_elts = [1] ∧ s'.current_ec_cow_elts_size = 0) ∧
    compare env0 s_guest_next_written
      = Except.ok (false, after_compare s_guest_next_written) ∧
    (after_compare s_guest_next_written).cow_elts = [1] ∧
    (after_compare s_guest_next_written).vm_kernel_stacks = [2] ∧
    (after_compare s_guest_next_written).current_ec_cow_elts_size = 0 :=
  ⟨by decide, by decide, by decide, by decide, ⟨_, rfl, rfl, rfl⟩, rfl, by decide, by decide,
    by decide⟩

/-- C30, what the code does: `commit_vm_stack_ce` takes the entry `c`, which must be in the
live set, and its twin out of the live set, and it decrements `current_ec_cow_elts_size`
exactly when the index that `index_of` reports for `c` in the parked list is below the
counter; the position of `c` in the live set plays no part. With an empty parked list the
counter is decremented whenever it is not 0. -/
theorem vm_stack_counter (env : Env) (s s' : State) (c crc1 : Nat) (ptr1 : Ptr)
    (h : commit_vm_stack_ce env s c crc1 ptr1 = Except.ok s') :
    c ∈ s.cow_elts ∧
    s'.cow_elts = (match (s.heap c).v_is_mapped_elsewhere with
      | none => s.cow_elts.erase c
      | some ce => (s.cow_elts.erase c).erase ce) ∧
    s'.current_ec_cow_elts_size
      = (if (index_of s.pd_cow_elts c).2 < s.current_ec_cow_elts_size
        then s.current_ec_cow_elts_size - 1 else s.current_ec_cow_elts_size) ∧
    (s.pd_cow_elts = [] → s'.current_ec_cow_elts_size = s.current_ec_cow_elts_size - 1) := by
  obtain ⟨a, b, _, d⟩ := commit_vm_stack_ce_queues env s s' c crc1 ptr1 h
  refine ⟨a, b, d, ?_⟩
  intro hp
  rw [d, hp]
  have h0 : (index_of [] c).2 = 0 := rfl
  rw [h0]
  split <;> omega

theorem vm_stack_counter_witness :
    (s_guest_next_written.pd_cow_elts = [] ∧
      s_guest_next_written.current_ec_cow_elts_size = 1) ∧
    (after s_guest_next_written
      (commit_vm_stack_ce env0 s_guest_next_written 2 (env0.crc [1, 2, 4])
        (Ptr.cow 0))).current_ec_cow_elts_size
      = s_guest_next_written.current_ec_cow_elts_size - 1 :=
  ⟨⟨by decide, by decide⟩,
    (vm_stack_counter env0 s_guest_next_written
      (after s_guest_next_written
        (commit_vm_stack_ce env0 s_guest_next_written 2 (env0.crc [1, 2, 4]) (Ptr.cow 0)))
      2 (env0.crc [1, 2, 4]) (Ptr.cow 0) rfl).2.2.2 (by decide)⟩

/-! ## The accounting of single steps -/

end Nova
